import Mathlib

/-!
Keyboard remapper: the remapping engine of `remap.c`.

A shallow embedding of the event classification and dispatch engine
(`src/remap.c`, with the key table of `src/keys.c` and the declarations of
`src/input.h`), followed by theorems about it.

Conventions of the embedding.

* Heap objects are kept in arenas and pointers are arena indices: a
  `struct Layer *` is an index into `Engine.layers` (the objects chained on
  `g_layer_list`), a `struct Remap *` is an index into `Engine.remaps`.
  A nullable pointer is an `Option`.
* A key chord (`struct KeyDefNode *`, a circular doubly linked ring, or
  `NULL`) is the list of its keys in ring order starting at the head; `NULL`
  is the empty list (a ring always has at least one node).
* The intrusive active list threaded through `Remap.next` from `g_remap_list`
  is the list of the indices of its members, in list order.
* `DWORD` times are natural numbers below `2^32`; subtraction and the
  comparison against an `int` timeout are done modulo `2^32` as C's usual
  arithmetic conversions prescribe.
* `send_input` is an external call into the ring (`keyboard_remapper.c`); the
  engine records every call, in order, in `Engine.sent` (no ring drops).
* The two recursive layer functions take a fuel argument and return `none`
  when it runs out; every caller propagates `none`.
* Debug logging is omitted.
-/

namespace KeyboardRemapper

/-! ## Types (`input.h`, `keys.c`, `remap.c` lines 12-122) -/

/-- Key direction, `enum Direction` of `input.h`. -/
inductive Direction where
  | UP
  | DOWN
deriving DecidableEq, Repr, Inhabited

/-- Per-remap machine state, `enum State` of `remap.c`. -/
inductive State where
  | IDLE
  | HELD_DOWN_ALONE
  | HELD_DOWN_WITH_OTHER
  | TAP
  | TAPPED
  | DOUBLE_TAP
deriving DecidableEq, Repr, Inhabited

/-- Static key descriptor, `struct KeyDef` of `keys.c`. Two `KEY_DEF *` are
equal exactly when they point at the same table row; rows have distinct
names, so record equality is pointer equality. -/
structure KeyDef where
  name : String
  scan_code : Nat
  virt_code : Nat
  modifier : Nat
deriving DecidableEq, Repr, Inhabited

/-- Designated initialisers of `KEY_ARRAY[256]` (`keys.c`), as pairs of the
index and the entry. -/
def KEY_ARRAY_init : List (Nat × KeyDef) := [
  ((0xA2 : Nat), KeyDef.mk "LEFT_CTRL" 0x001D 0xA2 0x01),
  ((0xA3 : Nat), KeyDef.mk "RIGHT_CTRL" 0xE01D 0xA3 0x02),
  ((0xA0 : Nat), KeyDef.mk "LEFT_SHIFT" 0x002A 0xA0 0x04),
  ((0xA1 : Nat), KeyDef.mk "RIGHT_SHIFT" 0x0036 0xA1 0x08),
  ((0xA4 : Nat), KeyDef.mk "LEFT_ALT" 0x0038 0xA4 0x10),
  ((0xA5 : Nat), KeyDef.mk "RIGHT_ALT" 0xE038 0xA5 0x20),
  ((0x5B : Nat), KeyDef.mk "LEFT_WIN" 0xE05B 0x5B 0x40),
  ((0x5C : Nat), KeyDef.mk "RIGHT_WIN" 0xE05C 0x5C 0x80),
  ((0x08 : Nat), KeyDef.mk "BACKSPACE" 0x000E 0x08 0x00),
  ((0x14 : Nat), KeyDef.mk "CAPSLOCK" 0x003A 0x14 0x00),
  ((0x0D : Nat), KeyDef.mk "ENTER" 0x001C 0x0D 0x00),
  ((0x1B : Nat), KeyDef.mk "ESCAPE" 0x0001 0x1B 0x00),
  ((0x20 : Nat), KeyDef.mk "SPACE" 0x0039 0x20 0x00),
  ((0x09 : Nat), KeyDef.mk "TAB" 0x000F 0x09 0x00),
  ((0x26 : Nat), KeyDef.mk "UP" 0x0048 0x26 0x00),
  ((0x25 : Nat), KeyDef.mk "LEFT" 0x004B 0x25 0x00),
  ((0x27 : Nat), KeyDef.mk "RIGHT" 0x004D 0x27 0x00),
  ((0x28 : Nat), KeyDef.mk "DOWN" 0x0050 0x28 0x00),
  ((0x70 : Nat), KeyDef.mk "F1" 0x003B 0x70 0x00),
  ((0x71 : Nat), KeyDef.mk "F2" 0x003C 0x71 0x00),
  ((0x72 : Nat), KeyDef.mk "F3" 0x003D 0x72 0x00),
  ((0x73 : Nat), KeyDef.mk "F4" 0x003E 0x73 0x00),
  ((0x74 : Nat), KeyDef.mk "F5" 0x003F 0x74 0x00),
  ((0x75 : Nat), KeyDef.mk "F6" 0x0040 0x75 0x00),
  ((0x76 : Nat), KeyDef.mk "F7" 0x0041 0x76 0x00),
  ((0x77 : Nat), KeyDef.mk "F8" 0x0042 0x77 0x00),
  ((0x78 : Nat), KeyDef.mk "F9" 0x0043 0x78 0x00),
  ((0x79 : Nat), KeyDef.mk "F10" 0x0044 0x79 0x00),
  ((0x7A : Nat), KeyDef.mk "F11" 0x0057 0x7A 0x00),
  ((0x7B : Nat), KeyDef.mk "F12" 0x0058 0x7B 0x00),
  ((0x7C : Nat), KeyDef.mk "F13" 0x0064 0x7C 0x00),
  ((0x7D : Nat), KeyDef.mk "F14" 0x0065 0x7D 0x00),
  ((0x7E : Nat), KeyDef.mk "F15" 0x0066 0x7E 0x00),
  ((0x7F : Nat), KeyDef.mk "F16" 0x0067 0x7F 0x00),
  ((0x80 : Nat), KeyDef.mk "F17" 0x0068 0x80 0x00),
  ((0x81 : Nat), KeyDef.mk "F18" 0x0069 0x81 0x00),
  ((0x82 : Nat), KeyDef.mk "F19" 0x006A 0x82 0x00),
  ((0x83 : Nat), KeyDef.mk "F20" 0x006B 0x83 0x00),
  ((0x84 : Nat), KeyDef.mk "F21" 0x006C 0x84 0x00),
  ((0x85 : Nat), KeyDef.mk "F22" 0x006D 0x85 0x00),
  ((0x86 : Nat), KeyDef.mk "F23" 0x006E 0x86 0x00),
  ((0x87 : Nat), KeyDef.mk "F24" 0x0076 0x87 0x00),
  ((0x30 : Nat), KeyDef.mk "KEY_0" 0x000B 0x30 0x00),
  ((0x31 : Nat), KeyDef.mk "KEY_1" 0x0002 0x31 0x00),
  ((0x32 : Nat), KeyDef.mk "KEY_2" 0x0003 0x32 0x00),
  ((0x33 : Nat), KeyDef.mk "KEY_3" 0x0004 0x33 0x00),
  ((0x34 : Nat), KeyDef.mk "KEY_4" 0x0005 0x34 0x00),
  ((0x35 : Nat), KeyDef.mk "KEY_5" 0x0006 0x35 0x00),
  ((0x36 : Nat), KeyDef.mk "KEY_6" 0x0007 0x36 0x00),
  ((0x37 : Nat), KeyDef.mk "KEY_7" 0x0008 0x37 0x00),
  ((0x38 : Nat), KeyDef.mk "KEY_8" 0x0009 0x38 0x00),
  ((0x39 : Nat), KeyDef.mk "KEY_9" 0x000A 0x39 0x00),
  ((0x41 : Nat), KeyDef.mk "KEY_A" 0x001E 0x41 0x00),
  ((0x42 : Nat), KeyDef.mk "KEY_B" 0x0030 0x42 0x00),
  ((0x43 : Nat), KeyDef.mk "KEY_C" 0x002E 0x43 0x00),
  ((0x44 : Nat), KeyDef.mk "KEY_D" 0x0020 0x44 0x00),
  ((0x45 : Nat), KeyDef.mk "KEY_E" 0x0012 0x45 0x00),
  ((0x46 : Nat), KeyDef.mk "KEY_F" 0x0021 0x46 0x00),
  ((0x47 : Nat), KeyDef.mk "KEY_G" 0x0022 0x47 0x00),
  ((0x48 : Nat), KeyDef.mk "KEY_H" 0x0023 0x48 0x00),
  ((0x49 : Nat), KeyDef.mk "KEY_I" 0x0017 0x49 0x00),
  ((0x4A : Nat), KeyDef.mk "KEY_J" 0x0024 0x4A 0x00),
  ((0x4B : Nat), KeyDef.mk "KEY_K" 0x0025 0x4B 0x00),
  ((0x4C : Nat), KeyDef.mk "KEY_L" 0x0026 0x4C 0x00),
  ((0x4D : Nat), KeyDef.mk "KEY_M" 0x0032 0x4D 0x00),
  ((0x4E : Nat), KeyDef.mk "KEY_N" 0x0031 0x4E 0x00),
  ((0x4F : Nat), KeyDef.mk "KEY_O" 0x0018 0x4F 0x00),
  ((0x50 : Nat), KeyDef.mk "KEY_P" 0x0019 0x50 0x00),
  ((0x51 : Nat), KeyDef.mk "KEY_Q" 0x0010 0x51 0x00),
  ((0x52 : Nat), KeyDef.mk "KEY_R" 0x0013 0x52 0x00),
  ((0x53 : Nat), KeyDef.mk "KEY_S" 0x001F 0x53 0x00),
  ((0x54 : Nat), KeyDef.mk "KEY_T" 0x0014 0x54 0x00),
  ((0x55 : Nat), KeyDef.mk "KEY_U" 0x0016 0x55 0x00),
  ((0x56 : Nat), KeyDef.mk "KEY_V" 0x002F 0x56 0x00),
  ((0x57 : Nat), KeyDef.mk "KEY_W" 0x0011 0x57 0x00),
  ((0x58 : Nat), KeyDef.mk "KEY_X" 0x002D 0x58 0x00),
  ((0x59 : Nat), KeyDef.mk "KEY_Y" 0x0015 0x59 0x00),
  ((0x5A : Nat), KeyDef.mk "KEY_Z" 0x002C 0x5A 0x00),
  ((0x2D : Nat), KeyDef.mk "INSERT" 0x0052 0x2D 0x00),
  ((0x2E : Nat), KeyDef.mk "DELETE" 0x0053 0x2E 0x00),
  ((0x24 : Nat), KeyDef.mk "HOME" 0x0047 0x24 0x00),
  ((0x23 : Nat), KeyDef.mk "END" 0x004F 0x23 0x00),
  ((0x21 : Nat), KeyDef.mk "PAGE_UP" 0x0049 0x21 0x00),
  ((0x22 : Nat), KeyDef.mk "PAGE_DOWN" 0x0051 0x22 0x00),
  ((0x2C : Nat), KeyDef.mk "PRINT_SCREEN" 0x0000 0x2C 0x00),
  ((0x90 : Nat), KeyDef.mk "NUMLOCK" 0x0000 0x90 0x00),
  ((0x91 : Nat), KeyDef.mk "SCROLLLOCK" 0x0000 0x91 0x00),
  ((0x13 : Nat), KeyDef.mk "PAUSE" 0x0000 0x13 0x00),
  ((0xBB : Nat), KeyDef.mk "PLUS" 0x000D 0xBB 0x00),
  ((0xBC : Nat), KeyDef.mk "COMMA" 0x0033 0xBC 0x00),
  ((0xBD : Nat), KeyDef.mk "MINUS" 0x000C 0xBD 0x00),
  ((0xBE : Nat), KeyDef.mk "PERIOD" 0x0034 0xBE 0x00),
  ((0xBA : Nat), KeyDef.mk "US_SEMI" 0x0027 0xBA 0x00),
  ((0xBF : Nat), KeyDef.mk "US_SLASH" 0x0035 0xBF 0x00),
  ((0xC0 : Nat), KeyDef.mk "US_TILDE" 0x0029 0xC0 0x00)
]

/-- Entry `KEY_ARRAY[i]`; entries without an initialiser are zero. -/
def KEY_ARRAY (i : Nat) : KeyDef :=
  match KEY_ARRAY_init.find? (fun p => p.1 == i) with
  | some p => p.2
  | none => ⟨"", 0, 0, 0⟩

/-- Layer node, `struct Layer`; the three `LayerNode` lists hold layer
indices. -/
structure Layer where
  name : String
  state : Int
  lock : Int
  prev_lock : Int
  and_master_layers : List Nat
  and_not_master_layers : List Nat
  and_slave_layers : List Nat
deriving DecidableEq, Repr, Inhabited

/-- The three lock mutators a `LayerConf.conf` function pointer can hold. -/
inductive LayerConfFn where
  | toggle_layer_lock
  | set_layer_lock
  | reset_layer_lock
deriving DecidableEq, Repr, Inhabited

/-- Lock action on a layer, `struct LayerConf` (a list node; the list is a
Lean list). -/
structure LayerConf where
  layer : Nat
  conf : LayerConfFn
deriving DecidableEq, Repr, Inhabited

/-- Remap rule with its runtime fields, `struct Remap`. The link `next` is
represented by the list `Engine.g_remap_list`. -/
structure Remap where
  id : Nat
  from_ : KeyDef
  layer : Option Nat
  to_when_press_layer : Option Nat
  to_when_doublepress_layer : Option Nat
  to_when_tap_lock_layer : List LayerConf
  to_when_double_tap_lock_layer : List LayerConf
  to_when_alone : List KeyDef
  to_with_other : List KeyDef
  to_when_doublepress : List KeyDef
  to_when_tap_lock : List KeyDef
  to_when_double_tap_lock : List KeyDef
  to_when_alone_modifiers : Nat
  to_with_other_modifiers : Nat
  to_when_doublepress_modifiers : Nat
  to_when_tap_lock_modifiers : Nat
  to_when_double_tap_lock_modifiers : Nat
  tap_lock : Int
  double_tap_lock : Int
  state : State
  time : Nat
  active_modifiers : Nat
deriving DecidableEq, Repr, Inhabited

/-- One call `send_input(scan_code, virt_code, direction, remap_id, _)`. -/
structure SentInput where
  scan_code : Nat
  virt_code : Nat
  direction : Direction
  remap_id : Nat
deriving DecidableEq, Repr, Inhabited

/-- The globals of `remap.c` together with the two arenas, the trace of
`send_input` calls and the number of `rehook` calls. `g_last_input` holds the
32-bit pattern stored in the C `int`. -/
structure Engine where
  g_hold_delay : Int
  g_tap_timeout : Int
  g_doublepress_timeout : Int
  g_rehook_timeout : Int
  g_unlock_timeout : Int
  g_last_input : Nat
  g_remap_list : List Nat
  g_remap_by_id : List (Option Nat)
  g_remap_array : List (List Nat)
  layers : List Layer
  remaps : List Remap
  sent : List SentInput
  rehooks : Nat
deriving DecidableEq, Repr, Inhabited

/-! ## Machine arithmetic -/

/-- Value of an `int` after conversion to a 32-bit unsigned operand. -/
def u32 (x : Int) : Nat := (x % 4294967296).toNat

/-- Difference `a - b` of two `DWORD`s. -/
def dword_sub (a b : Nat) : Nat := (a % 4294967296 + 4294967296 - b % 4294967296) % 4294967296

/-- Constant `INJECTED_KEY_ID` of `input.h`, `0xFFC3CED7 & 0xFFFFFF00`. -/
def INJECTED_KEY_ID : Nat := 0xFFC3CED7 &&& 0xFFFFFF00

/-! ## Layers (`remap.c` lines 45-81, 286-304) -/

/-- Dereference of a layer pointer. -/
def layerAt (ls : List Layer) (i : Nat) : Layer := ls.getD i default

/-- Function `toggle_layer_lock`. -/
def toggle_layer_lock (layer : Layer) : Layer :=
  { layer with prev_lock := layer.lock, lock := 1 - layer.lock }

/-- Function `set_layer_lock`. -/
def set_layer_lock (layer : Layer) : Layer :=
  { layer with prev_lock := layer.lock, lock := 1 }

/-- Function `reset_layer_lock`. -/
def reset_layer_lock (layer : Layer) : Layer :=
  { layer with prev_lock := layer.lock, lock := 0 }

/-- Call through the function pointer `layer_conf->conf`. -/
def LayerConfFn.call : LayerConfFn → Layer → Layer
  | .toggle_layer_lock => KeyboardRemapper.toggle_layer_lock
  | .set_layer_lock => KeyboardRemapper.set_layer_lock
  | .reset_layer_lock => KeyboardRemapper.reset_layer_lock

/-- Function `check_layer_states`: every layer of the list has the expected
state. -/
def check_layer_states (ls : List Layer) : List Nat → Int → Bool
  | [], _ => true
  | l :: rest, expected_state =>
    if (layerAt ls l).state ≠ expected_state then false
    else check_layer_states ls rest expected_state

/-- The guard `check_layer_states(and_master_layers, 1) &&
check_layer_states(and_not_master_layers, 0)` of a layer. -/
def all_master_active (ls : List Layer) (slave_layer : Nat) : Bool :=
  check_layer_states ls (layerAt ls slave_layer).and_master_layers 1 &&
    check_layer_states ls (layerAt ls slave_layer).and_not_master_layers 0

/-- Function `set_layer_state`: store the state, then recompute every slave,
recursively, in list order. -/
def set_layer_state : Nat → List Layer → Nat → Int → Option (List Layer)
  | 0, _, _, _ => none
  | fuel + 1, ls, layer, state =>
    let ls1 := ls.set layer { layerAt ls layer with state := state }
    (layerAt ls1 layer).and_slave_layers.foldlM
      (fun acc slave_layer =>
        set_layer_state fuel acc slave_layer
          (if all_master_active acc slave_layer then 1 else (layerAt acc slave_layer).lock))
      ls1

/-- Loop of `is_master_layer` over the master list of the slave; `rec_call`
is the recursive call and `guards` the guard of the slave. -/
def is_master_layer_loop (rec_call : Nat → Option Bool) (master_layer : Option Nat)
    (guards : Bool) : List Nat → Option Bool
  | [] => some false
  | m :: rest =>
    if some m = master_layer then some guards
    else
      match rec_call m with
      | none => none
      | some true => some guards
      | some false => is_master_layer_loop rec_call master_layer guards rest

/-- Function `is_master_layer(master_layer, slave_layer)`; `master_layer` may
be `NULL`. -/
def is_master_layer : Nat → List Layer → Option Nat → Nat → Option Bool
  | 0, _, _, _ => none
  | fuel + 1, ls, master_layer, slave_layer =>
    is_master_layer_loop (fun m => is_master_layer fuel ls master_layer m) master_layer
      (all_master_active ls slave_layer) (layerAt ls slave_layer).and_master_layers

/-! ## Remaps and the active list (`remap.c` lines 470-540) -/

/-- Dereference of a remap pointer. -/
def remapAt (rs : List Remap) (i : Nat) : Remap := rs.getD i default

/-- Function `has_to_block_modifiers(remap, layer)`; both may be `NULL`. -/
def has_to_block_modifiers (fuel : Nat) (ls : List Layer) (rs : List Remap)
    (remap : Option Nat) (layer : Option Nat) : Option Bool :=
  match remap with
  | none => some false
  | some r =>
    match (remapAt rs r).layer with
    | none => some false
    | some rl =>
      if some rl = layer then some true else is_master_layer fuel ls layer rl

/-- Function `find_remap_for_virt_code`: first remap of the list whose source
key has this virtual code. -/
def find_remap_for_virt_code (rs : List Remap) : List Nat → Nat → Option Nat
  | [], _ => none
  | r :: rest, virt_code =>
    if (remapAt rs r).from_.virt_code = virt_code then some r
    else find_remap_for_virt_code rs rest virt_code

/-- Function `append_active_remap`: no change when the element is on the
list, else it becomes the last element. -/
def append_active_remap : List Nat → Nat → List Nat
  | [], elem => [elem]
  | r :: rest, elem => if r = elem then r :: rest else r :: append_active_remap rest elem

/-- Function `remove_active_remap`: unlink the first occurrence. -/
def remove_active_remap : List Nat → Nat → List Nat
  | [], _ => []
  | r :: rest, elem => if r = elem then rest else r :: remove_active_remap rest elem

/-- Function `send_input`, recorded as a call. -/
def send_input (scan_code virt_code : Nat) (direction : Direction) (remap_id : Nat)
    (sent : List SentInput) : List SentInput :=
  sent ++ [⟨scan_code, virt_code, direction, remap_id⟩]

/-- Loop body shared by `send_key_def_input_down` and `send_key_def_input_up`:
send the key unless its `KEY_ARRAY` modifier bit is in the mask. The state is
the pair of `key_sent` and the trace. -/
def send_key_def_step (direction : Direction) (remap_id modifiers_mask : Nat)
    (acc : Nat × List SentInput) (cur : KeyDef) : Nat × List SentInput :=
  if modifiers_mask &&& (KEY_ARRAY (cur.virt_code &&& 0xFF)).modifier = 0 then
    (1, send_input cur.scan_code cur.virt_code direction remap_id acc.2)
  else acc

/-- Function `send_key_def_input_down`: the keys of the ring from the head
onwards; returns `key_sent` and the trace. -/
def send_key_def_input_down (head : List KeyDef) (remap_id modifiers_mask : Nat)
    (sent : List SentInput) : Nat × List SentInput :=
  head.foldl (send_key_def_step .DOWN remap_id modifiers_mask) (0, sent)

/-- Function `send_key_def_input_up`: the keys of the ring backwards, from
the one before the head down to the head. -/
def send_key_def_input_up (head : List KeyDef) (remap_id modifiers_mask : Nat)
    (sent : List SentInput) : Nat × List SentInput :=
  head.reverse.foldl (send_key_def_step .UP remap_id modifiers_mask) (0, sent)

/-! ## The state machine (`remap.c` lines 542-895) -/

/-- One iteration of the remap loop of `unlock_all`: release what the state
names, release the lock chords, reset the runtime fields. -/
def unlock_remap (r : Remap) (sent : List SentInput) : Remap × List SentInput :=
  let sent1 :=
    match r.state with
    | .HELD_DOWN_WITH_OTHER =>
      if r.to_with_other ≠ [] then (send_key_def_input_up r.to_with_other r.id 0 sent).2 else sent
    | .TAP =>
      if r.to_when_alone ≠ [] then (send_key_def_input_up r.to_when_alone r.id 0 sent).2 else sent
    | .DOUBLE_TAP =>
      if r.to_when_doublepress ≠ [] then
        (send_key_def_input_up r.to_when_doublepress r.id 0 sent).2
      else sent
    | _ => sent
  let sent2 :=
    if r.double_tap_lock ≠ 0 then
      (send_key_def_input_up r.to_when_double_tap_lock r.id 0 sent1).2
    else sent1
  let sent3 :=
    if r.tap_lock ≠ 0 then (send_key_def_input_up r.to_when_tap_lock r.id 0 sent2).2 else sent2
  ({ r with double_tap_lock := 0, tap_lock := 0, state := .IDLE, active_modifiers := 0 }, sent3)

/-- Function `unlock_all`: zero every layer, then unlock and unlink every
remap of the active list, front to back. -/
def unlock_all (e : Engine) : Engine :=
  let res := e.g_remap_list.foldl
    (fun (acc : List Remap × List SentInput) remap_iter =>
      let p := unlock_remap (remapAt acc.1 remap_iter) acc.2
      (acc.1.set remap_iter p.1, p.2))
    (e.remaps, e.sent)
  { e with
    layers := e.layers.map (fun l => { l with state := 0, lock := 0, prev_lock := 0 }),
    remaps := res.1, sent := res.2, g_remap_list := [] }

/-- Statement `if (layer) set_layer_state(layer, 1);`. -/
def layer_on (fuel : Nat) (layer : Option Nat) (ls : List Layer) : Option (List Layer) :=
  match layer with
  | none => some ls
  | some l => set_layer_state fuel ls l 1

/-- Statement `if (layer) set_layer_state(layer, layer->lock);`. -/
def layer_to_lock (fuel : Nat) (layer : Option Nat) (ls : List Layer) : Option (List Layer) :=
  match layer with
  | none => some ls
  | some l => set_layer_state fuel ls l (layerAt ls l).lock

/-- The loop `while (layer_conf) { layer_conf->conf(layer);
set_layer_state(layer, layer->lock); ... }` of `event_remapped_key_up`. -/
def apply_layer_confs (fuel : Nat) : List LayerConf → List Layer → Option (List Layer)
  | [], ls => some ls
  | layer_conf :: rest, ls =>
    let ls1 := ls.set layer_conf.layer (layer_conf.conf.call (layerAt ls layer_conf.layer))
    (set_layer_state fuel ls1 layer_conf.layer (layerAt ls1 layer_conf.layer).lock).bind
      (apply_layer_confs fuel rest)

/-- The loop `while (layer_conf) { layer->lock = layer->prev_lock;
set_layer_state(layer, layer->lock); ... }` of `event_remapped_key_down`. -/
def revert_layer_confs (fuel : Nat) : List LayerConf → List Layer → Option (List Layer)
  | [], ls => some ls
  | layer_conf :: rest, ls =>
    let l := layerAt ls layer_conf.layer
    let ls1 := ls.set layer_conf.layer { l with lock := l.prev_lock }
    (set_layer_state fuel ls1 layer_conf.layer (layerAt ls1 layer_conf.layer).lock).bind
      (revert_layer_confs fuel rest)

/-- The fresh-press block of `event_remapped_key_down` (lines 586-596 and
again 638-648): `HELD_DOWN_ALONE` when the rule has `to_with_other`, else
`TAP` with the `to_when_alone` chord pressed. -/
def press_from_rest (r : Remap) (time : Nat) (sent : List SentInput) :
    Remap × List SentInput :=
  if r.to_with_other ≠ [] then
    ({ r with time := time, state := .HELD_DOWN_ALONE }, sent)
  else if r.to_when_alone ≠ [] then
    ({ r with time := time, state := .TAP, active_modifiers := r.to_when_alone_modifiers },
      (send_key_def_input_down r.to_when_alone r.id 0 sent).2)
  else
    ({ r with time := time, state := .TAP }, sent)

/-- The chord a remap presses on entering and repeats while in `DOUBLE_TAP`:
`to_when_doublepress`, else nothing when a doublepress layer is set, else
`to_when_alone`; the second component is the matching modifier mask. -/
def doublepress_chord (r : Remap) : List KeyDef × Nat :=
  if r.to_when_doublepress ≠ [] then (r.to_when_doublepress, r.to_when_doublepress_modifiers)
  else if r.to_when_doublepress_layer.isSome then ([], 0)
  else (r.to_when_alone, r.to_when_alone_modifiers)

/-- The tap-lock block of the `TAPPED` to `DOUBLE_TAP` transition (lines
613-619): the lock bit is flipped, and its chord released when the bit
becomes 0. -/
def undo_tap_lock (r : Remap) (sent : List SentInput) : Remap × List SentInput :=
  if r.to_when_tap_lock ≠ [] then
    if 1 - r.tap_lock = 0 then
      ({ r with tap_lock := 1 - r.tap_lock, active_modifiers := 0 },
        (send_key_def_input_up r.to_when_tap_lock r.id 0 sent).2)
    else ({ r with tap_lock := 1 - r.tap_lock }, sent)
  else (r, sent)

/-- The chord block of the `TAPPED` to `DOUBLE_TAP` transition (lines
629-636): the doublepress chord, or its fallback, is pressed. -/
def press_doublepress_chord (r : Remap) (sent : List SentInput) : Remap × List SentInput :=
  if (doublepress_chord r).1 ≠ [] then
    ({ r with active_modifiers := (doublepress_chord r).2 },
      (send_key_def_input_down (doublepress_chord r).1 r.id 0 sent).2)
  else (r, sent)

/-- Function `event_remapped_key_down`; the result is `block_input` and the
new engine. -/
def event_remapped_key_down (fuel : Nat) (remap : Nat) (time : Nat) (e : Engine) :
    Option (Int × Engine) :=
  let r := remapAt e.remaps remap
  match r.state with
  | .IDLE =>
    let p := press_from_rest r time e.sent
    (layer_on fuel r.to_when_press_layer e.layers).map fun ls =>
      (1, { e with remaps := e.remaps.set remap p.1, sent := p.2, layers := ls,
                   g_remap_list := append_active_remap e.g_remap_list remap })
  | .HELD_DOWN_ALONE => some (1, e)
  | .HELD_DOWN_WITH_OTHER =>
    some (1, { e with sent :=
      if r.to_with_other ≠ [] then (send_key_def_input_down r.to_with_other r.id 0 e.sent).2
      else e.sent })
  | .TAP =>
    some (1, { e with sent :=
      if r.to_when_alone ≠ [] then (send_key_def_input_down r.to_when_alone r.id 0 e.sent).2
      else e.sent })
  | .TAPPED =>
    if e.g_doublepress_timeout > 0 ∧ dword_sub time r.time < u32 e.g_doublepress_timeout then
      let p2 := undo_tap_lock { r with time := time, state := .DOUBLE_TAP } e.sent
      let p3 := press_doublepress_chord p2.1 p2.2
      ((revert_layer_confs fuel r.to_when_tap_lock_layer e.layers).bind
        (layer_on fuel r.to_when_doublepress_layer)).map fun ls =>
        (1, { e with remaps := e.remaps.set remap p3.1, sent := p3.2, layers := ls,
                     g_remap_list := append_active_remap e.g_remap_list remap })
    else
      let p := press_from_rest r time e.sent
      (layer_on fuel r.to_when_press_layer e.layers).map fun ls =>
        (1, { e with remaps := e.remaps.set remap p.1, sent := p.2, layers := ls,
                     g_remap_list := append_active_remap e.g_remap_list remap })
  | .DOUBLE_TAP =>
    some (1, { e with sent :=
      if (doublepress_chord r).1 ≠ [] then
        (send_key_def_input_down (doublepress_chord r).1 r.id 0 e.sent).2
      else e.sent })

/-- The tap-lock block of `event_remapped_key_up` (lines 675-684 and again
714-723): toggle `tap_lock` and press or release its chord. -/
def toggle_tap_lock (r : Remap) (sent : List SentInput) : Remap × List SentInput :=
  if r.to_when_tap_lock ≠ [] then
    if 1 - r.tap_lock ≠ 0 then
      ({ r with tap_lock := 1 - r.tap_lock, active_modifiers := r.to_when_tap_lock_modifiers },
        (send_key_def_input_down r.to_when_tap_lock r.id 0 sent).2)
    else
      ({ r with tap_lock := 1 - r.tap_lock, active_modifiers := 0 },
        (send_key_def_input_up r.to_when_tap_lock r.id 0 sent).2)
  else (r, sent)

/-- The double-tap-lock block of `event_remapped_key_up` (lines 751-760). -/
def toggle_double_tap_lock (r : Remap) (sent : List SentInput) : Remap × List SentInput :=
  if r.to_when_double_tap_lock ≠ [] then
    if 1 - r.double_tap_lock ≠ 0 then
      ({ r with double_tap_lock := 1 - r.double_tap_lock,
                active_modifiers := r.to_when_double_tap_lock_modifiers },
        (send_key_def_input_down r.to_when_double_tap_lock r.id 0 sent).2)
    else
      ({ r with double_tap_lock := 1 - r.double_tap_lock, active_modifiers := 0 },
        (send_key_def_input_up r.to_when_double_tap_lock r.id 0 sent).2)
  else (r, sent)

/-- The test `(g_tap_timeout == 0) || (time - remap->time < g_tap_timeout)`. -/
def within_tap_timeout (e : Engine) (time remap_time : Nat) : Bool :=
  decide (e.g_tap_timeout = 0) || decide (dword_sub time remap_time < u32 e.g_tap_timeout)

/-- The release blocks of `event_remapped_key_up` (lines 699-702, 710-713,
732-735, 742-749): when the chord is present, send its up-chord and clear
`active_modifiers`. -/
def release_chord (r : Remap) (chord : List KeyDef) (sent : List SentInput) :
    Remap × List SentInput :=
  if chord ≠ [] then
    ({ r with active_modifiers := 0 }, (send_key_def_input_up chord r.id 0 sent).2)
  else (r, sent)

/-- The state-dependent part of `event_remapped_key_up` (lines 667-771): the
new remap record, trace and layers. -/
def key_up_transition (fuel : Nat) (e : Engine) (r : Remap) (time : Nat) :
    Option (Remap × List SentInput × List Layer) :=
  match r.state with
  | .HELD_DOWN_ALONE =>
    if within_tap_timeout e time r.time then
      let sent1 :=
        if r.to_when_alone ≠ [] then
          (send_key_def_input_up r.to_when_alone r.id 0
            (send_key_def_input_down r.to_when_alone r.id 0 e.sent).2).2
        else e.sent
      let p := toggle_tap_lock { r with time := time, state := .TAPPED } sent1
      ((apply_layer_confs fuel r.to_when_tap_lock_layer e.layers).bind
        (layer_to_lock fuel r.to_when_press_layer)).map fun ls => (p.1, p.2, ls)
    else
      (layer_to_lock fuel r.to_when_press_layer e.layers).map fun ls =>
        ({ r with state := .IDLE }, e.sent, ls)
  | .HELD_DOWN_WITH_OTHER =>
    let p := release_chord { r with state := .IDLE } r.to_with_other e.sent
    (layer_to_lock fuel r.to_when_press_layer e.layers).map fun ls => (p.1, p.2, ls)
  | .TAP =>
    if within_tap_timeout e time r.time then
      let p1 := release_chord { r with time := time, state := .TAPPED } r.to_when_alone e.sent
      let p := toggle_tap_lock p1.1 p1.2
      ((apply_layer_confs fuel r.to_when_tap_lock_layer e.layers).bind
        (layer_to_lock fuel r.to_when_press_layer)).map fun ls => (p.1, p.2, ls)
    else
      let p := release_chord { r with state := .IDLE } r.to_when_alone e.sent
      (layer_to_lock fuel r.to_when_press_layer e.layers).map fun ls => (p.1, p.2, ls)
  | .DOUBLE_TAP =>
    let p1 := release_chord { r with state := .IDLE } (doublepress_chord r).1 e.sent
    if within_tap_timeout e time r.time then
      let p := toggle_double_tap_lock p1.1 p1.2
      ((apply_layer_confs fuel r.to_when_double_tap_lock_layer e.layers).bind
        (layer_to_lock fuel r.to_when_doublepress_layer)).map fun ls => (p.1, p.2, ls)
    else
      (layer_to_lock fuel r.to_when_doublepress_layer e.layers).map fun ls => (p1.1, p1.2, ls)
  | _ => some (r, e.sent, e.layers)

/-- Function `event_remapped_key_up`: the transition, then the remap is
unlinked from the active list when both lock bits are clear. -/
def event_remapped_key_up (fuel : Nat) (remap : Nat) (time : Nat) (e : Engine) :
    Option (Int × Engine) :=
  (key_up_transition fuel e (remapAt e.remaps remap) time).map fun t =>
    (1, { e with remaps := e.remaps.set remap t.1, sent := t.2.1, layers := t.2.2,
                 g_remap_list :=
                   if t.1.tap_lock = (0 : Int) ∧ t.1.double_tap_lock = (0 : Int) then
                     remove_active_remap e.g_remap_list remap
                   else e.g_remap_list })

/-- The `active_modifiers` of `g_remap_by_id[remap_id]`, read only after
`has_to_block_modifiers` found that remap. -/
def other_active_modifiers (e : Engine) (remap_id : Nat) : Nat :=
  match e.g_remap_by_id.getD remap_id none with
  | some o => (remapAt e.remaps o).active_modifiers
  | none => 0

/-- Re-assertion used by `event_other_input` for a chord that is held:
press it again, or, when the source remap is tied to `layer`, release the
keys that do not collide with the source's active modifiers. Returns
`key_sent` and the trace. -/
def reassert_chord (fuel : Nat) (e : Engine) (remap_id : Nat) (r : Remap)
    (chord : List KeyDef) (layer : Option Nat) : Option (Nat × List SentInput) :=
  (has_to_block_modifiers fuel e.layers e.remaps (e.g_remap_by_id.getD remap_id none) layer).map
    fun blocked =>
      if !blocked then send_key_def_input_down chord r.id 0 e.sent
      else send_key_def_input_up chord r.id (other_active_modifiers e remap_id) e.sent

/-- Body of the loop of `event_other_input` for the list element `remap`;
the state is `block_input` and the engine. -/
def event_other_input_step (fuel : Nat) (time remap_id : Nat) (acc : Nat × Engine)
    (remap : Nat) : Option (Nat × Engine) :=
  let e := acc.2
  let r := remapAt e.remaps remap
  if r.id ≠ remap_id then
    match r.state with
    | .HELD_DOWN_ALONE =>
      if e.g_hold_delay > 0 ∧ dword_sub time r.time < u32 e.g_hold_delay ∧ r.to_when_alone ≠ [] then
        let s := send_key_def_input_down r.to_when_alone r.id 0 e.sent
        some (acc.1 ||| s.1,
          { e with sent := s.2,
                   remaps := e.remaps.set remap
                     { r with state := .TAP, active_modifiers := r.to_when_alone_modifiers,
                              time := 0 } })
      else
        (has_to_block_modifiers fuel e.layers e.remaps (e.g_remap_by_id.getD remap_id none)
          r.to_when_press_layer).map fun blocked =>
          if !blocked then
            if r.to_with_other ≠ [] then
              let s := send_key_def_input_down r.to_with_other r.id 0 e.sent
              (acc.1 ||| s.1,
                { e with sent := s.2,
                         remaps := e.remaps.set remap
                           { r with state := .HELD_DOWN_WITH_OTHER,
                                    active_modifiers := r.to_with_other_modifiers, time := 0 } })
            else
              (acc.1, { e with remaps := e.remaps.set remap
                                 { r with state := .HELD_DOWN_WITH_OTHER, time := 0 } })
          else (acc.1, { e with remaps := e.remaps.set remap { r with time := 0 } })
    | .HELD_DOWN_WITH_OTHER =>
      if r.to_with_other ≠ [] then
        (reassert_chord fuel e remap_id r r.to_with_other r.to_when_press_layer).map fun s =>
          (acc.1 ||| s.1,
            { e with sent := s.2, remaps := e.remaps.set remap { r with time := 0 } })
      else some (acc.1, { e with remaps := e.remaps.set remap { r with time := 0 } })
    | .TAP =>
      if r.to_when_alone ≠ [] ∧ r.to_when_alone_modifiers ≠ 0 then
        (reassert_chord fuel e remap_id r r.to_when_alone r.to_when_press_layer).map fun s =>
          (acc.1 ||| s.1,
            { e with sent := s.2, remaps := e.remaps.set remap { r with time := 0 } })
      else some (acc.1, { e with remaps := e.remaps.set remap { r with time := 0 } })
    | .DOUBLE_TAP =>
      if r.to_when_doublepress ≠ [] ∧ r.to_when_doublepress_modifiers ≠ 0 then
        (reassert_chord fuel e remap_id r r.to_when_doublepress
          r.to_when_doublepress_layer).map fun s =>
          (acc.1 ||| s.1,
            { e with sent := s.2, remaps := e.remaps.set remap { r with time := 0 } })
      else some (acc.1, { e with remaps := e.remaps.set remap { r with time := 0 } })
    | _ =>
      let s1 : Nat × List SentInput :=
        if r.double_tap_lock ≠ 0 then
          send_key_def_input_down r.to_when_double_tap_lock r.id 0 e.sent
        else (0, e.sent)
      let s2 : Nat × List SentInput :=
        if r.tap_lock ≠ 0 then send_key_def_input_down r.to_when_tap_lock r.id 0 s1.2
        else (0, s1.2)
      some (acc.1 ||| s1.1 ||| s2.1,
        { e with sent := s2.2, remaps := e.remaps.set remap { r with time := 0 } })
  else some acc

/-- The loop of `event_other_input` over the active list. -/
def event_other_input_loop (fuel : Nat) (time remap_id : Nat) :
    List Nat → Nat × Engine → Option (Nat × Engine)
  | [], acc => some acc
  | remap :: rest, acc =>
    (event_other_input_step fuel time remap_id acc remap).bind
      (event_other_input_loop fuel time remap_id rest)

/-- Function `event_other_input`; returns `-block_input`. -/
def event_other_input (fuel : Nat) (virt_code : Nat) (direction : Direction) (time : Nat)
    (remap_id : Nat) (e : Engine) : Option (Int × Engine) :=
  if direction = .DOWN ∧ (KEY_ARRAY (virt_code &&& 0xFF)).modifier = 0 then
    (event_other_input_loop fuel time remap_id e.g_remap_list (0, e)).map fun p =>
      (-(p.1 : Int), p.2)
  else some (0, e)

/-- The bucket walk of `handle_input` (lines 867-875): the first node whose
rule is unlayered or whose layer has a nonzero state. -/
def find_remap_node (ls : List Layer) (rs : List Remap) : List Nat → Option Nat
  | [] => none
  | remap_node :: rest =>
    match (remapAt rs remap_node).layer with
    | none => some remap_node
    | some l => if (layerAt ls l).state ≠ 0 then some remap_node else find_remap_node ls rs rest

/-- The value of `remap_for_input` for a non-injected event (lines 865-881):
the active list first, the bucket of `virt_code & 0xFF` second. -/
def remap_for_input (e : Engine) (virt_code : Nat) : Option Nat :=
  match find_remap_for_virt_code e.remaps e.g_remap_list virt_code with
  | some r => some r
  | none => find_remap_node e.layers e.remaps (e.g_remap_array.getD (virt_code &&& 0xFF) [])

/-- Function `handle_input`; the result is `block_input` and the new
engine. -/
def handle_input (fuel : Nat) (scan_code virt_code : Nat) (direction : Direction) (time : Nat)
    (is_injected : Bool) (flags dwExtraInfo : Nat) (e : Engine) : Option (Int × Engine) :=
  let e1 :=
    if e.g_unlock_timeout > 0 ∧ dword_sub time e.g_last_input > u32 e.g_unlock_timeout then
      unlock_all e
    else e
  if is_injected = true ∧
      (dwExtraInfo &&& 0xFFFFFF00 ≠ INJECTED_KEY_ID ∨ dwExtraInfo = INJECTED_KEY_ID) then
    if e1.g_rehook_timeout > 0 ∧ dword_sub time e1.g_last_input > u32 e1.g_rehook_timeout then
      some (0, { e1 with rehooks := e1.rehooks + 1, g_last_input := time % 4294967296 })
    else some (0, e1)
  else
    let e2 := { e1 with g_last_input := time % 4294967296 }
    if is_injected = true then
      event_other_input fuel virt_code direction time (dwExtraInfo &&& 0xFF) e2
    else
      match remap_for_input e2 virt_code with
      | some r =>
        if direction = .UP then event_remapped_key_up fuel r time e2
        else event_remapped_key_down fuel r time e2
      | none => event_other_input fuel virt_code direction time 0 e2

/-! ## Configuration (`remap.c` lines 127-141, 212-265, 306-326, 427-468,
930-949, 1167-1191) -/

/-- Initial values of the globals (lines 127-141), with empty arenas. -/
def globals_init : Engine :=
  { g_hold_delay := 0, g_tap_timeout := 0, g_doublepress_timeout := 0,
    g_rehook_timeout := 1000, g_unlock_timeout := 60000, g_last_input := 0,
    g_remap_list := [], g_remap_by_id := List.replicate 256 none,
    g_remap_array := List.replicate 256 [], layers := [], remaps := [], sent := [],
    rehooks := 0 }

/-- Function `new_layer`. -/
def new_layer (name : String) : Layer :=
  { name := name, state := 0, lock := 0, prev_lock := 0, and_master_layers := [],
    and_not_master_layers := [], and_slave_layers := [] }

/-- Function `new_remap`. -/
def new_remap (from_ : KeyDef) (layer : Option Nat)
    (to_when_alone to_with_other to_when_doublepress to_when_tap_lock
      to_when_double_tap_lock : List KeyDef) : Remap :=
  { id := 0, from_ := from_, layer := layer, to_when_press_layer := none,
    to_when_doublepress_layer := none, to_when_tap_lock_layer := [],
    to_when_double_tap_lock_layer := [], to_when_alone := to_when_alone,
    to_with_other := to_with_other, to_when_doublepress := to_when_doublepress,
    to_when_tap_lock := to_when_tap_lock, to_when_double_tap_lock := to_when_double_tap_lock,
    to_when_alone_modifiers := 0, to_with_other_modifiers := 0,
    to_when_doublepress_modifiers := 0, to_when_tap_lock_modifiers := 0,
    to_when_double_tap_lock_modifiers := 0, tap_lock := 0, double_tap_lock := 0,
    state := .IDLE, time := 0, active_modifiers := 0 }

/-- Directive `and_layer=` (lines 1167-1172): `master_layer` becomes an
and-master of `slave_layer`, with the mirror slave entry. -/
def and_layer (ls : List Layer) (slave_layer master_layer : Nat) : List Layer :=
  let ls1 := ls.set slave_layer
    { layerAt ls slave_layer with
      and_master_layers := (layerAt ls slave_layer).and_master_layers ++ [master_layer] }
  ls1.set master_layer
    { layerAt ls1 master_layer with
      and_slave_layers := (layerAt ls1 master_layer).and_slave_layers ++ [slave_layer] }

/-- Directive `and_not_layer=` (lines 1186-1191). -/
def and_not_layer (ls : List Layer) (slave_layer master_layer : Nat) : List Layer :=
  let ls1 := ls.set slave_layer
    { layerAt ls slave_layer with
      and_not_master_layers := (layerAt ls slave_layer).and_not_master_layers ++ [master_layer] }
  ls1.set master_layer
    { layerAt ls1 master_layer with
      and_slave_layers := (layerAt ls1 master_layer).and_slave_layers ++ [slave_layer] }

/-- Loop of `key_eq` on two rings, at positions `i` and `j`; it returns as
soon as both cursors are back at their heads. -/
def key_eq_loop (head_a head_b : List KeyDef) : Nat → Nat → Nat → Bool
  | 0, _, _ => false
  | fuel + 1, i, j =>
    if head_a.getD i default ≠ head_b.getD j default then false
    else if (i + 1) % head_a.length = 0 ∧ (j + 1) % head_b.length = 0 then true
    else key_eq_loop head_a head_b fuel ((i + 1) % head_a.length) ((j + 1) % head_b.length)

/-- Function `key_eq`; the loop returns within `length a * length b` steps. -/
def key_eq (head_a head_b : List KeyDef) : Bool :=
  if head_a = [] ∨ head_b = [] then false
  else key_eq_loop head_a head_b (head_a.length * head_b.length) 0 0

/-- Function `modifiers`: the OR of the modifier masks of the ring. -/
def modifiers (head : List KeyDef) : Nat :=
  head.foldl (fun m cur => m ||| cur.modifier) 0

/-- The normalisation part of `register_remap` (lines 439-466). -/
def register_remap_bindings (r : Remap) : Remap :=
  let r1 := if key_eq r.to_when_alone r.to_with_other then { r with to_with_other := [] } else r
  let r2 :=
    if key_eq r1.to_when_alone r1.to_when_doublepress then { r1 with to_when_doublepress := [] }
    else r1
  let r3 :=
    if r2.to_when_alone ≠ [] then
      { r2 with to_when_alone_modifiers := modifiers r2.to_when_alone }
    else r2
  let r4 :=
    if r3.to_with_other ≠ [] then
      if modifiers r3.to_with_other = 0 then
        { r3 with to_with_other := [], to_with_other_modifiers := 0 }
      else { r3 with to_with_other_modifiers := modifiers r3.to_with_other }
    else r3
  let r5 :=
    if r4.to_when_doublepress ≠ [] then
      { r4 with to_when_doublepress_modifiers := modifiers r4.to_when_doublepress }
    else r4
  let r6 :=
    if r5.to_when_tap_lock ≠ [] then
      { r5 with to_when_tap_lock_modifiers := modifiers r5.to_when_tap_lock }
    else r5
  if r6.to_when_double_tap_lock ≠ [] then
    { r6 with to_when_double_tap_lock_modifiers := modifiers r6.to_when_double_tap_lock }
  else r6

/-- Function `register_remap`, during configuration `g_remap_list` is the
registration list. Returns the error code and the engine. -/
def register_remap (e : Engine) (remap : Nat) : Int × Engine :=
  match e.g_remap_list.getLast? with
  | some tail =>
    if (remapAt e.remaps tail).id = 255 then (1, e)
    else
      let id := (remapAt e.remaps tail).id + 1
      (0, { e with g_remap_list := e.g_remap_list ++ [remap],
                   g_remap_by_id := e.g_remap_by_id.set id (some remap),
                   remaps := e.remaps.set remap
                     (register_remap_bindings { remapAt e.remaps remap with id := id }) })
  | none =>
    (0, { e with g_remap_list := [remap],
                 g_remap_by_id := e.g_remap_by_id.set 1 (some remap),
                 remaps := e.remaps.set remap
                   (register_remap_bindings { remapAt e.remaps remap with id := 1 }) })

/-- Insertion of a base rule behind the leading layer-gated nodes of a
non-empty bucket whose head is layer-gated (lines 939-942). -/
def insert_after_layered (rs : List Remap) (remap_node : Nat) : List Nat → List Nat
  | [] => [remap_node]
  | tail :: [] => [tail, remap_node]
  | tail :: next :: rest =>
    if (remapAt rs next).layer.isSome then tail :: insert_after_layered rs remap_node (next :: rest)
    else tail :: remap_node :: next :: rest

/-- One iteration of the distribution loop of `load_config_line(NULL)`
(lines 931-946), on the bucket of the remap. -/
def place_remap_node (rs : List Remap) (bucket : List Nat) (remap : Nat) : List Nat :=
  match bucket with
  | [] => [remap]
  | first :: rest =>
    if (remapAt rs remap).layer.isSome ∨ (remapAt rs first).layer = none then
      remap :: first :: rest
    else insert_after_layered rs remap (first :: rest)

/-- The distribution loop of `load_config_line(NULL)` (lines 930-948): every
registered remap is moved into the bucket of `from->virt_code & 0xFF`, and
`g_remap_list` ends empty. -/
def load_config_line_eof (e : Engine) : Engine :=
  { e with
    g_remap_array := e.g_remap_list.foldl
      (fun arr remap =>
        let index := (remapAt e.remaps remap).from_.virt_code &&& 0xFF
        arr.set index (place_remap_node e.remaps (arr.getD index []) remap))
      e.g_remap_array,
    g_remap_list := [] }

/-- A rule closed by the parser: the parsee is a fresh heap object handed to
`register_remap` (lines 1023-1029); the error code is dropped. -/
def config_remap (e : Engine) (r : Remap) : Engine :=
  (register_remap { e with remaps := e.remaps ++ [r] } e.remaps.length).2

/-! ## Keys and configurations of the scenarios -/

/-- Row `CAPSLOCK` of `key_table`. -/
def CAPSLOCK : KeyDef := KeyDef.mk "CAPSLOCK" 0x3A 0x14 0
/-- Row `ESCAPE` of `key_table`. -/
def ESCAPE : KeyDef := KeyDef.mk "ESCAPE" 0x01 0x1B 0
/-- Row `LEFT_CTRL` of `key_table`. -/
def LEFT_CTRL : KeyDef := KeyDef.mk "LEFT_CTRL" 0x1D 0xA2 0x01
/-- Row `LEFT_SHIFT` of `key_table`. -/
def LEFT_SHIFT : KeyDef := KeyDef.mk "LEFT_SHIFT" 0x2A 0xA0 0x04
/-- Row `SPACE` of `key_table`. -/
def SPACE : KeyDef := KeyDef.mk "SPACE" 0x39 0x20 0
/-- Row `LEFT` of `key_table`. -/
def LEFT : KeyDef := KeyDef.mk "LEFT" 0x4B 0x25 0
/-- Row `KEY_A` of `key_table`. -/
def KEY_A : KeyDef := KeyDef.mk "KEY_A" 0x1E 0x41 0
/-- Row `KEY_B` of `key_table`. -/
def KEY_B : KeyDef := KeyDef.mk "KEY_B" 0x30 0x42 0
/-- Row `KEY_C` of `key_table`. -/
def KEY_C : KeyDef := KeyDef.mk "KEY_C" 0x2E 0x43 0
/-- Row `KEY_J` of `key_table`. -/
def KEY_J : KeyDef := KeyDef.mk "KEY_J" 0x24 0x4A 0

/-- Configuration of scenarios S1 and S2: `tap_timeout=200`,
`remap_key=CAPSLOCK`, `when_alone=ESCAPE`, `with_other=LEFT_CTRL`. -/
def s1_engine : Engine :=
  load_config_line_eof
    (config_remap { globals_init with g_tap_timeout := 200 }
      (new_remap CAPSLOCK none [ESCAPE] [LEFT_CTRL] [] [] []))

/-- Configuration of scenario S4 with the given `doublepress_timeout`:
`tap_timeout=200`, `remap_key=SPACE`, `when_alone=SPACE`,
`when_tap_lock=LEFT_SHIFT`. -/
def s4_engine (doublepress_timeout : Int) : Engine :=
  load_config_line_eof
    (config_remap
      { globals_init with g_tap_timeout := 200, g_doublepress_timeout := doublepress_timeout }
      (new_remap SPACE none [SPACE] [] [] [LEFT_SHIFT] []))

/-- Configuration of scenario S5: layer 0 is `layer1`; `remap_key=KEY_J`,
`layer=layer1`, `when_alone=LEFT`; and the separate rule
`remap_key=CAPSLOCK`, `when_press=layer1`. -/
def s5_engine : Engine :=
  load_config_line_eof
    (config_remap
      (config_remap { globals_init with g_tap_timeout := 200, layers := [new_layer "layer1"] }
        (new_remap KEY_J (some 0) [LEFT] [] [] [] []))
      { new_remap CAPSLOCK none [] [] [] [] [] with to_when_press_layer := some 0 })

/-- A handler result followed by the next event to the same engine. -/
def and_then (p : Option (Int × Engine)) (f : Engine → Option (Int × Engine)) :
    Option (Int × Engine) :=
  p.bind fun q => f q.2

/-- A diamond of four layers built with `and_layer`: layer 0 is a master of
layers 1 and 2, which are the two masters of layer 3. -/
def diamond_layers : List Layer :=
  and_layer
    (and_layer
      (and_layer
        (and_layer [new_layer "layer0", new_layer "layer1", new_layer "layer2", new_layer "layer3"]
          1 0)
        2 0)
      3 1)
    3 2

/-- The arguments of one call of `handle_input`. -/
structure KeyEvent where
  scan_code : Nat
  virt_code : Nat
  direction : Direction
  time : Nat
  is_injected : Bool
  flags : Nat
  dwExtraInfo : Nat
deriving DecidableEq, Repr, Inhabited

/-- A genuine (not injected) event of a key at a time. -/
def genuine (k : KeyDef) (direction : Direction) (time : Nat) : KeyEvent :=
  { scan_code := k.scan_code, virt_code := k.virt_code, direction := direction, time := time,
    is_injected := false, flags := 0, dwExtraInfo := 0 }

/-- Successive calls of `handle_input`: for every event its `block_input`
and the `send_input` calls made while handling it, and the final engine. -/
def run_events (fuel : Nat) : Engine → List KeyEvent →
    Option (List (Int × List SentInput) × Engine)
  | e, [] => some ([], e)
  | e, ev :: rest =>
    match handle_input fuel ev.scan_code ev.virt_code ev.direction ev.time ev.is_injected
        ev.flags ev.dwExtraInfo e with
    | none => none
    | some (block_input, e1) =>
      match run_events fuel e1 rest with
      | none => none
      | some (out, e2) => some ((block_input, e1.sent.drop e.sent.length) :: out, e2)

/-- The rule of the counterexample to C1: the S1 rule with a tap-lock chord,
`when_tap_lock=LEFT_SHIFT`. -/
def c1_engine : Engine :=
  load_config_line_eof
    (config_remap { globals_init with g_tap_timeout := 200 }
      (new_remap CAPSLOCK none [ESCAPE] [LEFT_CTRL] [] [LEFT_SHIFT] []))

/-- The S4 rule together with a `with_other` binding:
`when_alone=SPACE`, `with_other=LEFT_CTRL`, `when_tap_lock=LEFT_SHIFT`. -/
def s4_other_engine : Engine :=
  load_config_line_eof
    (config_remap { globals_init with g_tap_timeout := 200 }
      (new_remap SPACE none [SPACE] [LEFT_CTRL] [] [LEFT_SHIFT] []))

/-- Configuration of the failing input of C7: `tap_timeout=200`,
`doublepress_timeout=300`, the default `unlock_timeout=60000`, and the rule
`remap_key=KEY_A`, `when_alone=KEY_B` (no doublepress binding or layer). -/
def c7_engine : Engine :=
  load_config_line_eof
    (config_remap { globals_init with g_tap_timeout := 200, g_doublepress_timeout := 300 }
      (new_remap KEY_A none [KEY_B] [] [] [] []))

/-- Effect of one sent event on the keys, as pairs of scan code and virtual
code, that a remap id holds pressed: its DOWN adds the key, its UP removes
it. -/
def keys_down_step (remap_id : Nat) (held : List (Nat × Nat)) (s : SentInput) :
    List (Nat × Nat) :=
  if s.remap_id = remap_id then
    match s.direction with
    | .DOWN => held.filter (fun k => k ≠ (s.scan_code, s.virt_code)) ++
        [(s.scan_code, s.virt_code)]
    | .UP => held.filter (fun k => k ≠ (s.scan_code, s.virt_code))
  else held

/-- The keys that the events sent for one remap id, in order, leave
pressed. -/
def keys_left_down (remap_id : Nat) (sent : List SentInput) : List (Nat × Nat) :=
  sent.foldl (keys_down_step remap_id) []

/-- Spec side of C10: the rule of a bucket entry is layer-gated and its layer
has state 1. -/
def gated_active (ls : List Layer) (rs : List Remap) (n : Nat) : Bool :=
  match (remapAt rs n).layer with
  | some l => (layerAt ls l).state == 1
  | none => false

/-- Spec side of C10: the rule of a bucket entry is a base (unlayered)
rule. -/
def is_base (rs : List Remap) (n : Nat) : Bool :=
  (remapAt rs n).layer.isNone

/-- Spec side of C10, the resolution in the spec's words: the first
layer-gated entry whose layer has state 1 if there is one, otherwise the
base rule of the bucket if it has one, otherwise none. -/
def resolve_rule_spec (ls : List Layer) (rs : List Remap) (bucket : List Nat) : Option Nat :=
  match bucket.find? (gated_active ls rs) with
  | some n => some n
  | none => bucket.find? (is_base rs)

/-- Bucket order of the registry: no base rule stands before a layer-gated
rule. -/
def BucketOrdered (rs : List Remap) (bucket : List Nat) : Prop :=
  bucket.Pairwise (fun a b => is_base rs a = true → is_base rs b = true)

/-- The unlock test of `handle_input` (line 847). -/
def unlock_due (e : Engine) (time : Nat) : Prop :=
  e.g_unlock_timeout > 0 ∧ dword_sub time e.g_last_input > u32 e.g_unlock_timeout

/-- The S5 configuration after a genuine CAPSLOCK DOWN at time 0. -/
def s5_held_engine : Engine :=
  ((handle_input 2 CAPSLOCK.scan_code CAPSLOCK.virt_code .DOWN 0 false 0 0 s5_engine).getD
    (0, s5_engine)).2

/-- The engine in which `handle_input` selects the remap of a genuine event:
after the unlock check (lines 847-849) and the assignment of `g_last_input`
(line 859). -/
def selection_state (e : Engine) (time : Nat) : Engine :=
  { (if e.g_unlock_timeout > 0 ∧ dword_sub time e.g_last_input > u32 e.g_unlock_timeout then
      unlock_all e
    else e) with g_last_input := time % 4294967296 }


/-- Six layers: `layer_base` (layer 0) is the and-master of `layer_gated`
(1), `layer_double` (3), `layer_tap` (4) and `layer_double_tap` (5), and the
and-not-master of `layer_inverse` (2). Four rules, with `tap_timeout=200` and
`doublepress_timeout=300`: `remap_key=KEY_A`, `when_press=layer_gated`;
`remap_key=KEY_B`, `when_doublepress=layer_double`; `remap_key=KEY_C`,
`when_tap_lock=toggle_layer_tap`; `remap_key=KEY_J`,
`when_double_tap_lock=set_layer_double_tap`. -/
def c9_engine : Engine :=
  load_config_line_eof
    (config_remap
      (config_remap
        (config_remap
          (config_remap
            { globals_init with
              g_tap_timeout := 200, g_doublepress_timeout := 300,
              layers :=
                and_layer
                  (and_layer
                    (and_layer
                      (and_not_layer
                        (and_layer
                          [new_layer "layer_base", new_layer "layer_gated",
                            new_layer "layer_inverse", new_layer "layer_double",
                            new_layer "layer_tap", new_layer "layer_double_tap"]
                          1 0)
                        2 0)
                      3 0)
                    4 0)
                  5 0 }
            { new_remap KEY_A none [] [] [] [] [] with to_when_press_layer := some 1 })
          { new_remap KEY_B none [] [] [] [] [] with to_when_doublepress_layer := some 3 })
        { new_remap KEY_C none [] [] [] [] [] with
          to_when_tap_lock_layer := [LayerConf.mk 4 .toggle_layer_lock] })
      { new_remap KEY_J none [] [] [] [] [] with
        to_when_double_tap_lock_layer := [LayerConf.mk 5 .set_layer_lock] })

/-- The engine after the given events from the configuration `c9_engine`. -/
def c9_after (events : List KeyEvent) : Engine :=
  ((run_events 7 c9_engine events).getD ([], c9_engine)).2

/-- Two layers: `layer1` (layer 0) is the and-master of `layer2` (layer 1);
the rule `remap_key=CAPSLOCK`, `when_press=layer1`. -/
def c9_chain_engine : Engine :=
  load_config_line_eof
    (config_remap
      { globals_init with layers := and_layer [new_layer "layer1", new_layer "layer2"] 1 0 }
      { new_remap CAPSLOCK none [] [] [] [] [] with to_when_press_layer := some 0 })

/-- The two-layer configuration after a genuine CAPSLOCK DOWN at time 0. -/
def c9_chain_held : Engine :=
  ((handle_input 3 CAPSLOCK.scan_code CAPSLOCK.virt_code .DOWN 0 false 0 0
    c9_chain_engine).getD (0, c9_chain_engine)).2
/-! ## Well-formedness of the layer graph -/

/-- Pointer validity of the slave lists: every slave entry is a layer of
the arena. -/
def SlavesValid (ls : List Layer) : Prop :=
  ∀ i, i < ls.length → ∀ j ∈ (layerAt ls i).and_slave_layers, j < ls.length

/-- Every master and and-not-master edge has its mirror entry in the
master's slave list, as `and_layer` and `and_not_layer` create them. -/
def Mirrored (ls : List Layer) : Prop :=
  ∀ i, i < ls.length →
    ∀ p ∈ (layerAt ls i).and_master_layers ++ (layerAt ls i).and_not_master_layers,
      i ∈ (layerAt ls p).and_slave_layers

/-- The layer graph is acyclic: the layers can be numbered, with numbers
below the number of layers, so that every slave has a smaller number than
its master. -/
def Acyclic (ls : List Layer) : Prop :=
  ∃ rank : Nat → Nat, (∀ i, i < ls.length → rank i < ls.length) ∧
    ∀ i, i < ls.length → ∀ j ∈ (layerAt ls i).and_slave_layers, rank j < rank i

/-- Layer `b` is reachable from layer `a` through one or more
`and_slave_layers` edges. -/
def Reach (ls : List Layer) (a b : Nat) : Prop :=
  Relation.TransGen (fun x y => y ∈ (layerAt ls x).and_slave_layers) a b

/-- The guard of a layer holds: every and-master has state 1 and every
and-not-master has state 0. -/
def MastersSatisfied (ls : List Layer) (l : Nat) : Prop :=
  (∀ m ∈ (layerAt ls l).and_master_layers, (layerAt ls m).state = 1) ∧
    (∀ m ∈ (layerAt ls l).and_not_master_layers, (layerAt ls m).state = 0)

/-- A layer with its state cleared. -/
def stripState (l : Layer) : Layer := { l with state := 0 }

/-- The two layer arenas agree on everything but the `state` fields. -/
def SameButState (ls ls' : List Layer) : Prop :=
  ls'.map stripState = ls.map stripState

/-- The state of a layer agrees with its guard: 1 when the guard holds, the
lock otherwise (the value `set_layer_state` gives a slave). -/
def Consistent (ls : List Layer) (l : Nat) : Prop :=
  (layerAt ls l).state = if all_master_active ls l then 1 else (layerAt ls l).lock

/-- The layer graph is well formed: slave pointers are valid, master edges
are mirrored, and the graph is acyclic. -/
def LayersOK (ls : List Layer) : Prop :=
  SlavesValid ls ∧ Mirrored ls ∧ Acyclic ls

/-- A layer with its three runtime fields cleared: what is left is the name
and the graph. -/
def stripRuntime (l : Layer) : Layer := { l with state := 0, lock := 0, prev_lock := 0 }

/-- The two layer arenas have the same names and the same graph. -/
def SameGraph (ls ls' : List Layer) : Prop :=
  ls'.map stripRuntime = ls.map stripRuntime

/-- Every `state`, `lock` and `prev_lock` field is 0 or 1. -/
def BinaryLayers (ls : List Layer) : Prop :=
  ∀ i, ((layerAt ls i).state = 0 ∨ (layerAt ls i).state = 1) ∧
    ((layerAt ls i).lock = 0 ∨ (layerAt ls i).lock = 1) ∧
    ((layerAt ls i).prev_lock = 0 ∨ (layerAt ls i).prev_lock = 1)

/-- Effect on the layers of a sequence of operations applied to layers that
satisfy `T` only: the graph is kept, every layer outside `T` keeps its lock
fields and stays consistent with its guard if it was, and the fields stay 0
or 1 if they were. -/
def LayersStep (T : Nat → Prop) (ls ls' : List Layer) : Prop :=
  SameGraph ls ls' ∧
    (∀ L, ¬ T L →
      (layerAt ls' L).lock = (layerAt ls L).lock ∧
      (layerAt ls' L).prev_lock = (layerAt ls L).prev_lock ∧
      (Consistent ls L → Consistent ls' L)) ∧
    (BinaryLayers ls → BinaryLayers ls')

/-! ## Chords as event sequences -/

/-- The down-chord of a binding: one DOWN per key, in configured order,
tagged with the remap id. -/
def chord_down (head : List KeyDef) (remap_id : Nat) : List SentInput :=
  head.map fun k => SentInput.mk k.scan_code k.virt_code .DOWN remap_id

/-- The up-chord of a binding: one UP per key, in reverse order. -/
def chord_up (head : List KeyDef) (remap_id : Nat) : List SentInput :=
  head.reverse.map fun k => SentInput.mk k.scan_code k.virt_code .UP remap_id

/-- The layers a remap acts on: its press layer, its doublepress layer and
the layers of its two lock-action lists. -/
def RemapTargets (r : Remap) (L : Nat) : Prop :=
  r.to_when_press_layer = some L ∨ r.to_when_doublepress_layer = some L ∨
    (∃ c ∈ r.to_when_tap_lock_layer, c.layer = L) ∨
    (∃ c ∈ r.to_when_double_tap_lock_layer, c.layer = L)

/-- What the tap-lock block sends when it toggles the lock of a remap:
nothing without a `to_when_tap_lock` binding, the up-chord of the binding
when the lock was set, its down-chord otherwise. -/
def tap_lock_toggle_events (r : Remap) : List SentInput :=
  if r.to_when_tap_lock = [] then []
  else if r.tap_lock = 1 then chord_up r.to_when_tap_lock r.id
  else chord_down r.to_when_tap_lock r.id

/-- What entering `DOUBLE_TAP` sends for the tap lock: the up-chord of
`to_when_tap_lock` when the lock was set, nothing otherwise. -/
def tap_lock_release_events (r : Remap) : List SentInput :=
  if r.to_when_tap_lock ≠ [] ∧ r.tap_lock = 1 then chord_up r.to_when_tap_lock r.id else []

/-- What the double-tap-lock block sends when it toggles the lock. -/
def double_tap_lock_toggle_events (r : Remap) : List SentInput :=
  if r.to_when_double_tap_lock = [] then []
  else if r.double_tap_lock = 1 then chord_up r.to_when_double_tap_lock r.id
  else chord_down r.to_when_double_tap_lock r.id

/-- A remap with its five runtime fields cleared: what is left is the
rule. -/
def stripRemap (r : Remap) : Remap :=
  { r with tap_lock := 0, double_tap_lock := 0, state := .IDLE, time := 0,
           active_modifiers := 0 }

/-- The two remaps are the same rule; they may differ in the runtime
fields. -/
def SameRule (r r' : Remap) : Prop := stripRemap r' = stripRemap r

/-- Record `r'` is rule `r` in the given state with the given lock bits. -/
def RemapIs (r r' : Remap) (state : State) (tap_lock double_tap_lock : Int) : Prop :=
  SameRule r r' ∧ r'.state = state ∧ r'.tap_lock = tap_lock ∧
    r'.double_tap_lock = double_tap_lock


/-! ## Reachable states and the layer invariant -/

/-- The two remap arenas hold the same rules, index by index. -/
def SameRules (rs rs' : List Remap) : Prop :=
  rs'.map stripRemap = rs.map stripRemap

/-- Layer `L` is acted on by some rule of the arena: it is the press layer,
the doublepress layer or a lock-action layer of a remap. -/
def AnyTarget (rs : List Remap) (L : Nat) : Prop :=
  ∃ n, RemapTargets (remapAt rs n) L

/-- The invariant of the spec for one layer: the state is 1 exactly when the
guard holds, and it is the lock otherwise. -/
def LayerInvariant (ls : List Layer) (L : Nat) : Prop :=
  ((layerAt ls L).state = 1 ↔ MastersSatisfied ls L) ∧
    (¬ MastersSatisfied ls L → (layerAt ls L).state = (layerAt ls L).lock)

/-- A loaded configuration, as far as the layers go: the graph is well
formed and every layer has `state`, `lock` and `prev_lock` 0, as `new_layer`
creates it. -/
def Loaded (e : Engine) : Prop :=
  LayersOK e.layers ∧
    ∀ i, (layerAt e.layers i).state = 0 ∧ (layerAt e.layers i).lock = 0 ∧
      (layerAt e.layers i).prev_lock = 0

/-- The states reachable from `e0` through calls of `handle_input` that
return, each run with fuel above the number of layers. -/
inductive Reachable (e0 : Engine) : Engine → Prop
  | start : Reachable e0 e0
  | event (e e' : Engine) (fuel scan_code virt_code : Nat) (direction : Direction)
      (time : Nat) (is_injected : Bool) (flags dwExtraInfo : Nat) (block_input : Int) :
      Reachable e0 e → e.layers.length < fuel →
      handle_input fuel scan_code virt_code direction time is_injected flags dwExtraInfo e =
        some (block_input, e') →
      Reachable e0 e'

/-- What the proof of the layer invariant carries along the events: the
graph, the rules and the registry of the configuration are kept, the layer
fields are 0 or 1, and every layer no rule acts on has lock 0 and, when it
has an and-master, agrees with its guard. -/
def LayerInv (e0 e : Engine) : Prop :=
  SameGraph e0.layers e.layers ∧ SameRules e0.remaps e.remaps ∧
    (∀ L, ¬ AnyTarget e0.remaps L →
      (layerAt e.layers L).lock = 0 ∧
        ((layerAt e.layers L).and_master_layers ≠ [] → Consistent e.layers L)) ∧
    BinaryLayers e.layers ∧ e.g_remap_array = e0.g_remap_array

/-- The registry of a loaded configuration: the end-of-file call
`load_config_line(NULL)` has distributed the registered remaps of `pre` over
the 256 initially empty buckets. -/
def LoadedRegistry (e0 : Engine) : Prop :=
  ∃ pre : Engine, pre.g_remap_array = List.replicate 256 [] ∧ e0 = load_config_line_eof pre

/-! ## Registration of a list of rules -/

/-- The parser closing the rules of a configuration one after the other:
each parsee is a fresh heap object handed to `register_remap`
(`load_config_line`, lines 1023-1029 and 922-928). The result is the list of
the error codes and the engine. -/
def register_seq (e : Engine) : List Remap → List Int × Engine
  | [] => ([], e)
  | r :: rest =>
    let p := register_remap { e with remaps := e.remaps ++ [r] } e.remaps.length
    let q := register_seq p.2 rest
    (p.1 :: q.1, q.2)

/-- The bucket index of a remap, `from->virt_code & 0xFF` (line 932). -/
def bucket_index (rs : List Remap) (remap : Nat) : Nat :=
  (remapAt rs remap).from_.virt_code &&& 0xFF

/-- The state of the registration after `k` rules have been registered in
an arena that held `b` objects before: the registration list is the `k` new
objects in order, the `j`-th of them (from 0) has id `j + 1` and is entry
`j + 1` of `g_remap_by_id`, and no other entry is set. -/
def Registered (e : Engine) (b k : Nat) : Prop :=
  e.g_remap_list = List.range' b k ∧ e.remaps.length = b + k ∧
    e.g_remap_by_id.length = 256 ∧
    (∀ j, j < k → (remapAt e.remaps (b + j)).id = j + 1 ∧
      e.g_remap_by_id.getD (j + 1) none = some (b + j)) ∧
    (∀ m, m = 0 ∨ k < m → e.g_remap_by_id.getD m none = none)

/-- Configuration of the failing input of C13: `tap_timeout=200`,
`doublepress_timeout=300`, `remap_key=KEY_J`, `when_alone=KEY_A`,
`when_doublepress=KEY_A`, `when_doublepress=KEY_A` (the chord A, A). -/
def c13_engine : Engine :=
  load_config_line_eof
    (config_remap { globals_init with g_tap_timeout := 200, g_doublepress_timeout := 300 }
      (new_remap KEY_J none [KEY_A] [] [KEY_A, KEY_A] [] []))

/-- Configuration with a `with_other` chord of non-modifier keys:
`tap_timeout=200`, `remap_key=CAPSLOCK`, `when_alone=ESCAPE`,
`with_other=KEY_B`. -/
def c14_engine : Engine :=
  load_config_line_eof
    (config_remap { globals_init with g_tap_timeout := 200 }
      (new_remap CAPSLOCK none [ESCAPE] [KEY_B] [] [] []))

/-- The S1 configuration after a genuine CAPSLOCK DOWN at time 0: the rule
(id 1) is in `HELD_DOWN_ALONE` and on the active list. -/
def c19_engine : Engine :=
  ((handle_input 1 CAPSLOCK.scan_code CAPSLOCK.virt_code .DOWN 0 false 0 0 s1_engine).getD
    (0, s1_engine)).2

/-! ## The ring of synthesized events (`input.h`, `keyboard_remapper.c`)

The functions of `input.h` are modelled as one thread executes them when no
other thread is inside the ring: the compare-and-swap succeeds at once, and a
wait loop `while (old.pos.head != old.pos.tail)` that finds the two
positions different never ends (the result is `none`). The positions are
`uint32_t` values, kept below `2^32`. -/

/-- Macro `INPUT_BUFFER_SIZE`. -/
def INPUT_BUFFER_SIZE : Nat := 16

/-- Macro `INPUT_BUFFER_MASK`, `(INPUT_BUFFER_SIZE-1)`. -/
def INPUT_BUFFER_MASK : Nat := INPUT_BUFFER_SIZE - 1

/-- Constant `INPUT_MOUSE` of the Windows SDK. -/
def INPUT_MOUSE : Nat := 0
/-- Constant `INPUT_KEYBOARD` of the Windows SDK. -/
def INPUT_KEYBOARD : Nat := 1
/-- Constant `KEYEVENTF_EXTENDEDKEY` of the Windows SDK. -/
def KEYEVENTF_EXTENDEDKEY : Nat := 0x0001
/-- Constant `KEYEVENTF_KEYUP` of the Windows SDK. -/
def KEYEVENTF_KEYUP : Nat := 0x0002
/-- Constant `KEYEVENTF_SCANCODE` of the Windows SDK. -/
def KEYEVENTF_SCANCODE : Nat := 0x0008
/-- Constant `MOUSEEVENTF_MOVE` of the Windows SDK. -/
def MOUSEEVENTF_MOVE : Nat := 0x0001
/-- Constant `MOUSEEVENTF_LEFTDOWN` of the Windows SDK. -/
def MOUSEEVENTF_LEFTDOWN : Nat := 0x0002
/-- Constant `MOUSEEVENTF_LEFTUP` of the Windows SDK. -/
def MOUSEEVENTF_LEFTUP : Nat := 0x0004
/-- Constant `MOUSEEVENTF_RIGHTDOWN` of the Windows SDK. -/
def MOUSEEVENTF_RIGHTDOWN : Nat := 0x0008
/-- Constant `MOUSEEVENTF_RIGHTUP` of the Windows SDK. -/
def MOUSEEVENTF_RIGHTUP : Nat := 0x0010
/-- Constant `MOUSEEVENTF_MIDDLEDOWN` of the Windows SDK. -/
def MOUSEEVENTF_MIDDLEDOWN : Nat := 0x0020
/-- Constant `MOUSEEVENTF_MIDDLEUP` of the Windows SDK. -/
def MOUSEEVENTF_MIDDLEUP : Nat := 0x0040
/-- Constant `MOUSEEVENTF_XDOWN` of the Windows SDK. -/
def MOUSEEVENTF_XDOWN : Nat := 0x0080
/-- Constant `MOUSEEVENTF_XUP` of the Windows SDK. -/
def MOUSEEVENTF_XUP : Nat := 0x0100
/-- Constant `MOUSEEVENTF_WHEEL` of the Windows SDK. -/
def MOUSEEVENTF_WHEEL : Nat := 0x0800
/-- Constant `MOUSEEVENTF_HWHEEL` of the Windows SDK. -/
def MOUSEEVENTF_HWHEEL : Nat := 0x1000
/-- Constant `XBUTTON1` of the Windows SDK. -/
def XBUTTON1 : Nat := 0x0001
/-- Constant `XBUTTON2` of the Windows SDK. -/
def XBUTTON2 : Nat := 0x0002

/-- The Windows record `INPUT`, as far as this program writes it: the `type`
and the fields of the `ki` and `mi` members of its union, side by side. A
record is zeroed and then written through one member only. -/
structure INPUT where
  type : Nat
  wVk : Nat
  wScan : Nat
  dwFlags : Nat
  time : Nat
  dwExtraInfo : Nat
  dx : Int
  dy : Int
  mouseData : Int
deriving DecidableEq, Repr, Inhabited

/-- The two positions of `union rte_ring_hts_headtail`. -/
structure rte_ring_hts_headtail where
  head : Nat
  tail : Nat
deriving DecidableEq, Repr, Inhabited

/-- Ring `struct InputBuffer`; the array `inputs` is declared with
`INPUT_BUFFER_SIZE + INPUT_BUFFER_SIZE-2` slots. -/
structure InputBuffer where
  inputs : List INPUT
  prod : rte_ring_hts_headtail
  cons : rte_ring_hts_headtail
deriving DecidableEq, Repr, Inhabited

/-- Function `input_buffer_init`. -/
def input_buffer_init (input_buffer : InputBuffer) : InputBuffer :=
  { input_buffer with prod := { head := 0, tail := 0 }, cons := { head := 0, tail := 0 } }

/-- The controlling expression of the full test of
`input_buffer_move_prod_head` (line 51),
`(INPUT_BUFFER_SIZE - 1 + cons.pos.tail - old.pos.head) & INPUT_BUFFER_MASK == 0`.
In C `==` binds tighter than `&`: the right operand of `&` is the value of
`INPUT_BUFFER_MASK == 0`. -/
def prod_full_test (input_buffer : InputBuffer) : Nat :=
  dword_sub (INPUT_BUFFER_SIZE - 1 + input_buffer.cons.tail) input_buffer.prod.head &&&
    (if INPUT_BUFFER_MASK = 0 then 1 else 0)

/-- Function `input_buffer_move_prod_head`; the result is the return value,
the value of `*old_head` and the ring. -/
def input_buffer_move_prod_head (input_buffer : InputBuffer) (old_head : Nat) :
    Option (Nat × Nat × InputBuffer) :=
  if input_buffer.prod.head ≠ input_buffer.prod.tail then none
  else if prod_full_test input_buffer ≠ 0 then some (0, old_head, input_buffer)
  else
    some (1, input_buffer.prod.head,
      { input_buffer with
        prod := { head := (input_buffer.prod.head + 1) % 4294967296,
                  tail := input_buffer.prod.tail } })

/-- The value `n = (prod.pos.tail - old.pos.head) & INPUT_BUFFER_MASK` of
`input_buffer_move_cons_head`. -/
def cons_n (input_buffer : InputBuffer) : Nat :=
  dword_sub input_buffer.prod.tail input_buffer.cons.head &&& INPUT_BUFFER_MASK

/-- The value `ncont = (INPUT_BUFFER_SIZE - old.pos.head) & INPUT_BUFFER_MASK`
of `input_buffer_move_cons_head`. -/
def cons_ncont (input_buffer : InputBuffer) : Nat :=
  dword_sub INPUT_BUFFER_SIZE input_buffer.cons.head &&& INPUT_BUFFER_MASK

/-- Call `CopyMemory(&inputs[dst], &inputs[src], count*sizeof(INPUT))`: the
slots `src .. src+count-1` are read and written to `dst .. dst+count-1`. -/
def CopyMemory (inputs : List INPUT) (dst src count : Nat) : List INPUT :=
  (List.range count).foldl (fun acc i => acc.set (dst + i) (inputs.getD (src + i) default))
    inputs

/-- The number of slots the wrap copy of `input_buffer_move_cons_head` moves
for a hint below -1 (0 when the copy is not made). -/
def wrap_copy_count (input_buffer : InputBuffer) : Nat :=
  if cons_n input_buffer > cons_ncont input_buffer ∧ cons_ncont input_buffer > 0 then
    cons_n input_buffer - cons_ncont input_buffer
  else 0

/-- Function `input_buffer_move_cons_head`; the result is the return value,
the value of `*old_head` and the ring. -/
def input_buffer_move_cons_head (input_buffer : InputBuffer) (num : Int) (old_head : Nat) :
    Option (Nat × Nat × InputBuffer) :=
  if input_buffer.cons.head ≠ input_buffer.cons.tail then none
  else
    let n := cons_n input_buffer
    let ncont := cons_ncont input_buffer
    let p : Nat × List INPUT :=
      if num < 0 then
        if n > ncont ∧ ncont > 0 then
          if num < -1 then
            (n, CopyMemory input_buffer.inputs INPUT_BUFFER_SIZE 0 (n - ncont))
          else (ncont, input_buffer.inputs)
        else (n, input_buffer.inputs)
      else if (n : Int) > num then (num.toNat, input_buffer.inputs)
      else (n, input_buffer.inputs)
    if p.1 = 0 then some (0, old_head, { input_buffer with inputs := p.2 })
    else
      some (p.1, input_buffer.cons.head,
        { input_buffer with
          inputs := p.2,
          cons := { head := (input_buffer.cons.head + p.1) % 4294967296,
                    tail := input_buffer.cons.tail } })

/-- Function `input_buffer_update_tail`. -/
def input_buffer_update_tail (ht : rte_ring_hts_headtail) (old_tail n : Nat) :
    rte_ring_hts_headtail :=
  { ht with tail := (old_tail + n) % 4294967296 }

/-- Function `input_buffer_count`. -/
def input_buffer_count (input_buffer : InputBuffer) : Nat :=
  dword_sub input_buffer.prod.tail input_buffer.cons.tail &&& INPUT_BUFFER_MASK

/-- Function `input_buffer_free_count`. -/
def input_buffer_free_count (input_buffer : InputBuffer) : Nat :=
  dword_sub (INPUT_BUFFER_SIZE - 1) (input_buffer_count input_buffer)

/-- Function `input_buffer_full`. -/
def input_buffer_full (input_buffer : InputBuffer) : Bool :=
  input_buffer_free_count input_buffer == 0

/-- Function `input_buffer_empty`. -/
def input_buffer_empty (input_buffer : InputBuffer) : Bool :=
  input_buffer.prod.tail == input_buffer.cons.tail

/-- The producer sequence of `send_input` (lines 36-39 and 56), also used by
`buttons_send`, `move_send` and `mouse_callback`: reserve one slot, return
when none is granted, write the record to slot `tail & INPUT_BUFFER_MASK`,
publish. The result says whether the reservation succeeded. -/
def put_input (input_buffer : InputBuffer) (item : INPUT) : Option (Bool × InputBuffer) :=
  match input_buffer_move_prod_head input_buffer 0 with
  | none => none
  | some (n, tail, ib1) =>
    if n = 0 then some (false, ib1)
    else
      some (true,
        { ib1 with
          inputs := ib1.inputs.set (tail &&& INPUT_BUFFER_MASK) item,
          prod := input_buffer_update_tail ib1.prod tail n })

/-- Successive records of one sender: the next slot is reserved after the
previous record is published, and the sender returns at the first
reservation that fails. -/
def put_inputs (input_buffer : InputBuffer) : List INPUT → Option InputBuffer
  | [] => some input_buffer
  | item :: rest =>
    match put_input input_buffer item with
    | none => none
    | some (true, ib1) => put_inputs ib1 rest
    | some (false, ib1) => some ib1

/-- One pass of the loop of `send_input_thread` (lines 223-228): reserve
with hint -2, hand the granted run `inputs[index .. index+n-1]` to
`SendInput`, publish. The result is the run and the ring. -/
def drain_once (input_buffer : InputBuffer) : Option (List INPUT × InputBuffer) :=
  match input_buffer_move_cons_head input_buffer (-2) 0 with
  | none => none
  | some (n, tail, ib1) =>
    if n > 0 then
      some ((List.range n).map
          (fun i => ib1.inputs.getD ((tail &&& INPUT_BUFFER_MASK) + i) default),
        { ib1 with cons := input_buffer_update_tail ib1.cons tail n })
    else some ([], ib1)

/-- The record `send_input` writes for a key (`virt_code` nonzero, lines
40-55); `g_scancode` is the global of `remap.c`. -/
def send_input_record (g_scancode : Int) (scan_code virt_code : Nat) (direction : Direction)
    (remap_id : Nat) : INPUT :=
  { type := INPUT_KEYBOARD,
    time := 0,
    dwExtraInfo := INJECTED_KEY_ID ||| remap_id,
    wScan := scan_code % 65536,
    wVk := (if g_scancode ≠ 0 ∧ scan_code ≠ 0 then 0 else virt_code) % 65536,
    dwFlags :=
      (if direction = .UP then KEYEVENTF_KEYUP else 0) |||
      (if scan_code >>> 8 = 0xE0 then KEYEVENTF_EXTENDEDKEY else 0) |||
      (if g_scancode ≠ 0 ∧ scan_code ≠ 0 then KEYEVENTF_SCANCODE else 0),
    dx := 0, dy := 0, mouseData := 0 }

/-- The branch `if (virt_code)` of `send_input` of `keyboard_remapper.c`. -/
def send_input_key (g_scancode : Int) (scan_code virt_code : Nat) (direction : Direction)
    (remap_id : Nat) (input_buffer : InputBuffer) : Option InputBuffer :=
  put_inputs input_buffer [send_input_record g_scancode scan_code virt_code direction remap_id]

/-- The start of a mouse record in `buttons_send` and `move_send`:
`ZeroMemory`, `type = INPUT_MOUSE`,
`mi.dwExtraInfo = (ULONG_PTR)INJECTED_KEY_ID | remap_id`. -/
def mouse_record (remap_id : Nat) : INPUT :=
  { type := INPUT_MOUSE, wVk := 0, wScan := 0, dwFlags := 0, time := 0,
    dwExtraInfo := INJECTED_KEY_ID ||| remap_id, dx := 0, dy := 0, mouseData := 0 }

/-- The block of `buttons_send` for one of the buttons 1 to 4 (bit `bit`):
when the button changed, its down or up flag is set, with `data` or-ed into
`mouseData`. -/
def button_flags (buttons last_buttons bit down up data : Nat) (r : INPUT) : INPUT :=
  if (buttons ^^^ last_buttons) &&& (1 <<< bit) ≠ 0 then
    if buttons &&& (1 <<< bit) ≠ 0 then
      { r with dwFlags := r.dwFlags ||| down,
               mouseData := ((r.mouseData.toNat ||| data : Nat) : Int) }
    else
      { r with dwFlags := r.dwFlags ||| up,
               mouseData := ((r.mouseData.toNat ||| data : Nat) : Int) }
  else r

/-- The records `buttons_send` writes, in order: one record for the buttons
1 to 5, or, when buttons 4 and 5 both changed, one for the buttons 1 to 4
and a second one for button 5. -/
def buttons_send_records (buttons last_buttons remap_id : Nat) : List INPUT :=
  let r4 :=
    button_flags buttons last_buttons 3 MOUSEEVENTF_XDOWN MOUSEEVENTF_XUP XBUTTON1
      (button_flags buttons last_buttons 2 MOUSEEVENTF_MIDDLEDOWN MOUSEEVENTF_MIDDLEUP 0
        (button_flags buttons last_buttons 1 MOUSEEVENTF_RIGHTDOWN MOUSEEVENTF_RIGHTUP 0
          (button_flags buttons last_buttons 0 MOUSEEVENTF_LEFTDOWN MOUSEEVENTF_LEFTUP 0
            (mouse_record remap_id))))
  if (buttons ^^^ last_buttons) &&& (1 <<< 4) ≠ 0 then
    if (buttons ^^^ last_buttons) &&& (1 <<< 3) ≠ 0 then
      [r4,
        button_flags buttons last_buttons 4 MOUSEEVENTF_XDOWN MOUSEEVENTF_XUP XBUTTON2
          (mouse_record remap_id)]
    else
      [button_flags buttons last_buttons 4 MOUSEEVENTF_XDOWN MOUSEEVENTF_XUP XBUTTON2 r4]
  else [r4]

/-- Function `buttons_send` of `mouse.c`, for the masks `state->buttons` and
`state->last_buttons`. -/
def buttons_send (buttons last_buttons remap_id : Nat) (input_buffer : InputBuffer) :
    Option InputBuffer :=
  put_inputs input_buffer (buttons_send_records buttons last_buttons remap_id)

/-- The report `state->report` of `mouse.c`. -/
structure report_mouse_t where
  x : Int
  y : Int
  v : Int
  h : Int
deriving DecidableEq, Repr, Inhabited

/-- The records `move_send` writes (lines 187-193 and 243-267), for the
report its floating-point part has computed: one record with the movement
and the wheel, or, when both wheels moved, a second one for the horizontal
wheel. -/
def move_send_records (report : report_mouse_t) (remap_id : Nat) : List INPUT :=
  let r0 := mouse_record remap_id
  let r1 :=
    if report.x ≠ 0 ∨ report.y ≠ 0 then
      { r0 with dx := report.x, dy := report.y, dwFlags := r0.dwFlags ||| MOUSEEVENTF_MOVE }
    else r0
  let r2 :=
    if report.v ≠ 0 then
      { r1 with mouseData := report.v, dwFlags := r1.dwFlags ||| MOUSEEVENTF_WHEEL }
    else r1
  if report.h ≠ 0 then
    if report.v ≠ 0 then
      [r2,
        { mouse_record remap_id with
          mouseData := report.h,
          dwFlags := (mouse_record remap_id).dwFlags ||| MOUSEEVENTF_HWHEEL }]
    else [{ r2 with mouseData := report.h, dwFlags := r2.dwFlags ||| MOUSEEVENTF_HWHEEL }]
  else [r2]

/-- The ring part of function `move_send` of `mouse.c`, for the report its
floating-point part has computed. -/
def move_send (report : report_mouse_t) (remap_id : Nat) (input_buffer : InputBuffer) :
    Option InputBuffer :=
  put_inputs input_buffer (move_send_records report remap_id)

/-- One operation on the ring: a producer putting a record, or one pass of
the consumer. -/
inductive RingOp where
  | put (item : INPUT)
  | drain
deriving DecidableEq, Repr

/-- The outcome of a run of ring operations: the records whose reservation
succeeded, in reservation order, the records the consumer has read, in
order, and the ring. -/
structure RingRun where
  reserved : List INPUT
  consumed : List INPUT
  ring : InputBuffer
deriving DecidableEq, Repr

/-- A sequence of ring operations, one after the other. -/
def run_ring : RingRun → List RingOp → Option RingRun
  | s, [] => some s
  | s, .put item :: rest =>
    match put_input s.ring item with
    | none => none
    | some (true, ib1) =>
      run_ring { s with reserved := s.reserved ++ [item], ring := ib1 } rest
    | some (false, ib1) => run_ring { s with ring := ib1 } rest
  | s, .drain :: rest =>
    match drain_once s.ring with
    | none => none
    | some (run, ib1) => run_ring { s with consumed := s.consumed ++ run, ring := ib1 } rest

/-- The records still in the ring: the `input_buffer_count` records at the
ring positions `cons.tail`, `cons.tail + 1`, ... -/
def ring_contents (input_buffer : InputBuffer) : List INPUT :=
  (List.range (input_buffer_count input_buffer)).map
    (fun i => input_buffer.inputs.getD ((input_buffer.cons.tail + i) &&& INPUT_BUFFER_MASK)
      default)

/-- An empty ring: 30 zeroed slots, after `input_buffer_init`. -/
def ring_init : InputBuffer :=
  input_buffer_init
    { inputs := List.replicate (INPUT_BUFFER_SIZE + INPUT_BUFFER_SIZE - 2) default,
      prod := default, cons := default }

/-- A key record that is told apart by its virtual code: what `send_input`
writes for `virt_code = k`, scan code 0, DOWN, remap id 0. -/
def key_item (k : Nat) : INPUT := send_input_record 0 0 k .DOWN 0

/-- The operations `put (key_item first)`, ..., `put (key_item (first + count - 1))`. -/
def puts (first count : Nat) : List RingOp :=
  (List.range count).map fun k => RingOp.put (key_item (first + k))

/-- The outcome of a run of ring operations from the empty ring. -/
def ring_after (ops : List RingOp) : RingRun :=
  (run_ring { reserved := [], consumed := [], ring := ring_init } ops).getD
    { reserved := [], consumed := [], ring := ring_init }

/-- The ring after 15 records were put into the empty ring: it is full. -/
def ring_full : InputBuffer := (ring_after (puts 1 15)).ring

/-- A ring whose 10 records wrap around the end of the array: 12 records
put and drained, then 10 records put. -/
def ring_wrapped : InputBuffer :=
  (ring_after (puts 1 12 ++ [RingOp.drain] ++ puts 21 10)).ring

/-- No record is put into a full ring during the run: at every `put` the
ring is not `input_buffer_full`. -/
def never_full : RingRun → List RingOp → Bool
  | _, [] => true
  | s, .put item :: rest =>
    !input_buffer_full s.ring &&
      (match put_input s.ring item with
       | none => true
       | some (true, ib1) =>
         never_full { s with reserved := s.reserved ++ [item], ring := ib1 } rest
       | some (false, ib1) => never_full { s with ring := ib1 } rest)
  | s, .drain :: rest =>
    match drain_once s.ring with
    | none => true
    | some (run, ib1) => never_full { s with consumed := s.consumed ++ run, ring := ib1 } rest

/-- A run state in which both sides of the ring are at rest, the producer
is at most 15 records ahead of the consumer, and the records read so far
followed by the records in the ring are the records reserved so far. -/
def RingInv (s : RingRun) : Prop :=
  s.ring.prod.head = s.ring.prod.tail ∧ s.ring.cons.head = s.ring.cons.tail ∧
    s.ring.prod.tail < 4294967296 ∧ s.ring.cons.tail < 4294967296 ∧
    s.ring.inputs.length = INPUT_BUFFER_SIZE + INPUT_BUFFER_SIZE - 2 ∧
    dword_sub s.ring.prod.tail s.ring.cons.tail ≤ INPUT_BUFFER_SIZE - 1 ∧
    s.consumed ++ ring_contents s.ring = s.reserved

/-! ## The unlock check of `handle_input` -/

/-- The part of `handle_input` that follows the unlock check (lines
850-894), run on the engine `e1` the check leaves. -/
def handle_input_tail (fuel : Nat) (virt_code : Nat) (direction : Direction) (time : Nat)
    (is_injected : Bool) (dwExtraInfo : Nat) (e1 : Engine) : Option (Int × Engine) :=
  if is_injected = true ∧
      (dwExtraInfo &&& 0xFFFFFF00 ≠ INJECTED_KEY_ID ∨ dwExtraInfo = INJECTED_KEY_ID) then
    if e1.g_rehook_timeout > 0 ∧ dword_sub time e1.g_last_input > u32 e1.g_rehook_timeout then
      some (0, { e1 with rehooks := e1.rehooks + 1, g_last_input := time % 4294967296 })
    else some (0, e1)
  else
    let e2 := { e1 with g_last_input := time % 4294967296 }
    if is_injected = true then
      event_other_input fuel virt_code direction time (dwExtraInfo &&& 0xFF) e2
    else
      match remap_for_input e2 virt_code with
      | some r =>
        if direction = .UP then event_remapped_key_up fuel r time e2
        else event_remapped_key_down fuel r time e2
      | none => event_other_input fuel virt_code direction time 0 e2

/-- The S1 configuration after a genuine CAPSLOCK DOWN at time 100: the
rule is in `HELD_DOWN_ALONE`, on the active list, and `g_last_input` is
100. -/
def c22_engine : Engine :=
  ((handle_input 1 CAPSLOCK.scan_code CAPSLOCK.virt_code .DOWN 100 false 0 0 s1_engine).getD
    (0, s1_engine)).2

/-! ## Chords -/

/-- The table `key_table` of `keys.c`, the rows `find_key_def_by_name`
returns: every key of a chord is one of them. -/
def key_table : List KeyDef := [
  KeyDef.mk "CTRL" 0x001D 0xA2 0x01,
  KeyDef.mk "LEFT_CTRL" 0x001D 0xA2 0x01,
  KeyDef.mk "RIGHT_CTRL" 0xE01D 0xA3 0x02,
  KeyDef.mk "SHIFT" 0x002A 0xA0 0x04,
  KeyDef.mk "LEFT_SHIFT" 0x002A 0xA0 0x04,
  KeyDef.mk "RIGHT_SHIFT" 0x0036 0xA1 0x08,
  KeyDef.mk "ALT" 0x0038 0xA4 0x10,
  KeyDef.mk "LEFT_ALT" 0x0038 0xA4 0x10,
  KeyDef.mk "RIGHT_ALT" 0xE038 0xA5 0x20,
  KeyDef.mk "LEFT_WIN" 0xE05B 0x5B 0x40,
  KeyDef.mk "RIGHT_WIN" 0xE05C 0x5C 0x80,
  KeyDef.mk "BACKSPACE" 0x000E 0x08 0x00,
  KeyDef.mk "CAPSLOCK" 0x003A 0x14 0x00,
  KeyDef.mk "ENTER" 0x001C 0x0D 0x00,
  KeyDef.mk "ESCAPE" 0x0001 0x1B 0x00,
  KeyDef.mk "SPACE" 0x0039 0x20 0x00,
  KeyDef.mk "TAB" 0x000F 0x09 0x00,
  KeyDef.mk "UP" 0x0048 0x26 0x00,
  KeyDef.mk "LEFT" 0x004B 0x25 0x00,
  KeyDef.mk "RIGHT" 0x004D 0x27 0x00,
  KeyDef.mk "DOWN" 0x0050 0x28 0x00,
  KeyDef.mk "F1" 0x003B 0x70 0x00,
  KeyDef.mk "F2" 0x003C 0x71 0x00,
  KeyDef.mk "F3" 0x003D 0x72 0x00,
  KeyDef.mk "F4" 0x003E 0x73 0x00,
  KeyDef.mk "F5" 0x003F 0x74 0x00,
  KeyDef.mk "F6" 0x0040 0x75 0x00,
  KeyDef.mk "F7" 0x0041 0x76 0x00,
  KeyDef.mk "F8" 0x0042 0x77 0x00,
  KeyDef.mk "F9" 0x0043 0x78 0x00,
  KeyDef.mk "F10" 0x0044 0x79 0x00,
  KeyDef.mk "F11" 0x0057 0x7A 0x00,
  KeyDef.mk "F12" 0x0058 0x7B 0x00,
  KeyDef.mk "F13" 0x0064 0x7C 0x00,
  KeyDef.mk "F14" 0x0065 0x7D 0x00,
  KeyDef.mk "F15" 0x0066 0x7E 0x00,
  KeyDef.mk "F16" 0x0067 0x7F 0x00,
  KeyDef.mk "F17" 0x0068 0x80 0x00,
  KeyDef.mk "F18" 0x0069 0x81 0x00,
  KeyDef.mk "F19" 0x006A 0x82 0x00,
  KeyDef.mk "F20" 0x006B 0x83 0x00,
  KeyDef.mk "F21" 0x006C 0x84 0x00,
  KeyDef.mk "F22" 0x006D 0x85 0x00,
  KeyDef.mk "F23" 0x006E 0x86 0x00,
  KeyDef.mk "F24" 0x0076 0x87 0x00,
  KeyDef.mk "KEY_0" 0x000B 0x30 0x00,
  KeyDef.mk "KEY_1" 0x0002 0x31 0x00,
  KeyDef.mk "KEY_2" 0x0003 0x32 0x00,
  KeyDef.mk "KEY_3" 0x0004 0x33 0x00,
  KeyDef.mk "KEY_4" 0x0005 0x34 0x00,
  KeyDef.mk "KEY_5" 0x0006 0x35 0x00,
  KeyDef.mk "KEY_6" 0x0007 0x36 0x00,
  KeyDef.mk "KEY_7" 0x0008 0x37 0x00,
  KeyDef.mk "KEY_8" 0x0009 0x38 0x00,
  KeyDef.mk "KEY_9" 0x000A 0x39 0x00,
  KeyDef.mk "KEY_A" 0x001E 0x41 0x00,
  KeyDef.mk "KEY_B" 0x0030 0x42 0x00,
  KeyDef.mk "KEY_C" 0x002E 0x43 0x00,
  KeyDef.mk "KEY_D" 0x0020 0x44 0x00,
  KeyDef.mk "KEY_E" 0x0012 0x45 0x00,
  KeyDef.mk "KEY_F" 0x0021 0x46 0x00,
  KeyDef.mk "KEY_G" 0x0022 0x47 0x00,
  KeyDef.mk "KEY_H" 0x0023 0x48 0x00,
  KeyDef.mk "KEY_I" 0x0017 0x49 0x00,
  KeyDef.mk "KEY_J" 0x0024 0x4A 0x00,
  KeyDef.mk "KEY_K" 0x0025 0x4B 0x00,
  KeyDef.mk "KEY_L" 0x0026 0x4C 0x00,
  KeyDef.mk "KEY_M" 0x0032 0x4D 0x00,
  KeyDef.mk "KEY_N" 0x0031 0x4E 0x00,
  KeyDef.mk "KEY_O" 0x0018 0x4F 0x00,
  KeyDef.mk "KEY_P" 0x0019 0x50 0x00,
  KeyDef.mk "KEY_Q" 0x0010 0x51 0x00,
  KeyDef.mk "KEY_R" 0x0013 0x52 0x00,
  KeyDef.mk "KEY_S" 0x001F 0x53 0x00,
  KeyDef.mk "KEY_T" 0x0014 0x54 0x00,
  KeyDef.mk "KEY_U" 0x0016 0x55 0x00,
  KeyDef.mk "KEY_V" 0x002F 0x56 0x00,
  KeyDef.mk "KEY_W" 0x0011 0x57 0x00,
  KeyDef.mk "KEY_X" 0x002D 0x58 0x00,
  KeyDef.mk "KEY_Y" 0x0015 0x59 0x00,
  KeyDef.mk "KEY_Z" 0x002C 0x5A 0x00,
  KeyDef.mk "INSERT" 0x0052 0x2D 0x00,
  KeyDef.mk "DELETE" 0x0053 0x2E 0x00,
  KeyDef.mk "HOME" 0x0047 0x24 0x00,
  KeyDef.mk "END" 0x004F 0x23 0x00,
  KeyDef.mk "PAGE_UP" 0x0049 0x21 0x00,
  KeyDef.mk "PAGE_DOWN" 0x0051 0x22 0x00,
  KeyDef.mk "PRINT_SCREEN" 0x0000 0x2C 0x00,
  KeyDef.mk "NUMLOCK" 0x0000 0x90 0x00,
  KeyDef.mk "SCROLLLOCK" 0x0000 0x91 0x00,
  KeyDef.mk "PAUSE" 0x0000 0x13 0x00,
  KeyDef.mk "PLUS" 0x000D 0xBB 0x00,
  KeyDef.mk "COMMA" 0x0033 0xBC 0x00,
  KeyDef.mk "MINUS" 0x000C 0xBD 0x00,
  KeyDef.mk "PERIOD" 0x0034 0xBE 0x00,
  KeyDef.mk "US_SEMI" 0x0027 0xBA 0x00,
  KeyDef.mk "US_SLASH" 0x0035 0xBF 0x00,
  KeyDef.mk "US_TILDE" 0x0029 0xC0 0x00,
  KeyDef.mk "MOUSE_UP" 0x0001 0x00 0x00,
  KeyDef.mk "MOUSE_DOWN" 0x0002 0x00 0x00,
  KeyDef.mk "MOUSE_LEFT" 0x0003 0x00 0x00,
  KeyDef.mk "MOUSE_RIGHT" 0x0004 0x00 0x00,
  KeyDef.mk "MOUSE_FORWARD" 0x0005 0x00 0x00,
  KeyDef.mk "MOUSE_BACKWARD" 0x0006 0x00 0x00,
  KeyDef.mk "MOUSE_STEER_LEFT" 0x0007 0x00 0x00,
  KeyDef.mk "MOUSE_STEER_RIGHT" 0x0008 0x00 0x00,
  KeyDef.mk "MOUSE_WHEEL_UP" 0x0009 0x00 0x00,
  KeyDef.mk "MOUSE_WHEEL_DOWN" 0x000A 0x00 0x00,
  KeyDef.mk "MOUSE_WHEEL_LEFT" 0x000B 0x00 0x00,
  KeyDef.mk "MOUSE_WHEEL_RIGHT" 0x000C 0x00 0x00,
  KeyDef.mk "MOUSE_LBUTTON" 0x000D 0x00 0x00,
  KeyDef.mk "MOUSE_RBUTTON" 0x000E 0x00 0x00,
  KeyDef.mk "MOUSE_MBUTTON" 0x000F 0x00 0x00,
  KeyDef.mk "MOUSE_XBUTTON1" 0x0010 0x00 0x00,
  KeyDef.mk "MOUSE_XBUTTON2" 0x0011 0x00 0x00,
  KeyDef.mk "MOUSE_SBUTTON" 0x0012 0x00 0x00,
  KeyDef.mk "MOUSE_SHOLD" 0x0013 0x00 0x00,
  KeyDef.mk "MOUSE_SRELEASE" 0x0014 0x00 0x00,
  KeyDef.mk "MOUSE_LBUTTON_SEL" 0x0015 0x00 0x00,
  KeyDef.mk "MOUSE_RBUTTON_SEL" 0x0016 0x00 0x00,
  KeyDef.mk "MOUSE_MBUTTON_SEL" 0x0017 0x00 0x00,
  KeyDef.mk "MOUSE_XBUTTON1_SEL" 0x0018 0x00 0x00,
  KeyDef.mk "MOUSE_XBUTTON2_SEL" 0x0019 0x00 0x00
]

/-- The test of `send_key_def_input_down` and `send_key_def_input_up` on a
key: its `KEY_ARRAY` modifier bits do not intersect the mask. -/
def key_passes (modifiers_mask : Nat) (cur : KeyDef) : Bool :=
  decide (modifiers_mask &&& (KEY_ARRAY (cur.virt_code &&& 0xFF)).modifier = 0)

/-! ## Other input while a rule is held alone -/

/-- Shape of what a sending block returns: the flag and the trace of a list
of events that carry the id. -/
def SendsTagged (remap_id : Nat) (sent : List SentInput) (s : Nat × List SentInput) : Prop :=
  ∃ evs : List SentInput, s = ((if evs = [] then 0 else 1), sent ++ evs) ∧
    ∀ x ∈ evs, x.remap_id = remap_id

/-! ## The active list -/

/-- The remap holds something: its state is one of `HELD_DOWN_ALONE`,
`HELD_DOWN_WITH_OTHER`, `TAP` and `DOUBLE_TAP`, or one of its lock bits is
set. -/
def Held (r : Remap) : Prop :=
  (r.state ≠ .IDLE ∧ r.state ≠ .TAPPED) ∨ r.tap_lock ≠ 0 ∨ r.double_tap_lock ≠ 0

/-- The invariant of the active list: it has no duplicates and its members
are the remaps that hold something. -/
def ActiveInv (e : Engine) : Prop :=
  e.g_remap_list.Nodup ∧ ∀ n, n ∈ e.g_remap_list ↔ Held (remapAt e.remaps n)

/-- The remaps of a loaded configuration: `new_remap` creates every remap
`IDLE` with both lock bits 0, and the end-of-file call leaves `g_remap_list`
empty. -/
def AtRest (e : Engine) : Prop :=
  e.g_remap_list = [] ∧
    ∀ n, (remapAt e.remaps n).state = .IDLE ∧ (remapAt e.remaps n).tap_lock = 0 ∧
      (remapAt e.remaps n).double_tap_lock = 0

/-- Every entry of the buckets is a remap of the arena. -/
def RegistryInRange (e : Engine) : Prop :=
  ∀ i, ∀ n ∈ e.g_remap_array.getD i [], n < e.remaps.length

/-- The S1 configuration after a tap of CAPSLOCK (DOWN at 0, UP at 50). -/
def c24_engine : Engine :=
  ((run_events 1 s1_engine [genuine CAPSLOCK .DOWN 0, genuine CAPSLOCK .UP 50]).getD
    ([], s1_engine)).2

/-- The configuration `c14_engine` after a genuine CAPSLOCK DOWN at time 0:
the rule is in `TAP` with ESCAPE held down. -/
def c25_engine : Engine :=
  ((handle_input 1 CAPSLOCK.scan_code CAPSLOCK.virt_code .DOWN 0 false 0 0 c14_engine).getD
    (0, c14_engine)).2

/-- The configuration `c7_engine` after KEY_A DOWN at 0, UP at 50 and DOWN
at 100: the rule is in `DOUBLE_TAP` and, having no doublepress binding or
layer, has pressed its `to_when_alone` chord KEY_B as the fallback. -/
def c21_engine : Engine :=
  ((run_events 1 c7_engine
      [genuine KEY_A .DOWN 0, genuine KEY_A .UP 50, genuine KEY_A .DOWN 100]).getD
    ([], c7_engine)).2

/-- Two taps of SPACE, more than the doublepress window apart, followed by
the press that makes the second tap the first half of a double press. -/
def c27_events : List KeyEvent :=
  [genuine SPACE .DOWN 0, genuine SPACE .UP 50, genuine SPACE .DOWN 1000,
    genuine SPACE .UP 1050, genuine SPACE .DOWN 1100]

/-- Configuration with two rules on one press layer: layer 0 is `layer1`;
`remap_key=CAPSLOCK`, `when_alone=ESCAPE`, `with_other=LEFT_CTRL`,
`when_press=layer1` (remap 0); `remap_key=SPACE`, `when_alone=SPACE`,
`when_press=layer1` (remap 1); `tap_timeout=200`. -/
def c28_engine : Engine :=
  load_config_line_eof
    (config_remap
      (config_remap { globals_init with g_tap_timeout := 200, layers := [new_layer "layer1"] }
        { new_remap CAPSLOCK none [ESCAPE] [LEFT_CTRL] [] [] [] with
          to_when_press_layer := some 0 })
      { new_remap SPACE none [SPACE] [] [] [] [] with to_when_press_layer := some 0 })

/-- CAPSLOCK is pressed and held, then SPACE is pressed and released. -/
def c28_events : List KeyEvent :=
  [genuine CAPSLOCK .DOWN 0, genuine SPACE .DOWN 10, genuine SPACE .UP 20]

/-- The engine `c28_engine` after the events `c28_events`. -/
def c28_after : Engine :=
  ((run_events 2 c28_engine c28_events).getD ([], c28_engine)).2
/-! ## The layer recursion -/

/-- Layer `b` is reachable from layer `a` through one or more
`and_master_layers` edges: `b` is a transitive and-master of `a`. -/
def MasterReach (ls : List Layer) (a b : Nat) : Prop :=
  Relation.TransGen (fun x y => y ∈ (layerAt ls x).and_master_layers) a b

/-- A cyclic graph, as the directive `and_layer=` builds it when a layer is
named as its own master: layer 0 is its own and-master and its own slave. -/
def cyclic_layers : List Layer := and_layer [new_layer "loop"] 0 0

/-- The diamond of four layers with the top layer and the two middle layers
active (state 1). -/
def diamond_active : List Layer :=
  ((diamond_layers.set 0 { layerAt diamond_layers 0 with state := 1 }).set 1
    { layerAt diamond_layers 1 with state := 1 }).set 2
    { layerAt diamond_layers 2 with state := 1 }

/-! ## The modifier keys (`keys.c`) -/

/-- Row `RIGHT_CTRL` of `key_table`. -/
def RIGHT_CTRL : KeyDef := KeyDef.mk "RIGHT_CTRL" 0xE01D 0xA3 0x02
/-- Row `RIGHT_SHIFT` of `key_table`. -/
def RIGHT_SHIFT : KeyDef := KeyDef.mk "RIGHT_SHIFT" 0x36 0xA1 0x08
/-- Row `LEFT_ALT` of `key_table`. -/
def LEFT_ALT : KeyDef := KeyDef.mk "LEFT_ALT" 0x38 0xA4 0x10
/-- Row `RIGHT_ALT` of `key_table`. -/
def RIGHT_ALT : KeyDef := KeyDef.mk "RIGHT_ALT" 0xE038 0xA5 0x20
/-- Row `LEFT_WIN` of `key_table`. -/
def LEFT_WIN : KeyDef := KeyDef.mk "LEFT_WIN" 0xE05B 0x5B 0x40
/-- Row `RIGHT_WIN` of `key_table`. -/
def RIGHT_WIN : KeyDef := KeyDef.mk "RIGHT_WIN" 0xE05C 0x5C 0x80

/-! ## Dispatch to the active list -/

/-- The source virtual codes of the remaps of the active list, in list
order. -/
def active_codes (e : Engine) : List Nat :=
  e.g_remap_list.map fun n => (remapAt e.remaps n).from_.virt_code

/-- No two remaps of the active list have the same source virtual code. -/
def ActiveDistinct (e : Engine) : Prop := (active_codes e).Nodup

/-- Every remap of a bucket has the bucket index as the low byte of its
source virtual code, as the distribution loop of `load_config_line(NULL)`
places it. -/
def BucketsSound (e : Engine) : Prop :=
  ∀ i, ∀ n ∈ e.g_remap_array.getD i [], (remapAt e.remaps n).from_.virt_code &&& 0xFF = i

/-- Every source virtual code is a byte, as every row of `key_table` is. -/
def SourcesByte (e : Engine) : Prop :=
  ∀ n, (remapAt e.remaps n).from_.virt_code < 256

/-- The chord a remap holds down in its state: `to_with_other` in
`HELD_DOWN_WITH_OTHER`, `to_when_alone` in `TAP`, the doublepress chord or
its fallback in `DOUBLE_TAP`, nothing otherwise. -/
def held_chord (r : Remap) : List KeyDef :=
  match r.state with
  | .HELD_DOWN_WITH_OTHER => r.to_with_other
  | .TAP => r.to_when_alone
  | .DOUBLE_TAP => (doublepress_chord r).1
  | _ => []

/-- The S5 configuration after CAPSLOCK DOWN at 0, KEY_J DOWN at 10 and
CAPSLOCK UP at 300: the layered rule of KEY_J took the press and holds LEFT
down, and its layer is inactive again. -/
def c39_engine : Engine :=
  ((run_events 2 s5_engine
    [genuine CAPSLOCK .DOWN 0, genuine KEY_J .DOWN 10, genuine CAPSLOCK .UP 300]).getD
    ([], s5_engine)).2

/-! ## The pointer engine (`mouse.c`)

The `double` fields of `struct MouseState` are modelled as exact rationals:
`speed` only takes integer values, and the accumulators are multiples of
1/64 as long as only the lateral and vertical keys are used; `sin` and `cos`
of the C library are parameters. The `int` fields are integers (the values
stay far below `2^31` with the default curve); the bit fields `held_keys`
and `buttons` are the 32-bit patterns. A table read outside the 16 entries
of the speed curve has no result. -/

/-- Opcode `MS_U` of `keys.c`: move up. -/
def MS_U : Nat := 1
/-- Opcode `MS_D`: move down. -/
def MS_D : Nat := 2
/-- Opcode `MS_L`: move left. -/
def MS_L : Nat := 3
/-- Opcode `MS_R`: move right. -/
def MS_R : Nat := 4
/-- Opcode `MS_F`: move forward. -/
def MS_F : Nat := 5
/-- Opcode `MS_B`: move backward. -/
def MS_B : Nat := 6
/-- Opcode `MS_S_L`: steer left (counter-clockwise). -/
def MS_S_L : Nat := 7
/-- Opcode `MS_S_R`: steer right (clockwise). -/
def MS_S_R : Nat := 8
/-- Opcode `MS_W_U`: wheel up. -/
def MS_W_U : Nat := 9
/-- Opcode `MS_W_D`: wheel down. -/
def MS_W_D : Nat := 10
/-- Opcode `MS_W_L`: wheel left. -/
def MS_W_L : Nat := 11
/-- Opcode `MS_W_R`: wheel right. -/
def MS_W_R : Nat := 12
/-- Opcode `MS_BTN1`: press mouse button 1; `MS_BTN2` to `MS_BTN5` follow. -/
def MS_BTN1 : Nat := 13
/-- Opcode `MS_BTN5`. -/
def MS_BTN5 : Nat := 17
/-- Opcode `MS_BTNS`: press the selected button. -/
def MS_BTNS : Nat := 18
/-- Opcode `MS_HLDS`: hold the selected button. -/
def MS_HLDS : Nat := 19
/-- Opcode `MS_RELS`: release the selected button. -/
def MS_RELS : Nat := 20
/-- Opcode `MS_SEL1`: select button 1; `MS_SEL2` to `MS_SEL5` follow. -/
def MS_SEL1 : Nat := 21
/-- Opcode `MS_SEL5`. -/
def MS_SEL5 : Nat := 25

/-- Constant `ORBITAL_MOUSE_RADIUS`. -/
def ORBITAL_MOUSE_RADIUS : Int := 36
/-- Constant `WHEEL_DELTA` of the Windows headers. -/
def WHEEL_DELTA : Int := 120
/-- Constant `NUM_SPEED_CURVE_INTERVALS`. -/
def NUM_SPEED_CURVE_INTERVALS : Int := 16
/-- Table `init_speed_curve`, the default `ORBITAL_MOUSE_SPEED_CURVE`. -/
def init_speed_curve : List Int :=
  [24, 24, 24, 32, 58, 66, 66, 66, 66, 66, 66, 66, 66, 66, 66, 66]

/-- State `struct MouseState` of `mouse.c`; `speed_curve` is the table the
pointer points at. -/
structure MouseState where
  report : report_mouse_t
  speed_curve : List Int
  x : ℚ
  y : ℚ
  wheel_x : ℚ
  wheel_y : ℚ
  speed : ℚ
  held_keys : Nat
  move_t : Int
  move_v : Int
  move_h : Int
  move_dir : Int
  steer_dir : Int
  wheel_x_dir : Int
  wheel_y_dir : Int
  angle : ℚ
  buttons : Nat
  last_buttons : Nat
  selected_button : Nat
deriving DecidableEq, Inhabited

/-- The globals of `mouse.c`: `state`, whether `ghTimer` is not `NULL`, and
`g_active`. -/
structure Mouse where
  state : MouseState
  ghTimer : Bool
  g_active : Int
deriving DecidableEq, Inhabited

/-- The static initialiser of `state`: every field zero, `speed_curve`
pointing at `init_speed_curve`. -/
def mouse_state_init : MouseState :=
  { report := ⟨0, 0, 0, 0⟩, speed_curve := init_speed_curve, x := 0, y := 0, wheel_x := 0,
    wheel_y := 0, speed := 0, held_keys := 0, move_t := 0, move_v := 0, move_h := 0,
    move_dir := 0, steer_dir := 0, wheel_x_dir := 0, wheel_y_dir := 0, angle := 0,
    buttons := 0, last_buttons := 0, selected_button := 0 }

/-- The idle state at program start: `ghTimer = NULL`, `g_active = 0`. -/
def mouse_init : Mouse := { state := mouse_state_init, ghTimer := false, g_active := 0 }

/-- Conversion `(int)x` of a `double`: truncation toward zero. -/
def double_to_int (x : ℚ) : Int := Int.tdiv x.num x.den

/-- Table read `speed_curve[i]`. -/
def speed_curve_at (speed_curve : List Int) (i : Int) : Option Int :=
  if 0 ≤ i then speed_curve[i.toNat]? else none

/-- The condition `state->move_dir || state->move_h || state->move_v`. -/
def is_moving (state : MouseState) : Bool :=
  decide (state.move_dir ≠ 0) || decide (state.move_h ≠ 0) || decide (state.move_v ≠ 0)

/-- The speed block of `move_send` (lines 209-219): the speed follows the
speed curve while `move_t` counts up to 241. -/
def move_speed (state : MouseState) : Option MouseState :=
  if state.move_t ≤ 16 * (NUM_SPEED_CURVE_INTERVALS - 1) then
    if state.move_t = 0 then
      (speed_curve_at state.speed_curve 0).map fun c0 =>
        { state with speed := ((c0 * 16 : Int) : ℚ), move_t := state.move_t + 1 }
    else
      (speed_curve_at state.speed_curve (Int.tdiv (state.move_t - 1) 16 + 1)).bind fun c1 =>
        (speed_curve_at state.speed_curve (Int.tdiv (state.move_t - 1) 16)).map fun c0 =>
          { state with speed := state.speed + ((c1 - c0 : Int) : ℚ),
                       move_t := state.move_t + 1 }
  else some state

/-- The position block of `move_send` (lines 220-229). -/
def move_position (sin cos : ℚ → ℚ) (state : MouseState) : MouseState :=
  let s1 :=
    if state.move_dir ≠ 0 then
      { state with
        x := state.x - (state.move_dir : ℚ) * state.speed * sin state.angle / 64,
        y := state.y - (state.move_dir : ℚ) * state.speed * cos state.angle / 64 }
    else state
  let s2 :=
    if s1.move_h ≠ 0 then { s1 with x := s1.x - (s1.move_h : ℚ) * s1.speed / 64 } else s1
  if s2.move_v ≠ 0 then { s2 with y := s2.y - (s2.move_v : ℚ) * s2.speed / 64 } else s2

/-- Function `set_orbital_mouse_angle`. -/
def set_orbital_mouse_angle (sin cos : ℚ → ℚ) (state : MouseState) (angle : ℚ) :
    MouseState :=
  { state with
    x := state.x + (ORBITAL_MOUSE_RADIUS : ℚ) * sin state.angle -
      (ORBITAL_MOUSE_RADIUS : ℚ) * sin angle,
    y := state.y + (ORBITAL_MOUSE_RADIUS : ℚ) * cos state.angle -
      (ORBITAL_MOUSE_RADIUS : ℚ) * cos angle,
    angle := angle }

/-- The steering and wheel blocks of `move_send` (lines 232-241). -/
def move_steer_wheel (sin cos : ℚ → ℚ) (state : MouseState) : MouseState :=
  let s1 :=
    if state.steer_dir ≠ 0 then
      set_orbital_mouse_angle sin cos state (state.angle + (state.steer_dir : ℚ) / 10)
    else state
  if s1.wheel_x_dir ≠ 0 ∨ s1.wheel_y_dir ≠ 0 then
    { s1 with wheel_x := s1.wheel_x - (s1.wheel_x_dir : ℚ) * 1 * (WHEEL_DELTA : ℚ),
              wheel_y := s1.wheel_y + (s1.wheel_y_dir : ℚ) * 1 * (WHEEL_DELTA : ℚ) }
  else s1

/-- The extraction block of `move_send` (lines 243-253): the whole parts go
into the report, the accumulators keep the rest. -/
def move_extract (state : MouseState) : MouseState :=
  { state with
    report := { x := double_to_int state.x, y := double_to_int state.y,
                h := double_to_int state.wheel_x, v := double_to_int state.wheel_y },
    x := state.x - (double_to_int state.x : ℚ),
    y := state.y - (double_to_int state.y : ℚ),
    wheel_x := state.wheel_x - (double_to_int state.wheel_x : ℚ),
    wheel_y := state.wheel_y - (double_to_int state.wheel_y : ℚ) }

/-- The state part of function `move_send` (lines 206-253). -/
def move_send_state (sin cos : ℚ → ℚ) (state : MouseState) : Option MouseState :=
  (if is_moving state then (move_speed state).map (move_position sin cos)
    else some state).map fun s => move_extract (move_steer_wheel sin cos s)

/-- Function `move_send` of `mouse.c` on the state and the ring: the slot is
reserved first, and the function returns at once when none is granted. -/
def move_send_full (sin cos : ℚ → ℚ) (state : MouseState) (remap_id : Nat)
    (input_buffer : InputBuffer) : Option (MouseState × InputBuffer) :=
  match input_buffer_move_prod_head input_buffer 0 with
  | none => none
  | some (n, _, ib1) =>
    if n = 0 then some (state, ib1)
    else
      (move_send_state sin cos state).bind fun s =>
        (move_send s.report remap_id input_buffer).map fun ib => (s, ib)

/-- The mask `held_mask` that `mouse_emulation` assigns to the twelve modal
opcodes `MS_U` to `MS_W_R` (lines 315-328); 0 for every other code. -/
def held_mask (keycode : Nat) : Nat :=
  match keycode with
  | 1 => 1
  | 2 => 2
  | 3 => 4
  | 4 => 8
  | 5 => 16
  | 6 => 32
  | 7 => 64
  | 8 => 128
  | 9 => 256
  | 10 => 512
  | 11 => 1024
  | 12 => 2048
  | _ => 0

/-- Function `get_dir_from_held_keys`. -/
def get_dir_from_held_keys (state : MouseState) (bit_shift : Nat) : Int :=
  ([0, 1, -1, 0] : List Int).getD ((state.held_keys >>> bit_shift) &&& 3) 0

/-- The block of `mouse_emulation` that follows a modal opcode (lines
330-357): the bit of the key is set or cleared, and the directions are
recomputed. -/
def update_directions (mask : Nat) (direction : Direction) (state : MouseState) :
    MouseState :=
  let s0 :=
    { state with
      held_keys :=
        if direction = .DOWN then state.held_keys ||| mask
        else state.held_keys &&& (4294967295 ^^^ mask) }
  let s1 :=
    if s0.move_v ≠ get_dir_from_held_keys s0 0 then
      { s0 with move_v := get_dir_from_held_keys s0 0, move_t := 0 }
    else s0
  let s2 :=
    if s1.move_h ≠ get_dir_from_held_keys s1 2 then
      { s1 with move_h := get_dir_from_held_keys s1 2, move_t := 0 }
    else s1
  let s3 :=
    if s2.move_dir ≠ get_dir_from_held_keys s2 4 then
      { s2 with move_dir := get_dir_from_held_keys s2 4, move_t := 0 }
    else s2
  { s3 with steer_dir := get_dir_from_held_keys s3 6,
            wheel_y_dir := get_dir_from_held_keys s3 8,
            wheel_x_dir := get_dir_from_held_keys s3 10 }

/-- The condition `state.move_v || state.move_h || state.move_dir ||
state.steer_dir || state.wheel_x_dir || state.wheel_y_dir`. -/
def any_direction (state : MouseState) : Bool :=
  decide (state.move_v ≠ 0) || decide (state.move_h ≠ 0) || decide (state.move_dir ≠ 0) ||
    decide (state.steer_dir ≠ 0) || decide (state.wheel_x_dir ≠ 0) ||
    decide (state.wheel_y_dir ≠ 0)

/-- The timer block of `mouse_emulation` (lines 367-383), with a
`CreateTimerQueueTimer` that succeeds: the timer exists afterwards exactly
when `g_active` is set on entry, and `g_active` is set when a direction is
nonzero. -/
def timer_block (state : MouseState) (g_active : Int) : Mouse :=
  { state := state,
    ghTimer := decide (g_active ≠ 0),
    g_active := if any_direction state then 1 else g_active }

/-- Function `press_mouse_button`. -/
def press_mouse_button (i : Nat) (direction : Direction) (state : MouseState) : MouseState :=
  let i1 := if i ≥ 5 then state.selected_button else i
  if direction = .DOWN then { state with buttons := state.buttons ||| (1 <<< i1) }
  else { state with buttons := state.buttons &&& (4294967295 ^^^ (1 <<< i1)) }

/-- The switch of the non-modal opcodes of `mouse_emulation` (lines
385-417). -/
def button_opcode (keycode : Nat) (direction : Direction) (state : MouseState) : MouseState :=
  if MS_BTN1 ≤ keycode ∧ keycode ≤ MS_BTN5 then
    press_mouse_button (keycode - MS_BTN1) direction state
  else if keycode = MS_BTNS then press_mouse_button 255 direction state
  else if keycode = MS_HLDS then
    if direction = .DOWN then press_mouse_button 255 .DOWN state else state
  else if keycode = MS_RELS then
    if direction = .DOWN then press_mouse_button 255 .UP state else state
  else if MS_SEL1 ≤ keycode ∧ keycode ≤ MS_SEL5 then
    if direction = .DOWN then
      { state with selected_button := keycode - MS_SEL1, buttons := 0 }
    else state
  else state

/-- Function `mouse_emulation`. -/
def mouse_emulation (sin cos : ℚ → ℚ) (keycode : Nat) (direction : Direction)
    (remap_id : Nat) (m : Mouse) (input_buffer : InputBuffer) :
    Option (Mouse × InputBuffer) :=
  if held_mask keycode ≠ 0 then
    let s1 := update_directions (held_mask keycode) direction m.state
    if any_direction s1 then
      if m.g_active = 0 then
        (move_send_full sin cos s1 remap_id input_buffer).map fun p =>
          (timer_block p.1 m.g_active, p.2)
      else some (timer_block s1 m.g_active, input_buffer)
    else some (timer_block s1 0, input_buffer)
  else
    let s1 := button_opcode keycode direction m.state
    if s1.buttons ≠ s1.last_buttons then
      (buttons_send s1.buttons s1.last_buttons remap_id input_buffer).map fun ib =>
        ({ m with state := { s1 with last_buttons := s1.buttons } }, ib)
    else some ({ m with state := s1 }, input_buffer)

/-- Function `move_callback`, the timer callback: `move_send` with remap
id 0 when `g_active` is set. -/
def move_callback (sin cos : ℚ → ℚ) (m : Mouse) (input_buffer : InputBuffer) :
    Option (Mouse × InputBuffer) :=
  if m.g_active ≠ 0 then
    (move_send_full sin cos m.state 0 input_buffer).map fun p => ({ m with state := p.1 }, p.2)
  else some (m, input_buffer)

/-- An event of the pointer engine: an opcode handed to `mouse_emulation`,
or the timer period elapsing. -/
inductive MouseOp where
  | key (keycode : Nat) (direction : Direction) (remap_id : Nat)
  | tick
deriving DecidableEq, Repr, Inhabited

/-- One event: the call of `mouse_emulation`, or the call of `move_callback`
that the timer makes when it exists. -/
def mouse_step (sin cos : ℚ → ℚ) (p : Mouse × InputBuffer) : MouseOp →
    Option (Mouse × InputBuffer)
  | .key keycode direction remap_id => mouse_emulation sin cos keycode direction remap_id p.1 p.2
  | .tick => if p.1.ghTimer then move_callback sin cos p.1 p.2 else some p

/-- Successive events: the state after each event, and the final ring. -/
def mouse_run (sin cos : ℚ → ℚ) : Mouse × InputBuffer → List MouseOp →
    Option (List Mouse × InputBuffer)
  | p, [] => some ([], p.2)
  | p, op :: rest =>
    match mouse_step sin cos p op with
    | none => none
    | some p1 =>
      match mouse_run sin cos p1 rest with
      | none => none
      | some (out, ib) => some (p1.1 :: out, ib)

/-- Spec side of C34: the direction of a pair of keys, +1 when only the
first is held, -1 when only the second is held, 0 when both or neither
are. -/
def dir_of_pair (first second : Bool) : Int :=
  if first && !second then 1 else if !first && second then -1 else 0

/-- The two states have the same held keys, directions and speed curve. -/
def SameKeys (s s' : MouseState) : Prop :=
  s'.held_keys = s.held_keys ∧ s'.move_v = s.move_v ∧ s'.move_h = s.move_h ∧
    s'.move_dir = s.move_dir ∧ s'.steer_dir = s.steer_dir ∧
    s'.wheel_x_dir = s.wheel_x_dir ∧ s'.wheel_y_dir = s.wheel_y_dir ∧
    s'.speed_curve = s.speed_curve

/-- Stand-in for `sin` and `cos` in concrete runs that use no forward,
backward or steering key: neither function is called in such a run. -/
def no_trig : ℚ → ℚ := fun _ => 0

/-- What holds of the pointer engine between events: `g_active` is 1 when a
direction is nonzero and 0 otherwise, the timer exists only while a
direction is nonzero, the producer side of the ring is at rest, the speed
curve is the default table, and `move_t` is not negative. -/
def MouseInv (p : Mouse × InputBuffer) : Prop :=
  p.1.g_active = (if any_direction p.1.state then 1 else 0) ∧
    (p.1.ghTimer = true → any_direction p.1.state = true) ∧
    p.2.prod.head = p.2.prod.tail ∧
    p.1.state.speed_curve = init_speed_curve ∧ 0 ≤ p.1.state.move_t

/-- The states of the pointer engine reachable from the idle state at
program start, with an empty ring, through opcodes and timer ticks. -/
inductive MouseReachable (sin cos : ℚ → ℚ) : Mouse × InputBuffer → Prop
  | start : MouseReachable sin cos (mouse_init, ring_init)
  | step (p p' : Mouse × InputBuffer) (op : MouseOp) :
      MouseReachable sin cos p → mouse_step sin cos p op = some p' →
      MouseReachable sin cos p'

/-- Successive calls of the state part of `move_send` with nothing else
touching the state in between (constant directions): the state after the
`n`-th call. -/
def move_send_iter (sin cos : ℚ → ℚ) : Nat → MouseState → Option MouseState
  | 0, s => some s
  | n + 1, s => (move_send_iter sin cos n s).bind (move_send_state sin cos)

/-- Spec side of C36: 16 times the linear interpolation of the speed curve
after the `n`-th call, `16*curve[i] + r*(curve[i+1] - curve[i])` with
`n - 1 = 16*i + r` and `0 <= r < 16`. -/
def interpolated_speed (curve : List Int) (n : Nat) : Int :=
  16 * curve.getD ((n - 1) / 16) 0 +
    (((n - 1) % 16 : Nat) : Int) *
      (curve.getD ((n - 1) / 16 + 1) 0 - curve.getD ((n - 1) / 16) 0)

/-- The state of the direction block after `MS_L` DOWN from the initial
state: `move_h = 1`, `move_t = 0`. -/
def c36_state : MouseState := update_directions (held_mask MS_L) .DOWN mouse_state_init

/-- The events of the counterexample to C38: `MS_L` DOWN, its repeated DOWN
that starts the timer, and 33 ticks; the last tick is the 34th call of
`move_send`. -/
def c38_ops : List MouseOp :=
  [.key MS_L .DOWN 0, .key MS_L .DOWN 0] ++ List.replicate 33 .tick

/-- The state before the last tick of `c38_ops`. -/
def c38_before : MouseState :=
  ((((mouse_run no_trig no_trig (mouse_init, ring_init) (c38_ops.take 34)).getD
    ([], ring_init)).1.getLast?).getD mouse_init).state

/-- The values of `speed` after the ticks of a run in which the timer
callback ran `move_send` (the timer exists and `g_active` is set), in order;
`pre` is the state before the first event and `states` the states after the
events. -/
def tick_speeds : Mouse → List MouseOp → List Mouse → List ℚ
  | pre, op :: ops, post :: states =>
    (if op = .tick ∧ pre.ghTimer = true ∧ pre.g_active ≠ 0 then [post.state.speed] else []) ++
      tick_speeds post ops states
  | _, _, _ => []

/-- The events of the counterexample to C37: `MS_U` DOWN, its repeated DOWN
that starts the timer, 33 ticks, then `MS_L` DOWN while `MS_U` stays held,
and one more tick. -/
def c37_ops : List MouseOp :=
  [.key MS_U .DOWN 0, .key MS_U .DOWN 0] ++ List.replicate 33 .tick ++
    [.key MS_L .DOWN 0, .tick]

/-- The states after the events of `c38_ops` from the idle state: one key
held throughout. -/
def c37_steady : List Mouse × InputBuffer :=
  (mouse_run no_trig no_trig (mouse_init, ring_init) c38_ops).getD ([], ring_init)

/-- Configuration of the first counterexample to C33: layer 0 is `layer1`;
`tap_timeout=200`, `doublepress_timeout=300`, `remap_key=KEY_A`,
`when_tap_lock=toggle_layer1`, `when_doublepress=layer1`. -/
def c33_double_engine : Engine :=
  load_config_line_eof
    (config_remap
      { globals_init with
        g_tap_timeout := 200, g_doublepress_timeout := 300, layers := [new_layer "layer1"] }
      { new_remap KEY_A none [] [] [] [] [] with
        to_when_tap_lock_layer := [LayerConf.mk 0 .toggle_layer_lock],
        to_when_doublepress_layer := some 0 })

/-- Configuration of the second counterexample to C33: layer 0 is `layer1`,
layer 1 is `layer2` with `and_not_layer=layer2,layer1`; `tap_timeout=200`,
`doublepress_timeout=300`, `remap_key=KEY_A`, `when_tap_lock=toggle_layer2`,
`when_tap_lock=toggle_layer1`. -/
def c33_slave_engine : Engine :=
  load_config_line_eof
    (config_remap
      { globals_init with
        g_tap_timeout := 200, g_doublepress_timeout := 300,
        layers := and_not_layer [new_layer "layer1", new_layer "layer2"] 1 0 }
      { new_remap KEY_A none [] [] [] [] [] with
        to_when_tap_lock_layer :=
          [LayerConf.mk 1 .toggle_layer_lock, LayerConf.mk 0 .toggle_layer_lock] })

/-- A tap of KEY_A and its second press 50 ms later. -/
def c33_events : List KeyEvent :=
  [genuine KEY_A .DOWN 0, genuine KEY_A .UP 50, genuine KEY_A .DOWN 100]

/-- The `state`, `lock` and `prev_lock` of every layer after each of the
given events. -/
def layer_trace (fuel : Nat) : Engine → List KeyEvent → List (List (Int × Int × Int))
  | _, [] => []
  | e, ev :: rest =>
    match handle_input fuel ev.scan_code ev.virt_code ev.direction ev.time ev.is_injected
        ev.flags ev.dwExtraInfo e with
    | none => []
    | some (_, e1) =>
      e1.layers.map (fun l => (l.state, l.lock, l.prev_lock)) :: layer_trace fuel e1 rest

/-- The engine `c33_slave_engine` with KEY_A pressed. -/
def c33_held : Engine :=
  ((run_events 3 c33_slave_engine [genuine KEY_A .DOWN 0]).getD ([], c33_slave_engine)).2

/-! ## Scenarios of the corrected claims C3 and C30, and the layer
predicates of C9 -/

/-- Layer `L` is as load or `unlock_all` left it: its state is 0 and every
master of it, and-master or and-not-master, has state 0. -/
def Dormant (ls : List Layer) (L : Nat) : Prop :=
  (layerAt ls L).state = 0 ∧
    ∀ m ∈ (layerAt ls L).and_master_layers ++ (layerAt ls L).and_not_master_layers,
      (layerAt ls m).state = 0

/-- The state of layer `L` is 1 or its lock. -/
def Anchored (ls : List Layer) (L : Nat) : Prop :=
  (layerAt ls L).state = 1 ∨ (layerAt ls L).state = (layerAt ls L).lock

/-- Layer `L` agrees with its guard or is as load or `unlock_all` left
it. -/
def Quiet (ls : List Layer) (L : Nat) : Prop := Consistent ls L ∨ Dormant ls L

/-- Effect on the layers of a sequence of operations applied to layers that
satisfy `T` only, second part: every layer outside `T` that agrees with its
guard or is as load left it still does, and when every layer had state 1 or
its lock every layer still has. -/
def QuietStep (T : Nat → Prop) (ls ls' : List Layer) : Prop :=
  (∀ L, ¬ T L → Quiet ls L → Quiet ls' L) ∧ ((∀ L, Anchored ls L) → ∀ L, Anchored ls' L)

/-- What the proof of the amended layer invariant carries along the events,
second part: every layer no rule acts on agrees with its guard or is as load
left it, and every layer has state 1 or its lock. -/
def QuietInv (e0 e : Engine) : Prop :=
  (∀ L, ¬ AnyTarget e0.remaps L → Quiet e.layers L) ∧ ∀ L, Anchored e.layers L

/-! ## Arena lemmas -/

theorem layerAt_of_ge {ls : List Layer} {i : Nat} (h : ls.length ≤ i) :
    layerAt ls i = default := by
  simp [layerAt, List.getD_eq_getElem?_getD, List.getElem?_eq_none h]

theorem layerAt_set_eq {ls : List Layer} {i : Nat} (x : Layer) (h : i < ls.length) :
    layerAt (ls.set i x) i = x := by
  simp [layerAt, List.getD_eq_getElem?_getD, h]

theorem layerAt_set_ne {ls : List Layer} {i j : Nat} (x : Layer) (h : i ≠ j) :
    layerAt (ls.set i x) j = layerAt ls j := by
  simp [layerAt, List.getD_eq_getElem?_getD, List.getElem?_set_ne h]

theorem layerAt_map (f : Layer → Layer) (hf : f default = default) (ls : List Layer) (i : Nat) :
    layerAt (ls.map f) i = f (layerAt ls i) := by
  simp only [layerAt, List.getD_eq_getElem?_getD, List.getElem?_map]
  cases ls[i]? <;> simp [hf]

theorem set_self_layerAt (ls : List Layer) (i : Nat) : ls.set i (layerAt ls i) = ls := by
  by_cases hi : i < ls.length
  · apply List.ext_getElem?
    intro j
    by_cases h : i = j
    · subst h
      simp [layerAt, List.getD_eq_getElem?_getD, hi]
    · simp [List.getElem?_set_ne h]
  · exact List.set_eq_of_length_le (Nat.le_of_not_lt hi)

theorem stripState_default : stripState default = default := rfl

theorem SameButState.sbs_refl (ls : List Layer) : SameButState ls ls := rfl

theorem SameButState.sbs_trans {a b c : List Layer} (h1 : SameButState a b)
    (h2 : SameButState b c) : SameButState a c := by
  unfold SameButState at *
  rw [h2, h1]

theorem SameButState.sbs_length_eq {ls ls' : List Layer} (h : SameButState ls ls') :
    ls'.length = ls.length := by
  have := congrArg List.length h
  simpa using this

theorem SameButState.sbs_strip_eq {ls ls' : List Layer} (h : SameButState ls ls') (i : Nat) :
    stripState (layerAt ls' i) = stripState (layerAt ls i) := by
  have h1 := layerAt_map stripState stripState_default ls' i
  have h2 := layerAt_map stripState stripState_default ls i
  unfold SameButState at h
  rw [h] at h1
  rw [h2] at h1
  exact h1.symm

theorem SameButState.sbs_slaves_eq {ls ls' : List Layer} (h : SameButState ls ls') (i : Nat) :
    (layerAt ls' i).and_slave_layers = (layerAt ls i).and_slave_layers :=
  (congrArg (fun l => Layer.and_slave_layers l) (h.sbs_strip_eq i) :
    (stripState (layerAt ls' i)).and_slave_layers = (stripState (layerAt ls i)).and_slave_layers)

theorem SameButState.sbs_masters_eq {ls ls' : List Layer} (h : SameButState ls ls') (i : Nat) :
    (layerAt ls' i).and_master_layers = (layerAt ls i).and_master_layers :=
  (congrArg (fun l => Layer.and_master_layers l) (h.sbs_strip_eq i) :
    (stripState (layerAt ls' i)).and_master_layers = (stripState (layerAt ls i)).and_master_layers)

theorem SameButState.sbs_not_masters_eq {ls ls' : List Layer} (h : SameButState ls ls') (i : Nat) :
    (layerAt ls' i).and_not_master_layers = (layerAt ls i).and_not_master_layers :=
  (congrArg (fun l => Layer.and_not_master_layers l) (h.sbs_strip_eq i) :
    (stripState (layerAt ls' i)).and_not_master_layers = (stripState (layerAt ls i)).and_not_master_layers)

theorem SameButState.sbs_lock_eq {ls ls' : List Layer} (h : SameButState ls ls') (i : Nat) :
    (layerAt ls' i).lock = (layerAt ls i).lock :=
  (congrArg (fun l => Layer.lock l) (h.sbs_strip_eq i) :
    (stripState (layerAt ls' i)).lock = (stripState (layerAt ls i)).lock)

theorem SameButState.sbs_prev_lock_eq {ls ls' : List Layer} (h : SameButState ls ls') (i : Nat) :
    (layerAt ls' i).prev_lock = (layerAt ls i).prev_lock :=
  (congrArg (fun l => Layer.prev_lock l) (h.sbs_strip_eq i) :
    (stripState (layerAt ls' i)).prev_lock = (stripState (layerAt ls i)).prev_lock)

theorem SameButState.sbs_name_eq {ls ls' : List Layer} (h : SameButState ls ls') (i : Nat) :
    (layerAt ls' i).name = (layerAt ls i).name :=
  (congrArg (fun l => Layer.name l) (h.sbs_strip_eq i) :
    (stripState (layerAt ls' i)).name = (stripState (layerAt ls i)).name)

theorem SameButState.sbs_set_state (ls : List Layer) (i : Nat) (v : Int) :
    SameButState ls (ls.set i { layerAt ls i with state := v }) := by
  unfold SameButState
  rw [List.map_set]
  have h := set_self_layerAt (ls.map stripState) i
  rw [layerAt_map stripState stripState_default] at h
  exact h

/-! ## The guard of a layer -/

theorem check_layer_states_iff (ls : List Layer) (l : List Nat) (v : Int) :
    check_layer_states ls l v = true ↔ ∀ m ∈ l, (layerAt ls m).state = v := by
  induction l with
  | nil => simp [check_layer_states]
  | cons a rest ih =>
    simp only [check_layer_states, List.mem_cons, forall_eq_or_imp]
    by_cases h : (layerAt ls a).state = v
    · simp [h, ih]
    · simp [h]

theorem all_master_active_iff (ls : List Layer) (l : Nat) :
    all_master_active ls l = true ↔ MastersSatisfied ls l := by
  simp [all_master_active, MastersSatisfied, check_layer_states_iff]

/-- The guard of a layer depends only on the states of its masters. -/
theorem all_master_active_congr {ls ls' : List Layer} {l : Nat}
    (hm : (layerAt ls' l).and_master_layers = (layerAt ls l).and_master_layers)
    (hn : (layerAt ls' l).and_not_master_layers = (layerAt ls l).and_not_master_layers)
    (hs : ∀ p ∈ (layerAt ls l).and_master_layers ++ (layerAt ls l).and_not_master_layers,
      (layerAt ls' p).state = (layerAt ls p).state) :
    all_master_active ls' l = all_master_active ls l := by
  rw [Bool.eq_iff_iff, all_master_active_iff, all_master_active_iff]
  unfold MastersSatisfied
  rw [hm, hn]
  constructor
  · rintro ⟨h1, h2⟩
    refine ⟨fun m hmem => ?_, fun m hmem => ?_⟩
    · rw [← hs m (List.mem_append_left _ hmem)]; exact h1 m hmem
    · rw [← hs m (List.mem_append_right _ hmem)]; exact h2 m hmem
  · rintro ⟨h1, h2⟩
    refine ⟨fun m hmem => ?_, fun m hmem => ?_⟩
    · rw [hs m (List.mem_append_left _ hmem)]; exact h1 m hmem
    · rw [hs m (List.mem_append_right _ hmem)]; exact h2 m hmem

/-! ## Propagation of a layer state -/

/-- Evaluation of a fold in the option monad under an invariant indexed by
the elements already processed. -/
theorem foldlM_option_inv {α β : Type} (f : β → α → Option β) (Q : List α → β → Prop) :
    ∀ (l pre : List α) (b : β), Q pre b →
      (∀ pre' a b, a ∈ l → Q pre' b → ∃ b', f b a = some b' ∧ Q (pre' ++ [a]) b') →
      ∃ b', l.foldlM f b = some b' ∧ Q (pre ++ l) b' := by
  intro l
  induction l with
  | nil =>
    intro pre b hQ _
    exact ⟨b, by simp, by simpa using hQ⟩
  | cons a rest ih =>
    intro pre b hQ hstep
    obtain ⟨b1, hb1, hQ1⟩ := hstep pre a b (List.mem_cons_self _ _) hQ
    obtain ⟨b2, hb2, hQ2⟩ := ih (pre ++ [a]) b1 hQ1
      (fun pre' a' b' ha' => hstep pre' a' b' (List.mem_cons_of_mem _ ha'))
    refine ⟨b2, ?_, ?_⟩
    · simp [List.foldlM_cons, hb1, hb2]
    · simpa using hQ2

theorem slaves_of_ge {ls : List Layer} {i : Nat} (h : ls.length ≤ i) :
    (layerAt ls i).and_slave_layers = [] := by
  rw [layerAt_of_ge h]; rfl

theorem masters_of_ge {ls : List Layer} {i : Nat} (h : ls.length ≤ i) :
    (layerAt ls i).and_master_layers ++ (layerAt ls i).and_not_master_layers = [] := by
  rw [layerAt_of_ge h]; rfl

/-- The numbering of an acyclic graph decreases along every slave edge, also
from indices outside the arena (which have no slaves). -/
theorem rank_decreases {ls : List Layer} {rank : Nat → Nat}
    (h : ∀ i, i < ls.length → ∀ j ∈ (layerAt ls i).and_slave_layers, rank j < rank i) :
    ∀ i, ∀ j ∈ (layerAt ls i).and_slave_layers, rank j < rank i := by
  intro i j hj
  by_cases hi : i < ls.length
  · exact h i hi j hj
  · rw [slaves_of_ge (Nat.le_of_not_lt hi)] at hj
    simp at hj

theorem mirrored_all {ls : List Layer} (h : Mirrored ls) :
    ∀ i, ∀ p ∈ (layerAt ls i).and_master_layers ++ (layerAt ls i).and_not_master_layers,
      i ∈ (layerAt ls p).and_slave_layers := by
  intro i p hp
  by_cases hi : i < ls.length
  · exact h i hi p hp
  · rw [masters_of_ge (Nat.le_of_not_lt hi)] at hp
    simp at hp

theorem reach_rank {ls : List Layer} {rank : Nat → Nat}
    (h : ∀ i, ∀ j ∈ (layerAt ls i).and_slave_layers, rank j < rank i) {a b : Nat}
    (hab : Reach ls a b) : rank b < rank a := by
  induction hab with
  | single hx => exact h _ _ hx
  | tail _ hx ih => exact lt_trans (h _ _ hx) ih

theorem reach_iff_slave {ls : List Layer} {a c : Nat} :
    Reach ls a c ↔ ∃ s ∈ (layerAt ls a).and_slave_layers, c = s ∨ Reach ls s c := by
  unfold Reach
  rw [Relation.TransGen.head'_iff]
  constructor
  · rintro ⟨b, hb, hbc⟩
    refine ⟨b, hb, ?_⟩
    rcases (Relation.reflTransGen_iff_eq_or_transGen).1 hbc with h | h
    · exact Or.inl h
    · exact Or.inr h
  · rintro ⟨s, hs, h⟩
    refine ⟨s, hs, ?_⟩
    rcases h with h | h
    · exact (Relation.reflTransGen_iff_eq_or_transGen).2 (Or.inl h)
    · exact (Relation.reflTransGen_iff_eq_or_transGen).2 (Or.inr h)

/-- Specification of `set_layer_state` on an acyclic, mirrored graph, with
`ls0` fixing the graph and `ls` the arena at the call. -/
theorem set_layer_state_spec (ls0 : List Layer) (rank : Nat → Nat)
    (hrank : ∀ i, ∀ j ∈ (layerAt ls0 i).and_slave_layers, rank j < rank i)
    (hvalid : SlavesValid ls0)
    (hmir : ∀ i, ∀ p ∈ (layerAt ls0 i).and_master_layers ++
      (layerAt ls0 i).and_not_master_layers, i ∈ (layerAt ls0 p).and_slave_layers) :
    ∀ fuel M ls v, SameButState ls0 ls → rank M < fuel → M < ls0.length →
      ∃ ls', set_layer_state fuel ls M v = some ls' ∧ SameButState ls0 ls' ∧
        (layerAt ls' M).state = v ∧
        (∀ L, Reach ls0 M L → Consistent ls' L) ∧
        (∀ L, L ≠ M → ¬ Reach ls0 M L → (layerAt ls' L).state = (layerAt ls L).state) := by
  intro fuel
  induction fuel with
  | zero => intro M ls v _ hr _; omega
  | succ fuel ih =>
    intro M ls v hs hr hM
    have hs1 : SameButState ls0 (ls.set M { layerAt ls M with state := v }) :=
      hs.sbs_trans (SameButState.sbs_set_state ls M v)
    have hsl := hs1.sbs_slaves_eq M
    have hfold := foldlM_option_inv
      (fun acc slave_layer =>
        set_layer_state fuel acc slave_layer
          (if all_master_active acc slave_layer then 1 else (layerAt acc slave_layer).lock))
      (fun pre cur => SameButState ls0 cur ∧
        (∀ L, (∃ s ∈ pre, L = s ∨ Reach ls0 s L) → Consistent cur L) ∧
        (∀ L, (¬ ∃ s ∈ pre, L = s ∨ Reach ls0 s L) →
          (layerAt cur L).state = (layerAt (ls.set M { layerAt ls M with state := v }) L).state))
      (layerAt ls0 M).and_slave_layers [] (ls.set M { layerAt ls M with state := v })
      ⟨hs1, by simp, by simp⟩
      (by
        intro pre a cur ha ⟨hcur, hcons, hkeep⟩
        have hra : rank a < fuel := by
          have := hrank M a ha
          omega
        obtain ⟨ls2, hrun, hs2, hst, hreach, hframe⟩ :=
          ih a cur (if all_master_active cur a then 1 else (layerAt cur a).lock) hcur hra
            (hvalid M hM a ha)
        have hguard : ∀ L, (∀ p ∈ (layerAt ls0 L).and_master_layers ++
            (layerAt ls0 L).and_not_master_layers, p ≠ a ∧ ¬ Reach ls0 a p) →
            all_master_active ls2 L = all_master_active cur L := by
          intro L hL
          apply all_master_active_congr
          · rw [hs2.sbs_masters_eq, hcur.sbs_masters_eq]
          · rw [hs2.sbs_not_masters_eq, hcur.sbs_not_masters_eq]
          · intro p hp
            rw [hcur.sbs_masters_eq, hcur.sbs_not_masters_eq] at hp
            exact hframe p (hL p hp).1 (hL p hp).2
        have hlock : ∀ L, (layerAt ls2 L).lock = (layerAt cur L).lock := by
          intro L
          rw [hs2.sbs_lock_eq, hcur.sbs_lock_eq]
        refine ⟨ls2, hrun, hs2, ?_, ?_⟩
        · intro L hL
          by_cases hLa : L = a
          · subst hLa
            unfold Consistent
            rw [hst, hlock, hguard]
            intro p hp
            have h1 : rank L < rank p := hrank p L (hmir L p hp)
            constructor
            · intro hpa
              rw [hpa] at h1
              exact lt_irrefl _ h1
            · intro hrp
              have := reach_rank hrank hrp
              omega
          · by_cases hR : Reach ls0 a L
            · exact hreach L hR
            · have hin : ∃ s ∈ pre, L = s ∨ Reach ls0 s L := by
                obtain ⟨s, hs, h⟩ := hL
                rcases List.mem_append.1 hs with h' | h'
                · exact ⟨s, h', h⟩
                · simp only [List.mem_singleton] at h'
                  subst h'
                  rcases h with h | h
                  · exact absurd h hLa
                  · exact absurd h hR
              have hc := hcons L hin
              unfold Consistent at hc ⊢
              rw [hframe L hLa hR, hlock, hguard]
              · exact hc
              · intro p hp
                have hLp : L ∈ (layerAt ls0 p).and_slave_layers := hmir L p hp
                constructor
                · intro hpa
                  rw [hpa] at hLp
                  exact hR (Relation.TransGen.single hLp)
                · intro hrp
                  exact hR (Relation.TransGen.tail hrp hLp)
        · intro L hL
          have hLa : L ≠ a := by
            intro h
            exact hL ⟨a, by simp, Or.inl h⟩
          have hR : ¬ Reach ls0 a L := by
            intro h
            exact hL ⟨a, by simp, Or.inr h⟩
          rw [hframe L hLa hR]
          apply hkeep
          rintro ⟨s, hs, h⟩
          exact hL ⟨s, List.mem_append_left _ hs, h⟩)
    obtain ⟨ls', hrun, hs', hcons, hkeep⟩ := hfold
    simp only [List.nil_append] at hcons hkeep
    refine ⟨ls', ?_, hs', ?_, ?_, ?_⟩
    · rw [set_layer_state]
      simp only
      rw [hsl]
      exact hrun
    · have hnot : ¬ ∃ s ∈ (layerAt ls0 M).and_slave_layers, M = s ∨ Reach ls0 s M := by
        rintro ⟨s, hs, h⟩
        have h1 := hrank M s hs
        rcases h with h | h
        · rw [← h] at h1
          exact lt_irrefl _ h1
        · have := reach_rank hrank h
          omega
      rw [hkeep M hnot]
      have hlen : M < ls.length := by
        rw [hs.sbs_length_eq]; exact hM
      rw [layerAt_set_eq _ hlen]
    · intro L hL
      exact hcons L (reach_iff_slave.1 hL)
    · intro L hLM hL
      have hnot : ¬ ∃ s ∈ (layerAt ls0 M).and_slave_layers, L = s ∨ Reach ls0 s L := by
        intro h
        exact hL (reach_iff_slave.2 h)
      rw [hkeep L hnot, layerAt_set_ne _ (Ne.symm hLM)]

theorem layer_eq_of_strip {a b : Layer} (h : stripState a = stripState b)
    (hs : a.state = b.state) : a = b := by
  cases a
  cases b
  simp only [stripState, Layer.mk.injEq] at h
  simp only [Layer.mk.injEq]
  simp_all

/-- Claim C8. On a layer graph that is acyclic, whose slave lists point into
the arena and in which every master and and-not-master edge has its mirror
slave entry, `set_layer_state(M, v)` returns (any fuel of at least the number
of layers is enough); afterwards `M.state = v`, every layer `L` reachable
from `M` through `and_slave_layers` has state 1 if its and-masters all have
state 1 and its and-not-masters all have state 0 and has state `L.lock`
otherwise, every other layer is unchanged, and no `lock` or `prev_lock` field
has changed. -/
theorem C8_set_layer_state_postcondition (ls : List Layer) (M : Nat) (v : Int) (fuel : Nat)
    (hvalid : SlavesValid ls) (hmir : Mirrored ls) (hacyc : Acyclic ls)
    (hM : M < ls.length) (hfuel : ls.length ≤ fuel) :
    ∃ ls', set_layer_state fuel ls M v = some ls' ∧
      (layerAt ls' M).state = v ∧
      (∀ L, Reach ls M L →
        (MastersSatisfied ls' L → (layerAt ls' L).state = 1) ∧
        (¬ MastersSatisfied ls' L → (layerAt ls' L).state = (layerAt ls' L).lock)) ∧
      (∀ L, L ≠ M → ¬ Reach ls M L → layerAt ls' L = layerAt ls L) ∧
      (∀ L, (layerAt ls' L).lock = (layerAt ls L).lock ∧
        (layerAt ls' L).prev_lock = (layerAt ls L).prev_lock) ∧
      ls'.length = ls.length := by
  obtain ⟨rank, hbound, hdec⟩ := hacyc
  have hr : rank M < fuel := lt_of_lt_of_le (hbound M hM) hfuel
  obtain ⟨ls', hrun, hs, hst, hreach, hframe⟩ :=
    set_layer_state_spec ls rank (rank_decreases hdec) hvalid (mirrored_all hmir) fuel M ls v
      (SameButState.sbs_refl ls) hr hM
  refine ⟨ls', hrun, hst, ?_, ?_, ?_, hs.sbs_length_eq⟩
  · intro L hL
    have hc := hreach L hL
    unfold Consistent at hc
    constructor
    · intro hsat
      rw [hc, if_pos ((all_master_active_iff ls' L).2 hsat)]
    · intro hsat
      rw [hc, if_neg (fun h => hsat ((all_master_active_iff ls' L).1 h))]
  · intro L hLM hL
    exact layer_eq_of_strip (hs.sbs_strip_eq L) (hframe L hLM hL)
  · intro L
    exact ⟨hs.sbs_lock_eq L, hs.sbs_prev_lock_eq L⟩

/-- Claim C8 at a concrete graph: the diamond of four layers, state 1 set on
its top layer. -/
theorem C8_set_layer_state_postcondition_witness :
    ∃ ls', set_layer_state 4 diamond_layers 0 1 = some ls' ∧
      (layerAt ls' 0).state = 1 ∧
      (∀ L, Reach diamond_layers 0 L →
        (MastersSatisfied ls' L → (layerAt ls' L).state = 1) ∧
        (¬ MastersSatisfied ls' L → (layerAt ls' L).state = (layerAt ls' L).lock)) ∧
      (∀ L, L ≠ 0 → ¬ Reach diamond_layers 0 L → layerAt ls' L = layerAt diamond_layers L) ∧
      (∀ L, (layerAt ls' L).lock = (layerAt diamond_layers L).lock ∧
        (layerAt ls' L).prev_lock = (layerAt diamond_layers L).prev_lock) ∧
      ls'.length = diamond_layers.length :=
  C8_set_layer_state_postcondition diamond_layers 0 1 4
    (by unfold SlavesValid; decide) (by unfold Mirrored; decide)
    ⟨fun i => 3 - i, by decide, by decide⟩ (by decide) (by decide)

/-! ## Graph preservation -/

theorem stripRuntime_default : stripRuntime default = default := rfl

theorem SameGraph.sg_refl (ls : List Layer) : SameGraph ls ls := rfl

theorem SameGraph.sg_trans {a b c : List Layer} (h1 : SameGraph a b) (h2 : SameGraph b c) :
    SameGraph a c := by
  unfold SameGraph at *
  rw [h2, h1]

theorem SameGraph.sg_symm {a b : List Layer} (h : SameGraph a b) : SameGraph b a := by
  unfold SameGraph at *
  exact h.symm

theorem SameGraph.sg_length_eq {ls ls' : List Layer} (h : SameGraph ls ls') :
    ls'.length = ls.length := by
  have := congrArg List.length h
  simpa using this

theorem SameGraph.sg_strip_eq {ls ls' : List Layer} (h : SameGraph ls ls') (i : Nat) :
    stripRuntime (layerAt ls' i) = stripRuntime (layerAt ls i) := by
  have h1 := layerAt_map stripRuntime stripRuntime_default ls' i
  have h2 := layerAt_map stripRuntime stripRuntime_default ls i
  unfold SameGraph at h
  rw [h] at h1
  rw [h2] at h1
  exact h1.symm

theorem SameGraph.sg_slaves_eq {ls ls' : List Layer} (h : SameGraph ls ls') (i : Nat) :
    (layerAt ls' i).and_slave_layers = (layerAt ls i).and_slave_layers :=
  (congrArg (fun l => Layer.and_slave_layers l) (h.sg_strip_eq i) :
    (stripRuntime (layerAt ls' i)).and_slave_layers =
      (stripRuntime (layerAt ls i)).and_slave_layers)

theorem SameGraph.sg_masters_eq {ls ls' : List Layer} (h : SameGraph ls ls') (i : Nat) :
    (layerAt ls' i).and_master_layers = (layerAt ls i).and_master_layers :=
  (congrArg (fun l => Layer.and_master_layers l) (h.sg_strip_eq i) :
    (stripRuntime (layerAt ls' i)).and_master_layers =
      (stripRuntime (layerAt ls i)).and_master_layers)

theorem SameGraph.sg_not_masters_eq {ls ls' : List Layer} (h : SameGraph ls ls') (i : Nat) :
    (layerAt ls' i).and_not_master_layers = (layerAt ls i).and_not_master_layers :=
  (congrArg (fun l => Layer.and_not_master_layers l) (h.sg_strip_eq i) :
    (stripRuntime (layerAt ls' i)).and_not_master_layers =
      (stripRuntime (layerAt ls i)).and_not_master_layers)

theorem SameButState.sbs_sameGraph {ls ls' : List Layer} (h : SameButState ls ls') :
    SameGraph ls ls' := by
  unfold SameGraph
  unfold SameButState at h
  have h2 := congrArg (List.map stripRuntime) h
  simp only [List.map_map] at h2
  have hc : stripRuntime ∘ stripState = stripRuntime := by
    funext l
    rfl
  rw [hc] at h2
  exact h2

/-- Changing only runtime fields of one layer keeps the graph. -/
theorem SameGraph.sg_set_runtime (ls : List Layer) (i : Nat) (x : Layer)
    (hx : stripRuntime x = stripRuntime (layerAt ls i)) : SameGraph ls (ls.set i x) := by
  unfold SameGraph
  rw [List.map_set, hx]
  have h := set_self_layerAt (ls.map stripRuntime) i
  rw [layerAt_map stripRuntime stripRuntime_default] at h
  exact h

theorem SameGraph.sg_slavesValid {ls ls' : List Layer} (h : SameGraph ls ls')
    (hv : SlavesValid ls) : SlavesValid ls' := by
  intro i hi j hj
  rw [h.sg_length_eq] at hi ⊢
  rw [h.sg_slaves_eq] at hj
  exact hv i hi j hj

theorem SameGraph.sg_mirrored {ls ls' : List Layer} (h : SameGraph ls ls')
    (hv : Mirrored ls) : Mirrored ls' := by
  intro i hi p hp
  rw [h.sg_length_eq] at hi
  rw [h.sg_masters_eq, h.sg_not_masters_eq] at hp
  rw [h.sg_slaves_eq]
  exact hv i hi p hp

theorem SameGraph.sg_acyclic {ls ls' : List Layer} (h : SameGraph ls ls')
    (hv : Acyclic ls) : Acyclic ls' := by
  obtain ⟨rank, hb, hd⟩ := hv
  refine ⟨rank, ?_, ?_⟩
  · intro i hi
    rw [h.sg_length_eq] at hi ⊢
    exact hb i hi
  · intro i hi j hj
    rw [h.sg_length_eq] at hi
    rw [h.sg_slaves_eq] at hj
    exact hd i hi j hj

theorem SameGraph.sg_layersOK {ls ls' : List Layer} (h : SameGraph ls ls')
    (hv : LayersOK ls) : LayersOK ls' :=
  ⟨h.sg_slavesValid hv.1, h.sg_mirrored hv.2.1, h.sg_acyclic hv.2.2⟩

theorem SameGraph.sg_reach {ls ls' : List Layer} (h : SameGraph ls ls') {a b : Nat}
    (hr : Reach ls a b) : Reach ls' a b := by
  induction hr with
  | single hx =>
    exact Relation.TransGen.single (by rw [h.sg_slaves_eq]; exact hx)
  | tail _ hx ih =>
    exact Relation.TransGen.tail ih (by rw [h.sg_slaves_eq]; exact hx)

/-! ## Steps on the layers -/

theorem LayersStep.step_refl (T : Nat → Prop) (ls : List Layer) : LayersStep T ls ls :=
  ⟨SameGraph.sg_refl ls, fun _ _ => ⟨rfl, rfl, fun h => h⟩, fun h => h⟩

theorem LayersStep.step_trans {T : Nat → Prop} {a b c : List Layer} (h1 : LayersStep T a b)
    (h2 : LayersStep T b c) : LayersStep T a c := by
  refine ⟨h1.1.sg_trans h2.1, fun L hL => ?_, fun hb => h2.2.2 (h1.2.2 hb)⟩
  obtain ⟨l1, p1, c1⟩ := h1.2.1 L hL
  obtain ⟨l2, p2, c2⟩ := h2.2.1 L hL
  exact ⟨l2.trans l1, p2.trans p1, fun h => c2 (c1 h)⟩

theorem LayersStep.step_mono {T T' : Nat → Prop} {a b : List Layer} (h : LayersStep T a b)
    (hT : ∀ L, T L → T' L) : LayersStep T' a b :=
  ⟨h.1, fun L hL => h.2.1 L (fun hTL => hL (hT L hTL)), h.2.2⟩

/-- On a well-formed graph `set_layer_state` returns for every fuel above
the number of layers, changes states only, and keeps every layer other than
its argument consistent. -/
theorem set_layer_state_step {ls : List Layer} (hok : LayersOK ls) {fuel : Nat}
    (hfuel : ls.length < fuel) (M : Nat) (v : Int)
    (hv : BinaryLayers ls → (v = 0 ∨ v = 1)) :
    ∃ ls', set_layer_state fuel ls M v = some ls' ∧ SameButState ls ls' ∧
      LayersStep (fun L => L = M) ls ls' := by
  obtain ⟨hvalid, hmir, rank, hbound, hdec⟩ := hok
  by_cases hM : M < ls.length
  · have hr : rank M < fuel := lt_trans (hbound M hM) hfuel
    obtain ⟨ls', hrun, hs, hst, hreach, hframe⟩ :=
      set_layer_state_spec ls rank (rank_decreases hdec) hvalid (mirrored_all hmir) fuel M ls v
        (SameButState.sbs_refl ls) hr hM
    refine ⟨ls', hrun, hs, hs.sbs_sameGraph,
      fun L hL => ⟨hs.sbs_lock_eq L, hs.sbs_prev_lock_eq L, ?_⟩, ?_⟩
    swap
    · intro hb i
      refine ⟨?_, by rw [hs.sbs_lock_eq]; exact (hb i).2.1,
        by rw [hs.sbs_prev_lock_eq]; exact (hb i).2.2⟩
      by_cases hiM : i = M
      · rw [hiM, hst]; exact hv hb
      · by_cases hR : Reach ls M i
        · have hc := hreach i hR
          unfold Consistent at hc
          rw [hc]
          split
          · exact Or.inr rfl
          · rw [hs.sbs_lock_eq]; exact (hb i).2.1
        · rw [hframe i hiM hR]; exact (hb i).1
    intro hc
    by_cases hR : Reach ls M L
    · exact hreach L hR
    · unfold Consistent at hc ⊢
      rw [hframe L hL hR, hs.sbs_lock_eq]
      rw [all_master_active_congr (hs.sbs_masters_eq L) (hs.sbs_not_masters_eq L)]
      · exact hc
      · intro p hp
        have hLp := mirrored_all hmir L p hp
        apply hframe p
        · intro hpM
          rw [hpM] at hLp
          exact hR (Relation.TransGen.single hLp)
        · intro hrp
          exact hR (Relation.TransGen.tail hrp hLp)
  · have hle : ls.length ≤ M := Nat.le_of_not_lt hM
    obtain ⟨f, rfl⟩ : ∃ f, fuel = f + 1 := ⟨fuel - 1, by omega⟩
    refine ⟨ls, ?_, SameButState.sbs_refl ls, LayersStep.step_refl _ ls⟩
    rw [set_layer_state]
    simp only
    rw [List.set_eq_of_length_le hle, slaves_of_ge hle]
    rfl

theorem set_runtime_state (ls : List Layer) (i : Nat) (x : Layer)
    (hx : x.state = (layerAt ls i).state) (p : Nat) :
    (layerAt (ls.set i x) p).state = (layerAt ls p).state := by
  by_cases hi : i < ls.length
  · by_cases hp : i = p
    · subst hp
      rw [layerAt_set_eq _ hi, hx]
    · rw [layerAt_set_ne _ hp]
  · rw [List.set_eq_of_length_le (Nat.le_of_not_lt hi)]

/-- Rewriting the lock fields of one layer is a step on that layer. -/
theorem set_lock_step (ls : List Layer) (i : Nat) (x : Layer)
    (hg : stripRuntime x = stripRuntime (layerAt ls i))
    (hx : x.state = (layerAt ls i).state)
    (hb : BinaryLayers ls → (x.lock = 0 ∨ x.lock = 1) ∧ (x.prev_lock = 0 ∨ x.prev_lock = 1)) :
    LayersStep (fun L => L = i) ls (ls.set i x) := by
  have hsg := SameGraph.sg_set_runtime ls i x hg
  refine ⟨hsg, fun L hL => ?_, ?_⟩
  swap
  · intro hbin j
    by_cases hi : i < ls.length
    · by_cases hij : i = j
      · subst hij
        rw [layerAt_set_eq _ hi, hx]
        exact ⟨(hbin i).1, (hb hbin).1, (hb hbin).2⟩
      · rw [layerAt_set_ne _ hij]; exact hbin j
    · rw [List.set_eq_of_length_le (Nat.le_of_not_lt hi)]; exact hbin j
  have hLi : i ≠ L := fun h => hL h.symm
  refine ⟨by rw [layerAt_set_ne _ hLi], by rw [layerAt_set_ne _ hLi], ?_⟩
  intro hc
  unfold Consistent at hc ⊢
  rw [all_master_active_congr (hsg.sg_masters_eq L) (hsg.sg_not_masters_eq L)
    (fun p _ => set_runtime_state ls i x hx p)]
  rw [layerAt_set_ne _ hLi]
  exact hc

theorem conf_call_strip (c : LayerConfFn) (l : Layer) :
    stripRuntime (c.call l) = stripRuntime l := by
  cases c <;> rfl

theorem conf_call_state (c : LayerConfFn) (l : Layer) : (c.call l).state = l.state := by
  cases c <;> rfl

theorem conf_call_binary (c : LayerConfFn) (l : Layer) (h : l.lock = 0 ∨ l.lock = 1) :
    ((c.call l).lock = 0 ∨ (c.call l).lock = 1) ∧
      ((c.call l).prev_lock = 0 ∨ (c.call l).prev_lock = 1) := by
  cases c
  · refine ⟨?_, h⟩
    show (1 - l.lock = 0 ∨ 1 - l.lock = 1)
    omega
  · exact ⟨Or.inr rfl, h⟩
  · exact ⟨Or.inl rfl, h⟩

theorem layer_on_step {ls : List Layer} (hok : LayersOK ls) {fuel : Nat}
    (hfuel : ls.length < fuel) (layer : Option Nat) :
    ∃ ls', layer_on fuel layer ls = some ls' ∧ LayersStep (fun L => layer = some L) ls ls' := by
  cases layer with
  | none => exact ⟨ls, rfl, LayersStep.step_refl _ ls⟩
  | some l =>
    obtain ⟨ls', h, _, hstep⟩ := set_layer_state_step hok hfuel l 1 (fun _ => Or.inr rfl)
    exact ⟨ls', h, hstep.step_mono (fun L hL => by rw [hL])⟩

theorem layer_to_lock_step {ls : List Layer} (hok : LayersOK ls) {fuel : Nat}
    (hfuel : ls.length < fuel) (layer : Option Nat) :
    ∃ ls', layer_to_lock fuel layer ls = some ls' ∧
      LayersStep (fun L => layer = some L) ls ls' := by
  cases layer with
  | none => exact ⟨ls, rfl, LayersStep.step_refl _ ls⟩
  | some l =>
    obtain ⟨ls', h, _, hstep⟩ := set_layer_state_step hok hfuel l (layerAt ls l).lock
      (fun hb => (hb l).2.1)
    exact ⟨ls', h, hstep.step_mono (fun L hL => by rw [hL])⟩

theorem apply_layer_confs_step {fuel : Nat} (confs : List LayerConf) :
    ∀ {ls : List Layer}, LayersOK ls → ls.length < fuel →
      ∃ ls', apply_layer_confs fuel confs ls = some ls' ∧
        LayersStep (fun L => ∃ c ∈ confs, c.layer = L) ls ls' := by
  induction confs with
  | nil => intro ls _ _; exact ⟨ls, rfl, LayersStep.step_refl _ ls⟩
  | cons c rest ih =>
    intro ls hok hfuel
    have h1 := set_lock_step ls c.layer (c.conf.call (layerAt ls c.layer))
      (conf_call_strip _ _) (conf_call_state _ _)
      (fun hb => conf_call_binary _ _ (hb c.layer).2.1)
    have hok1 := h1.1.sg_layersOK hok
    have hfuel1 : (ls.set c.layer (c.conf.call (layerAt ls c.layer))).length < fuel := by
      rw [List.length_set]; exact hfuel
    obtain ⟨ls2, h2, hs2, hstep2⟩ := set_layer_state_step hok1 hfuel1 c.layer
      (layerAt (ls.set c.layer (c.conf.call (layerAt ls c.layer))) c.layer).lock
      (fun hb => (hb c.layer).2.1)
    have hok2 := hs2.sbs_sameGraph.sg_layersOK hok1
    have hfuel2 : ls2.length < fuel := by rw [hs2.sbs_length_eq]; exact hfuel1
    obtain ⟨ls3, h3, hstep3⟩ := ih hok2 hfuel2
    refine ⟨ls3, ?_, ?_⟩
    · rw [apply_layer_confs, h2]
      exact h3
    · have e1 : LayersStep (fun L => ∃ c' ∈ c :: rest, c'.layer = L) ls _ :=
        h1.step_mono (fun L hL => ⟨c, List.mem_cons_self _ _, hL.symm⟩)
      have e2 : LayersStep (fun L => ∃ c' ∈ c :: rest, c'.layer = L) _ ls2 :=
        hstep2.step_mono (fun L hL => ⟨c, List.mem_cons_self _ _, hL.symm⟩)
      have e3 : LayersStep (fun L => ∃ c' ∈ c :: rest, c'.layer = L) ls2 ls3 :=
        hstep3.step_mono (fun L ⟨c', hc', h⟩ => ⟨c', List.mem_cons_of_mem _ hc', h⟩)
      exact (e1.step_trans e2).step_trans e3

theorem revert_layer_confs_step {fuel : Nat} (confs : List LayerConf) :
    ∀ {ls : List Layer}, LayersOK ls → ls.length < fuel →
      ∃ ls', revert_layer_confs fuel confs ls = some ls' ∧
        LayersStep (fun L => ∃ c ∈ confs, c.layer = L) ls ls' := by
  induction confs with
  | nil => intro ls _ _; exact ⟨ls, rfl, LayersStep.step_refl _ ls⟩
  | cons c rest ih =>
    intro ls hok hfuel
    have h1 := set_lock_step ls c.layer
      { layerAt ls c.layer with lock := (layerAt ls c.layer).prev_lock } rfl rfl
      (fun hb => ⟨(hb c.layer).2.2, (hb c.layer).2.2⟩)
    have hok1 := h1.1.sg_layersOK hok
    have hfuel1 : (ls.set c.layer
        { layerAt ls c.layer with lock := (layerAt ls c.layer).prev_lock }).length < fuel := by
      rw [List.length_set]; exact hfuel
    obtain ⟨ls2, h2, hs2, hstep2⟩ := set_layer_state_step hok1 hfuel1 c.layer
      (layerAt (ls.set c.layer
        { layerAt ls c.layer with lock := (layerAt ls c.layer).prev_lock }) c.layer).lock
      (fun hb => (hb c.layer).2.1)
    have hok2 := hs2.sbs_sameGraph.sg_layersOK hok1
    have hfuel2 : ls2.length < fuel := by rw [hs2.sbs_length_eq]; exact hfuel1
    obtain ⟨ls3, h3, hstep3⟩ := ih hok2 hfuel2
    refine ⟨ls3, ?_, ?_⟩
    · rw [revert_layer_confs, h2]
      exact h3
    · have e1 : LayersStep (fun L => ∃ c' ∈ c :: rest, c'.layer = L) ls _ :=
        h1.step_mono (fun L hL => ⟨c, List.mem_cons_self _ _, hL.symm⟩)
      have e2 : LayersStep (fun L => ∃ c' ∈ c :: rest, c'.layer = L) _ ls2 :=
        hstep2.step_mono (fun L hL => ⟨c, List.mem_cons_self _ _, hL.symm⟩)
      have e3 : LayersStep (fun L => ∃ c' ∈ c :: rest, c'.layer = L) ls2 ls3 :=
        hstep3.step_mono (fun L ⟨c', hc', h⟩ => ⟨c', List.mem_cons_of_mem _ hc', h⟩)
      exact (e1.step_trans e2).step_trans e3

/-- The tap-lock actions followed by the release of a layer, as the key-up
handler chains them. -/
theorem confs_then_lock_step {fuel : Nat} {ls : List Layer} (hok : LayersOK ls)
    (hfuel : ls.length < fuel) (confs : List LayerConf) (layer : Option Nat) :
    ∃ ls', (apply_layer_confs fuel confs ls).bind (layer_to_lock fuel layer) = some ls' ∧
      LayersStep (fun L => (∃ c ∈ confs, c.layer = L) ∨ layer = some L) ls ls' := by
  obtain ⟨ls1, h1, s1⟩ := apply_layer_confs_step confs hok hfuel
  have hok1 := s1.1.sg_layersOK hok
  have hfuel1 : ls1.length < fuel := by rw [s1.1.sg_length_eq]; exact hfuel
  obtain ⟨ls2, h2, s2⟩ := layer_to_lock_step hok1 hfuel1 layer
  refine ⟨ls2, by rw [h1]; exact h2, ?_⟩
  exact (s1.step_mono (fun L h => Or.inl h)).step_trans (s2.step_mono (fun L h => Or.inr h))

/-- The undo of the tap-lock actions followed by the activation of a layer,
as the key-down handler chains them. -/
theorem revert_then_on_step {fuel : Nat} {ls : List Layer} (hok : LayersOK ls)
    (hfuel : ls.length < fuel) (confs : List LayerConf) (layer : Option Nat) :
    ∃ ls', (revert_layer_confs fuel confs ls).bind (layer_on fuel layer) = some ls' ∧
      LayersStep (fun L => (∃ c ∈ confs, c.layer = L) ∨ layer = some L) ls ls' := by
  obtain ⟨ls1, h1, s1⟩ := revert_layer_confs_step confs hok hfuel
  have hok1 := s1.1.sg_layersOK hok
  have hfuel1 : ls1.length < fuel := by rw [s1.1.sg_length_eq]; exact hfuel
  obtain ⟨ls2, h2, s2⟩ := layer_on_step hok1 hfuel1 layer
  refine ⟨ls2, by rw [h1]; exact h2, ?_⟩
  exact (s1.step_mono (fun L h => Or.inl h)).step_trans (s2.step_mono (fun L h => Or.inr h))

/-! ## Chords -/

theorem send_key_def_fold_unmasked (direction : Direction) (remap_id : Nat) (head : List KeyDef) :
    ∀ acc : Nat × List SentInput,
      (head.foldl (send_key_def_step direction remap_id 0) acc).2 =
        acc.2 ++ head.map (fun k => SentInput.mk k.scan_code k.virt_code direction remap_id) := by
  induction head with
  | nil => intro acc; simp
  | cons k rest ih =>
    intro acc
    rw [List.foldl_cons, ih]
    simp [send_key_def_step, send_input]

theorem send_key_def_input_down_unmasked (head : List KeyDef) (remap_id : Nat)
    (sent : List SentInput) :
    (send_key_def_input_down head remap_id 0 sent).2 = sent ++ chord_down head remap_id := by
  unfold send_key_def_input_down chord_down
  exact send_key_def_fold_unmasked _ _ _ _

theorem send_key_def_input_up_unmasked (head : List KeyDef) (remap_id : Nat)
    (sent : List SentInput) :
    (send_key_def_input_up head remap_id 0 sent).2 = sent ++ chord_up head remap_id := by
  unfold send_key_def_input_up chord_up
  exact send_key_def_fold_unmasked _ _ _ _

/-! ## The remap arena -/

theorem remapAt_set_eq {rs : List Remap} {i : Nat} (x : Remap) (h : i < rs.length) :
    remapAt (rs.set i x) i = x := by
  simp [remapAt, List.getD_eq_getElem?_getD, h]

theorem remapAt_set_ne {rs : List Remap} {i j : Nat} (x : Remap) (h : i ≠ j) :
    remapAt (rs.set i x) j = remapAt rs j := by
  simp [remapAt, List.getD_eq_getElem?_getD, List.getElem?_set_ne h]

/-! ## Machine arithmetic -/

theorem dword_sub_of_le {a b : Nat} (h : b ≤ a) (ha : a < 4294967296) :
    dword_sub a b = a - b := by
  unfold dword_sub
  omega

theorem u32_of_nonneg {x : Int} (h0 : 0 ≤ x) (h1 : x < 4294967296) : u32 x = x.toNat := by
  unfold u32
  rw [Int.emod_eq_of_lt h0 h1]

/-- The tap test of the code holds when the release follows the press by
less than a positive `tap_timeout`, or `tap_timeout` is 0. -/
theorem within_tap_timeout_of_lt (e : Engine) {t t' : Nat} (hle : t ≤ t')
    (ht' : t' < 4294967296) (hint : e.g_tap_timeout < 2147483648)
    (h : e.g_tap_timeout = 0 ∨ (t' : Int) - (t : Int) < e.g_tap_timeout) :
    within_tap_timeout e t' t = true := by
  unfold within_tap_timeout
  rcases h with h | h
  · simp [h]
  · have h0 : 0 ≤ e.g_tap_timeout := by omega
    rw [dword_sub_of_le hle ht', u32_of_nonneg h0 (by omega)]
    simp only [Bool.or_eq_true, decide_eq_true_eq]
    right
    omega

/-! ## Scenario S1 -/

theorem toggle_tap_lock_sent (r : Remap) (sent : List SentInput) :
    (toggle_tap_lock r sent).2 = sent ++ tap_lock_toggle_events r := by
  unfold toggle_tap_lock tap_lock_toggle_events
  by_cases h : r.to_when_tap_lock = []
  · simp [h]
  · by_cases h1 : r.tap_lock = 1
    · simp [h, h1, send_key_def_input_up_unmasked]
    · have h2 : 1 - r.tap_lock ≠ 0 := by omega
      simp [h, h1, h2, send_key_def_input_down_unmasked]

theorem toggle_tap_lock_state (r : Remap) (sent : List SentInput) :
    (toggle_tap_lock r sent).1.state = r.state := by
  unfold toggle_tap_lock
  split_ifs <;> rfl

theorem press_from_rest_with_other (r : Remap) (t : Nat) (sent : List SentInput)
    (h : r.to_with_other ≠ []) :
    press_from_rest r t sent = ({ r with time := t, state := .HELD_DOWN_ALONE }, sent) := by
  unfold press_from_rest
  rw [if_pos h]

theorem press_from_rest_alone (r : Remap) (t : Nat) (sent : List SentInput)
    (h : r.to_with_other = []) (ha : r.to_when_alone ≠ []) :
    press_from_rest r t sent =
      ({ r with time := t, state := .TAP, active_modifiers := r.to_when_alone_modifiers },
        sent ++ chord_down r.to_when_alone r.id) := by
  unfold press_from_rest
  rw [if_neg (not_not.2 h), if_pos ha, send_key_def_input_down_unmasked]

/-! ## The key handlers, state by state -/

theorem toggle_double_tap_lock_sent (r : Remap) (sent : List SentInput) :
    (toggle_double_tap_lock r sent).2 = sent ++ double_tap_lock_toggle_events r := by
  unfold toggle_double_tap_lock double_tap_lock_toggle_events
  by_cases h : r.to_when_double_tap_lock = []
  · simp [h]
  · by_cases h1 : r.double_tap_lock = 1
    · simp [h, h1, send_key_def_input_up_unmasked]
    · have h2 : 1 - r.double_tap_lock ≠ 0 := by omega
      simp [h, h1, h2, send_key_def_input_down_unmasked]

theorem toggle_double_tap_lock_state (r : Remap) (sent : List SentInput) :
    (toggle_double_tap_lock r sent).1.state = r.state := by
  unfold toggle_double_tap_lock
  split_ifs <;> rfl

theorem toggle_tap_lock_rule (r : Remap) (sent : List SentInput) :
    SameRule r (toggle_tap_lock r sent).1 := by
  unfold toggle_tap_lock SameRule
  split_ifs <;> rfl

theorem toggle_double_tap_lock_rule (r : Remap) (sent : List SentInput) :
    SameRule r (toggle_double_tap_lock r sent).1 := by
  unfold toggle_double_tap_lock SameRule
  split_ifs <;> rfl

theorem press_from_rest_rule (r : Remap) (t : Nat) (sent : List SentInput) :
    SameRule r (press_from_rest r t sent).1 := by
  unfold press_from_rest SameRule
  split_ifs <;> rfl

theorem toggle_tap_lock_tap_lock (r : Remap) (sent : List SentInput) :
    (toggle_tap_lock r sent).1.tap_lock =
      if r.to_when_tap_lock ≠ [] then 1 - r.tap_lock else r.tap_lock := by
  unfold toggle_tap_lock
  split_ifs <;> rfl

theorem toggle_tap_lock_double_tap_lock (r : Remap) (sent : List SentInput) :
    (toggle_tap_lock r sent).1.double_tap_lock = r.double_tap_lock := by
  unfold toggle_tap_lock
  split_ifs <;> rfl

theorem undo_tap_lock_sent (r : Remap) (sent : List SentInput) :
    (undo_tap_lock r sent).2 = sent ++ tap_lock_release_events r := by
  unfold undo_tap_lock tap_lock_release_events
  by_cases h : r.to_when_tap_lock = []
  · simp [h]
  · by_cases h1 : r.tap_lock = 1
    · simp [h, h1, send_key_def_input_up_unmasked]
    · have h2 : ¬ (1 - r.tap_lock = 0) := by omega
      simp [h, h1, h2]

theorem undo_tap_lock_rule (r : Remap) (sent : List SentInput) :
    SameRule r (undo_tap_lock r sent).1 := by
  unfold undo_tap_lock SameRule
  split_ifs <;> rfl

theorem undo_tap_lock_state (r : Remap) (sent : List SentInput) :
    (undo_tap_lock r sent).1.state = r.state := by
  unfold undo_tap_lock
  split_ifs <;> rfl

theorem undo_tap_lock_time (r : Remap) (sent : List SentInput) :
    (undo_tap_lock r sent).1.time = r.time := by
  unfold undo_tap_lock
  split_ifs <;> rfl

theorem undo_tap_lock_tap_lock (r : Remap) (sent : List SentInput) :
    (undo_tap_lock r sent).1.tap_lock =
      if r.to_when_tap_lock ≠ [] then 1 - r.tap_lock else r.tap_lock := by
  unfold undo_tap_lock
  split_ifs <;> rfl

theorem undo_tap_lock_double_tap_lock (r : Remap) (sent : List SentInput) :
    (undo_tap_lock r sent).1.double_tap_lock = r.double_tap_lock := by
  unfold undo_tap_lock
  split_ifs <;> rfl

theorem press_doublepress_chord_sent (r : Remap) (sent : List SentInput) :
    (press_doublepress_chord r sent).2 = sent ++ chord_down (doublepress_chord r).1 r.id := by
  unfold press_doublepress_chord
  by_cases h : (doublepress_chord r).1 = []
  · simp [h, chord_down]
  · simp [h, send_key_def_input_down_unmasked]

theorem press_doublepress_chord_rule (r : Remap) (sent : List SentInput) :
    SameRule r (press_doublepress_chord r sent).1 := by
  unfold press_doublepress_chord SameRule
  split_ifs <;> rfl

theorem press_doublepress_chord_state (r : Remap) (sent : List SentInput) :
    (press_doublepress_chord r sent).1.state = r.state := by
  unfold press_doublepress_chord
  split_ifs <;> rfl

theorem press_doublepress_chord_time (r : Remap) (sent : List SentInput) :
    (press_doublepress_chord r sent).1.time = r.time := by
  unfold press_doublepress_chord
  split_ifs <;> rfl

theorem press_doublepress_chord_tap_lock (r : Remap) (sent : List SentInput) :
    (press_doublepress_chord r sent).1.tap_lock = r.tap_lock := by
  unfold press_doublepress_chord
  split_ifs <;> rfl

theorem press_doublepress_chord_double_tap_lock (r : Remap) (sent : List SentInput) :
    (press_doublepress_chord r sent).1.double_tap_lock = r.double_tap_lock := by
  unfold press_doublepress_chord
  split_ifs <;> rfl

theorem release_chord_sent (r : Remap) (chord : List KeyDef) (sent : List SentInput) :
    (release_chord r chord sent).2 = sent ++ chord_up chord r.id := by
  unfold release_chord
  by_cases h : chord = []
  · simp [h, chord_up]
  · simp [h, send_key_def_input_up_unmasked]

theorem release_chord_rule (r : Remap) (chord : List KeyDef) (sent : List SentInput) :
    SameRule r (release_chord r chord sent).1 := by
  unfold release_chord SameRule
  split_ifs <;> rfl

theorem release_chord_state (r : Remap) (chord : List KeyDef) (sent : List SentInput) :
    (release_chord r chord sent).1.state = r.state := by
  unfold release_chord
  split_ifs <;> rfl

theorem release_chord_tap_lock (r : Remap) (chord : List KeyDef) (sent : List SentInput) :
    (release_chord r chord sent).1.tap_lock = r.tap_lock := by
  unfold release_chord
  split_ifs <;> rfl

theorem release_chord_double_tap_lock (r : Remap) (chord : List KeyDef)
    (sent : List SentInput) :
    (release_chord r chord sent).1.double_tap_lock = r.double_tap_lock := by
  unfold release_chord
  split_ifs <;> rfl

/-! Field equalities between two records of one rule. -/

theorem SameRule.rule_trans {a b c : Remap} (h1 : SameRule a b) (h2 : SameRule b c) :
    SameRule a c := by
  unfold SameRule at *
  rw [h2, h1]

theorem SameRule.rule_id {r r' : Remap} (h : SameRule r r') : r'.id = r.id :=
  (congrArg (fun x => Remap.id x) h : (stripRemap r').id = (stripRemap r).id)

theorem SameRule.rule_alone {r r' : Remap} (h : SameRule r r') :
    r'.to_when_alone = r.to_when_alone :=
  (congrArg (fun x => Remap.to_when_alone x) h :
    (stripRemap r').to_when_alone = (stripRemap r).to_when_alone)

theorem SameRule.rule_other {r r' : Remap} (h : SameRule r r') :
    r'.to_with_other = r.to_with_other :=
  (congrArg (fun x => Remap.to_with_other x) h :
    (stripRemap r').to_with_other = (stripRemap r).to_with_other)

theorem SameRule.rule_doublepress {r r' : Remap} (h : SameRule r r') :
    r'.to_when_doublepress = r.to_when_doublepress :=
  (congrArg (fun x => Remap.to_when_doublepress x) h :
    (stripRemap r').to_when_doublepress = (stripRemap r).to_when_doublepress)

theorem SameRule.rule_tap_lock {r r' : Remap} (h : SameRule r r') :
    r'.to_when_tap_lock = r.to_when_tap_lock :=
  (congrArg (fun x => Remap.to_when_tap_lock x) h :
    (stripRemap r').to_when_tap_lock = (stripRemap r).to_when_tap_lock)

theorem SameRule.rule_double_tap_lock {r r' : Remap} (h : SameRule r r') :
    r'.to_when_double_tap_lock = r.to_when_double_tap_lock :=
  (congrArg (fun x => Remap.to_when_double_tap_lock x) h :
    (stripRemap r').to_when_double_tap_lock = (stripRemap r).to_when_double_tap_lock)

theorem SameRule.rule_press_layer {r r' : Remap} (h : SameRule r r') :
    r'.to_when_press_layer = r.to_when_press_layer :=
  (congrArg (fun x => Remap.to_when_press_layer x) h :
    (stripRemap r').to_when_press_layer = (stripRemap r).to_when_press_layer)

theorem SameRule.rule_doublepress_layer {r r' : Remap} (h : SameRule r r') :
    r'.to_when_doublepress_layer = r.to_when_doublepress_layer :=
  (congrArg (fun x => Remap.to_when_doublepress_layer x) h :
    (stripRemap r').to_when_doublepress_layer = (stripRemap r).to_when_doublepress_layer)

theorem SameRule.rule_tap_lock_layer {r r' : Remap} (h : SameRule r r') :
    r'.to_when_tap_lock_layer = r.to_when_tap_lock_layer :=
  (congrArg (fun x => Remap.to_when_tap_lock_layer x) h :
    (stripRemap r').to_when_tap_lock_layer = (stripRemap r).to_when_tap_lock_layer)

theorem SameRule.rule_double_tap_lock_layer {r r' : Remap} (h : SameRule r r') :
    r'.to_when_double_tap_lock_layer = r.to_when_double_tap_lock_layer :=
  (congrArg (fun x => Remap.to_when_double_tap_lock_layer x) h :
    (stripRemap r').to_when_double_tap_lock_layer =
      (stripRemap r).to_when_double_tap_lock_layer)

theorem SameRule.rule_chord {r r' : Remap} (h : SameRule r r') :
    doublepress_chord r' = doublepress_chord r := by
  unfold doublepress_chord
  rw [h.rule_doublepress, h.rule_doublepress_layer, h.rule_alone]
  have h1 : r'.to_when_doublepress_modifiers = r.to_when_doublepress_modifiers :=
    (congrArg (fun x => Remap.to_when_doublepress_modifiers x) h :
      (stripRemap r').to_when_doublepress_modifiers =
        (stripRemap r).to_when_doublepress_modifiers)
  have h2 : r'.to_when_alone_modifiers = r.to_when_alone_modifiers :=
    (congrArg (fun x => Remap.to_when_alone_modifiers x) h :
      (stripRemap r').to_when_alone_modifiers = (stripRemap r).to_when_alone_modifiers)
  rw [h1, h2]

theorem SameRule.rule_targets {r r' : Remap} (h : SameRule r r') (L : Nat) :
    RemapTargets r' L ↔ RemapTargets r L := by
  unfold RemapTargets
  rw [h.rule_press_layer, h.rule_doublepress_layer, h.rule_tap_lock_layer,
    h.rule_double_tap_lock_layer]

theorem press_from_rest_sent (r : Remap) (t : Nat) (sent : List SentInput) :
    (press_from_rest r t sent).2 =
      sent ++ (if r.to_with_other = [] then chord_down r.to_when_alone r.id else []) := by
  unfold press_from_rest
  by_cases h : r.to_with_other = []
  · by_cases ha : r.to_when_alone = []
    · simp [h, ha, chord_down]
    · simp [h, ha, send_key_def_input_down_unmasked]
  · simp [h]

theorem press_from_rest_state (r : Remap) (t : Nat) (sent : List SentInput) :
    (press_from_rest r t sent).1.state =
      if r.to_with_other = [] then State.TAP else State.HELD_DOWN_ALONE := by
  unfold press_from_rest
  split_ifs <;> first | rfl | contradiction

theorem press_from_rest_time (r : Remap) (t : Nat) (sent : List SentInput) :
    (press_from_rest r t sent).1.time = t := by
  unfold press_from_rest
  split_ifs <;> rfl

theorem press_from_rest_tap_lock (r : Remap) (t : Nat) (sent : List SentInput) :
    (press_from_rest r t sent).1.tap_lock = r.tap_lock := by
  unfold press_from_rest
  split_ifs <;> rfl

theorem press_from_rest_double_tap_lock (r : Remap) (t : Nat) (sent : List SentInput) :
    (press_from_rest r t sent).1.double_tap_lock = r.double_tap_lock := by
  unfold press_from_rest
  split_ifs <;> rfl

theorem toggle_tap_lock_time (r : Remap) (sent : List SentInput) :
    (toggle_tap_lock r sent).1.time = r.time := by
  unfold toggle_tap_lock
  split_ifs <;> rfl

theorem toggle_double_tap_lock_tap_lock (r : Remap) (sent : List SentInput) :
    (toggle_double_tap_lock r sent).1.tap_lock = r.tap_lock := by
  unfold toggle_double_tap_lock
  split_ifs <;> rfl

theorem toggle_double_tap_lock_double_tap_lock (r : Remap) (sent : List SentInput) :
    (toggle_double_tap_lock r sent).1.double_tap_lock =
      if r.to_when_double_tap_lock ≠ [] then 1 - r.double_tap_lock else r.double_tap_lock := by
  unfold toggle_double_tap_lock
  split_ifs <;> rfl

theorem release_chord_time (r : Remap) (chord : List KeyDef) (sent : List SentInput) :
    (release_chord r chord sent).1.time = r.time := by
  unfold release_chord
  split_ifs <;> rfl

theorem tap_lock_toggle_events_congr {r r' : Remap} (h : SameRule r r')
    (hl : r'.tap_lock = r.tap_lock) :
    tap_lock_toggle_events r' = tap_lock_toggle_events r := by
  unfold tap_lock_toggle_events
  rw [h.rule_tap_lock, h.rule_id, hl]

theorem tap_lock_release_events_congr {r r' : Remap} (h : SameRule r r')
    (hl : r'.tap_lock = r.tap_lock) :
    tap_lock_release_events r' = tap_lock_release_events r := by
  unfold tap_lock_release_events
  rw [h.rule_tap_lock, h.rule_id, hl]

theorem double_tap_lock_toggle_events_congr {r r' : Remap} (h : SameRule r r')
    (hl : r'.double_tap_lock = r.double_tap_lock) :
    double_tap_lock_toggle_events r' = double_tap_lock_toggle_events r := by
  unfold double_tap_lock_toggle_events
  rw [h.rule_double_tap_lock, h.rule_id, hl]

/-! ## The key handlers, state by state -/

/-- A fresh press (an idle remap, or a tapped one outside the doublepress
window): with a `to_with_other` binding the remap waits in `HELD_DOWN_ALONE`
and nothing is sent; without one it enters `TAP` and its `to_when_alone`
chord is pressed. The press layer is activated and the remap is put on the
active list. -/
theorem key_down_fresh {fuel : Nat} (e : Engine) (remap : Nat) (t : Nat) (r : Remap)
    (hr : remapAt e.remaps remap = r)
    (hok : LayersOK e.layers) (hfuel : e.layers.length < fuel)
    (hstate : r.state = .IDLE ∨
      (r.state = .TAPPED ∧
        ¬ (e.g_doublepress_timeout > 0 ∧
          dword_sub t r.time < u32 e.g_doublepress_timeout))) :
    ∃ ls r', event_remapped_key_down fuel remap t e =
        some (1, { e with
          remaps := e.remaps.set remap r',
          sent := e.sent ++
            (if r.to_with_other = [] then
              chord_down r.to_when_alone r.id
            else []),
          layers := ls,
          g_remap_list := append_active_remap e.g_remap_list remap }) ∧
      RemapIs r r'
        (if r.to_with_other = [] then State.TAP
          else State.HELD_DOWN_ALONE)
        r.tap_lock r.double_tap_lock ∧
      r'.time = t ∧
      LayersStep (RemapTargets r) e.layers ls := by
  subst hr
  obtain ⟨ls, hls, hstep⟩ := layer_on_step hok hfuel (remapAt e.remaps remap).to_when_press_layer
  refine ⟨ls, (press_from_rest (remapAt e.remaps remap) t e.sent).1, ?_,
    ⟨press_from_rest_rule _ _ _, press_from_rest_state _ _ _, press_from_rest_tap_lock _ _ _,
      press_from_rest_double_tap_lock _ _ _⟩,
    press_from_rest_time _ _ _, hstep.step_mono (fun L h => Or.inl h)⟩
  rw [← press_from_rest_sent]
  unfold event_remapped_key_down
  rcases hstate with hstate | ⟨hstate, hwin⟩
  · simp only [hstate]
    rw [hls]
    rfl
  · simp only [hstate]
    rw [if_neg hwin, hls]
    rfl

/-- A press of a tapped remap inside the doublepress window: the remap goes
to `DOUBLE_TAP`, a set tap lock is released, and the doublepress chord (or
its fallback) is pressed. -/
theorem key_down_tapped_double {fuel : Nat} (e : Engine) (remap : Nat) (t : Nat) (r : Remap)
    (hr : remapAt e.remaps remap = r)
    (hok : LayersOK e.layers) (hfuel : e.layers.length < fuel)
    (hstate : r.state = .TAPPED)
    (hwin : e.g_doublepress_timeout > 0 ∧
      dword_sub t r.time < u32 e.g_doublepress_timeout) :
    ∃ ls r', event_remapped_key_down fuel remap t e =
        some (1, { e with
          remaps := e.remaps.set remap r',
          sent := e.sent ++ tap_lock_release_events r ++
            chord_down (doublepress_chord r).1
              r.id,
          layers := ls,
          g_remap_list := append_active_remap e.g_remap_list remap }) ∧
      RemapIs r r' State.DOUBLE_TAP
        (if r.to_when_tap_lock ≠ [] then
          1 - r.tap_lock else r.tap_lock)
        r.double_tap_lock ∧
      r'.time = t ∧
      LayersStep (RemapTargets r) e.layers ls := by
  subst hr
  obtain ⟨ls, hls, hstep⟩ := revert_then_on_step hok hfuel
    (remapAt e.remaps remap).to_when_tap_lock_layer
    (remapAt e.remaps remap).to_when_doublepress_layer
  have hT : LayersStep (RemapTargets (remapAt e.remaps remap)) e.layers ls :=
    hstep.step_mono (fun L h => by
      rcases h with h | h
      · exact Or.inr (Or.inr (Or.inl h))
      · exact Or.inr (Or.inl h))
  have hrule0 : SameRule (remapAt e.remaps remap)
      { remapAt e.remaps remap with time := t, state := .DOUBLE_TAP } := rfl
  have hrule1 : SameRule (remapAt e.remaps remap)
      (undo_tap_lock { remapAt e.remaps remap with time := t, state := .DOUBLE_TAP } e.sent).1 :=
    hrule0.rule_trans (undo_tap_lock_rule _ _)
  refine ⟨ls, (press_doublepress_chord
      (undo_tap_lock { remapAt e.remaps remap with time := t, state := .DOUBLE_TAP } e.sent).1
      (undo_tap_lock { remapAt e.remaps remap with time := t, state := .DOUBLE_TAP }
        e.sent).2).1, ?_, ⟨?_, ?_, ?_, ?_⟩, ?_, hT⟩
  · unfold event_remapped_key_down
    simp only [hstate]
    rw [if_pos hwin, hls]
    simp only [Option.map_some']
    rw [press_doublepress_chord_sent, undo_tap_lock_sent, hrule1.rule_chord, hrule1.rule_id]
    rfl
  · exact hrule1.rule_trans (press_doublepress_chord_rule _ _)
  · rw [press_doublepress_chord_state, undo_tap_lock_state]
  · rw [press_doublepress_chord_tap_lock, undo_tap_lock_tap_lock]
  · rw [press_doublepress_chord_double_tap_lock, undo_tap_lock_double_tap_lock]
  · rw [press_doublepress_chord_time, undo_tap_lock_time]

/-- A release in `HELD_DOWN_ALONE` inside the tap window: the remap goes to
`TAPPED` with the release time, the `to_when_alone` chord is pressed and
released, and the tap-lock block runs. -/
theorem key_up_held_alone_tap {fuel : Nat} (e : Engine) (remap : Nat) (t' : Nat) (r : Remap)
    (hr : remapAt e.remaps remap = r)
    (hok : LayersOK e.layers) (hfuel : e.layers.length < fuel)
    (hstate : r.state = .HELD_DOWN_ALONE)
    (htap : within_tap_timeout e t' r.time = true) :
    ∃ ls r', event_remapped_key_up fuel remap t' e =
        some (1, { e with
          remaps := e.remaps.set remap r',
          sent := e.sent ++
            chord_down r.to_when_alone r.id ++
            chord_up r.to_when_alone r.id ++
            tap_lock_toggle_events r,
          layers := ls,
          g_remap_list :=
            if r'.tap_lock = 0 ∧ r'.double_tap_lock = 0 then
              remove_active_remap e.g_remap_list remap
            else e.g_remap_list }) ∧
      RemapIs r r' State.TAPPED
        (if r.to_when_tap_lock ≠ [] then
          1 - r.tap_lock else r.tap_lock)
        r.double_tap_lock ∧
      r'.time = t' ∧
      LayersStep (RemapTargets r) e.layers ls := by
  subst hr
  obtain ⟨ls, hls, hstep⟩ := confs_then_lock_step hok hfuel
    (remapAt e.remaps remap).to_when_tap_lock_layer (remapAt e.remaps remap).to_when_press_layer
  have hT : LayersStep (RemapTargets (remapAt e.remaps remap)) e.layers ls :=
    hstep.step_mono (fun L h => by
      rcases h with h | h
      · exact Or.inr (Or.inr (Or.inl h))
      · exact Or.inl h)
  have hrule0 : SameRule (remapAt e.remaps remap)
      { remapAt e.remaps remap with time := t', state := .TAPPED } := rfl
  have hsent : (if (remapAt e.remaps remap).to_when_alone ≠ [] then
        (send_key_def_input_up (remapAt e.remaps remap).to_when_alone
          (remapAt e.remaps remap).id 0
          (send_key_def_input_down (remapAt e.remaps remap).to_when_alone
            (remapAt e.remaps remap).id 0 e.sent).2).2
      else e.sent) =
      e.sent ++
        chord_down (remapAt e.remaps remap).to_when_alone (remapAt e.remaps remap).id ++
        chord_up (remapAt e.remaps remap).to_when_alone (remapAt e.remaps remap).id := by
    by_cases h : (remapAt e.remaps remap).to_when_alone = []
    · simp [h, chord_down, chord_up]
    · simp [h, send_key_def_input_down_unmasked, send_key_def_input_up_unmasked]
  refine ⟨ls, (toggle_tap_lock { remapAt e.remaps remap with time := t', state := .TAPPED }
      (e.sent ++
        chord_down (remapAt e.remaps remap).to_when_alone (remapAt e.remaps remap).id ++
        chord_up (remapAt e.remaps remap).to_when_alone (remapAt e.remaps remap).id)).1,
    ?_, ⟨?_, ?_, ?_, ?_⟩, ?_, hT⟩
  · unfold event_remapped_key_up key_up_transition
    simp only [hstate, htap, if_true]
    rw [hls, hsent]
    simp only [Option.map_some']
    rw [toggle_tap_lock_sent, tap_lock_toggle_events_congr hrule0 rfl]
  · exact hrule0.rule_trans (toggle_tap_lock_rule _ _)
  · rw [toggle_tap_lock_state]
  · rw [toggle_tap_lock_tap_lock]
  · rw [toggle_tap_lock_double_tap_lock]
  · rw [toggle_tap_lock_time]

/-- A release in `TAP` inside the tap window: the `to_when_alone` chord is
released, the tap-lock block runs, and the remap is `TAPPED`. -/
theorem key_up_tap_within {fuel : Nat} (e : Engine) (remap : Nat) (t' : Nat) (r : Remap)
    (hr : remapAt e.remaps remap = r)
    (hok : LayersOK e.layers) (hfuel : e.layers.length < fuel)
    (hstate : r.state = .TAP)
    (htap : within_tap_timeout e t' r.time = true) :
    ∃ ls r', event_remapped_key_up fuel remap t' e =
        some (1, { e with
          remaps := e.remaps.set remap r',
          sent := e.sent ++
            chord_up r.to_when_alone r.id ++
            tap_lock_toggle_events r,
          layers := ls,
          g_remap_list :=
            if r'.tap_lock = 0 ∧ r'.double_tap_lock = 0 then
              remove_active_remap e.g_remap_list remap
            else e.g_remap_list }) ∧
      RemapIs r r' State.TAPPED
        (if r.to_when_tap_lock ≠ [] then
          1 - r.tap_lock else r.tap_lock)
        r.double_tap_lock ∧
      r'.time = t' ∧
      LayersStep (RemapTargets r) e.layers ls := by
  subst hr
  obtain ⟨ls, hls, hstep⟩ := confs_then_lock_step hok hfuel
    (remapAt e.remaps remap).to_when_tap_lock_layer (remapAt e.remaps remap).to_when_press_layer
  have hT : LayersStep (RemapTargets (remapAt e.remaps remap)) e.layers ls :=
    hstep.step_mono (fun L h => by
      rcases h with h | h
      · exact Or.inr (Or.inr (Or.inl h))
      · exact Or.inl h)
  have hrule0 : SameRule (remapAt e.remaps remap)
      { remapAt e.remaps remap with time := t', state := .TAPPED } := rfl
  have hrule1 : SameRule (remapAt e.remaps remap)
      (release_chord { remapAt e.remaps remap with time := t', state := .TAPPED }
        (remapAt e.remaps remap).to_when_alone e.sent).1 :=
    hrule0.rule_trans (release_chord_rule _ _ _)
  refine ⟨ls, (toggle_tap_lock
      (release_chord { remapAt e.remaps remap with time := t', state := .TAPPED }
        (remapAt e.remaps remap).to_when_alone e.sent).1
      (release_chord { remapAt e.remaps remap with time := t', state := .TAPPED }
        (remapAt e.remaps remap).to_when_alone e.sent).2).1,
    ?_, ⟨?_, ?_, ?_, ?_⟩, ?_, hT⟩
  · unfold event_remapped_key_up key_up_transition
    simp only [hstate, htap, if_true]
    rw [hls]
    simp only [Option.map_some']
    rw [toggle_tap_lock_sent, release_chord_sent,
      tap_lock_toggle_events_congr hrule1 (release_chord_tap_lock _ _ _)]
  · exact hrule1.rule_trans (toggle_tap_lock_rule _ _)
  · rw [toggle_tap_lock_state, release_chord_state]
  · rw [toggle_tap_lock_tap_lock, release_chord_tap_lock, hrule1.rule_tap_lock]
  · rw [toggle_tap_lock_double_tap_lock, release_chord_double_tap_lock]
  · rw [toggle_tap_lock_time, release_chord_time]

/-- A release in `DOUBLE_TAP`: the doublepress chord (or its fallback) is
released and the remap is idle; inside the tap window the double-tap-lock
block runs as well. -/
theorem key_up_double_tap {fuel : Nat} (e : Engine) (remap : Nat) (t' : Nat) (r : Remap)
    (hr : remapAt e.remaps remap = r)
    (hok : LayersOK e.layers) (hfuel : e.layers.length < fuel)
    (hstate : r.state = .DOUBLE_TAP) :
    ∃ ls r', event_remapped_key_up fuel remap t' e =
        some (1, { e with
          remaps := e.remaps.set remap r',
          sent := e.sent ++
            chord_up (doublepress_chord r).1
              r.id ++
            (if within_tap_timeout e t' r.time = true then
              double_tap_lock_toggle_events r else []),
          layers := ls,
          g_remap_list :=
            if r'.tap_lock = 0 ∧ r'.double_tap_lock = 0 then
              remove_active_remap e.g_remap_list remap
            else e.g_remap_list }) ∧
      RemapIs r r' State.IDLE r.tap_lock
        (if within_tap_timeout e t' r.time = true ∧
            r.to_when_double_tap_lock ≠ [] then
          1 - r.double_tap_lock
        else r.double_tap_lock) ∧
      LayersStep (RemapTargets r) e.layers ls := by
  subst hr
  have hrule0 : SameRule (remapAt e.remaps remap)
      { remapAt e.remaps remap with state := .IDLE } := rfl
  have hrule1 : SameRule (remapAt e.remaps remap)
      (release_chord { remapAt e.remaps remap with state := .IDLE }
        (doublepress_chord (remapAt e.remaps remap)).1 e.sent).1 :=
    hrule0.rule_trans (release_chord_rule _ _ _)
  by_cases htap : within_tap_timeout e t' (remapAt e.remaps remap).time = true
  · obtain ⟨ls, hls, hstep⟩ := confs_then_lock_step hok hfuel
      (remapAt e.remaps remap).to_when_double_tap_lock_layer
      (remapAt e.remaps remap).to_when_doublepress_layer
    refine ⟨ls, (toggle_double_tap_lock
        (release_chord { remapAt e.remaps remap with state := .IDLE }
          (doublepress_chord (remapAt e.remaps remap)).1 e.sent).1
        (release_chord { remapAt e.remaps remap with state := .IDLE }
          (doublepress_chord (remapAt e.remaps remap)).1 e.sent).2).1,
      ?_, ⟨?_, ?_, ?_, ?_⟩, hstep.step_mono (fun L h => ?_)⟩
    · unfold event_remapped_key_up key_up_transition
      simp only [hstate, htap, if_true]
      rw [hls]
      simp only [Option.map_some']
      rw [toggle_double_tap_lock_sent, release_chord_sent,
        double_tap_lock_toggle_events_congr hrule1 (release_chord_double_tap_lock _ _ _)]
    · exact hrule1.rule_trans (toggle_double_tap_lock_rule _ _)
    · rw [toggle_double_tap_lock_state, release_chord_state]
    · rw [toggle_double_tap_lock_tap_lock, release_chord_tap_lock]
    · rw [toggle_double_tap_lock_double_tap_lock, release_chord_double_tap_lock,
        hrule1.rule_double_tap_lock]
      simp only [htap, true_and]
    · rcases h with h | h
      · exact Or.inr (Or.inr (Or.inr h))
      · exact Or.inr (Or.inl h)
  · obtain ⟨ls, hls, hstep⟩ := layer_to_lock_step hok hfuel
      (remapAt e.remaps remap).to_when_doublepress_layer
    refine ⟨ls, (release_chord { remapAt e.remaps remap with state := .IDLE }
          (doublepress_chord (remapAt e.remaps remap)).1 e.sent).1,
      ?_, ⟨hrule1, ?_, ?_, ?_⟩, hstep.step_mono (fun L h => Or.inr (Or.inl h))⟩
    · unfold event_remapped_key_up key_up_transition
      simp only [hstate, htap, if_false]
      rw [hls]
      simp only [Option.map_some', Bool.false_eq_true, if_false]
      rw [release_chord_sent, List.append_nil]
    · rw [release_chord_state]
    · rw [release_chord_tap_lock]
    · rw [release_chord_double_tap_lock, if_neg (fun h => htap h.1)]

/-- Claim C1 as stated fails for a rule that has both bindings and also a
tap-lock chord: with `when_alone=ESCAPE`, `with_other=LEFT_CTRL` and
`when_tap_lock=LEFT_SHIFT`, the remap idle and `tap_timeout=200`, the tap
DOWN at 0, UP at 50 sends ESCAPE down, ESCAPE up and then LEFT_SHIFT down,
which is more than the `to_when_alone` down-chord and up-chord. -/
theorem C1_counterexample :
    (remapAt c1_engine.remaps 0).state = .IDLE ∧
    (remapAt c1_engine.remaps 0).to_when_alone = [ESCAPE] ∧
    (remapAt c1_engine.remaps 0).to_with_other = [LEFT_CTRL] ∧
    (run_events 1 c1_engine [genuine CAPSLOCK .DOWN 0, genuine CAPSLOCK .UP 50]).map
        (fun p => (p.1, (remapAt p.2.remaps 0).state)) =
      some ([(1, []),
          (1, chord_down [ESCAPE] 1 ++ chord_up [ESCAPE] 1 ++ chord_down [LEFT_SHIFT] 1)],
        State.TAPPED) ∧
    chord_down [ESCAPE] 1 ++ chord_up [ESCAPE] 1 ++ chord_down [LEFT_SHIFT] 1 ≠
      chord_down [ESCAPE] 1 ++ chord_up [ESCAPE] 1 := by
  decide

/-- Claim C1, amended. Scenario S1: with `tap_timeout=200` the source key
DOWN at 0 and UP at 50 makes `handle_input` send nothing on the DOWN and
exactly ESCAPE down, ESCAPE up on the UP. In general, for every remap that
has a `to_when_alone` and a `to_with_other` binding and is idle, a DOWN at
`t` followed directly by an UP at `t'` with `t' - t < tap_timeout` (or
`tap_timeout = 0`) sends nothing on the DOWN and on the UP the
`to_when_alone` down-chord, its up-chord and then what the tap-lock toggle
sends (nothing for a rule without a `to_when_tap_lock` binding), and leaves
the remap in `TAPPED`. Both handlers return 1 for every fuel above the number
of layers. -/
theorem C1_tap_of_dual_role_key :
    (run_events 1 s1_engine [genuine CAPSLOCK .DOWN 0, genuine CAPSLOCK .UP 50]).map
        (fun p => (p.1, (remapAt p.2.remaps 0).state)) =
      some ([(1, []), (1, chord_down [ESCAPE] 1 ++ chord_up [ESCAPE] 1)], State.TAPPED) ∧
    ∀ (fuel : Nat) (e : Engine) (remap t t' : Nat),
      LayersOK e.layers → e.layers.length < fuel → remap < e.remaps.length →
      (remapAt e.remaps remap).state = .IDLE →
      (remapAt e.remaps remap).to_when_alone ≠ [] →
      (remapAt e.remaps remap).to_with_other ≠ [] →
      t ≤ t' → t' < 4294967296 → e.g_tap_timeout < 2147483648 →
      (e.g_tap_timeout = 0 ∨ (t' : Int) - (t : Int) < e.g_tap_timeout) →
      ∃ e1 e2, event_remapped_key_down fuel remap t e = some (1, e1) ∧ e1.sent = e.sent ∧
        event_remapped_key_up fuel remap t' e1 = some (1, e2) ∧
        e2.sent = e.sent ++
          chord_down (remapAt e.remaps remap).to_when_alone (remapAt e.remaps remap).id ++
          chord_up (remapAt e.remaps remap).to_when_alone (remapAt e.remaps remap).id ++
          tap_lock_toggle_events (remapAt e.remaps remap) ∧
        (remapAt e2.remaps remap).state = .TAPPED := by
  refine ⟨by decide, ?_⟩
  intro fuel e remap t t' hok hfuel hlt hstate halone hother hle ht' hint htap
  obtain ⟨ls1, r1, hdown, ⟨hrule1, hst1, htl1, _⟩, htime1, hstep1⟩ :=
    key_down_fresh e remap t (remapAt e.remaps remap) rfl hok hfuel (Or.inl hstate)
  rw [if_neg hother] at hst1
  rw [if_neg hother, List.append_nil] at hdown
  have hok1 : LayersOK ls1 := hstep1.1.sg_layersOK hok
  have hfuel1 : ls1.length < fuel := by rw [hstep1.1.sg_length_eq]; exact hfuel
  obtain ⟨ls2, r2, hup, ⟨_, hst2, _, _⟩, _, _⟩ :=
    key_up_held_alone_tap
      { e with remaps := e.remaps.set remap r1, sent := e.sent, layers := ls1,
               g_remap_list := append_active_remap e.g_remap_list remap }
      remap t' r1 (remapAt_set_eq _ hlt) hok1 hfuel1 hst1
      (by rw [htime1]; exact within_tap_timeout_of_lt _ hle ht' hint htap)
  refine ⟨_, _, hdown, rfl, hup, ?_, ?_⟩
  · show e.sent ++ chord_down r1.to_when_alone r1.id ++ chord_up r1.to_when_alone r1.id ++
      tap_lock_toggle_events r1 = _
    rw [hrule1.rule_alone, hrule1.rule_id, tap_lock_toggle_events_congr hrule1 htl1]
  · show (remapAt ((e.remaps.set remap r1).set remap r2) remap).state = _
    rw [remapAt_set_eq _ (by rw [List.length_set]; exact hlt), hst2]

/-- Claim C1 (amended) at the S1 rule, pressed at 0 and released at 50. -/
theorem C1_tap_of_dual_role_key_witness :
    ∃ e1 e2, event_remapped_key_down 1 0 0 s1_engine = some (1, e1) ∧
      e1.sent = s1_engine.sent ∧
      event_remapped_key_up 1 0 50 e1 = some (1, e2) ∧
      e2.sent = s1_engine.sent ++
        chord_down (remapAt s1_engine.remaps 0).to_when_alone (remapAt s1_engine.remaps 0).id ++
        chord_up (remapAt s1_engine.remaps 0).to_when_alone (remapAt s1_engine.remaps 0).id ++
        tap_lock_toggle_events (remapAt s1_engine.remaps 0) ∧
      (remapAt e2.remaps 0).state = .TAPPED :=
  C1_tap_of_dual_role_key.2 1 s1_engine 0 0 50
    ⟨by unfold SlavesValid; decide, by unfold Mirrored; decide, fun i => i, by decide, by decide⟩
    (by decide) (by decide) (by decide) (by decide) (by decide) (by decide) (by decide)
    (by decide) (by decide)

/-! ## Scenarios S2 and S3 -/

/-- Claim C2. Scenario S2: with the S1 rule and `hold_delay=0`, CAPS DOWN at
0, KEY_C DOWN at 20, KEY_C UP at 40, CAPS UP at 60 (KEY_C has no rule and no
modifier bit) make `handle_input` return 1, -1, 0, 1; LEFT_CTRL down is sent
while KEY_C DOWN is handled, LEFT_CTRL up while CAPS UP is handled, nothing
else is sent (ESCAPE never), and the remap ends in `IDLE`. -/
theorem C2_rule_used_as_modifier :
    s1_engine.g_hold_delay = 0 ∧
    (KEY_ARRAY (KEY_C.virt_code &&& 0xFF)).modifier = 0 ∧
    remap_for_input s1_engine KEY_C.virt_code = none ∧
    (run_events 1 s1_engine
        [genuine CAPSLOCK .DOWN 0, genuine KEY_C .DOWN 20, genuine KEY_C .UP 40,
          genuine CAPSLOCK .UP 60]).map
        (fun p => (p.1, (remapAt p.2.remaps 0).state)) =
      some ([(1, []), (-1, chord_down [LEFT_CTRL] 1), (0, []), (1, chord_up [LEFT_CTRL] 1)],
        State.IDLE) := by
  decide

/-- The doublepress test of the code holds when the press follows the
recorded time by less than a positive `doublepress_timeout`. -/
theorem doublepress_window_of_lt (e : Engine) {t1 t2 : Nat} (hle : t1 ≤ t2)
    (ht2 : t2 < 4294967296) (hpos : 0 < e.g_doublepress_timeout)
    (hint : e.g_doublepress_timeout < 2147483648)
    (h : (t2 : Int) - (t1 : Int) < e.g_doublepress_timeout) :
    e.g_doublepress_timeout > 0 ∧ dword_sub t2 t1 < u32 e.g_doublepress_timeout := by
  refine ⟨hpos, ?_⟩
  rw [dword_sub_of_le hle ht2, u32_of_nonneg (le_of_lt hpos) (by omega)]
  omega

theorem mem_append_active_remap (l : List Nat) (elem : Nat) :
    elem ∈ append_active_remap l elem := by
  induction l with
  | nil => simp [append_active_remap]
  | cons r rest ih =>
    unfold append_active_remap
    split_ifs with h
    · rw [h]; exact List.mem_cons_self _ _
    · exact List.mem_cons_of_mem _ ih

/-- Claim C4. Scenario S4, first tap: with `when_alone=SPACE` and
`when_tap_lock=LEFT_SHIFT`, SPACE DOWN at 0 and UP at 50 send exactly SPACE
down, SPACE up, LEFT_SHIFT down. In general, for every idle remap with a
`to_when_alone` and a `to_when_tap_lock` binding and `tap_lock = 0`, a DOWN
followed directly by an UP inside the tap window sends, over the two events,
exactly the `to_when_alone` down-chord, its up-chord and the
`to_when_tap_lock` down-chord, sets `tap_lock = 1` and leaves the remap on
the active list. -/
theorem C4_tap_lock_engages :
    (run_events 1 (s4_engine 0) [genuine SPACE .DOWN 0, genuine SPACE .UP 50]).map
        (fun p => (p.1, (remapAt p.2.remaps 0).tap_lock, p.2.g_remap_list)) =
      some ([(1, chord_down [SPACE] 1), (1, chord_up [SPACE] 1 ++ chord_down [LEFT_SHIFT] 1)],
        1, [0]) ∧
    ∀ (fuel : Nat) (e : Engine) (remap t t' : Nat),
      LayersOK e.layers → e.layers.length < fuel → remap < e.remaps.length →
      (remapAt e.remaps remap).state = .IDLE →
      (remapAt e.remaps remap).tap_lock = 0 →
      (remapAt e.remaps remap).to_when_alone ≠ [] →
      (remapAt e.remaps remap).to_when_tap_lock ≠ [] →
      t ≤ t' → t' < 4294967296 → e.g_tap_timeout < 2147483648 →
      (e.g_tap_timeout = 0 ∨ (t' : Int) - (t : Int) < e.g_tap_timeout) →
      ∃ e1 e2, event_remapped_key_down fuel remap t e = some (1, e1) ∧
        event_remapped_key_up fuel remap t' e1 = some (1, e2) ∧
        e2.sent = e.sent ++
          chord_down (remapAt e.remaps remap).to_when_alone (remapAt e.remaps remap).id ++
          chord_up (remapAt e.remaps remap).to_when_alone (remapAt e.remaps remap).id ++
          chord_down (remapAt e.remaps remap).to_when_tap_lock (remapAt e.remaps remap).id ∧
        (remapAt e2.remaps remap).tap_lock = 1 ∧
        remap ∈ e2.g_remap_list := by
  refine ⟨by decide, ?_⟩
  intro fuel e remap t t' hok hfuel hlt hstate hlock halone htl hle ht' hint htap
  have hev : tap_lock_toggle_events (remapAt e.remaps remap) =
      chord_down (remapAt e.remaps remap).to_when_tap_lock (remapAt e.remaps remap).id := by
    unfold tap_lock_toggle_events
    rw [if_neg htl, hlock]
    simp
  obtain ⟨ls1, r1, hdown, ⟨hrule1, hst1, htl1, _⟩, htime1, hstep1⟩ :=
    key_down_fresh e remap t (remapAt e.remaps remap) rfl hok hfuel (Or.inl hstate)
  have hok1 : LayersOK ls1 := hstep1.1.sg_layersOK hok
  have hfuel1 : ls1.length < fuel := by rw [hstep1.1.sg_length_eq]; exact hfuel
  have hwithin : within_tap_timeout
      { e with
        remaps := e.remaps.set remap r1,
        sent := e.sent ++
          (if (remapAt e.remaps remap).to_with_other = [] then
            chord_down (remapAt e.remaps remap).to_when_alone (remapAt e.remaps remap).id
          else []),
        layers := ls1,
        g_remap_list := append_active_remap e.g_remap_list remap } t' r1.time = true := by
    rw [htime1]
    exact within_tap_timeout_of_lt _ hle ht' hint htap
  have hnew : (if r1.to_when_tap_lock ≠ [] then 1 - r1.tap_lock else r1.tap_lock) = 1 := by
    rw [hrule1.rule_tap_lock, if_pos htl, htl1, hlock]
    rfl
  by_cases hother : (remapAt e.remaps remap).to_with_other = []
  · rw [if_pos hother] at hst1
    obtain ⟨ls2, r2, hup, ⟨_, _, htl2, _⟩, _, _⟩ :=
      key_up_tap_within _ remap t' r1 (remapAt_set_eq _ hlt) hok1 hfuel1 hst1 hwithin
    rw [hnew] at htl2
    refine ⟨_, _, hdown, hup, ?_, ?_, ?_⟩
    · show e.sent ++
          (if (remapAt e.remaps remap).to_with_other = [] then
            chord_down (remapAt e.remaps remap).to_when_alone (remapAt e.remaps remap).id
          else []) ++
          chord_up r1.to_when_alone r1.id ++ tap_lock_toggle_events r1 = _
      rw [if_pos hother, hrule1.rule_alone, hrule1.rule_id,
        tap_lock_toggle_events_congr hrule1 htl1, hev]
    · show (remapAt ((e.remaps.set remap r1).set remap r2) remap).tap_lock = _
      rw [remapAt_set_eq _ (by rw [List.length_set]; exact hlt), htl2]
    · show remap ∈ (if r2.tap_lock = 0 ∧ r2.double_tap_lock = 0 then
          remove_active_remap (append_active_remap e.g_remap_list remap) remap
        else append_active_remap e.g_remap_list remap)
      rw [if_neg (by rw [htl2]; simp)]
      exact mem_append_active_remap _ _
  · rw [if_neg hother] at hst1
    obtain ⟨ls2, r2, hup, ⟨_, _, htl2, _⟩, _, _⟩ :=
      key_up_held_alone_tap _ remap t' r1 (remapAt_set_eq _ hlt) hok1 hfuel1 hst1 hwithin
    rw [hnew] at htl2
    refine ⟨_, _, hdown, hup, ?_, ?_, ?_⟩
    · show e.sent ++
          (if (remapAt e.remaps remap).to_with_other = [] then
            chord_down (remapAt e.remaps remap).to_when_alone (remapAt e.remaps remap).id
          else []) ++
          chord_down r1.to_when_alone r1.id ++
          chord_up r1.to_when_alone r1.id ++ tap_lock_toggle_events r1 = _
      rw [if_neg hother, hrule1.rule_alone, hrule1.rule_id,
        tap_lock_toggle_events_congr hrule1 htl1, hev, List.append_nil]
    · show (remapAt ((e.remaps.set remap r1).set remap r2) remap).tap_lock = _
      rw [remapAt_set_eq _ (by rw [List.length_set]; exact hlt), htl2]
    · show remap ∈ (if r2.tap_lock = 0 ∧ r2.double_tap_lock = 0 then
          remove_active_remap (append_active_remap e.g_remap_list remap) remap
        else append_active_remap e.g_remap_list remap)
      rw [if_neg (by rw [htl2]; simp)]
      exact mem_append_active_remap _ _

/-- Claim C4 at the S4 rule, pressed at 0 and released at 50. -/
theorem C4_tap_lock_engages_witness :
    ∃ e1 e2, event_remapped_key_down 1 0 0 (s4_engine 0) = some (1, e1) ∧
      event_remapped_key_up 1 0 50 e1 = some (1, e2) ∧
      e2.sent = (s4_engine 0).sent ++
        chord_down (remapAt (s4_engine 0).remaps 0).to_when_alone
          (remapAt (s4_engine 0).remaps 0).id ++
        chord_up (remapAt (s4_engine 0).remaps 0).to_when_alone
          (remapAt (s4_engine 0).remaps 0).id ++
        chord_down (remapAt (s4_engine 0).remaps 0).to_when_tap_lock
          (remapAt (s4_engine 0).remaps 0).id ∧
      (remapAt e2.remaps 0).tap_lock = 1 ∧
      0 ∈ e2.g_remap_list :=
  C4_tap_lock_engages.2 1 (s4_engine 0) 0 0 50
    ⟨by unfold SlavesValid; decide, by unfold Mirrored; decide, fun i => i, by decide, by decide⟩
    (by decide) (by decide) (by decide) (by decide) (by decide) (by decide) (by decide)
    (by decide) (by decide) (by decide)

theorem doublepress_window_iff (e : Engine) {t1 t2 : Nat} (hle : t1 ≤ t2)
    (ht2 : t2 < 4294967296) (hint : e.g_doublepress_timeout < 2147483648) :
    (e.g_doublepress_timeout > 0 ∧ dword_sub t2 t1 < u32 e.g_doublepress_timeout) ↔
      (0 < e.g_doublepress_timeout ∧ (t2 : Int) - (t1 : Int) < e.g_doublepress_timeout) := by
  constructor
  · rintro ⟨hpos, h⟩
    refine ⟨hpos, ?_⟩
    rw [dword_sub_of_le hle ht2, u32_of_nonneg (le_of_lt hpos) (by omega)] at h
    omega
  · rintro ⟨hpos, h⟩
    exact doublepress_window_of_lt e hle ht2 hpos hint h

/-- Claim C5 as stated fails with the default `doublepress_timeout = 0`:
after the first tap of the S4 rule (`tap_lock = 1`), the second tap, DOWN at
100 and UP at 150, sends SPACE down, SPACE up, LEFT_SHIFT up, not LEFT_SHIFT
up, SPACE down, SPACE up. -/
theorem C5_counterexample :
    (s4_engine 0).g_doublepress_timeout = 0 ∧
    (run_events 1 (s4_engine 0) [genuine SPACE .DOWN 0, genuine SPACE .UP 50]).map
        (fun p => (remapAt p.2.remaps 0).tap_lock) = some 1 ∧
    (run_events 1 (s4_engine 0)
        [genuine SPACE .DOWN 0, genuine SPACE .UP 50, genuine SPACE .DOWN 100,
          genuine SPACE .UP 150]).map
        (fun p => (p.1.drop 2, (remapAt p.2.remaps 0).tap_lock)) =
      some ([(1, chord_down [SPACE] 1), (1, chord_up [SPACE] 1 ++ chord_up [LEFT_SHIFT] 1)],
        0) ∧
    chord_down [SPACE] 1 ++ (chord_up [SPACE] 1 ++ chord_up [LEFT_SHIFT] 1) ≠
      chord_up [LEFT_SHIFT] 1 ++ chord_down [SPACE] 1 ++ chord_up [SPACE] 1 := by
  decide

/-- Claim C5, amended. With the S4 rule (`to_when_alone` and
`to_when_tap_lock`, no other binding) tapped once, so that the remap is
`TAPPED` with `tap_lock = 1` and the time of that tap's UP, a second tap
clears `tap_lock`. When `doublepress_timeout > 0` and the second DOWN comes
less than `doublepress_timeout` after the first tap's UP, the two events
send the `to_when_tap_lock` up-chord, the `to_when_alone` down-chord and its
up-chord, in that order (scenario: LEFT_SHIFT up, SPACE down, SPACE up with
`doublepress_timeout=300`). Otherwise, in particular with the default
`doublepress_timeout = 0`, they send the `to_when_alone` down-chord, its
up-chord and then the `to_when_tap_lock` up-chord (scenario: SPACE down,
SPACE up, LEFT_SHIFT up). -/
theorem C5_tap_lock_releases :
    (run_events 1 (s4_engine 300)
        [genuine SPACE .DOWN 0, genuine SPACE .UP 50, genuine SPACE .DOWN 100,
          genuine SPACE .UP 150]).map
        (fun p => (p.1.drop 2, (remapAt p.2.remaps 0).tap_lock)) =
      some ([(1, chord_up [LEFT_SHIFT] 1 ++ chord_down [SPACE] 1), (1, chord_up [SPACE] 1)],
        0) ∧
    (run_events 1 (s4_engine 0)
        [genuine SPACE .DOWN 0, genuine SPACE .UP 50, genuine SPACE .DOWN 100,
          genuine SPACE .UP 150]).map
        (fun p => (p.1.drop 2, (remapAt p.2.remaps 0).tap_lock)) =
      some ([(1, chord_down [SPACE] 1), (1, chord_up [SPACE] 1 ++ chord_up [LEFT_SHIFT] 1)],
        0) ∧
    ∀ (fuel : Nat) (e : Engine) (remap t1 t2 t3 : Nat),
      LayersOK e.layers → e.layers.length < fuel → remap < e.remaps.length →
      (remapAt e.remaps remap).state = .TAPPED →
      (remapAt e.remaps remap).tap_lock = 1 →
      (remapAt e.remaps remap).time = t1 →
      (remapAt e.remaps remap).to_when_alone ≠ [] →
      (remapAt e.remaps remap).to_when_tap_lock ≠ [] →
      (remapAt e.remaps remap).to_with_other = [] →
      (remapAt e.remaps remap).to_when_doublepress = [] →
      (remapAt e.remaps remap).to_when_doublepress_layer = none →
      (remapAt e.remaps remap).to_when_double_tap_lock = [] →
      t1 ≤ t2 → t2 ≤ t3 → t3 < 4294967296 →
      e.g_tap_timeout < 2147483648 → e.g_doublepress_timeout < 2147483648 →
      (e.g_tap_timeout = 0 ∨ (t3 : Int) - (t2 : Int) < e.g_tap_timeout) →
      ∃ e1 e2, event_remapped_key_down fuel remap t2 e = some (1, e1) ∧
        event_remapped_key_up fuel remap t3 e1 = some (1, e2) ∧
        (remapAt e2.remaps remap).tap_lock = 0 ∧
        ((0 < e.g_doublepress_timeout ∧ (t2 : Int) - (t1 : Int) < e.g_doublepress_timeout) →
          e2.sent = e.sent ++
            chord_up (remapAt e.remaps remap).to_when_tap_lock (remapAt e.remaps remap).id ++
            chord_down (remapAt e.remaps remap).to_when_alone (remapAt e.remaps remap).id ++
            chord_up (remapAt e.remaps remap).to_when_alone (remapAt e.remaps remap).id) ∧
        (¬ (0 < e.g_doublepress_timeout ∧
            (t2 : Int) - (t1 : Int) < e.g_doublepress_timeout) →
          e2.sent = e.sent ++
            chord_down (remapAt e.remaps remap).to_when_alone (remapAt e.remaps remap).id ++
            chord_up (remapAt e.remaps remap).to_when_alone (remapAt e.remaps remap).id ++
            chord_up (remapAt e.remaps remap).to_when_tap_lock
              (remapAt e.remaps remap).id) := by
  refine ⟨by decide, by decide, ?_⟩
  intro fuel e remap t1 t2 t3 hok hfuel hlt hstate hlock htime halone htl hother hdp hdpl hdtl
    h12 h23 ht3 hint hdint htap
  have ht2 : t2 < 4294967296 := lt_of_le_of_lt h23 ht3
  have hchord : (doublepress_chord (remapAt e.remaps remap)).1 =
      (remapAt e.remaps remap).to_when_alone := by
    unfold doublepress_chord
    rw [if_neg (not_not.2 hdp), hdpl]
    rfl
  have hrel : tap_lock_release_events (remapAt e.remaps remap) =
      chord_up (remapAt e.remaps remap).to_when_tap_lock (remapAt e.remaps remap).id := by
    unfold tap_lock_release_events
    rw [if_pos ⟨htl, hlock⟩]
  have htog : tap_lock_toggle_events (remapAt e.remaps remap) =
      chord_up (remapAt e.remaps remap).to_when_tap_lock (remapAt e.remaps remap).id := by
    unfold tap_lock_toggle_events
    rw [if_neg htl, if_pos hlock]
  by_cases hwin : e.g_doublepress_timeout > 0 ∧
      dword_sub t2 (remapAt e.remaps remap).time < u32 e.g_doublepress_timeout
  · have hwin' := hwin
    rw [htime, doublepress_window_iff e h12 ht2 hdint] at hwin'
    obtain ⟨ls1, r1, hdown, ⟨hrule1, hst1, htl1, hdtl1⟩, htime1, hstep1⟩ :=
      key_down_tapped_double e remap t2 (remapAt e.remaps remap) rfl hok hfuel hstate hwin
    rw [if_pos htl, hlock] at htl1
    rw [hchord, hrel] at hdown
    have hok1 : LayersOK ls1 := hstep1.1.sg_layersOK hok
    have hfuel1 : ls1.length < fuel := by rw [hstep1.1.sg_length_eq]; exact hfuel
    obtain ⟨ls2, r2, hup, ⟨_, _, htl2, _⟩, _⟩ :=
      key_up_double_tap
        { e with
          remaps := e.remaps.set remap r1,
          sent := e.sent ++
            chord_up (remapAt e.remaps remap).to_when_tap_lock (remapAt e.remaps remap).id ++
            chord_down (remapAt e.remaps remap).to_when_alone (remapAt e.remaps remap).id,
          layers := ls1,
          g_remap_list := append_active_remap e.g_remap_list remap }
        remap t3 r1 (remapAt_set_eq _ hlt) hok1 hfuel1 hst1
    have hnodtl : double_tap_lock_toggle_events r1 = [] := by
      unfold double_tap_lock_toggle_events
      rw [hrule1.rule_double_tap_lock, if_pos hdtl]
    rw [hrule1.rule_chord, hchord, hrule1.rule_id, hnodtl, ite_self, List.append_nil] at hup
    refine ⟨_, _, hdown, hup, ?_, fun _ => rfl, fun h => absurd hwin' h⟩
    show (remapAt ((e.remaps.set remap r1).set remap r2) remap).tap_lock = _
    rw [remapAt_set_eq _ (by rw [List.length_set]; exact hlt), htl2, htl1]
    rfl
  · have hwin' := hwin
    rw [htime, doublepress_window_iff e h12 ht2 hdint] at hwin'
    obtain ⟨ls1, r1, hdown, ⟨hrule1, hst1, htl1, _⟩, htime1, hstep1⟩ :=
      key_down_fresh e remap t2 (remapAt e.remaps remap) rfl hok hfuel (Or.inr ⟨hstate, hwin⟩)
    rw [if_pos hother] at hst1 hdown
    have hok1 : LayersOK ls1 := hstep1.1.sg_layersOK hok
    have hfuel1 : ls1.length < fuel := by rw [hstep1.1.sg_length_eq]; exact hfuel
    obtain ⟨ls2, r2, hup, ⟨_, _, htl2, _⟩, _, _⟩ :=
      key_up_tap_within
        { e with
          remaps := e.remaps.set remap r1,
          sent := e.sent ++
            chord_down (remapAt e.remaps remap).to_when_alone (remapAt e.remaps remap).id,
          layers := ls1,
          g_remap_list := append_active_remap e.g_remap_list remap }
        remap t3 r1 (remapAt_set_eq _ hlt) hok1 hfuel1 hst1
        (by rw [htime1]; exact within_tap_timeout_of_lt _ h23 ht3 hint htap)
    rw [hrule1.rule_alone, hrule1.rule_id, tap_lock_toggle_events_congr hrule1 htl1, htog]
      at hup
    rw [hrule1.rule_tap_lock, if_pos htl, htl1, hlock] at htl2
    refine ⟨_, _, hdown, hup, ?_, fun h => absurd h hwin', fun _ => rfl⟩
    show (remapAt ((e.remaps.set remap r1).set remap r2) remap).tap_lock = _
    rw [remapAt_set_eq _ (by rw [List.length_set]; exact hlt), htl2]
    rfl

/-- Claim C5 (amended) at the S4 rule with `doublepress_timeout=300` after its
first tap (UP at 50), tapped again at 100 and 150. -/
theorem C5_tap_lock_releases_witness :
    ∃ e0, (run_events 1 (s4_engine 300) [genuine SPACE .DOWN 0, genuine SPACE .UP 50]).map
        (fun p => p.2) = some e0 ∧
      ∃ e1 e2, event_remapped_key_down 1 0 100 e0 = some (1, e1) ∧
        event_remapped_key_up 1 0 150 e1 = some (1, e2) ∧
        (remapAt e2.remaps 0).tap_lock = 0 ∧
        ((0 < e0.g_doublepress_timeout ∧ ((100 : Nat) : Int) - ((50 : Nat) : Int) <
            e0.g_doublepress_timeout) →
          e2.sent = e0.sent ++
            chord_up (remapAt e0.remaps 0).to_when_tap_lock (remapAt e0.remaps 0).id ++
            chord_down (remapAt e0.remaps 0).to_when_alone (remapAt e0.remaps 0).id ++
            chord_up (remapAt e0.remaps 0).to_when_alone (remapAt e0.remaps 0).id) ∧
        (¬ (0 < e0.g_doublepress_timeout ∧ ((100 : Nat) : Int) - ((50 : Nat) : Int) <
            e0.g_doublepress_timeout) →
          e2.sent = e0.sent ++
            chord_down (remapAt e0.remaps 0).to_when_alone (remapAt e0.remaps 0).id ++
            chord_up (remapAt e0.remaps 0).to_when_alone (remapAt e0.remaps 0).id ++
            chord_up (remapAt e0.remaps 0).to_when_tap_lock (remapAt e0.remaps 0).id) :=
  ⟨_, rfl, C5_tap_lock_releases.2.2 1 _ 0 50 100 150
    ⟨by unfold SlavesValid; decide, by unfold Mirrored; decide, fun i => i, by decide, by decide⟩
    (by decide) (by decide) (by decide) (by decide) (by decide) (by decide) (by decide)
    (by decide) (by decide) (by decide) (by decide) (by decide) (by decide) (by decide)
    (by decide) (by decide) (by decide)⟩

/-! ## Scenario S5 and the unlock defect -/

/-- Claim C6. Scenario S5: `KEY_J` has one rule, gated by `layer1`, with
`when_alone=LEFT`, and no base rule. While `layer1.state = 0` (the loaded
configuration with nothing held, whatever the time of the last input)
`handle_input` for a genuine J DOWN or UP at any time returns 0, sends
nothing and changes no remap and no layer, only `g_last_input`; so a J DOWN
followed by a J UP passes through. After the separate rule (CAPSLOCK,
`when_press=layer1`) has set `layer1.state = 1`, J DOWN returns 1 and sends
exactly LEFT down, and the following J UP returns 1 and sends exactly LEFT
up. -/
theorem C6_layer_gating :
    (layerAt s5_engine.layers 0).state = 0 ∧
    s5_engine.g_remap_array.getD (KEY_J.virt_code &&& 0xFF) [] = [0] ∧
    (remapAt s5_engine.remaps 0).layer = some 0 ∧
    (remapAt s5_engine.remaps 0).to_when_alone = [LEFT] ∧
    (∀ (fuel last_input scan_code time flags dwExtraInfo : Nat) (direction : Direction),
      handle_input fuel scan_code KEY_J.virt_code direction time false flags dwExtraInfo
          { s5_engine with g_last_input := last_input } =
        some (0, { s5_engine with g_last_input := time % 4294967296 })) ∧
    (run_events 2 s5_engine [genuine KEY_J .DOWN 10, genuine KEY_J .UP 40]).map
        (fun p => p.1) = some [(0, []), (0, [])] ∧
    (run_events 2 s5_engine [genuine CAPSLOCK .DOWN 0]).map
        (fun p => (layerAt p.2.layers 0).state) = some 1 ∧
    (run_events 2 s5_engine
        [genuine CAPSLOCK .DOWN 0, genuine KEY_J .DOWN 50, genuine KEY_J .UP 90]).map
        (fun p => p.1.drop 1) =
      some [(1, chord_down [LEFT] 1), (1, chord_up [LEFT] 1)] := by
  refine ⟨by decide, by decide, by decide, by decide, ?_, by decide, by decide, by decide⟩
  intro fuel last_input scan_code time flags dwExtraInfo direction
  have hu : unlock_all { s5_engine with g_last_input := last_input } =
      { s5_engine with g_last_input := last_input } := rfl
  unfold handle_input
  simp only [hu, ite_self]
  have hsel : remap_for_input { s5_engine with g_last_input := time % 4294967296 }
      KEY_J.virt_code = none := rfl
  simp only [Bool.false_eq_true, false_and, if_false, hsel]
  cases direction with
  | UP => rfl
  | DOWN => rfl

/-- Failing input of claim C7. Rule `remap_key=KEY_A`, `when_alone=KEY_B`,
`doublepress_timeout=300`, `unlock_timeout=60000`. A DOWN at 0 and UP at 50
tap the key, the DOWN at 100 enters `DOUBLE_TAP` and presses KEY_B as the
fallback chord. The next event, the UP at 70000, comes after the unlock
timeout: `unlock_all` resets the remap to `IDLE` but, having no
`to_when_doublepress`, sends nothing, and the UP then finds the remap idle.
The remap ends `IDLE` with both lock bits 0 while KEY_B, pressed by it, was
never released. -/
theorem C7_unlock_leaves_key_down :
    (run_events 1 c7_engine
        [genuine KEY_A .DOWN 0, genuine KEY_A .UP 50, genuine KEY_A .DOWN 100,
          genuine KEY_A .UP 70000]).map
        (fun p => (p.1, (remapAt p.2.remaps 0).state, (remapAt p.2.remaps 0).tap_lock,
          (remapAt p.2.remaps 0).double_tap_lock, keys_left_down 1 p.2.sent)) =
      some ([(1, chord_down [KEY_B] 1), (1, chord_up [KEY_B] 1), (1, chord_down [KEY_B] 1),
          (1, [])],
        State.IDLE, 0, 0, [(KEY_B.scan_code, KEY_B.virt_code)]) :=
  rfl

/-! ## Every handler returns and keeps the rules -/

theorem stripRemap_default : stripRemap default = default := rfl

theorem SameRules.rules_refl (rs : List Remap) : SameRules rs rs := rfl

theorem SameRules.rules_trans {a b c : List Remap} (h1 : SameRules a b) (h2 : SameRules b c) :
    SameRules a c := by
  unfold SameRules at *
  rw [h2, h1]

theorem SameRules.rules_at {rs rs' : List Remap} (h : SameRules rs rs') (n : Nat) :
    SameRule (remapAt rs n) (remapAt rs' n) := by
  unfold SameRules at h
  unfold SameRule remapAt
  have h1 : (rs'.map stripRemap).getD n default = (rs.map stripRemap).getD n default := by
    rw [h]
  rw [← stripRemap_default] at h1
  simpa [List.getD_map] using h1

theorem SameRules.rules_set (rs : List Remap) (n : Nat) (x : Remap)
    (hx : SameRule (remapAt rs n) x) : SameRules rs (rs.set n x) := by
  unfold SameRules
  unfold SameRule at hx
  rw [List.map_set, hx]
  by_cases hn : n < rs.length
  · apply List.ext_getElem
    · simp
    · intro i h1 h2
      rw [List.getElem_set]
      split
      · rename_i hni
        subst hni
        simp [remapAt, List.getElem?_eq_getElem hn]
      · rfl
  · rw [List.set_eq_of_length_le (by simpa using Nat.le_of_not_lt hn)]

theorem SameRules.rules_anyTarget {rs rs' : List Remap} (h : SameRules rs rs') (L : Nat) :
    AnyTarget rs' L ↔ AnyTarget rs L := by
  unfold AnyTarget
  constructor
  · rintro ⟨n, hn⟩
    exact ⟨n, ((h.rules_at n).rule_targets L).mp hn⟩
  · rintro ⟨n, hn⟩
    exact ⟨n, ((h.rules_at n).rule_targets L).mpr hn⟩

theorem is_master_layer_loop_total (rec_call : Nat → Option Bool) (master_layer : Option Nat)
    (guards : Bool) (l : List Nat) (h : ∀ m ∈ l, ∃ b, rec_call m = some b) :
    ∃ b, is_master_layer_loop rec_call master_layer guards l = some b := by
  induction l with
  | nil => exact ⟨false, rfl⟩
  | cons m rest ih =>
    unfold is_master_layer_loop
    by_cases hm : some m = master_layer
    · rw [if_pos hm]; exact ⟨guards, rfl⟩
    · rw [if_neg hm]
      obtain ⟨b, hb⟩ := h m (List.mem_cons_self _ _)
      rw [hb]
      cases b with
      | true => exact ⟨guards, rfl⟩
      | false => exact ih (fun m' hm' => h m' (List.mem_cons_of_mem _ hm'))

/-- Function `is_master_layer` returns on a well-formed graph: the walk
along master edges climbs in rank. -/
theorem is_master_layer_total_aux {ls : List Layer} (hmir : Mirrored ls) (rank : Nat → Nat)
    (hbound : ∀ i, i < ls.length → rank i < ls.length)
    (hdec : ∀ i, i < ls.length → ∀ j ∈ (layerAt ls i).and_slave_layers, rank j < rank i)
    (master_layer : Option Nat) :
    ∀ fuel X, 0 < fuel → (X < ls.length → ls.length - rank X ≤ fuel) →
      ∃ b, is_master_layer fuel ls master_layer X = some b := by
  intro fuel
  induction fuel with
  | zero => intro X h; exact absurd h (Nat.lt_irrefl 0)
  | succ fuel ih =>
    intro X _ hX
    unfold is_master_layer
    apply is_master_layer_loop_total
    intro m hm
    by_cases hXl : X < ls.length
    · have hmem : X ∈ (layerAt ls m).and_slave_layers :=
        hmir X hXl m (List.mem_append_left _ hm)
      have hml : m < ls.length := by
        by_contra hcon
        rw [slaves_of_ge (Nat.le_of_not_lt hcon)] at hmem
        exact absurd hmem (List.not_mem_nil _)
      have hr : rank X < rank m := hdec m hml X hmem
      have hb := hbound m hml
      have hX1 := hX hXl
      apply ih m
      · omega
      · intro _; omega
    · have hm' : m ∈ (layerAt ls X).and_master_layers ++ (layerAt ls X).and_not_master_layers :=
        List.mem_append_left _ hm
      rw [masters_of_ge (Nat.le_of_not_lt hXl)] at hm'
      exact absurd hm' (List.not_mem_nil _)

theorem is_master_layer_total {ls : List Layer} (hok : LayersOK ls) {fuel : Nat}
    (hfuel : ls.length < fuel) (master_layer : Option Nat) (X : Nat) :
    ∃ b, is_master_layer fuel ls master_layer X = some b := by
  obtain ⟨_, hmir, rank, hbound, hdec⟩ := hok
  apply is_master_layer_total_aux hmir rank hbound hdec master_layer fuel X
  · omega
  · intro _; omega

theorem has_to_block_modifiers_total {ls : List Layer} (hok : LayersOK ls) {fuel : Nat}
    (hfuel : ls.length < fuel) (rs : List Remap) (remap layer : Option Nat) :
    ∃ b, has_to_block_modifiers fuel ls rs remap layer = some b := by
  unfold has_to_block_modifiers
  cases remap with
  | none => exact ⟨false, rfl⟩
  | some r =>
    simp only
    cases (remapAt rs r).layer with
    | none => exact ⟨false, rfl⟩
    | some rl =>
      simp only
      by_cases h : some rl = layer
      · rw [if_pos h]; exact ⟨true, rfl⟩
      · rw [if_neg h]; exact is_master_layer_total hok hfuel layer rl

theorem reassert_chord_total {fuel : Nat} (e : Engine) (hok : LayersOK e.layers)
    (hfuel : e.layers.length < fuel) (remap_id : Nat) (r : Remap) (chord : List KeyDef)
    (layer : Option Nat) :
    ∃ s, reassert_chord fuel e remap_id r chord layer = some s := by
  unfold reassert_chord
  obtain ⟨b, hb⟩ := has_to_block_modifiers_total hok hfuel e.remaps
    (e.g_remap_by_id.getD remap_id none) layer
  rw [hb]
  exact ⟨_, rfl⟩

/-- One iteration of the loop of `event_other_input` returns, leaves the
layers alone and keeps the rules. -/
theorem other_input_step_ok {fuel : Nat} (time remap_id : Nat) (acc : Nat × Engine)
    (remap : Nat) (hok : LayersOK acc.2.layers) (hfuel : acc.2.layers.length < fuel) :
    ∃ acc', event_other_input_step fuel time remap_id acc remap = some acc' ∧
      acc'.2.layers = acc.2.layers ∧ SameRules acc.2.remaps acc'.2.remaps ∧
      acc'.2.g_remap_array = acc.2.g_remap_array := by
  unfold event_other_input_step
  simp only
  by_cases hid : (remapAt acc.2.remaps remap).id ≠ remap_id
  · rw [if_pos hid]
    cases hst : (remapAt acc.2.remaps remap).state with
    | HELD_DOWN_ALONE =>
      simp only
      split
      · exact ⟨_, rfl, rfl, SameRules.rules_set _ _ _ rfl, rfl⟩
      · obtain ⟨b, hb⟩ := has_to_block_modifiers_total hok hfuel acc.2.remaps
          (acc.2.g_remap_by_id.getD remap_id none)
          (remapAt acc.2.remaps remap).to_when_press_layer
        rw [hb, Option.map_some']
        cases b with
        | false =>
          simp only [Bool.not_false, if_true]
          split
          · exact ⟨_, rfl, rfl, SameRules.rules_set _ _ _ rfl, rfl⟩
          · exact ⟨_, rfl, rfl, SameRules.rules_set _ _ _ rfl, rfl⟩
        | true =>
          simp only [Bool.not_true, Bool.false_eq_true, if_false]
          exact ⟨_, rfl, rfl, SameRules.rules_set _ _ _ rfl, rfl⟩
    | HELD_DOWN_WITH_OTHER =>
      simp only
      split
      · obtain ⟨s, hs⟩ := reassert_chord_total acc.2 hok hfuel remap_id
          (remapAt acc.2.remaps remap) (remapAt acc.2.remaps remap).to_with_other
          (remapAt acc.2.remaps remap).to_when_press_layer
        rw [hs, Option.map_some']
        exact ⟨_, rfl, rfl, SameRules.rules_set _ _ _ rfl, rfl⟩
      · exact ⟨_, rfl, rfl, SameRules.rules_set _ _ _ rfl, rfl⟩
    | TAP =>
      simp only
      split
      · obtain ⟨s, hs⟩ := reassert_chord_total acc.2 hok hfuel remap_id
          (remapAt acc.2.remaps remap) (remapAt acc.2.remaps remap).to_when_alone
          (remapAt acc.2.remaps remap).to_when_press_layer
        rw [hs, Option.map_some']
        exact ⟨_, rfl, rfl, SameRules.rules_set _ _ _ rfl, rfl⟩
      · exact ⟨_, rfl, rfl, SameRules.rules_set _ _ _ rfl, rfl⟩
    | DOUBLE_TAP =>
      simp only
      split
      · obtain ⟨s, hs⟩ := reassert_chord_total acc.2 hok hfuel remap_id
          (remapAt acc.2.remaps remap) (remapAt acc.2.remaps remap).to_when_doublepress
          (remapAt acc.2.remaps remap).to_when_doublepress_layer
        rw [hs, Option.map_some']
        exact ⟨_, rfl, rfl, SameRules.rules_set _ _ _ rfl, rfl⟩
      · exact ⟨_, rfl, rfl, SameRules.rules_set _ _ _ rfl, rfl⟩
    | IDLE => exact ⟨_, rfl, rfl, SameRules.rules_set _ _ _ rfl, rfl⟩
    | TAPPED => exact ⟨_, rfl, rfl, SameRules.rules_set _ _ _ rfl, rfl⟩
  · rw [if_neg hid]
    exact ⟨acc, rfl, rfl, SameRules.rules_refl _, rfl⟩

theorem other_input_loop_ok {fuel : Nat} (time remap_id : Nat) (l : List Nat) :
    ∀ (acc : Nat × Engine), LayersOK acc.2.layers → acc.2.layers.length < fuel →
      ∃ acc', event_other_input_loop fuel time remap_id l acc = some acc' ∧
        acc'.2.layers = acc.2.layers ∧ SameRules acc.2.remaps acc'.2.remaps ∧
        acc'.2.g_remap_array = acc.2.g_remap_array := by
  induction l with
  | nil => intro acc _ _; exact ⟨acc, rfl, rfl, SameRules.rules_refl _, rfl⟩
  | cons remap rest ih =>
    intro acc hok hfuel
    obtain ⟨a1, h1, hl1, hr1, ha1⟩ := other_input_step_ok time remap_id acc remap hok hfuel
    obtain ⟨a2, h2, hl2, hr2, ha2⟩ := ih a1 (by rw [hl1]; exact hok) (by rw [hl1]; exact hfuel)
    refine ⟨a2, ?_, by rw [hl2, hl1], hr1.rules_trans hr2, by rw [ha2, ha1]⟩
    unfold event_other_input_loop
    rw [h1]
    exact h2

/-- Function `event_other_input` returns on a well-formed graph, leaves the
layers alone and keeps the rules. -/
theorem other_input_ok {fuel : Nat} (virt_code : Nat) (direction : Direction)
    (time remap_id : Nat) (e : Engine) (hok : LayersOK e.layers)
    (hfuel : e.layers.length < fuel) :
    ∃ b e', event_other_input fuel virt_code direction time remap_id e = some (b, e') ∧
      e'.layers = e.layers ∧ SameRules e.remaps e'.remaps ∧
      e'.g_remap_array = e.g_remap_array := by
  unfold event_other_input
  split
  · obtain ⟨a, h, hl, hr, ha⟩ :=
      other_input_loop_ok time remap_id e.g_remap_list (0, e) hok hfuel
    rw [h]
    exact ⟨_, _, rfl, hl, hr, ha⟩
  · exact ⟨0, e, rfl, rfl, SameRules.rules_refl _, rfl⟩

/-- Function `event_remapped_key_down` returns 1 in every state of the
remap, keeps the rules, and acts on the layers of its remap only. -/
theorem key_down_ok {fuel : Nat} (remap time : Nat) (e : Engine) (hok : LayersOK e.layers)
    (hfuel : e.layers.length < fuel) :
    ∃ e', event_remapped_key_down fuel remap time e = some (1, e') ∧
      SameRules e.remaps e'.remaps ∧
      LayersStep (RemapTargets (remapAt e.remaps remap)) e.layers e'.layers ∧
      e'.g_remap_array = e.g_remap_array := by
  unfold event_remapped_key_down
  simp only
  cases hst : (remapAt e.remaps remap).state with
  | IDLE =>
    simp only
    obtain ⟨ls, hls, hstep⟩ := layer_on_step hok hfuel (remapAt e.remaps remap).to_when_press_layer
    rw [hls]
    exact ⟨_, rfl, SameRules.rules_set _ _ _ (press_from_rest_rule _ _ _),
      hstep.step_mono (fun L h => Or.inl h), rfl⟩
  | HELD_DOWN_ALONE => exact ⟨_, rfl, SameRules.rules_refl _, LayersStep.step_refl _ _, rfl⟩
  | HELD_DOWN_WITH_OTHER => exact ⟨_, rfl, SameRules.rules_refl _, LayersStep.step_refl _ _, rfl⟩
  | TAP => exact ⟨_, rfl, SameRules.rules_refl _, LayersStep.step_refl _ _, rfl⟩
  | DOUBLE_TAP => exact ⟨_, rfl, SameRules.rules_refl _, LayersStep.step_refl _ _, rfl⟩
  | TAPPED =>
    simp only
    split
    · obtain ⟨ls, hls, hstep⟩ := revert_then_on_step hok hfuel
        (remapAt e.remaps remap).to_when_tap_lock_layer
        (remapAt e.remaps remap).to_when_doublepress_layer
      rw [hls]
      refine ⟨_, rfl, SameRules.rules_set _ _ _ ?_, hstep.step_mono ?_, rfl⟩
      · have h1 : SameRule (remapAt e.remaps remap)
            { remapAt e.remaps remap with time := time, state := .DOUBLE_TAP } := rfl
        exact (h1.rule_trans (undo_tap_lock_rule _ _)).rule_trans
          (press_doublepress_chord_rule _ _)
      · intro L h
        rcases h with h | h
        · exact Or.inr (Or.inr (Or.inl h))
        · exact Or.inr (Or.inl h)
    · obtain ⟨ls, hls, hstep⟩ := layer_on_step hok hfuel
        (remapAt e.remaps remap).to_when_press_layer
      rw [hls]
      exact ⟨_, rfl, SameRules.rules_set _ _ _ (press_from_rest_rule _ _ _),
        hstep.step_mono (fun L h => Or.inl h), rfl⟩

theorem key_up_transition_ok {fuel : Nat} (e : Engine) (r : Remap) (time : Nat)
    (hok : LayersOK e.layers) (hfuel : e.layers.length < fuel) :
    ∃ t, key_up_transition fuel e r time = some t ∧ SameRule r t.1 ∧
      LayersStep (RemapTargets r) e.layers t.2.2 := by
  unfold key_up_transition
  cases hst : r.state with
  | IDLE => exact ⟨_, rfl, rfl, LayersStep.step_refl _ _⟩
  | TAPPED => exact ⟨_, rfl, rfl, LayersStep.step_refl _ _⟩
  | HELD_DOWN_ALONE =>
    simp only
    split
    · obtain ⟨ls, hls, hstep⟩ := confs_then_lock_step hok hfuel r.to_when_tap_lock_layer
        r.to_when_press_layer
      rw [hls]
      refine ⟨_, rfl, ?_, hstep.step_mono ?_⟩
      · have h1 : SameRule r { r with time := time, state := .TAPPED } := rfl
        exact h1.rule_trans (toggle_tap_lock_rule _ _)
      · intro L h
        rcases h with h | h
        · exact Or.inr (Or.inr (Or.inl h))
        · exact Or.inl h
    · obtain ⟨ls, hls, hstep⟩ := layer_to_lock_step hok hfuel r.to_when_press_layer
      rw [hls]
      exact ⟨_, rfl, rfl, hstep.step_mono (fun L h => Or.inl h)⟩
  | HELD_DOWN_WITH_OTHER =>
    simp only
    obtain ⟨ls, hls, hstep⟩ := layer_to_lock_step hok hfuel r.to_when_press_layer
    rw [hls]
    refine ⟨_, rfl, ?_, hstep.step_mono (fun L h => Or.inl h)⟩
    have h1 : SameRule r { r with state := .IDLE } := rfl
    exact h1.rule_trans (release_chord_rule _ _ _)
  | TAP =>
    simp only
    split
    · obtain ⟨ls, hls, hstep⟩ := confs_then_lock_step hok hfuel r.to_when_tap_lock_layer
        r.to_when_press_layer
      rw [hls]
      refine ⟨_, rfl, ?_, hstep.step_mono ?_⟩
      · have h1 : SameRule r { r with time := time, state := .TAPPED } := rfl
        exact (h1.rule_trans (release_chord_rule _ _ _)).rule_trans (toggle_tap_lock_rule _ _)
      · intro L h
        rcases h with h | h
        · exact Or.inr (Or.inr (Or.inl h))
        · exact Or.inl h
    · obtain ⟨ls, hls, hstep⟩ := layer_to_lock_step hok hfuel r.to_when_press_layer
      rw [hls]
      refine ⟨_, rfl, ?_, hstep.step_mono (fun L h => Or.inl h)⟩
      have h1 : SameRule r { r with state := .IDLE } := rfl
      exact h1.rule_trans (release_chord_rule _ _ _)
  | DOUBLE_TAP =>
    simp only
    have h1 : SameRule r { r with state := .IDLE } := rfl
    split
    · obtain ⟨ls, hls, hstep⟩ := confs_then_lock_step hok hfuel
        r.to_when_double_tap_lock_layer r.to_when_doublepress_layer
      rw [hls]
      refine ⟨_, rfl, ?_, hstep.step_mono ?_⟩
      · exact (h1.rule_trans (release_chord_rule _ _ _)).rule_trans
          (toggle_double_tap_lock_rule _ _)
      · intro L h
        rcases h with h | h
        · exact Or.inr (Or.inr (Or.inr h))
        · exact Or.inr (Or.inl h)
    · obtain ⟨ls, hls, hstep⟩ := layer_to_lock_step hok hfuel r.to_when_doublepress_layer
      rw [hls]
      exact ⟨_, rfl, h1.rule_trans (release_chord_rule _ _ _),
        hstep.step_mono (fun L h => Or.inr (Or.inl h))⟩

/-- Function `event_remapped_key_up` returns 1 in every state of the remap,
keeps the rules, and acts on the layers of its remap only. -/
theorem key_up_ok {fuel : Nat} (remap time : Nat) (e : Engine) (hok : LayersOK e.layers)
    (hfuel : e.layers.length < fuel) :
    ∃ e', event_remapped_key_up fuel remap time e = some (1, e') ∧
      SameRules e.remaps e'.remaps ∧
      LayersStep (RemapTargets (remapAt e.remaps remap)) e.layers e'.layers ∧
      e'.g_remap_array = e.g_remap_array := by
  obtain ⟨t, ht, hrule, hstep⟩ := key_up_transition_ok e (remapAt e.remaps remap) time hok hfuel
  unfold event_remapped_key_up
  rw [ht]
  exact ⟨_, rfl, SameRules.rules_set _ _ _ hrule, hstep, rfl⟩

theorem unlock_remap_rule (r : Remap) (sent : List SentInput) :
    SameRule r (unlock_remap r sent).1 := rfl

theorem unlock_fold_rules (l : List Nat) :
    ∀ (acc : List Remap × List SentInput),
      SameRules acc.1
        (l.foldl
          (fun (acc : List Remap × List SentInput) remap_iter =>
            ((acc.1.set remap_iter (unlock_remap (remapAt acc.1 remap_iter) acc.2).1,
              (unlock_remap (remapAt acc.1 remap_iter) acc.2).2) :
              List Remap × List SentInput))
          acc).1 := by
  induction l with
  | nil => intro acc; exact SameRules.rules_refl _
  | cons n rest ih =>
    intro acc
    rw [List.foldl_cons]
    exact (SameRules.rules_set acc.1 n _ (unlock_remap_rule _ _)).rules_trans (ih _)

/-- Function `unlock_all` keeps the rules and resets the runtime fields of
every layer. -/
theorem unlock_all_ok (e : Engine) :
    SameRules e.remaps (unlock_all e).remaps ∧
      (unlock_all e).layers =
        e.layers.map (fun l => { l with state := 0, lock := 0, prev_lock := 0 }) ∧
      (unlock_all e).g_remap_array = e.g_remap_array :=
  ⟨unlock_fold_rules e.g_remap_list (e.remaps, e.sent), rfl, rfl⟩
/-! ## The layer invariant along the events -/

/-- With every layer at state 0 and lock 0, a layer that has an and-master
agrees with its guard: the guard fails and the state is the lock. -/
theorem consistent_of_zero (ls : List Layer)
    (h : ∀ i, (layerAt ls i).state = 0 ∧ (layerAt ls i).lock = 0 ∧
      (layerAt ls i).prev_lock = 0) (L : Nat)
    (hm : (layerAt ls L).and_master_layers ≠ []) : Consistent ls L := by
  unfold Consistent
  have hg : all_master_active ls L = false := by
    unfold all_master_active
    cases hl : (layerAt ls L).and_master_layers with
    | nil => exact absurd hl hm
    | cons m rest =>
      unfold check_layer_states
      rw [if_pos (by rw [(h m).1]; decide)]
      rfl
  rw [hg, (h L).1, (h L).2.1]
  rfl

theorem binary_of_zero (ls : List Layer)
    (h : ∀ i, (layerAt ls i).state = 0 ∧ (layerAt ls i).lock = 0 ∧
      (layerAt ls i).prev_lock = 0) : BinaryLayers ls :=
  fun i => ⟨Or.inl (h i).1, Or.inl (h i).2.1, Or.inl (h i).2.2⟩

theorem layerInv_start (e0 : Engine) (hload : Loaded e0) : LayerInv e0 e0 :=
  ⟨SameGraph.sg_refl _, SameRules.rules_refl _, fun L _ =>
    ⟨(hload.2 L).2.1, consistent_of_zero _ hload.2 L⟩, binary_of_zero _ hload.2, rfl⟩

theorem layerInv_unlock (e0 e : Engine) (h : LayerInv e0 e) : LayerInv e0 (unlock_all e) := by
  obtain ⟨hg, hr, _, _, harr⟩ := h
  obtain ⟨hr2, hl2, ha2⟩ := unlock_all_ok e
  have hzero : ∀ i, (layerAt (unlock_all e).layers i).state = 0 ∧
      (layerAt (unlock_all e).layers i).lock = 0 ∧
      (layerAt (unlock_all e).layers i).prev_lock = 0 := by
    intro i
    rw [hl2, layerAt_map _ rfl]
    exact ⟨rfl, rfl, rfl⟩
  have hg2 : SameGraph e.layers (unlock_all e).layers := by
    unfold SameGraph
    rw [hl2, List.map_map]
    rfl
  exact ⟨hg.sg_trans hg2, hr.rules_trans hr2, fun L _ =>
    ⟨(hzero L).2.1, consistent_of_zero _ hzero L⟩, binary_of_zero _ hzero, by rw [ha2, harr]⟩

theorem layerInv_step (e0 e e' : Engine) (h : LayerInv e0 e)
    (hr : SameRules e.remaps e'.remaps)
    (hs : LayersStep (AnyTarget e.remaps) e.layers e'.layers)
    (ha : e'.g_remap_array = e.g_remap_array) : LayerInv e0 e' := by
  obtain ⟨hg, hr0, hinv, hbin, harr⟩ := h
  refine ⟨hg.sg_trans hs.1, hr0.rules_trans hr, fun L hL => ?_, hs.2.2 hbin, by rw [ha, harr]⟩
  have hL' : ¬ AnyTarget e.remaps L := fun hc => hL ((hr0.rules_anyTarget L).mp hc)
  obtain ⟨hlock, _, hcons⟩ := hs.2.1 L hL'
  obtain ⟨h0, hc0⟩ := hinv L hL
  refine ⟨by rw [hlock, h0], fun hm => hcons (hc0 ?_)⟩
  rw [← hs.1.sg_masters_eq L]
  exact hm

/-- Every call of `handle_input` on a well-formed graph, with fuel above the
number of layers, returns, and keeps what the invariant carries. -/
theorem handle_input_ok (e0 e : Engine) (hok0 : LayersOK e0.layers) (h : LayerInv e0 e)
    (fuel scan_code virt_code : Nat) (direction : Direction) (time : Nat) (is_injected : Bool)
    (flags dwExtraInfo : Nat) (hfuel : e.layers.length < fuel) :
    ∃ b e', handle_input fuel scan_code virt_code direction time is_injected flags dwExtraInfo e
        = some (b, e') ∧ LayerInv e0 e' := by
  have hlen : e.layers.length = e0.layers.length := h.1.sg_length_eq
  obtain ⟨e1, he1, hinv1⟩ : ∃ e1,
      (if e.g_unlock_timeout > 0 ∧ dword_sub time e.g_last_input > u32 e.g_unlock_timeout then
        unlock_all e
      else e) = e1 ∧ LayerInv e0 e1 := by
    split
    · exact ⟨_, rfl, layerInv_unlock e0 e h⟩
    · exact ⟨_, rfl, h⟩
  have hok1 : LayersOK e1.layers := hinv1.1.sg_layersOK hok0
  have hfuel1 : e1.layers.length < fuel := by
    rw [hinv1.1.sg_length_eq, ← hlen]; exact hfuel
  have hinv2 : LayerInv e0 { e1 with g_last_input := time % 4294967296 } := hinv1
  have hother : ∀ remap_id, ∃ b e',
      event_other_input fuel virt_code direction time remap_id
        { e1 with g_last_input := time % 4294967296 } = some (b, e') ∧ LayerInv e0 e' := by
    intro remap_id
    obtain ⟨b, e', heq, hl, hr, ha⟩ := other_input_ok virt_code direction time remap_id
      { e1 with g_last_input := time % 4294967296 } hok1 hfuel1
    refine ⟨b, e', heq, layerInv_step e0 _ e' hinv2 hr ?_ ha⟩
    rw [hl]
    exact LayersStep.step_refl _ _
  unfold handle_input
  simp only
  rw [he1]
  split
  · split
    · exact ⟨0, _, rfl, hinv1⟩
    · exact ⟨0, _, rfl, hinv1⟩
  · split
    · exact hother _
    · cases hsel : remap_for_input { e1 with g_last_input := time % 4294967296 } virt_code with
      | none => exact hother 0
      | some r =>
        simp only
        split
        · obtain ⟨e', heq, hr, hs, ha⟩ := key_up_ok r time
            { e1 with g_last_input := time % 4294967296 } hok1 hfuel1
          exact ⟨1, e', heq,
            layerInv_step e0 _ e' hinv2 hr (hs.step_mono (fun L hL => ⟨r, hL⟩)) ha⟩
        · obtain ⟨e', heq, hr, hs, ha⟩ := key_down_ok r time
            { e1 with g_last_input := time % 4294967296 } hok1 hfuel1
          exact ⟨1, e', heq,
            layerInv_step e0 _ e' hinv2 hr (hs.step_mono (fun L hL => ⟨r, hL⟩)) ha⟩

theorem layerInv_of_reachable (e0 e : Engine) (hload : Loaded e0) (hreach : Reachable e0 e) :
    LayerInv e0 e := by
  induction hreach with
  | start => exact layerInv_start e0 hload
  | event e e' fuel scan_code virt_code direction time is_injected flags dwExtraInfo block_input
      _ hfuel hrun ih =>
    obtain ⟨b, e'', heq, hinv⟩ := handle_input_ok e0 e hload.1 ih fuel scan_code virt_code
      direction time is_injected flags dwExtraInfo hfuel
    rw [hrun] at heq
    simp only [Option.some.injEq, Prod.mk.injEq] at heq
    rw [heq.2]
    exact hinv

theorem zero_of_bounded (ls : List Layer)
    (h : ∀ i, i < ls.length → (layerAt ls i).state = 0 ∧ (layerAt ls i).lock = 0 ∧
      (layerAt ls i).prev_lock = 0) :
    ∀ i, (layerAt ls i).state = 0 ∧ (layerAt ls i).lock = 0 ∧ (layerAt ls i).prev_lock = 0 := by
  intro i
  by_cases hi : i < ls.length
  · exact h i hi
  · rw [layerAt_of_ge (Nat.le_of_not_lt hi)]
    exact ⟨rfl, rfl, rfl⟩

theorem remapAt_of_ge {rs : List Remap} {n : Nat} (h : rs.length ≤ n) :
    remapAt rs n = default := by
  simp [remapAt, List.getD_eq_getElem?_getD, List.getElem?_eq_none h]

/-- Only the remaps of the arena have target layers. -/
theorem anyTarget_bounded (rs : List Remap) (L : Nat) :
    AnyTarget rs L ↔ ∃ n, n < rs.length ∧ RemapTargets (remapAt rs n) L := by
  constructor
  · rintro ⟨n, hn⟩
    by_cases hlt : n < rs.length
    · exact ⟨n, hlt, hn⟩
    · rw [remapAt_of_ge (Nat.le_of_not_lt hlt)] at hn
      rcases hn with h | h | ⟨c, hc, _⟩ | ⟨c, hc, _⟩
      · exact absurd h (fun hc => Option.noConfusion hc)
      · exact absurd h (fun hc => Option.noConfusion hc)
      · exact absurd hc (List.not_mem_nil _)
      · exact absurd hc (List.not_mem_nil _)
  · rintro ⟨n, _, hn⟩
    exact ⟨n, hn⟩

theorem reachable_run_events (e0 : Engine) (hload : Loaded e0) (fuel : Nat)
    (hfuel : e0.layers.length < fuel) (events : List KeyEvent) :
    ∀ (e : Engine) (out : List (Int × List SentInput)) (e' : Engine), Reachable e0 e →
      run_events fuel e events = some (out, e') → Reachable e0 e' := by
  induction events with
  | nil =>
    intro e out e' hreach hrun
    simp only [run_events, Option.some.injEq, Prod.mk.injEq] at hrun
    rw [← hrun.2]
    exact hreach
  | cons ev rest ih =>
    intro e out e' hreach hrun
    unfold run_events at hrun
    cases h1 : handle_input fuel ev.scan_code ev.virt_code ev.direction ev.time ev.is_injected
        ev.flags ev.dwExtraInfo e with
    | none => rw [h1] at hrun; exact absurd hrun (by simp)
    | some p =>
      obtain ⟨block_input, e1⟩ := p
      rw [h1] at hrun
      simp only at hrun
      have hlen : e.layers.length < fuel := by
        rw [(layerInv_of_reachable e0 e hload hreach).1.sg_length_eq]; exact hfuel
      have hreach1 : Reachable e0 e1 :=
        Reachable.event e e1 fuel ev.scan_code ev.virt_code ev.direction ev.time
          ev.is_injected ev.flags ev.dwExtraInfo block_input hreach hlen h1
      cases h2 : run_events fuel e1 rest with
      | none => rw [h2] at hrun; exact absurd hrun (by simp)
      | some q =>
        obtain ⟨out2, e2⟩ := q
        rw [h2] at hrun
        simp only [Option.some.injEq, Prod.mk.injEq] at hrun
        rw [← hrun.2]
        exact ih e1 out2 e2 hreach1 h2

/-! ## Layers that no rule acts on, and the state of every layer -/

theorem QuietStep.quiet_refl (T : Nat → Prop) (ls : List Layer) : QuietStep T ls ls :=
  ⟨fun _ _ h => h, fun h => h⟩

theorem QuietStep.quiet_trans {T : Nat → Prop} {a b c : List Layer} (h1 : QuietStep T a b)
    (h2 : QuietStep T b c) : QuietStep T a c :=
  ⟨fun L hL h => h2.1 L hL (h1.1 L hL h), fun h => h2.2 (h1.2 h)⟩

theorem QuietStep.quiet_mono {T T' : Nat → Prop} {a b : List Layer} (h : QuietStep T a b)
    (hT : ∀ L, T L → T' L) : QuietStep T' a b :=
  ⟨fun L hL => h.1 L (fun hTL => hL (hT L hTL)), h.2⟩

theorem quiet_of_zero (ls : List Layer)
    (h : ∀ i, (layerAt ls i).state = 0 ∧ (layerAt ls i).lock = 0 ∧
      (layerAt ls i).prev_lock = 0) :
    (∀ L, Quiet ls L) ∧ ∀ L, Anchored ls L :=
  ⟨fun L => Or.inr ⟨(h L).1, fun m _ => (h m).1⟩,
    fun L => Or.inr (by rw [(h L).1, (h L).2.1])⟩

/-- Function `set_layer_state` on a well-formed graph keeps every layer
other than its argument quiet, and when it is called with 1 or with the lock
of its argument it leaves every layer at state 1 or at its lock. -/
theorem set_layer_state_quiet {ls : List Layer} (hok : LayersOK ls) {fuel : Nat}
    (hfuel : ls.length < fuel) (M : Nat) (v : Int) :
    ∃ ls', set_layer_state fuel ls M v = some ls' ∧ SameButState ls ls' ∧
      (∀ L, L ≠ M → Quiet ls L → Quiet ls' L) ∧
      ((v = 1 ∨ v = (layerAt ls M).lock) → (∀ L, L ≠ M → Anchored ls L) →
        ∀ L, Anchored ls' L) := by
  obtain ⟨hvalid, hmir, rank, hbound, hdec⟩ := hok
  by_cases hM : M < ls.length
  · have hr : rank M < fuel := lt_trans (hbound M hM) hfuel
    obtain ⟨ls', hrun, hs, hst, hreach, hframe⟩ :=
      set_layer_state_spec ls rank (rank_decreases hdec) hvalid (mirrored_all hmir) fuel M ls v
        (SameButState.sbs_refl ls) hr hM
    have hmasters : ∀ L, ¬ Reach ls M L →
        ∀ p ∈ (layerAt ls L).and_master_layers ++ (layerAt ls L).and_not_master_layers,
          (layerAt ls' p).state = (layerAt ls p).state := by
      intro L hR p hp
      have hLp := mirrored_all hmir L p hp
      apply hframe p
      · intro hpM
        rw [hpM] at hLp
        exact hR (Relation.TransGen.single hLp)
      · intro hrp
        exact hR (Relation.TransGen.tail hrp hLp)
    refine ⟨ls', hrun, hs, ?_, ?_⟩
    · intro L hL hq
      by_cases hR : Reach ls M L
      · exact Or.inl (hreach L hR)
      · rcases hq with hc | hd
        · left
          unfold Consistent at hc ⊢
          rw [hframe L hL hR, hs.sbs_lock_eq]
          rw [all_master_active_congr (hs.sbs_masters_eq L) (hs.sbs_not_masters_eq L)
            (hmasters L hR)]
          exact hc
        · right
          refine ⟨by rw [hframe L hL hR]; exact hd.1, ?_⟩
          intro m hm
          rw [hs.sbs_masters_eq, hs.sbs_not_masters_eq] at hm
          rw [hmasters L hR m hm]
          exact hd.2 m hm
    · intro hv hanch L
      unfold Anchored
      by_cases hLM : L = M
      · rw [hLM, hst, hs.sbs_lock_eq]
        exact hv
      · by_cases hR : Reach ls M L
        · have hc := hreach L hR
          unfold Consistent at hc
          rw [hc]
          split
          · exact Or.inl rfl
          · exact Or.inr rfl
        · rw [hframe L hLM hR, hs.sbs_lock_eq]
          exact hanch L hLM
  · have hle : ls.length ≤ M := Nat.le_of_not_lt hM
    obtain ⟨f, rfl⟩ : ∃ f, fuel = f + 1 := ⟨fuel - 1, by omega⟩
    refine ⟨ls, ?_, SameButState.sbs_refl ls, fun _ _ h => h, ?_⟩
    · rw [set_layer_state]
      simp only
      rw [List.set_eq_of_length_le hle, slaves_of_ge hle]
      rfl
    · intro _ hanch L
      by_cases hLM : L = M
      · right
        rw [hLM, layerAt_of_ge hle]
        rfl
      · exact hanch L hLM

/-- Rewriting the lock fields of a layer and then calling `set_layer_state`
on it with its lock, as the lock-action loops do. -/
theorem edit_then_set_quiet {ls : List Layer} (hok : LayersOK ls) {fuel : Nat}
    (hfuel : ls.length < fuel) (i : Nat) (x : Layer)
    (hg : stripRuntime x = stripRuntime (layerAt ls i))
    (hx : x.state = (layerAt ls i).state) :
    ∃ ls', set_layer_state fuel (ls.set i x) i (layerAt (ls.set i x) i).lock = some ls' ∧
      SameGraph ls ls' ∧ QuietStep (fun L => L = i) ls ls' := by
  have hsg := SameGraph.sg_set_runtime ls i x hg
  have hstate : ∀ p, (layerAt (ls.set i x) p).state = (layerAt ls p).state :=
    fun p => set_runtime_state ls i x hx p
  obtain ⟨ls', hrun, hs, hq, ha⟩ := set_layer_state_quiet (hsg.sg_layersOK hok)
    (by rw [List.length_set]; exact hfuel) i (layerAt (ls.set i x) i).lock
  refine ⟨ls', hrun, hsg.sg_trans hs.sbs_sameGraph, ?_, ?_⟩
  · intro L hL hquiet
    apply hq L hL
    have hiL : i ≠ L := fun h => hL h.symm
    rcases hquiet with hc | hd
    · left
      unfold Consistent at hc ⊢
      rw [all_master_active_congr (hsg.sg_masters_eq L) (hsg.sg_not_masters_eq L)
        (fun p _ => hstate p)]
      rw [layerAt_set_ne _ hiL]
      exact hc
    · right
      refine ⟨by rw [hstate]; exact hd.1, ?_⟩
      intro m hm
      rw [hsg.sg_masters_eq, hsg.sg_not_masters_eq] at hm
      rw [hstate]
      exact hd.2 m hm
  · intro hanch
    apply ha (Or.inr rfl)
    intro L hL
    have hiL : i ≠ L := fun h => hL h.symm
    unfold Anchored
    rw [layerAt_set_ne _ hiL]
    exact hanch L

theorem layer_on_quiet {ls : List Layer} (hok : LayersOK ls) {fuel : Nat}
    (hfuel : ls.length < fuel) (layer : Option Nat) :
    ∃ ls', layer_on fuel layer ls = some ls' ∧ SameGraph ls ls' ∧
      QuietStep (fun L => layer = some L) ls ls' := by
  cases layer with
  | none => exact ⟨ls, rfl, SameGraph.sg_refl ls, QuietStep.quiet_refl _ ls⟩
  | some l =>
    obtain ⟨ls', h, hs, hq, ha⟩ := set_layer_state_quiet hok hfuel l 1
    refine ⟨ls', h, hs.sbs_sameGraph, ?_, ?_⟩
    · intro L hL
      exact hq L (fun hc => hL (by rw [hc]))
    · intro hanch
      exact ha (Or.inl rfl) (fun L _ => hanch L)

theorem layer_to_lock_quiet {ls : List Layer} (hok : LayersOK ls) {fuel : Nat}
    (hfuel : ls.length < fuel) (layer : Option Nat) :
    ∃ ls', layer_to_lock fuel layer ls = some ls' ∧ SameGraph ls ls' ∧
      QuietStep (fun L => layer = some L) ls ls' := by
  cases layer with
  | none => exact ⟨ls, rfl, SameGraph.sg_refl ls, QuietStep.quiet_refl _ ls⟩
  | some l =>
    obtain ⟨ls', h, hs, hq, ha⟩ := set_layer_state_quiet hok hfuel l (layerAt ls l).lock
    refine ⟨ls', h, hs.sbs_sameGraph, ?_, ?_⟩
    · intro L hL
      exact hq L (fun hc => hL (by rw [hc]))
    · intro hanch
      exact ha (Or.inr rfl) (fun L _ => hanch L)

theorem apply_layer_confs_quiet {fuel : Nat} (confs : List LayerConf) :
    ∀ {ls : List Layer}, LayersOK ls → ls.length < fuel →
      ∃ ls', apply_layer_confs fuel confs ls = some ls' ∧ SameGraph ls ls' ∧
        QuietStep (fun L => ∃ c ∈ confs, c.layer = L) ls ls' := by
  induction confs with
  | nil =>
    intro ls _ _
    exact ⟨ls, rfl, SameGraph.sg_refl ls, QuietStep.quiet_refl _ ls⟩
  | cons c rest ih =>
    intro ls hok hfuel
    obtain ⟨ls2, h2, hsg2, hq2⟩ := edit_then_set_quiet hok hfuel c.layer
      (c.conf.call (layerAt ls c.layer)) (conf_call_strip _ _) (conf_call_state _ _)
    obtain ⟨ls3, h3, hsg3, hq3⟩ := @ih ls2 (hsg2.sg_layersOK hok)
      (by rw [hsg2.sg_length_eq]; exact hfuel)
    refine ⟨ls3, ?_, hsg2.sg_trans hsg3, ?_⟩
    · rw [apply_layer_confs, h2]
      exact h3
    · have e2 : QuietStep (fun L => ∃ c' ∈ c :: rest, c'.layer = L) ls ls2 :=
        hq2.quiet_mono (fun L hL => ⟨c, List.mem_cons_self _ _, hL.symm⟩)
      have e3 : QuietStep (fun L => ∃ c' ∈ c :: rest, c'.layer = L) ls2 ls3 :=
        hq3.quiet_mono (fun L ⟨c', hc', h⟩ => ⟨c', List.mem_cons_of_mem _ hc', h⟩)
      exact e2.quiet_trans e3

theorem revert_layer_confs_quiet {fuel : Nat} (confs : List LayerConf) :
    ∀ {ls : List Layer}, LayersOK ls → ls.length < fuel →
      ∃ ls', revert_layer_confs fuel confs ls = some ls' ∧ SameGraph ls ls' ∧
        QuietStep (fun L => ∃ c ∈ confs, c.layer = L) ls ls' := by
  induction confs with
  | nil =>
    intro ls _ _
    exact ⟨ls, rfl, SameGraph.sg_refl ls, QuietStep.quiet_refl _ ls⟩
  | cons c rest ih =>
    intro ls hok hfuel
    obtain ⟨ls2, h2, hsg2, hq2⟩ := edit_then_set_quiet hok hfuel c.layer
      { layerAt ls c.layer with lock := (layerAt ls c.layer).prev_lock } rfl rfl
    obtain ⟨ls3, h3, hsg3, hq3⟩ := @ih ls2 (hsg2.sg_layersOK hok)
      (by rw [hsg2.sg_length_eq]; exact hfuel)
    refine ⟨ls3, ?_, hsg2.sg_trans hsg3, ?_⟩
    · rw [revert_layer_confs, h2]
      exact h3
    · have e2 : QuietStep (fun L => ∃ c' ∈ c :: rest, c'.layer = L) ls ls2 :=
        hq2.quiet_mono (fun L hL => ⟨c, List.mem_cons_self _ _, hL.symm⟩)
      have e3 : QuietStep (fun L => ∃ c' ∈ c :: rest, c'.layer = L) ls2 ls3 :=
        hq3.quiet_mono (fun L ⟨c', hc', h⟩ => ⟨c', List.mem_cons_of_mem _ hc', h⟩)
      exact e2.quiet_trans e3

theorem confs_then_lock_quiet {fuel : Nat} {ls : List Layer} (hok : LayersOK ls)
    (hfuel : ls.length < fuel) (confs : List LayerConf) (layer : Option Nat) :
    ∃ ls', (apply_layer_confs fuel confs ls).bind (layer_to_lock fuel layer) = some ls' ∧
      QuietStep (fun L => (∃ c ∈ confs, c.layer = L) ∨ layer = some L) ls ls' := by
  obtain ⟨ls1, h1, hsg1, s1⟩ := apply_layer_confs_quiet confs hok hfuel
  obtain ⟨ls2, h2, _, s2⟩ := layer_to_lock_quiet (hsg1.sg_layersOK hok)
    (by rw [hsg1.sg_length_eq]; exact hfuel) layer
  refine ⟨ls2, by rw [h1]; exact h2, ?_⟩
  exact (s1.quiet_mono (fun L h => Or.inl h)).quiet_trans (s2.quiet_mono (fun L h => Or.inr h))

theorem revert_then_on_quiet {fuel : Nat} {ls : List Layer} (hok : LayersOK ls)
    (hfuel : ls.length < fuel) (confs : List LayerConf) (layer : Option Nat) :
    ∃ ls', (revert_layer_confs fuel confs ls).bind (layer_on fuel layer) = some ls' ∧
      QuietStep (fun L => (∃ c ∈ confs, c.layer = L) ∨ layer = some L) ls ls' := by
  obtain ⟨ls1, h1, hsg1, s1⟩ := revert_layer_confs_quiet confs hok hfuel
  obtain ⟨ls2, h2, _, s2⟩ := layer_on_quiet (hsg1.sg_layersOK hok)
    (by rw [hsg1.sg_length_eq]; exact hfuel) layer
  refine ⟨ls2, by rw [h1]; exact h2, ?_⟩
  exact (s1.quiet_mono (fun L h => Or.inl h)).quiet_trans (s2.quiet_mono (fun L h => Or.inr h))

/-- Function `event_remapped_key_down` returns and acts on the layers of its
remap only, second part. -/
theorem key_down_quiet {fuel : Nat} (remap time : Nat) (e : Engine) (hok : LayersOK e.layers)
    (hfuel : e.layers.length < fuel) :
    ∃ e', event_remapped_key_down fuel remap time e = some (1, e') ∧
      QuietStep (RemapTargets (remapAt e.remaps remap)) e.layers e'.layers := by
  unfold event_remapped_key_down
  simp only
  cases hst : (remapAt e.remaps remap).state with
  | IDLE =>
    simp only
    obtain ⟨ls, hls, _, hstep⟩ := layer_on_quiet hok hfuel
      (remapAt e.remaps remap).to_when_press_layer
    rw [hls]
    exact ⟨_, rfl, hstep.quiet_mono (fun L h => Or.inl h)⟩
  | HELD_DOWN_ALONE => exact ⟨_, rfl, QuietStep.quiet_refl _ _⟩
  | HELD_DOWN_WITH_OTHER => exact ⟨_, rfl, QuietStep.quiet_refl _ _⟩
  | TAP => exact ⟨_, rfl, QuietStep.quiet_refl _ _⟩
  | DOUBLE_TAP => exact ⟨_, rfl, QuietStep.quiet_refl _ _⟩
  | TAPPED =>
    simp only
    split
    · obtain ⟨ls, hls, hstep⟩ := revert_then_on_quiet hok hfuel
        (remapAt e.remaps remap).to_when_tap_lock_layer
        (remapAt e.remaps remap).to_when_doublepress_layer
      rw [hls]
      refine ⟨_, rfl, hstep.quiet_mono ?_⟩
      intro L h
      rcases h with h | h
      · exact Or.inr (Or.inr (Or.inl h))
      · exact Or.inr (Or.inl h)
    · obtain ⟨ls, hls, _, hstep⟩ := layer_on_quiet hok hfuel
        (remapAt e.remaps remap).to_when_press_layer
      rw [hls]
      exact ⟨_, rfl, hstep.quiet_mono (fun L h => Or.inl h)⟩

theorem key_up_transition_quiet {fuel : Nat} (e : Engine) (r : Remap) (time : Nat)
    (hok : LayersOK e.layers) (hfuel : e.layers.length < fuel) :
    ∃ t, key_up_transition fuel e r time = some t ∧
      QuietStep (RemapTargets r) e.layers t.2.2 := by
  unfold key_up_transition
  cases hst : r.state with
  | IDLE => exact ⟨_, rfl, QuietStep.quiet_refl _ _⟩
  | TAPPED => exact ⟨_, rfl, QuietStep.quiet_refl _ _⟩
  | HELD_DOWN_ALONE =>
    simp only
    split
    · obtain ⟨ls, hls, hstep⟩ := confs_then_lock_quiet hok hfuel r.to_when_tap_lock_layer
        r.to_when_press_layer
      rw [hls]
      refine ⟨_, rfl, hstep.quiet_mono ?_⟩
      intro L h
      rcases h with h | h
      · exact Or.inr (Or.inr (Or.inl h))
      · exact Or.inl h
    · obtain ⟨ls, hls, _, hstep⟩ := layer_to_lock_quiet hok hfuel r.to_when_press_layer
      rw [hls]
      exact ⟨_, rfl, hstep.quiet_mono (fun L h => Or.inl h)⟩
  | HELD_DOWN_WITH_OTHER =>
    simp only
    obtain ⟨ls, hls, _, hstep⟩ := layer_to_lock_quiet hok hfuel r.to_when_press_layer
    rw [hls]
    exact ⟨_, rfl, hstep.quiet_mono (fun L h => Or.inl h)⟩
  | TAP =>
    simp only
    split
    · obtain ⟨ls, hls, hstep⟩ := confs_then_lock_quiet hok hfuel r.to_when_tap_lock_layer
        r.to_when_press_layer
      rw [hls]
      refine ⟨_, rfl, hstep.quiet_mono ?_⟩
      intro L h
      rcases h with h | h
      · exact Or.inr (Or.inr (Or.inl h))
      · exact Or.inl h
    · obtain ⟨ls, hls, _, hstep⟩ := layer_to_lock_quiet hok hfuel r.to_when_press_layer
      rw [hls]
      exact ⟨_, rfl, hstep.quiet_mono (fun L h => Or.inl h)⟩
  | DOUBLE_TAP =>
    simp only
    split
    · obtain ⟨ls, hls, hstep⟩ := confs_then_lock_quiet hok hfuel
        r.to_when_double_tap_lock_layer r.to_when_doublepress_layer
      rw [hls]
      refine ⟨_, rfl, hstep.quiet_mono ?_⟩
      intro L h
      rcases h with h | h
      · exact Or.inr (Or.inr (Or.inr h))
      · exact Or.inr (Or.inl h)
    · obtain ⟨ls, hls, _, hstep⟩ := layer_to_lock_quiet hok hfuel r.to_when_doublepress_layer
      rw [hls]
      exact ⟨_, rfl, hstep.quiet_mono (fun L h => Or.inr (Or.inl h))⟩

theorem key_up_quiet {fuel : Nat} (remap time : Nat) (e : Engine) (hok : LayersOK e.layers)
    (hfuel : e.layers.length < fuel) :
    ∃ e', event_remapped_key_up fuel remap time e = some (1, e') ∧
      QuietStep (RemapTargets (remapAt e.remaps remap)) e.layers e'.layers := by
  obtain ⟨t, ht, hstep⟩ := key_up_transition_quiet e (remapAt e.remaps remap) time hok hfuel
  unfold event_remapped_key_up
  rw [ht]
  exact ⟨_, rfl, hstep⟩

theorem quietInv_start (e0 : Engine) (hload : Loaded e0) : QuietInv e0 e0 :=
  ⟨fun L _ => (quiet_of_zero _ hload.2).1 L, (quiet_of_zero _ hload.2).2⟩

theorem quietInv_unlock (e0 e : Engine) : QuietInv e0 (unlock_all e) := by
  obtain ⟨_, hl2, _⟩ := unlock_all_ok e
  have hzero : ∀ i, (layerAt (unlock_all e).layers i).state = 0 ∧
      (layerAt (unlock_all e).layers i).lock = 0 ∧
      (layerAt (unlock_all e).layers i).prev_lock = 0 := by
    intro i
    rw [hl2, layerAt_map _ rfl]
    exact ⟨rfl, rfl, rfl⟩
  exact ⟨fun L _ => (quiet_of_zero _ hzero).1 L, (quiet_of_zero _ hzero).2⟩

theorem quietInv_step (e0 e e' : Engine) (h : LayerInv e0 e) (hq : QuietInv e0 e)
    (hs : QuietStep (AnyTarget e.remaps) e.layers e'.layers) : QuietInv e0 e' := by
  refine ⟨fun L hL => ?_, hs.2 hq.2⟩
  have hL' : ¬ AnyTarget e.remaps L := fun hc => hL ((h.2.1.rules_anyTarget L).mp hc)
  exact hs.1 L hL' (hq.1 L hL)

/-- Every call of `handle_input` on a well-formed graph keeps what the
amended invariant carries, second part. -/
theorem handle_input_quiet (e0 e : Engine) (hok0 : LayersOK e0.layers) (h : LayerInv e0 e)
    (hq : QuietInv e0 e)
    (fuel scan_code virt_code : Nat) (direction : Direction) (time : Nat) (is_injected : Bool)
    (flags dwExtraInfo : Nat) (hfuel : e.layers.length < fuel) :
    ∃ b e', handle_input fuel scan_code virt_code direction time is_injected flags dwExtraInfo e
        = some (b, e') ∧ QuietInv e0 e' := by
  have hlen : e.layers.length = e0.layers.length := h.1.sg_length_eq
  obtain ⟨e1, he1, hinv1, hq1⟩ : ∃ e1,
      (if e.g_unlock_timeout > 0 ∧ dword_sub time e.g_last_input > u32 e.g_unlock_timeout then
        unlock_all e
      else e) = e1 ∧ LayerInv e0 e1 ∧ QuietInv e0 e1 := by
    split
    · exact ⟨_, rfl, layerInv_unlock e0 e h, quietInv_unlock e0 e⟩
    · exact ⟨_, rfl, h, hq⟩
  have hok1 : LayersOK e1.layers := hinv1.1.sg_layersOK hok0
  have hfuel1 : e1.layers.length < fuel := by
    rw [hinv1.1.sg_length_eq, ← hlen]; exact hfuel
  have hinv2 : LayerInv e0 { e1 with g_last_input := time % 4294967296 } := hinv1
  have hq2 : QuietInv e0 { e1 with g_last_input := time % 4294967296 } := hq1
  have hother : ∀ remap_id, ∃ b e',
      event_other_input fuel virt_code direction time remap_id
        { e1 with g_last_input := time % 4294967296 } = some (b, e') ∧ QuietInv e0 e' := by
    intro remap_id
    obtain ⟨b, e', heq, hl, _, _⟩ := other_input_ok virt_code direction time remap_id
      { e1 with g_last_input := time % 4294967296 } hok1 hfuel1
    refine ⟨b, e', heq, quietInv_step e0 _ e' hinv2 hq2 ?_⟩
    rw [hl]
    exact QuietStep.quiet_refl _ _
  unfold handle_input
  simp only
  rw [he1]
  split
  · split
    · exact ⟨0, _, rfl, hq1⟩
    · exact ⟨0, _, rfl, hq1⟩
  · split
    · exact hother _
    · cases hsel : remap_for_input { e1 with g_last_input := time % 4294967296 } virt_code with
      | none => exact hother 0
      | some r =>
        simp only
        split
        · obtain ⟨e', heq, hs⟩ := key_up_quiet r time
            { e1 with g_last_input := time % 4294967296 } hok1 hfuel1
          exact ⟨1, e', heq,
            quietInv_step e0 _ e' hinv2 hq2 (hs.quiet_mono (fun L hL => ⟨r, hL⟩))⟩
        · obtain ⟨e', heq, hs⟩ := key_down_quiet r time
            { e1 with g_last_input := time % 4294967296 } hok1 hfuel1
          exact ⟨1, e', heq,
            quietInv_step e0 _ e' hinv2 hq2 (hs.quiet_mono (fun L hL => ⟨r, hL⟩))⟩

theorem quietInv_of_reachable (e0 e : Engine) (hload : Loaded e0) (hreach : Reachable e0 e) :
    QuietInv e0 e := by
  induction hreach with
  | start => exact quietInv_start e0 hload
  | event e e' fuel scan_code virt_code direction time is_injected flags dwExtraInfo block_input
      hprev hfuel hrun ih =>
    obtain ⟨b, e'', heq, hinv⟩ := handle_input_quiet e0 e hload.1
      (layerInv_of_reachable e0 e hload hprev) ih fuel scan_code virt_code
      direction time is_injected flags dwExtraInfo hfuel
    rw [hrun] at heq
    simp only [Option.some.injEq, Prod.mk.injEq] at heq
    rw [heq.2]
    exact hinv

/-- A layer with lock 0 that agrees with its guard satisfies the invariant
of the spec. -/
theorem layerInvariant_of_consistent {ls : List Layer} {L : Nat}
    (hlock : (layerAt ls L).lock = 0) (hc : Consistent ls L) : LayerInvariant ls L := by
  unfold Consistent at hc
  unfold LayerInvariant
  by_cases hg : MastersSatisfied ls L
  · rw [if_pos ((all_master_active_iff _ _).mpr hg)] at hc
    exact ⟨⟨fun _ => hg, fun _ => hc⟩, fun hn => absurd hg hn⟩
  · have hga : ¬ all_master_active ls L = true :=
      fun hc' => hg ((all_master_active_iff _ _).mp hc')
    rw [if_neg hga] at hc
    refine ⟨⟨fun h1 => ?_, fun h1 => absurd h1 hg⟩, fun _ => hc⟩
    rw [hc, hlock] at h1
    exact absurd h1 (by decide)

/-! ## The layer invariant over the whole engine -/

/-- Counterexample of claim C9, on six layers where `layer_base` (0) is the
and-master of layers 1, 3, 4, 5 and the and-not-master of `layer_inverse`
(2), with four rules that use layers 1, 3, 4, 5 as press layer, doublepress
layer, tap-lock layer and double-tap-lock layer. In the loaded configuration
the guard of `layer_inverse` holds while its state is 0. After A DOWN the
press layer has state 1; after B DOWN, UP, DOWN (a double press) the
doublepress layer has state 1; after a tap of C the tap-lock layer has
state 1; after a double tap of J the double-tap-lock layer has state 1;
each time the and-master `layer_base` has state 0. So none of the five
layers, each of which has a master, satisfies the invariant in every
reachable state. -/
theorem C9_counterexample :
    Loaded c9_engine ∧
    ((layerAt c9_engine.layers 2).and_master_layers = [] ∧
      (layerAt c9_engine.layers 2).and_not_master_layers = [0] ∧
      MastersSatisfied c9_engine.layers 2 ∧ (layerAt c9_engine.layers 2).state = 0) ∧
    ((remapAt c9_engine.remaps 0).to_when_press_layer = some 1 ∧
      Reachable c9_engine (c9_after [genuine KEY_A .DOWN 0]) ∧
      (layerAt (c9_after [genuine KEY_A .DOWN 0]).layers 1).and_master_layers = [0] ∧
      (layerAt (c9_after [genuine KEY_A .DOWN 0]).layers 1).state = 1 ∧
      (layerAt (c9_after [genuine KEY_A .DOWN 0]).layers 0).state = 0) ∧
    ((remapAt c9_engine.remaps 1).to_when_doublepress_layer = some 3 ∧
      Reachable c9_engine
        (c9_after [genuine KEY_B .DOWN 0, genuine KEY_B .UP 50, genuine KEY_B .DOWN 100]) ∧
      (layerAt (c9_after [genuine KEY_B .DOWN 0, genuine KEY_B .UP 50,
        genuine KEY_B .DOWN 100]).layers 3).and_master_layers = [0] ∧
      (layerAt (c9_after [genuine KEY_B .DOWN 0, genuine KEY_B .UP 50,
        genuine KEY_B .DOWN 100]).layers 3).state = 1 ∧
      (layerAt (c9_after [genuine KEY_B .DOWN 0, genuine KEY_B .UP 50,
        genuine KEY_B .DOWN 100]).layers 0).state = 0) ∧
    ((remapAt c9_engine.remaps 2).to_when_tap_lock_layer =
        [LayerConf.mk 4 .toggle_layer_lock] ∧
      Reachable c9_engine (c9_after [genuine KEY_C .DOWN 0, genuine KEY_C .UP 50]) ∧
      (layerAt (c9_after [genuine KEY_C .DOWN 0, genuine KEY_C .UP 50]).layers 4).and_master_layers
        = [0] ∧
      (layerAt (c9_after [genuine KEY_C .DOWN 0, genuine KEY_C .UP 50]).layers 4).state = 1 ∧
      (layerAt (c9_after [genuine KEY_C .DOWN 0, genuine KEY_C .UP 50]).layers 0).state = 0) ∧
    ((remapAt c9_engine.remaps 3).to_when_double_tap_lock_layer =
        [LayerConf.mk 5 .set_layer_lock] ∧
      Reachable c9_engine
        (c9_after [genuine KEY_J .DOWN 0, genuine KEY_J .UP 50, genuine KEY_J .DOWN 100,
          genuine KEY_J .UP 150]) ∧
      (layerAt (c9_after [genuine KEY_J .DOWN 0, genuine KEY_J .UP 50, genuine KEY_J .DOWN 100,
        genuine KEY_J .UP 150]).layers 5).and_master_layers = [0] ∧
      (layerAt (c9_after [genuine KEY_J .DOWN 0, genuine KEY_J .UP 50, genuine KEY_J .DOWN 100,
        genuine KEY_J .UP 150]).layers 5).state = 1 ∧
      (layerAt (c9_after [genuine KEY_J .DOWN 0, genuine KEY_J .UP 50, genuine KEY_J .DOWN 100,
        genuine KEY_J .UP 150]).layers 0).state = 0) ∧
    (∀ L ∈ [1, 2, 3, 4, 5],
      ((layerAt c9_engine.layers L).and_master_layers ≠ [] ∨
        (layerAt c9_engine.layers L).and_not_master_layers ≠ []) ∧
      ¬ (∀ e, Reachable c9_engine e → LayerInvariant e.layers L)) := by
  have hload : Loaded c9_engine :=
    ⟨⟨by unfold SlavesValid; decide, by unfold Mirrored; decide,
        fun i => if i = 0 then 1 else 0, by decide, by decide⟩,
      zero_of_bounded _ (by decide)⟩
  have hms : MastersSatisfied c9_engine.layers 2 := by unfold MastersSatisfied; decide
  have hr : ∀ events, Reachable c9_engine (c9_after events) := by
    intro events
    cases h : run_events 7 c9_engine events with
    | none =>
      have h0 : c9_after events = c9_engine := by unfold c9_after; rw [h]; rfl
      rw [h0]
      exact Reachable.start
    | some p =>
      have h0 : c9_after events = p.2 := by unfold c9_after; rw [h]; rfl
      rw [h0]
      exact reachable_run_events c9_engine hload 7 (by decide) events c9_engine p.1 p.2
        Reachable.start h
  have hbad : ∀ (e : Engine) (L : Nat), (layerAt e.layers L).and_master_layers = [0] →
      (layerAt e.layers L).state = 1 → (layerAt e.layers 0).state = 0 →
      ¬ LayerInvariant e.layers L := by
    intro e L hm h1 h0 hinv
    have hsat := hinv.1.mp h1
    have := hsat.1 0 (by rw [hm]; exact List.mem_singleton.mpr rfl)
    rw [h0] at this
    exact absurd this (by decide)
  refine ⟨hload, ⟨rfl, rfl, hms, rfl⟩, ⟨rfl, hr _, rfl, rfl, rfl⟩, ⟨rfl, hr _, rfl, rfl, rfl⟩,
    ⟨rfl, hr _, rfl, rfl, rfl⟩, ⟨rfl, hr _, rfl, rfl, rfl⟩, ?_⟩
  intro L hL
  simp only [List.mem_cons, List.mem_singleton, List.not_mem_nil, or_false] at hL
  rcases hL with rfl | rfl | rfl | rfl | rfl
  · exact ⟨Or.inl (by decide), fun hall =>
      hbad (c9_after [genuine KEY_A .DOWN 0]) 1 rfl rfl rfl (hall _ (hr _))⟩
  · refine ⟨Or.inr (by decide), fun hall => ?_⟩
    have h2 := (hall c9_engine Reachable.start).1.mpr hms
    exact absurd h2 (by decide)
  · exact ⟨Or.inl (by decide), fun hall =>
      hbad (c9_after [genuine KEY_B .DOWN 0, genuine KEY_B .UP 50, genuine KEY_B .DOWN 100])
        3 rfl rfl rfl (hall _ (hr _))⟩
  · exact ⟨Or.inl (by decide), fun hall =>
      hbad (c9_after [genuine KEY_C .DOWN 0, genuine KEY_C .UP 50]) 4 rfl rfl rfl
        (hall _ (hr _))⟩
  · exact ⟨Or.inl (by decide), fun hall =>
      hbad (c9_after [genuine KEY_J .DOWN 0, genuine KEY_J .UP 50, genuine KEY_J .DOWN 100,
          genuine KEY_J .UP 150]) 5 rfl rfl rfl (hall _ (hr _))⟩

/-- Claim C9, amended. From a loaded configuration (well-formed acyclic
layer graph, every layer at state 0 and lock 0), in every state reachable
through `handle_input` events: (a) every layer `L` that has at least one
and-master and is not the press layer, the doublepress layer or a lock-action
layer of any rule satisfies: `L.state = 1` iff every and-master has state 1
and every and-not-master has state 0, and otherwise `L.state = L.lock`;
(b) every layer that no rule acts on, whatever its masters, satisfies that
invariant or is as load or `unlock_all` left it, with state 0 and every one
of its and-masters and and-not-masters at state 0, so it satisfies the
invariant whenever one of its masters has a nonzero state; (c) every layer,
also one a rule acts on, has state 1 or state equal to its lock. Every
further event returns a next state. -/
theorem C9_layer_invariant (e0 e : Engine) (hload : Loaded e0) (hreach : Reachable e0 e) :
    (∀ L, (layerAt e.layers L).and_master_layers ≠ [] → ¬ AnyTarget e0.remaps L →
      LayerInvariant e.layers L) ∧
    (∀ (fuel scan_code virt_code : Nat) (direction : Direction) (time : Nat)
        (is_injected : Bool) (flags dwExtraInfo : Nat), e.layers.length < fuel →
      ∃ block_input e',
        handle_input fuel scan_code virt_code direction time is_injected flags dwExtraInfo e
          = some (block_input, e') ∧ Reachable e0 e') ∧
    (∀ L, ¬ AnyTarget e0.remaps L →
      LayerInvariant e.layers L ∨
        ((layerAt e.layers L).state = 0 ∧
          ∀ m ∈ (layerAt e.layers L).and_master_layers ++
              (layerAt e.layers L).and_not_master_layers,
            (layerAt e.layers m).state = 0)) ∧
    (∀ L, ¬ AnyTarget e0.remaps L →
      (∃ m ∈ (layerAt e.layers L).and_master_layers ++
          (layerAt e.layers L).and_not_master_layers, (layerAt e.layers m).state ≠ 0) →
      LayerInvariant e.layers L) ∧
    (∀ L, (layerAt e.layers L).state = 1 ∨
      (layerAt e.layers L).state = (layerAt e.layers L).lock) := by
  have hinv := layerInv_of_reachable e0 e hload hreach
  have hq := quietInv_of_reachable e0 e hload hreach
  have hb : ∀ L, ¬ AnyTarget e0.remaps L →
      LayerInvariant e.layers L ∨
        ((layerAt e.layers L).state = 0 ∧
          ∀ m ∈ (layerAt e.layers L).and_master_layers ++
              (layerAt e.layers L).and_not_master_layers,
            (layerAt e.layers m).state = 0) := by
    intro L hT
    rcases hq.1 L hT with hc | hd
    · exact Or.inl (layerInvariant_of_consistent (hinv.2.2.1 L hT).1 hc)
    · exact Or.inr hd
  refine ⟨?_, ?_, hb, ?_, hq.2⟩
  · intro L hm hT
    exact layerInvariant_of_consistent (hinv.2.2.1 L hT).1 ((hinv.2.2.1 L hT).2 hm)
  · intro fuel scan_code virt_code direction time is_injected flags dwExtraInfo hfuel
    obtain ⟨b, e', heq, _⟩ := handle_input_ok e0 e hload.1 hinv fuel scan_code virt_code
      direction time is_injected flags dwExtraInfo hfuel
    exact ⟨b, e', heq, Reachable.event e e' fuel scan_code virt_code direction time is_injected
      flags dwExtraInfo b hreach hfuel heq⟩
  · intro L hT hex
    rcases hb L hT with h | h
    · exact h
    · obtain ⟨m, hm, hne⟩ := hex
      exact absurd (h.2 m hm) hne

/-- Claim C9, as amended, on two configurations. On two layers, `layer1`
the and-master of `layer2`, with the rule `remap_key=CAPSLOCK`,
`when_press=layer1`: after CAPSLOCK DOWN both layers have state 1 and
`layer2`, which no rule acts on, satisfies the invariant. On the six layers
of `c9_engine` after KEY_A DOWN: `layer_inverse` (2), which no rule acts on
and whose one master is an and-not-master, is as load left it, and the press
layer (1) has state 1 with lock 0. -/
theorem C9_layer_invariant_witness :
    Loaded c9_chain_engine ∧ Reachable c9_chain_engine c9_chain_held ∧
      (layerAt c9_chain_held.layers 0).state = 1 ∧
      (layerAt c9_chain_held.layers 1).state = 1 ∧
      LayerInvariant c9_chain_held.layers 1 ∧
      Loaded c9_engine ∧ Reachable c9_engine (c9_after [genuine KEY_A .DOWN 0]) ∧
      (LayerInvariant (c9_after [genuine KEY_A .DOWN 0]).layers 2 ∨
        ((layerAt (c9_after [genuine KEY_A .DOWN 0]).layers 2).state = 0 ∧
          ∀ m ∈ (layerAt (c9_after [genuine KEY_A .DOWN 0]).layers 2).and_master_layers ++
              (layerAt (c9_after [genuine KEY_A .DOWN 0]).layers 2).and_not_master_layers,
            (layerAt (c9_after [genuine KEY_A .DOWN 0]).layers m).state = 0)) ∧
      ((layerAt (c9_after [genuine KEY_A .DOWN 0]).layers 1).state = 1 ∨
        (layerAt (c9_after [genuine KEY_A .DOWN 0]).layers 1).state =
          (layerAt (c9_after [genuine KEY_A .DOWN 0]).layers 1).lock) ∧
      (layerAt (c9_after [genuine KEY_A .DOWN 0]).layers 1).state = 1 ∧
      (layerAt (c9_after [genuine KEY_A .DOWN 0]).layers 1).lock = 0 :=
  have hload : Loaded c9_chain_engine :=
    ⟨⟨by unfold SlavesValid; decide, by unfold Mirrored; decide,
        fun i => if i = 0 then 1 else 0, by decide, by decide⟩,
      zero_of_bounded _ (by decide)⟩
  have hreach : Reachable c9_chain_engine c9_chain_held :=
    Reachable.event c9_chain_engine c9_chain_held 3 CAPSLOCK.scan_code CAPSLOCK.virt_code
      .DOWN 0 false 0 0 1 Reachable.start (by decide) rfl
  have hload9 : Loaded c9_engine :=
    ⟨⟨by unfold SlavesValid; decide, by unfold Mirrored; decide,
        fun i => if i = 0 then 1 else 0, by decide, by decide⟩,
      zero_of_bounded _ (by decide)⟩
  have hreach9 : Reachable c9_engine (c9_after [genuine KEY_A .DOWN 0]) :=
    Reachable.event c9_engine (c9_after [genuine KEY_A .DOWN 0]) 7 KEY_A.scan_code
      KEY_A.virt_code .DOWN 0 false 0 0 1 Reachable.start (by decide) rfl
  ⟨hload, hreach, rfl, rfl,
    (C9_layer_invariant c9_chain_engine c9_chain_held hload hreach).1 1 (by decide)
      (fun h => absurd ((anyTarget_bounded _ _).mp h) (by unfold RemapTargets; decide)),
    hload9, hreach9,
    (C9_layer_invariant c9_engine (c9_after [genuine KEY_A .DOWN 0]) hload9 hreach9).2.2.1 2
      (fun h => absurd ((anyTarget_bounded _ _).mp h) (by unfold RemapTargets; decide)),
    (C9_layer_invariant c9_engine (c9_after [genuine KEY_A .DOWN 0]) hload9 hreach9).2.2.2.2 1,
    rfl, rfl⟩

/-! ## Dispatch and rule resolution -/

/-- A genuine event is dispatched in the selection state. -/
theorem handle_input_dispatch (fuel scan_code virt_code : Nat) (direction : Direction)
    (time flags dwExtraInfo : Nat) (e : Engine) :
    handle_input fuel scan_code virt_code direction time false flags dwExtraInfo e =
      match remap_for_input (selection_state e time) virt_code with
      | some r =>
        if direction = .UP then event_remapped_key_up fuel r time (selection_state e time)
        else event_remapped_key_down fuel r time (selection_state e time)
      | none => event_other_input fuel virt_code direction time 0 (selection_state e time) := by
  unfold handle_input selection_state
  simp only [Bool.false_eq_true, false_and, if_false]

theorem selection_state_of_not_due (e : Engine) (time : Nat) (hu : ¬ unlock_due e time) :
    selection_state e time = { e with g_last_input := time % 4294967296 } := by
  unfold unlock_due at hu
  unfold selection_state
  simp only [hu, if_false]

theorem find_remap_for_virt_code_none (rs : List Remap) (l : List Nat) (virt_code : Nat)
    (h : ∀ n ∈ l, (remapAt rs n).from_.virt_code ≠ virt_code) :
    find_remap_for_virt_code rs l virt_code = none := by
  induction l with
  | nil => rfl
  | cons r rest ih =>
    unfold find_remap_for_virt_code
    rw [if_neg (h r (List.mem_cons_self _ _))]
    exact ih (fun n hn => h n (List.mem_cons_of_mem _ hn))

theorem find_remap_node_none (ls : List Layer) (rs : List Remap) (bucket : List Nat)
    (h : ∀ n ∈ bucket, ∃ l, (remapAt rs n).layer = some l ∧ (layerAt ls l).state = 0) :
    find_remap_node ls rs bucket = none := by
  induction bucket with
  | nil => rfl
  | cons n rest ih =>
    obtain ⟨l, hl, hs⟩ := h n (List.mem_cons_self _ _)
    unfold find_remap_node
    simp only [hl, hs, ne_eq, not_true_eq_false, if_false]
    exact ih (fun m hm => h m (List.mem_cons_of_mem _ hm))

theorem find_eq_none_of_forall {α : Type} (p : α → Bool) (l : List α)
    (h : ∀ a ∈ l, p a = false) : l.find? p = none := by
  rw [List.find?_eq_none]
  intro a ha
  rw [h a ha]
  simp

/-- On an ordered bucket whose layers have state 0 or 1 the bucket walk of
the code selects the rule the spec describes. -/
theorem find_remap_node_eq_spec (ls : List Layer) (rs : List Remap) (bucket : List Nat)
    (hord : BucketOrdered rs bucket)
    (hbin : ∀ n ∈ bucket, ∀ l, (remapAt rs n).layer = some l →
      (layerAt ls l).state = 0 ∨ (layerAt ls l).state = 1) :
    find_remap_node ls rs bucket = resolve_rule_spec ls rs bucket := by
  induction bucket with
  | nil => rfl
  | cons n rest ih =>
    unfold BucketOrdered at hord
    rw [List.pairwise_cons] at hord
    have ih' := ih hord.2 (fun m hm => hbin m (List.mem_cons_of_mem _ hm))
    unfold find_remap_node resolve_rule_spec
    cases hl : (remapAt rs n).layer with
    | none =>
      have hbase : is_base rs n = true := by simp [is_base, hl]
      have hng : gated_active ls rs n = false := by simp [gated_active, hl]
      have hrest : rest.find? (gated_active ls rs) = none := by
        apply find_eq_none_of_forall
        intro m hm
        have hb := hord.1 m hm hbase
        unfold is_base at hb
        unfold gated_active
        cases hlm : (remapAt rs m).layer with
        | none => rfl
        | some l => rw [hlm] at hb; simp at hb
      simp only [List.find?_cons, hng, hrest, hbase]
    | some l =>
      have hnb : is_base rs n = false := by simp [is_base, hl]
      rcases hbin n (List.mem_cons_self _ _) l hl with h0 | h1
      · have hng : gated_active ls rs n = false := by simp [gated_active, hl, h0]
        simp only [h0, ne_eq, not_true_eq_false, if_false, List.find?_cons, hng, hnb]
        exact ih'
      · have hg : gated_active ls rs n = true := by simp [gated_active, hl, h1]
        simp only [h1, ne_eq, one_ne_zero, not_false_eq_true, if_true, List.find?_cons, hg]

/-! ### The registry order -/

theorem is_base_of_none {rs : List Remap} {n : Nat} (h : (remapAt rs n).layer = none) :
    is_base rs n = true := by
  simp [is_base, h]

theorem is_base_of_isSome {rs : List Remap} {n : Nat} (h : (remapAt rs n).layer.isSome) :
    is_base rs n = false := by
  unfold is_base
  cases hl : (remapAt rs n).layer with
  | none => rw [hl] at h; exact absurd h (by decide)
  | some l => rfl

theorem insert_after_layered_ordered (rs : List Remap) (remap : Nat) (rest : List Nat) :
    ∀ tail, is_base rs tail = false → BucketOrdered rs (tail :: rest) →
      BucketOrdered rs (insert_after_layered rs remap (tail :: rest)) := by
  induction rest with
  | nil =>
    intro tail ht _
    unfold insert_after_layered BucketOrdered
    refine List.pairwise_cons.mpr ⟨fun b _ hb => ?_, List.pairwise_singleton _ _⟩
    rw [ht] at hb
    exact absurd hb (by decide)
  | cons next rest ih =>
    intro tail ht hord
    unfold BucketOrdered at hord
    have hord2 := (List.pairwise_cons.mp hord).2
    unfold insert_after_layered
    split
    · rename_i hnext
      unfold BucketOrdered
      refine List.pairwise_cons.mpr ⟨fun b _ hb => ?_, ih next (is_base_of_isSome hnext) hord2⟩
      rw [ht] at hb
      exact absurd hb (by decide)
    · rename_i hnext
      have hnb : is_base rs next = true := by
        unfold is_base
        cases hl : (remapAt rs next).layer with
        | none => rfl
        | some l => rw [hl] at hnext; exact absurd rfl hnext
      unfold BucketOrdered
      refine List.pairwise_cons.mpr ⟨fun b _ hb => ?_, List.pairwise_cons.mpr ⟨?_, hord2⟩⟩
      · rw [ht] at hb
        exact absurd hb (by decide)
      · intro b hb _
        rcases List.mem_cons.mp hb with h | h
        · rw [h]; exact hnb
        · exact (List.pairwise_cons.mp hord2).1 b h hnb

/-- One iteration of the distribution loop keeps the bucket in registry
order. -/
theorem place_remap_node_ordered (rs : List Remap) (bucket : List Nat) (remap : Nat)
    (h : BucketOrdered rs bucket) : BucketOrdered rs (place_remap_node rs bucket remap) := by
  unfold place_remap_node
  cases bucket with
  | nil => exact List.pairwise_singleton _ _
  | cons first rest =>
    simp only
    split
    · rename_i hc
      unfold BucketOrdered at h ⊢
      refine List.pairwise_cons.mpr ⟨fun b hb hr => ?_, h⟩
      rcases hc with hc | hc
      · rw [is_base_of_isSome hc] at hr
        exact absurd hr (by decide)
      · rcases List.mem_cons.mp hb with hb1 | hb1
        · rw [hb1]; exact is_base_of_none hc
        · exact (List.pairwise_cons.mp h).1 b hb1 (is_base_of_none hc)
    · rename_i hc
      have hc2 : ¬ (remapAt rs first).layer = none := fun hx => hc (Or.inr hx)
      have hfirst : is_base rs first = false := by
        unfold is_base
        cases hl : (remapAt rs first).layer with
        | none => exact absurd hl hc2
        | some l => rfl
      exact insert_after_layered_ordered rs remap rest first hfirst h

theorem getD_set_bucket (arr : List (List Nat)) (index i : Nat) (x : List Nat) :
    (arr.set index x).getD i [] = arr.getD i [] ∨
      (arr.set index x).getD i [] = x := by
  by_cases h : index = i
  · subst h
    by_cases hl : index < arr.length
    · right; simp [List.getD_eq_getElem?_getD, hl]
    · left; rw [List.set_eq_of_length_le (Nat.le_of_not_lt hl)]
  · left; simp [List.getD_eq_getElem?_getD, List.getElem?_set_ne h]

theorem distribute_ordered (rs : List Remap) (l : List Nat) :
    ∀ arr : List (List Nat), (∀ i, BucketOrdered rs (arr.getD i [])) →
      ∀ i, BucketOrdered rs
        ((l.foldl
          (fun (arr : List (List Nat)) remap =>
            arr.set ((remapAt rs remap).from_.virt_code &&& 0xFF)
              (place_remap_node rs
                (arr.getD ((remapAt rs remap).from_.virt_code &&& 0xFF) []) remap))
          arr).getD i []) := by
  induction l with
  | nil => intro arr h i; exact h i
  | cons remap rest ih =>
    intro arr h i
    rw [List.foldl_cons]
    apply ih
    intro j
    rcases getD_set_bucket arr ((remapAt rs remap).from_.virt_code &&& 0xFF) j
      (place_remap_node rs (arr.getD ((remapAt rs remap).from_.virt_code &&& 0xFF) []) remap)
      with hj | hj
    · rw [hj]; exact h j
    · rw [hj]; exact place_remap_node_ordered rs _ remap (h _)

theorem getD_replicate_nil (n j : Nat) :
    (List.replicate n ([] : List Nat)).getD j [] = [] := by
  rw [List.getD_eq_getElem?_getD, List.getElem?_replicate]
  split <;> rfl

/-- After `load_config_line(NULL)` every bucket is in registry order. -/
theorem loaded_registry_ordered (e0 : Engine) (h : LoadedRegistry e0) (i : Nat) :
    BucketOrdered e0.remaps (e0.g_remap_array.getD i []) := by
  obtain ⟨pre, hpre, rfl⟩ := h
  unfold load_config_line_eof
  simp only
  apply distribute_ordered
  intro j
  rw [hpre, getD_replicate_nil]
  exact List.Pairwise.nil

theorem SameRule.rule_layer {r r' : Remap} (h : SameRule r r') : r'.layer = r.layer :=
  (congrArg (fun x => Remap.layer x) h : (stripRemap r').layer = (stripRemap r).layer)

theorem bucketOrdered_congr {rs rs' : List Remap} (h : SameRules rs rs') (bucket : List Nat)
    (hord : BucketOrdered rs bucket) : BucketOrdered rs' bucket := by
  unfold BucketOrdered at hord ⊢
  refine hord.imp ?_
  intro a b hab
  unfold is_base at hab ⊢
  rw [(h.rules_at a).rule_layer, (h.rules_at b).rule_layer]
  exact hab

theorem layerInv_selection (e0 e : Engine) (h : LayerInv e0 e) (time : Nat) :
    LayerInv e0 (selection_state e time) := by
  unfold selection_state
  split
  · exact layerInv_unlock e0 e h
  · exact h

/-- The resolution of the spec on an engine whose bucket is in registry
order and whose layer states are 0 or 1. -/
theorem remap_for_input_eq_spec (s : Engine) (virt_code : Nat)
    (hactive : ∀ n ∈ s.g_remap_list, (remapAt s.remaps n).from_.virt_code ≠ virt_code)
    (hord : BucketOrdered s.remaps (s.g_remap_array.getD (virt_code &&& 0xFF) []))
    (hbin : BinaryLayers s.layers) :
    remap_for_input s virt_code =
      resolve_rule_spec s.layers s.remaps (s.g_remap_array.getD (virt_code &&& 0xFF) []) := by
  unfold remap_for_input
  rw [find_remap_for_virt_code_none _ _ _ hactive]
  exact find_remap_node_eq_spec _ _ _ hord (fun _ _ l _ => (hbin l).1)

/-- Claim C10. In every state `e` reachable from a loaded configuration, for
a genuine event with virtual code `v`, let `s` be the engine in which
`handle_input` selects the remap (after its unlock check; without a due
unlock it is `e` with `g_last_input` updated). When no remap whose source key
is `v` is on the active list of `s`, the event is dispatched to at most one
remap, taken from the bucket of `v & 0xFF`: the first layer-gated entry whose
layer has state 1 if there is one, otherwise the base rule of the bucket if
it has one, otherwise none, in which case the event goes to the other-input
handler. Hence the selected rule is layer-gated, with an active layer,
exactly when some layer-gated rule of the bucket has an active layer, and is
a base rule otherwise. -/
theorem C10_rule_resolution (e0 e : Engine) (hload : Loaded e0) (hreg : LoadedRegistry e0)
    (hreach : Reachable e0 e) (virt_code time : Nat)
    (hactive : ∀ n ∈ (selection_state e time).g_remap_list,
      (remapAt (selection_state e time).remaps n).from_.virt_code ≠ virt_code) :
    (∀ (fuel scan_code flags dwExtraInfo : Nat) (direction : Direction),
      handle_input fuel scan_code virt_code direction time false flags dwExtraInfo e =
        match resolve_rule_spec (selection_state e time).layers (selection_state e time).remaps
            ((selection_state e time).g_remap_array.getD (virt_code &&& 0xFF) []) with
        | some r =>
          if direction = .UP then event_remapped_key_up fuel r time (selection_state e time)
          else event_remapped_key_down fuel r time (selection_state e time)
        | none =>
          event_other_input fuel virt_code direction time 0 (selection_state e time)) ∧
    (∀ r, resolve_rule_spec (selection_state e time).layers (selection_state e time).remaps
        ((selection_state e time).g_remap_array.getD (virt_code &&& 0xFF) []) = some r →
      r ∈ (selection_state e time).g_remap_array.getD (virt_code &&& 0xFF) [] ∧
      (((∃ n ∈ (selection_state e time).g_remap_array.getD (virt_code &&& 0xFF) [],
            gated_active (selection_state e time).layers (selection_state e time).remaps n
              = true) ∧
          gated_active (selection_state e time).layers (selection_state e time).remaps r
            = true) ∨
        ((∀ n ∈ (selection_state e time).g_remap_array.getD (virt_code &&& 0xFF) [],
            gated_active (selection_state e time).layers (selection_state e time).remaps n
              = false) ∧
          is_base (selection_state e time).remaps r = true))) ∧
    (¬ unlock_due e time →
      selection_state e time = { e with g_last_input := time % 4294967296 }) := by
  have hinv := layerInv_selection e0 e (layerInv_of_reachable e0 e hload hreach) time
  have hord : BucketOrdered (selection_state e time).remaps
      ((selection_state e time).g_remap_array.getD (virt_code &&& 0xFF) []) := by
    rw [hinv.2.2.2.2]
    exact bucketOrdered_congr hinv.2.1 _ (loaded_registry_ordered e0 hreg _)
  have hsel := remap_for_input_eq_spec (selection_state e time) virt_code hactive hord
    hinv.2.2.2.1
  refine ⟨?_, ?_, selection_state_of_not_due e time⟩
  · intro fuel scan_code flags dwExtraInfo direction
    rw [handle_input_dispatch, hsel]
  · intro r hr
    unfold resolve_rule_spec at hr
    cases hg : ((selection_state e time).g_remap_array.getD (virt_code &&& 0xFF) []).find?
        (gated_active (selection_state e time).layers (selection_state e time).remaps) with
    | some n =>
      rw [hg] at hr
      simp only [Option.some.injEq] at hr
      subst hr
      have hmem := List.mem_of_find?_eq_some hg
      have hp := List.find?_some hg
      exact ⟨hmem, Or.inl ⟨⟨n, hmem, hp⟩, hp⟩⟩
    | none =>
      rw [hg] at hr
      simp only at hr
      have hmem := List.mem_of_find?_eq_some hr
      have hp := List.find?_some hr
      refine ⟨hmem, Or.inr ⟨?_, hp⟩⟩
      intro n hn
      rw [List.find?_eq_none] at hg
      have := hg n hn
      simpa using this

/-- Claim C10 at the S5 configuration with CAPSLOCK held (`layer1` active):
a J DOWN at 50 goes to the layer-gated rule of the bucket of `KEY_J`. -/
theorem C10_rule_resolution_witness :
    Loaded s5_engine ∧ LoadedRegistry s5_engine ∧ Reachable s5_engine s5_held_engine ∧
    resolve_rule_spec (selection_state s5_held_engine 50).layers
        (selection_state s5_held_engine 50).remaps
        ((selection_state s5_held_engine 50).g_remap_array.getD (KEY_J.virt_code &&& 0xFF) [])
      = some 0 ∧
    handle_input 2 KEY_J.scan_code KEY_J.virt_code .DOWN 50 false 0 0 s5_held_engine =
      event_remapped_key_down 2 0 50 (selection_state s5_held_engine 50) :=
  have hload : Loaded s5_engine :=
    ⟨⟨by unfold SlavesValid; decide, by unfold Mirrored; decide, fun i => i, by decide,
        by decide⟩,
      zero_of_bounded _ (by decide)⟩
  have hreg : LoadedRegistry s5_engine := ⟨_, rfl, rfl⟩
  have hreach : Reachable s5_engine s5_held_engine :=
    Reachable.event s5_engine s5_held_engine 2 CAPSLOCK.scan_code CAPSLOCK.virt_code
      .DOWN 0 false 0 0 1 Reachable.start (by decide) rfl
  ⟨hload, hreg, hreach, by decide,
    (C10_rule_resolution s5_engine s5_held_engine hload hreg hreach KEY_J.virt_code 50
      (by decide)).1 2 KEY_J.scan_code 0 0 .DOWN⟩

/-! ## The registry after the end-of-file call -/

theorem insert_after_layered_perm (rs : List Remap) (remap : Nat) (rest : List Nat) :
    ∀ tail, (insert_after_layered rs remap (tail :: rest)).Perm (remap :: tail :: rest) := by
  induction rest with
  | nil =>
    intro tail
    unfold insert_after_layered
    exact List.Perm.swap _ _ _
  | cons next rest ih =>
    intro tail
    unfold insert_after_layered
    split
    · exact ((ih next).cons tail).trans (List.Perm.swap _ _ _)
    · exact List.Perm.swap _ _ _

/-- One iteration of the distribution loop adds the remap to its bucket and
keeps the other nodes. -/
theorem place_remap_node_perm (rs : List Remap) (bucket : List Nat) (remap : Nat) :
    (place_remap_node rs bucket remap).Perm (remap :: bucket) := by
  unfold place_remap_node
  cases bucket with
  | nil => exact List.Perm.refl _
  | cons first rest =>
    simp only
    split
    · exact List.Perm.refl _
    · exact insert_after_layered_perm rs remap rest first

theorem getD_set_bucket_eq (arr : List (List Nat)) (index : Nat) (x : List Nat)
    (h : index < arr.length) : (arr.set index x).getD index [] = x := by
  simp [List.getD_eq_getElem?_getD, h]

theorem getD_set_bucket_ne (arr : List (List Nat)) (index i : Nat) (x : List Nat)
    (h : index ≠ i) : (arr.set index x).getD i [] = arr.getD i [] := by
  simp [List.getD_eq_getElem?_getD, List.getElem?_set_ne h]

theorem bucket_index_lt (rs : List Remap) (remap : Nat) : bucket_index rs remap < 256 := by
  unfold bucket_index
  exact Nat.lt_succ_of_le Nat.and_le_right

/-- The distribution loop puts every remap of the list once into the bucket
of its index and nowhere else. -/
theorem distribute_count (rs : List Remap) (l : List Nat) :
    ∀ (done : List Nat) (arr : List (List Nat)), arr.length = 256 →
      (∀ i r, (arr.getD i []).count r =
        if r ∈ done ∧ bucket_index rs r = i then 1 else 0) →
      (∀ x ∈ l, x ∉ done) → l.Nodup →
      ∀ i r,
        ((l.foldl
          (fun (arr : List (List Nat)) remap =>
            arr.set ((remapAt rs remap).from_.virt_code &&& 0xFF)
              (place_remap_node rs
                (arr.getD ((remapAt rs remap).from_.virt_code &&& 0xFF) []) remap))
          arr).getD i []).count r =
          if r ∈ done ++ l ∧ bucket_index rs r = i then 1 else 0 := by
  induction l with
  | nil =>
    intro done arr _ h _ _ i r
    rw [List.append_nil]
    exact h i r
  | cons x rest ih =>
    intro done arr hlen h hfresh hnodup i r
    rw [List.foldl_cons]
    have hx : x ∉ done := hfresh x (List.mem_cons_self _ _)
    have hnd := List.nodup_cons.mp hnodup
    have hstep := ih (done ++ [x])
      (arr.set ((remapAt rs x).from_.virt_code &&& 0xFF)
        (place_remap_node rs (arr.getD ((remapAt rs x).from_.virt_code &&& 0xFF) []) x))
      (by rw [List.length_set]; exact hlen) ?_ ?_ hnd.2 i r
    · rw [hstep, List.append_assoc, List.singleton_append]
    · intro j s
      have hidx : (remapAt rs x).from_.virt_code &&& 0xFF = bucket_index rs x := rfl
      rw [hidx]
      by_cases hj : bucket_index rs x = j
      · subst hj
        rw [getD_set_bucket_eq _ _ _ (by rw [hlen]; exact bucket_index_lt rs x),
          (place_remap_node_perm rs _ x).count_eq, List.count_cons, h]
        by_cases hs : s = x
        · subst hs
          simp [hx]
        · have hs' : ¬ x = s := fun hc => hs hc.symm
          simp [hs, hs']
      · rw [getD_set_bucket_ne _ _ _ _ hj, h]
        by_cases hs : s = x
        · subst hs
          simp [hx, hj]
        · simp [hs]
    · intro y hy hmem
      rcases List.mem_append.mp hmem with h1 | h1
      · exact hfresh y (List.mem_cons_of_mem _ hy) h1
      · rw [List.mem_singleton] at h1
        subst h1
        exact hnd.1 hy

/-- A bucket in registry order splits into its layer-gated rules followed by
its base rules. -/
theorem bucketOrdered_split (rs : List Remap) (bucket : List Nat)
    (h : BucketOrdered rs bucket) :
    ∃ gated base, bucket = gated ++ base ∧
      (∀ r ∈ gated, (remapAt rs r).layer ≠ none) ∧
      (∀ r ∈ base, (remapAt rs r).layer = none) := by
  induction bucket with
  | nil => exact ⟨[], [], rfl, fun _ h => absurd h (List.not_mem_nil _),
      fun _ h => absurd h (List.not_mem_nil _)⟩
  | cons a rest ih =>
    unfold BucketOrdered at h
    obtain ⟨ha, hrest⟩ := List.pairwise_cons.mp h
    by_cases hb : (remapAt rs a).layer = none
    · refine ⟨[], a :: rest, rfl, fun _ h => absurd h (List.not_mem_nil _), ?_⟩
      intro r hr
      rcases List.mem_cons.mp hr with h1 | h1
      · rw [h1]; exact hb
      · have := ha r h1 (is_base_of_none hb)
        unfold is_base at this
        simpa using this
    · obtain ⟨gated, base, heq, hg, hbase⟩ := ih hrest
      refine ⟨a :: gated, base, by rw [heq]; rfl, ?_, hbase⟩
      intro r hr
      rcases List.mem_cons.mp hr with h1 | h1
      · rw [h1]; exact hb
      · exact hg r h1

/-- Claim C11. After the end-of-file call `load_config_line(NULL)` has
distributed the registration list of `pre` (any remaps in any order, the 256
buckets initially empty), every bucket of `g_remap_array` lists all of its
layer-gated rules before any base rule, every registered remap occurs exactly
once in the bucket `from.virt_code & 0xFF` and in no other bucket, nothing
else occurs in a bucket, and the registration list is empty. -/
theorem C11_bucket_ordering (pre : Engine)
    (hempty : pre.g_remap_array = List.replicate 256 [])
    (hnodup : pre.g_remap_list.Nodup) :
    (∀ i, ∃ gated base,
      (load_config_line_eof pre).g_remap_array.getD i [] = gated ++ base ∧
      (∀ r ∈ gated, (remapAt (load_config_line_eof pre).remaps r).layer ≠ none) ∧
      (∀ r ∈ base, (remapAt (load_config_line_eof pre).remaps r).layer = none)) ∧
    (∀ i r, ((load_config_line_eof pre).g_remap_array.getD i []).count r =
      if r ∈ pre.g_remap_list ∧
          (remapAt pre.remaps r).from_.virt_code &&& 0xFF = i then 1 else 0) ∧
    (load_config_line_eof pre).g_remap_array.length = 256 ∧
    (load_config_line_eof pre).remaps = pre.remaps ∧
    (load_config_line_eof pre).g_remap_list = [] := by
  refine ⟨fun i => bucketOrdered_split _ _
      (loaded_registry_ordered (load_config_line_eof pre) ⟨pre, hempty, rfl⟩ i), ?_, ?_, rfl, rfl⟩
  · intro i r
    have h := distribute_count pre.remaps pre.g_remap_list [] pre.g_remap_array
      (by rw [hempty]; exact List.length_replicate _ _)
      (by
        intro j s
        rw [hempty, getD_replicate_nil]
        simp)
      (fun _ _ h => absurd h (List.not_mem_nil _)) hnodup i r
    rw [List.nil_append] at h
    exact h
  · unfold load_config_line_eof
    simp only
    have : ∀ (l : List Nat) (arr : List (List Nat)),
        (l.foldl
          (fun (arr : List (List Nat)) remap =>
            arr.set ((remapAt pre.remaps remap).from_.virt_code &&& 0xFF)
              (place_remap_node pre.remaps
                (arr.getD ((remapAt pre.remaps remap).from_.virt_code &&& 0xFF) []) remap))
          arr).length = arr.length := by
      intro l
      induction l with
      | nil => intro arr; rfl
      | cons x rest ih => intro arr; rw [List.foldl_cons, ih, List.length_set]
    rw [this, hempty]
    exact List.length_replicate _ _

/-- Claim C11 at the S5 configuration: the rule of `KEY_J` (remap 0) is the
only entry of bucket `0x4A`, the rule of CAPSLOCK (remap 1) the only entry
of bucket `0x14`. -/
theorem C11_bucket_ordering_witness :
    s5_engine.g_remap_array.getD 0x4A [] = [0] ∧
    s5_engine.g_remap_array.getD 0x14 [] = [1] ∧
    (s5_engine.g_remap_array.getD 0x4A []).count 0 = 1 ∧
    (s5_engine.g_remap_array.getD 0x14 []).count 0 = 0 :=
  have h := (C11_bucket_ordering
    (config_remap
      (config_remap { globals_init with g_tap_timeout := 200, layers := [new_layer "layer1"] }
        (new_remap KEY_J (some 0) [LEFT] [] [] [] []))
      { new_remap CAPSLOCK none [] [] [] [] [] with to_when_press_layer := some 0 })
    rfl (by decide)).2.1
  ⟨by decide, by decide, h 0x4A 0, h 0x14 0⟩

/-! ## Registration: ids, redundant bindings, modifiers -/

theorem register_remap_bindings_id (r : Remap) : (register_remap_bindings r).id = r.id := by
  unfold register_remap_bindings
  lift_lets
  intro r1 r2 r3 r4 r5 r6
  have h1 : r1.id = r.id := by simp only [r1]; split <;> rfl
  have h2 : r2.id = r.id := by simp only [r2]; split <;> exact h1
  have h3 : r3.id = r.id := by simp only [r3]; split <;> exact h2
  have h4 : r4.id = r.id := by
    simp only [r4]; split
    · split <;> exact h3
    · exact h3
  have h5 : r5.id = r.id := by simp only [r5]; split <;> exact h4
  have h6 : r6.id = r.id := by simp only [r6]; split <;> exact h5
  split <;> exact h6

theorem remapAt_append_left {rs : List Remap} {i : Nat} (x : Remap) (h : i < rs.length) :
    remapAt (rs ++ [x]) i = remapAt rs i := by
  simp [remapAt, List.getD_eq_getElem?_getD, List.getElem?_append_left h]

theorem remapAt_append_new (rs : List Remap) (x : Remap) :
    remapAt (rs ++ [x]) rs.length = x := by
  simp [remapAt, List.getD_eq_getElem?_getD]

theorem by_id_set_eq (l : List (Option Nat)) (i : Nat) (x : Option Nat) (h : i < l.length) :
    (l.set i x).getD i none = x := by
  simp [List.getD_eq_getElem?_getD, h]

theorem by_id_set_ne (l : List (Option Nat)) (i j : Nat) (x : Option Nat) (h : i ≠ j) :
    (l.set i x).getD j none = l.getD j none := by
  simp [List.getD_eq_getElem?_getD, List.getElem?_set_ne h]

/-- One registration in the state `Registered e b k` with `k < 255`: the
call returns 0 and the new object gets id `k + 1`. -/
theorem register_remap_step (e : Engine) (b k : Nat) (r : Remap) (h : Registered e b k)
    (hk : k < 255) :
    (register_remap { e with remaps := e.remaps ++ [r] } e.remaps.length).1 = 0 ∧
      Registered (register_remap { e with remaps := e.remaps ++ [r] } e.remaps.length).2 b
        (k + 1) := by
  obtain ⟨hlist, hlen, hbylen, hids, hnone⟩ := h
  have hres : register_remap { e with remaps := e.remaps ++ [r] } e.remaps.length =
      (0, { e with
        g_remap_list := e.g_remap_list ++ [e.remaps.length],
        g_remap_by_id := e.g_remap_by_id.set (k + 1) (some e.remaps.length),
        remaps := (e.remaps ++ [r]).set e.remaps.length
          (register_remap_bindings { r with id := k + 1 }) }) := by
    unfold register_remap
    simp only
    cases k with
    | zero =>
      rw [hlist]
      simp only [List.range'_zero, List.getLast?_nil, List.nil_append, remapAt_append_new]
    | succ k' =>
      have hl : e.g_remap_list.getLast? = some (b + k') := by
        rw [hlist, List.range'_concat]
        simp
      have hid : (remapAt (e.remaps ++ [r]) (b + k')).id = k' + 1 := by
        rw [remapAt_append_left _ (by omega)]
        exact (hids k' (by omega)).1
      rw [hl]
      simp only [hid, remapAt_append_new]
      rw [if_neg (by omega)]
  rw [hres]
  refine ⟨rfl, ?_, ?_, ?_, ?_, ?_⟩
  · show e.g_remap_list ++ [e.remaps.length] = List.range' b (k + 1)
    rw [hlist, hlen, List.range'_concat]
    simp
  · show ((e.remaps ++ [r]).set e.remaps.length _).length = b + (k + 1)
    rw [List.length_set, List.length_append, hlen]
    rfl
  · show (e.g_remap_by_id.set (k + 1) _).length = 256
    rw [List.length_set]; exact hbylen
  · intro j hj
    show (remapAt ((e.remaps ++ [r]).set e.remaps.length _) (b + j)).id = j + 1 ∧
      (e.g_remap_by_id.set (k + 1) (some e.remaps.length)).getD (j + 1) none = some (b + j)
    by_cases hjk : j = k
    · subst hjk
      rw [← hlen, remapAt_set_eq _ (by rw [List.length_append]; simp),
        register_remap_bindings_id, by_id_set_eq _ _ _ (by omega)]
      exact ⟨rfl, rfl⟩
    · have hlt : j < k := by omega
      rw [remapAt_set_ne _ (by omega), remapAt_append_left _ (by omega),
        by_id_set_ne _ _ _ _ (by omega)]
      exact hids j hlt
  · intro m hm
    show (e.g_remap_by_id.set (k + 1) (some e.remaps.length)).getD m none = none
    rw [by_id_set_ne _ _ _ _ (by omega)]
    exact hnone m (by omega)

theorem register_seq_spec (rs : List Remap) :
    ∀ (e : Engine) (b k : Nat), Registered e b k → k + rs.length ≤ 255 →
      (register_seq e rs).1 = List.replicate rs.length 0 ∧
        Registered (register_seq e rs).2 b (k + rs.length) := by
  induction rs with
  | nil => intro e b k h _; exact ⟨rfl, h⟩
  | cons r rest ih =>
    intro e b k h hk
    rw [List.length_cons] at hk
    obtain ⟨h0, h1⟩ := register_remap_step e b k r h (by omega)
    obtain ⟨h2, h3⟩ := ih _ b (k + 1) h1 (by omega)
    unfold register_seq
    simp only
    rw [h0, h2, List.length_cons]
    refine ⟨rfl, ?_⟩
    have : k + (rest.length + 1) = k + 1 + rest.length := by omega
    rw [this]
    exact h3

/-- Claim C12. During config load, starting with an empty registration list
and an empty `g_remap_by_id`, the `k`-th `register_remap` (`k = 1, 2, ...`,
at most 255 rules) returns 0, gives the remap id `k` and stores it in
`g_remap_by_id[k]`; the ids are exactly `1..n`, entry 0 and the entries
above `n` stay empty. Once the last registered remap has id 255,
`register_remap` returns 1 and leaves the whole engine, so the registration
list, `g_remap_by_id` and the rejected remap, unchanged. For every engine a
call returns 1 exactly in that case and 0 in every other case. -/
theorem C12_id_assignment (e0 : Engine) (rs : List Remap)
    (hlist : e0.g_remap_list = []) (hby : e0.g_remap_by_id = List.replicate 256 none)
    (hn : rs.length ≤ 255) :
    (register_seq e0 rs).1 = List.replicate rs.length 0 ∧
    (register_seq e0 rs).2.g_remap_list = List.range' e0.remaps.length rs.length ∧
    (∀ k, k < rs.length →
      (remapAt (register_seq e0 rs).2.remaps (e0.remaps.length + k)).id = k + 1 ∧
      (register_seq e0 rs).2.g_remap_by_id.getD (k + 1) none = some (e0.remaps.length + k)) ∧
    (∀ m, m = 0 ∨ rs.length < m → (register_seq e0 rs).2.g_remap_by_id.getD m none = none) ∧
    (rs.length = 255 → ∀ r,
      register_remap
          { (register_seq e0 rs).2 with remaps := (register_seq e0 rs).2.remaps ++ [r] }
          (register_seq e0 rs).2.remaps.length =
        (1, { (register_seq e0 rs).2 with remaps := (register_seq e0 rs).2.remaps ++ [r] })) ∧
    (∀ (e : Engine) (remap : Nat),
      ((register_remap e remap).1 = 1 ↔
        ∃ tail, e.g_remap_list.getLast? = some tail ∧ (remapAt e.remaps tail).id = 255) ∧
      ((register_remap e remap).1 = 1 → (register_remap e remap).2 = e) ∧
      ((register_remap e remap).1 = 1 ∨ (register_remap e remap).1 = 0)) := by
  have hreg0 : Registered e0 e0.remaps.length 0 := by
    refine ⟨by rw [hlist]; rfl, rfl, by rw [hby]; exact List.length_replicate _ _,
      fun j hj => absurd hj (Nat.not_lt_zero j), fun m _ => ?_⟩
    rw [hby, List.getD_eq_getElem?_getD, List.getElem?_replicate]
    split <;> rfl
  obtain ⟨hcodes, hlist', hlen', hbylen', hids', hnone'⟩ :=
    register_seq_spec rs e0 e0.remaps.length 0 hreg0 (by omega)
  rw [Nat.zero_add] at hlist' hlen' hids' hnone'
  refine ⟨hcodes, hlist', hids', hnone', ?_, ?_⟩
  · intro h255 r
    have hl : (register_seq e0 rs).2.g_remap_list.getLast? =
        some (e0.remaps.length + 254) := by
      rw [hlist', h255, List.range'_concat]
      simp
    have hid : (remapAt ((register_seq e0 rs).2.remaps ++ [r]) (e0.remaps.length + 254)).id
        = 255 := by
      rw [remapAt_append_left _ (by omega)]
      exact (hids' 254 (by omega)).1
    unfold register_remap
    simp only [hl, hid, if_true]
  · intro e remap
    unfold register_remap
    cases hl : e.g_remap_list.getLast? with
    | none => simp
    | some tail =>
      simp only
      by_cases h : (remapAt e.remaps tail).id = 255
      · rw [if_pos h]; simp [h]
      · rw [if_neg h]; simp [h]

/-- Claim C12 for the two rules of the S5 configuration: both registrations
return 0, the rules get the ids 1 and 2 and are the entries 1 and 2 of
`g_remap_by_id`. -/
theorem C12_id_assignment_witness :
    (register_seq { globals_init with layers := [new_layer "layer1"] }
      [new_remap KEY_J (some 0) [LEFT] [] [] [] [],
        { new_remap CAPSLOCK none [] [] [] [] [] with to_when_press_layer := some 0 }]).1
      = [0, 0] ∧
    ∀ k, k < 2 →
      (remapAt (register_seq { globals_init with layers := [new_layer "layer1"] }
        [new_remap KEY_J (some 0) [LEFT] [] [] [] [],
          { new_remap CAPSLOCK none [] [] [] [] [] with to_when_press_layer := some 0 }]
        ).2.remaps (0 + k)).id = k + 1 ∧
      (register_seq { globals_init with layers := [new_layer "layer1"] }
        [new_remap KEY_J (some 0) [LEFT] [] [] [] [],
          { new_remap CAPSLOCK none [] [] [] [] [] with to_when_press_layer := some 0 }]
        ).2.g_remap_by_id.getD (k + 1) none = some (0 + k) :=
  have h := C12_id_assignment { globals_init with layers := [new_layer "layer1"] }
    [new_remap KEY_J (some 0) [LEFT] [] [] [] [],
      { new_remap CAPSLOCK none [] [] [] [] [] with to_when_press_layer := some 0 }]
    rfl rfl (by decide)
  ⟨h.1, h.2.2.1⟩

/-- The loop of `key_eq` on two rings of the same length, both cursors at
position `i`: it returns 1 exactly when the rings agree from `i` on. -/
theorem key_eq_loop_same_length (a b : List KeyDef) (hlen : a.length = b.length) :
    ∀ fuel i, i < a.length → a.length - i ≤ fuel →
      (key_eq_loop a b fuel i i = true ↔
        ∀ k, i ≤ k → k < a.length → a.getD k default = b.getD k default) := by
  intro fuel
  induction fuel with
  | zero => intro i hi hf; omega
  | succ fuel ih =>
    intro i hi hf
    unfold key_eq_loop
    by_cases hne : a.getD i default ≠ b.getD i default
    · rw [if_pos hne]
      constructor
      · intro h; exact absurd h (by decide)
      · intro h; exact absurd (h i (Nat.le_refl i) hi) hne
    · rw [if_neg hne]
      have heq : a.getD i default = b.getD i default := not_not.mp hne
      rw [← hlen]
      by_cases hlast : i + 1 = a.length
      · have hm : (i + 1) % a.length = 0 := by rw [hlast]; exact Nat.mod_self _
        rw [if_pos ⟨hm, hm⟩]
        refine ⟨fun _ k hk1 hk2 => ?_, fun _ => rfl⟩
        have : k = i := by omega
        rw [this]; exact heq
      · have hlt : i + 1 < a.length := by omega
        have hm : (i + 1) % a.length = i + 1 := Nat.mod_eq_of_lt hlt
        rw [hm, if_neg (by omega)]
        rw [ih (i + 1) hlt (by omega)]
        constructor
        · intro h k hk1 hk2
          by_cases hki : k = i
          · rw [hki]; exact heq
          · exact h k (by omega) hk2
        · intro h k hk1 hk2
          exact h k (by omega) hk2

/-- On two chords of the same length `key_eq` is ordered equality. -/
theorem key_eq_same_length (a b : List KeyDef) (hlen : a.length = b.length) (ha : a ≠ []) :
    key_eq a b = true ↔ a = b := by
  have hpos : 0 < a.length := List.length_pos.mpr ha
  have hb : b ≠ [] := by
    intro hb
    rw [hb] at hlen
    simp at hlen
    exact ha hlen
  unfold key_eq
  rw [if_neg (by simp [ha, hb])]
  rw [key_eq_loop_same_length a b hlen _ 0 hpos (by
    have : a.length ≤ a.length * b.length := by
      rw [← hlen]; exact Nat.le_mul_self _
    omega)]
  constructor
  · intro h
    apply List.ext_getElem hlen
    intro k h1 h2
    have := h k (Nat.zero_le k) h1
    simpa [List.getD_eq_getElem?_getD, List.getElem?_eq_getElem h1,
      List.getElem?_eq_getElem h2] using this
  · intro h k _ _
    rw [h]

/-- Failing input of claim C13. `key_eq` walks the two rings in step until
both cursors are back at their heads together, so it returns 1 for the
chords `[KEY_A]` and `[KEY_A, KEY_A]`, which differ in length. With
`when_alone=KEY_A` and `when_doublepress=KEY_A, KEY_A` `register_remap`
therefore discards the doublepress chord, and a double press of the key
sends A down, A up, A down, A up: the second press sends the `when_alone`
chord, not the configured chord A, A. -/
theorem C13_key_eq_ignores_length :
    key_eq [KEY_A] [KEY_A, KEY_A] = true ∧
    [KEY_A] ≠ [KEY_A, KEY_A] ∧
    (register_remap_bindings
      (new_remap KEY_J none [KEY_A] [] [KEY_A, KEY_A] [] [])).to_when_doublepress = [] ∧
    (remapAt c13_engine.remaps 0).to_when_doublepress = [] ∧
    (run_events 1 c13_engine
        [genuine KEY_J .DOWN 0, genuine KEY_J .UP 50, genuine KEY_J .DOWN 100,
          genuine KEY_J .UP 150]).map
        (fun p => p.1) =
      some [(1, chord_down [KEY_A] 1), (1, chord_up [KEY_A] 1), (1, chord_down [KEY_A] 1),
        (1, chord_up [KEY_A] 1)] ∧
    chord_down [KEY_A] 1 ≠ chord_down [KEY_A, KEY_A] 1 := by
  decide

/-! ### The `with_other` binding -/

theorem nat_or_eq_zero (x y : Nat) : x ||| y = 0 ↔ x = 0 ∧ y = 0 := by
  constructor
  · intro h
    have hbits : ∀ i, x.testBit i = false ∧ y.testBit i = false := by
      intro i
      have := congrArg (fun n => Nat.testBit n i) h
      simpa [Nat.testBit_or] using this
    exact ⟨Nat.eq_of_testBit_eq (fun i => by simp [(hbits i).1]),
      Nat.eq_of_testBit_eq (fun i => by simp [(hbits i).2])⟩
  · rintro ⟨rfl, rfl⟩
    rfl

theorem modifiers_fold_eq_zero (head : List KeyDef) :
    ∀ m : Nat, head.foldl (fun m cur => m ||| cur.modifier) m = 0 ↔
      m = 0 ∧ ∀ k ∈ head, k.modifier = 0 := by
  induction head with
  | nil => intro m; simp
  | cons a rest ih =>
    intro m
    rw [List.foldl_cons, ih, nat_or_eq_zero]
    constructor
    · rintro ⟨⟨hm, ha⟩, hr⟩
      refine ⟨hm, fun k hk => ?_⟩
      rcases List.mem_cons.mp hk with h | h
      · rw [h]; exact ha
      · exact hr k h
    · rintro ⟨hm, hall⟩
      exact ⟨⟨hm, hall a (List.mem_cons_self _ _)⟩,
        fun k hk => hall k (List.mem_cons_of_mem _ hk)⟩

/-- Function `modifiers` returns 0 exactly when no key of the chord has a
modifier bit. -/
theorem modifiers_eq_zero_iff (head : List KeyDef) :
    modifiers head = 0 ↔ ∀ k ∈ head, k.modifier = 0 := by
  unfold modifiers
  rw [modifiers_fold_eq_zero]
  simp

theorem key_eq_nil_right (a : List KeyDef) : key_eq a [] = false := by
  unfold key_eq
  simp

/-- What the normalisation of `register_remap` leaves of `to_with_other`. -/
theorem register_remap_bindings_with_other (r : Remap) :
    (register_remap_bindings r).to_with_other =
        (if key_eq r.to_when_alone r.to_with_other = true ∨ modifiers r.to_with_other = 0
          then [] else r.to_with_other) ∧
      ((register_remap_bindings r).to_with_other ≠ [] →
        (register_remap_bindings r).to_with_other_modifiers = modifiers r.to_with_other) := by
  unfold register_remap_bindings
  lift_lets
  intro r1 r2 r3 r4 r5 r6
  have h1 : r1.to_with_other =
      if key_eq r.to_when_alone r.to_with_other = true then [] else r.to_with_other := by
    simp only [r1]; split <;> simp_all
  have h2 : r2.to_with_other = r1.to_with_other := by simp only [r2]; split <;> rfl
  have h3 : r3.to_with_other = r1.to_with_other := by simp only [r3]; split <;> exact h2
  have h4 : r4.to_with_other =
      (if key_eq r.to_when_alone r.to_with_other = true ∨ modifiers r.to_with_other = 0
        then [] else r.to_with_other) ∧
      (r4.to_with_other ≠ [] → r4.to_with_other_modifiers = modifiers r.to_with_other) := by
    simp only [r4]
    by_cases hk : key_eq r.to_when_alone r.to_with_other = true
    · have h3' : r3.to_with_other = [] := by rw [h3, h1, if_pos hk]
      rw [if_neg (by rw [h3']; exact fun h => h rfl), h3', if_pos (Or.inl hk)]
      exact ⟨rfl, fun h => absurd rfl h⟩
    · have h3' : r3.to_with_other = r.to_with_other := by rw [h3, h1, if_neg hk]
      by_cases hne : r.to_with_other = []
      · rw [if_neg (by rw [h3', hne]; exact fun h => h rfl), h3', hne]
        simp [modifiers]
      · rw [if_pos (by rw [h3']; exact hne), h3']
        by_cases hm : modifiers r.to_with_other = 0
        · rw [if_pos hm, if_pos (Or.inr hm)]
          exact ⟨rfl, fun h => absurd rfl h⟩
        · rw [if_neg hm, if_neg (by rintro (h | h); exact hk h; exact hm h)]
          exact ⟨rfl, fun _ => rfl⟩
  have h5 : r5.to_with_other = r4.to_with_other ∧
      r5.to_with_other_modifiers = r4.to_with_other_modifiers := by
    simp only [r5]; split <;> exact ⟨rfl, rfl⟩
  have h6 : r6.to_with_other = r4.to_with_other ∧
      r6.to_with_other_modifiers = r4.to_with_other_modifiers := by
    simp only [r6]; split <;> exact h5
  have h7 : (if r6.to_when_double_tap_lock ≠ [] then
        { r6 with to_when_double_tap_lock_modifiers := modifiers r6.to_when_double_tap_lock }
      else r6).to_with_other = r4.to_with_other ∧
      (if r6.to_when_double_tap_lock ≠ [] then
        { r6 with to_when_double_tap_lock_modifiers := modifiers r6.to_when_double_tap_lock }
      else r6).to_with_other_modifiers = r4.to_with_other_modifiers := by
    split <;> exact h6
  rw [h7.1, h7.2]
  exact h4

/-- Claim C14. After a successful `register_remap` the remap has a
`to_with_other` binding exactly when the configured chord was non-empty, was
not `key_eq`-equal to `to_when_alone` and has a key with a nonzero modifier
mask; the binding is then the configured chord and
`to_with_other_modifiers` is nonzero. A rule whose `with_other` keys are all
non-modifiers is registered without `to_with_other`, and a DOWN of such a
rule from `IDLE` goes to `TAP`, not to `HELD_DOWN_ALONE`. -/
theorem C14_with_other_needs_modifier (e : Engine) (remap : Nat)
    (hremap : remap < e.remaps.length) (hok : (register_remap e remap).1 = 0) :
    ((remapAt (register_remap e remap).2.remaps remap).to_with_other ≠ [] ↔
      (remapAt e.remaps remap).to_with_other ≠ [] ∧
      key_eq (remapAt e.remaps remap).to_when_alone (remapAt e.remaps remap).to_with_other
        = false ∧
      ∃ k ∈ (remapAt e.remaps remap).to_with_other, k.modifier ≠ 0) ∧
    ((remapAt (register_remap e remap).2.remaps remap).to_with_other ≠ [] →
      (remapAt (register_remap e remap).2.remaps remap).to_with_other =
        (remapAt e.remaps remap).to_with_other ∧
      (remapAt (register_remap e remap).2.remaps remap).to_with_other_modifiers ≠ 0) ∧
    ((∀ k ∈ (remapAt e.remaps remap).to_with_other, k.modifier = 0) →
      (remapAt (register_remap e remap).2.remaps remap).to_with_other = [] ∧
      ∀ (fuel time : Nat) (e2 : Engine),
        remapAt e2.remaps remap =
          remapAt (register_remap e remap).2.remaps remap →
        (remapAt e2.remaps remap).state = .IDLE → remap < e2.remaps.length →
        LayersOK e2.layers → e2.layers.length < fuel →
        ∃ e3, event_remapped_key_down fuel remap time e2 = some (1, e3) ∧
          (remapAt e3.remaps remap).state = .TAP) := by
  have hreg : ∃ id, remapAt (register_remap e remap).2.remaps remap =
      register_remap_bindings { remapAt e.remaps remap with id := id } := by
    unfold register_remap at hok ⊢
    cases hl : e.g_remap_list.getLast? with
    | none => exact ⟨1, remapAt_set_eq _ hremap⟩
    | some tail =>
      rw [hl] at hok
      simp only at hok ⊢
      by_cases h : (remapAt e.remaps tail).id = 255
      · rw [if_pos h] at hok
        have h10 : (1 : Int) = 0 := hok
        exact absurd h10 (by decide)
      · rw [if_neg h]
        exact ⟨_, remapAt_set_eq _ hremap⟩
  obtain ⟨id, hid⟩ := hreg
  obtain ⟨hwo, hmods⟩ := register_remap_bindings_with_other
    { remapAt e.remaps remap with id := id }
  rw [← hid] at hwo hmods
  have hwo' : (remapAt (register_remap e remap).2.remaps remap).to_with_other =
      (if key_eq (remapAt e.remaps remap).to_when_alone (remapAt e.remaps remap).to_with_other
          = true ∨ modifiers (remapAt e.remaps remap).to_with_other = 0
        then [] else (remapAt e.remaps remap).to_with_other) := hwo
  have hmods' : (remapAt (register_remap e remap).2.remaps remap).to_with_other ≠ [] →
      (remapAt (register_remap e remap).2.remaps remap).to_with_other_modifiers =
        modifiers (remapAt e.remaps remap).to_with_other := hmods
  have hiff : (remapAt (register_remap e remap).2.remaps remap).to_with_other ≠ [] ↔
      (remapAt e.remaps remap).to_with_other ≠ [] ∧
      key_eq (remapAt e.remaps remap).to_when_alone (remapAt e.remaps remap).to_with_other
        = false ∧
      ∃ k ∈ (remapAt e.remaps remap).to_with_other, k.modifier ≠ 0 := by
    rw [hwo']
    constructor
    · intro h
      by_cases hc : key_eq (remapAt e.remaps remap).to_when_alone
          (remapAt e.remaps remap).to_with_other = true ∨
          modifiers (remapAt e.remaps remap).to_with_other = 0
      · rw [if_pos hc] at h; exact absurd rfl h
      · rw [if_neg hc] at h
        refine ⟨h, ?_, ?_⟩
        · cases hk : key_eq (remapAt e.remaps remap).to_when_alone
              (remapAt e.remaps remap).to_with_other with
          | false => rfl
          | true => exact absurd (Or.inl hk) hc
        · by_contra hno
          apply hc
          right
          rw [modifiers_eq_zero_iff]
          intro k hk
          by_contra hkm
          exact hno ⟨k, hk, hkm⟩
    · rintro ⟨hne, hk, k, hkmem, hkm⟩
      rw [if_neg]
      · exact hne
      · rintro (h | h)
        · rw [hk] at h; exact absurd h (by decide)
        · exact hkm ((modifiers_eq_zero_iff _).mp h k hkmem)
  refine ⟨hiff, ?_, ?_⟩
  · intro hne
    obtain ⟨_, hk, k, hkmem, hkm⟩ := hiff.mp hne
    have hmz : ¬ modifiers (remapAt e.remaps remap).to_with_other = 0 :=
      fun h => hkm ((modifiers_eq_zero_iff _).mp h k hkmem)
    refine ⟨?_, ?_⟩
    · rw [hwo', if_neg]
      rintro (h | h)
      · rw [hk] at h; exact absurd h (by decide)
      · exact hmz h
    · rw [hmods' hne]; exact hmz
  · intro hall
    have hempty : (remapAt (register_remap e remap).2.remaps remap).to_with_other = [] := by
      rw [hwo', if_pos (Or.inr ((modifiers_eq_zero_iff _).mpr hall))]
    refine ⟨hempty, ?_⟩
    intro fuel time e2 hsame hidle hlt hlok hfuel
    obtain ⟨ls, r', hdown, ⟨_, hst, _, _⟩, _, _⟩ :=
      key_down_fresh e2 remap time (remapAt e2.remaps remap) rfl hlok hfuel (Or.inl hidle)
    rw [hsame, hempty] at hst
    refine ⟨_, hdown, ?_⟩
    show (remapAt (e2.remaps.set remap r') remap).state = _
    rw [remapAt_set_eq _ hlt, hst]
    rfl

/-- Claim C14 at the rule `remap_key=CAPSLOCK`, `when_alone=ESCAPE`,
`with_other=KEY_B`: KEY_B has no modifier bit, the rule is registered
without `to_with_other`, and CAPSLOCK DOWN puts it in `TAP`. -/
theorem C14_with_other_needs_modifier_witness :
    (remapAt c14_engine.remaps 0).to_with_other = [] ∧
    ∃ e3, event_remapped_key_down 1 0 0 c14_engine = some (1, e3) ∧
      (remapAt e3.remaps 0).state = .TAP :=
  have h := (C14_with_other_needs_modifier
    { globals_init with
      g_tap_timeout := 200, remaps := [new_remap CAPSLOCK none [ESCAPE] [KEY_B] [] [] []] }
    0 (by decide) (by decide)).2.2 (by decide)
  ⟨h.1, h.2 1 0 c14_engine rfl (by decide) (by decide)
    ⟨by unfold SlavesValid; decide, by unfold Mirrored; decide, fun i => i, by decide,
      by decide⟩ (by decide)⟩

/-! ## The ring -/

theorem and_mask (x : Nat) : x &&& INPUT_BUFFER_MASK = x % 16 :=
  Nat.and_pow_two_sub_one_eq_mod x 4

theorem copy_succ (inputs : List INPUT) (dst src count : Nat) :
    CopyMemory inputs dst src (count + 1) =
      (CopyMemory inputs dst src count).set (dst + count) (inputs.getD (src + count) default) := by
  unfold CopyMemory
  rw [List.range_succ, List.foldl_append]
  rfl

theorem copy_length (inputs : List INPUT) (dst src count : Nat) :
    (CopyMemory inputs dst src count).length = inputs.length := by
  induction count with
  | zero => rfl
  | succ n ih => rw [copy_succ, List.length_set, ih]

theorem input_getD_set_eq (l : List INPUT) (i : Nat) (x : INPUT) (h : i < l.length) :
    (l.set i x).getD i default = x := by
  simp [List.getD_eq_getElem?_getD, h]

theorem input_getD_set_ne (l : List INPUT) (i j : Nat) (x : INPUT) (h : i ≠ j) :
    (l.set i x).getD j default = l.getD j default := by
  simp [List.getD_eq_getElem?_getD, List.getElem?_set_ne h]

/-- The copy leaves every slot outside the destination range alone. -/
theorem copy_getD_other (inputs : List INPUT) (dst src count j : Nat)
    (h : j < dst ∨ dst + count ≤ j) :
    (CopyMemory inputs dst src count).getD j default = inputs.getD j default := by
  induction count with
  | zero => rfl
  | succ n ih =>
    rw [copy_succ, input_getD_set_ne _ _ _ _ (by omega)]
    exact ih (by omega)

/-- The copy puts source slot `src + k` into destination slot `dst + k`. -/
theorem copy_getD_dst (inputs : List INPUT) (dst src count k : Nat) (hk : k < count)
    (hlen : dst + count ≤ inputs.length) :
    (CopyMemory inputs dst src count).getD (dst + k) default =
      inputs.getD (src + k) default := by
  induction count with
  | zero => omega
  | succ n ih =>
    rw [copy_succ]
    by_cases hkn : k = n
    · subst hkn
      rw [input_getD_set_eq _ _ _ (by rw [copy_length]; omega)]
    · rw [input_getD_set_ne _ _ _ _ (by omega)]
      exact ih (by omega) (by omega)

/-- After the wrap copy the run of `c` slots from `h` on holds the records
of the ring positions `h`, `h + 1`, ... taken modulo 16. -/
theorem copy_run (inputs : List INPUT) (hlen : inputs.length = 30) (h c i : Nat)
    (hh : h < 16) (hc : c ≤ 15) (hi : i < c) :
    (CopyMemory inputs 16 0 (c - (16 - h))).getD (h + i) default =
      inputs.getD ((h + i) % 16) default := by
  by_cases hw : h + i < 16
  · rw [copy_getD_other _ _ _ _ _ (Or.inl hw), Nat.mod_eq_of_lt hw]
  · have e1 : h + i = 16 + (i - (16 - h)) := by omega
    have e2 : (h + i) % 16 = 0 + (i - (16 - h)) := by omega
    rw [e2, e1]
    exact copy_getD_dst inputs 16 0 _ _ (by omega) (by omega)

theorem cons_n_eq (ib : InputBuffer) :
    cons_n ib = (ib.prod.tail + 4294967296 - ib.cons.head % 4294967296) % 16 := by
  unfold cons_n dword_sub
  rw [and_mask]
  omega

theorem cons_ncont_eq (ib : InputBuffer) :
    cons_ncont ib = (16 - ib.cons.head % 16) % 16 := by
  unfold cons_ncont dword_sub INPUT_BUFFER_SIZE
  rw [and_mask]
  omega

theorem wrap_copy_count_eq (ib : InputBuffer) :
    wrap_copy_count ib = cons_n ib - (16 - ib.cons.head % 16) := by
  have hn : cons_n ib ≤ 15 := by rw [cons_n_eq]; omega
  unfold wrap_copy_count
  rw [cons_ncont_eq]
  split <;> omega

/-- The reservation of the consumer with hint -2 on a ring whose consumer
side is at rest: all `cons_n` records are granted, after the wrap copy. -/
theorem move_cons_head_all (ib : InputBuffer) (old_head : Nat)
    (hcons : ib.cons.head = ib.cons.tail) (hc : 1 ≤ cons_n ib) :
    input_buffer_move_cons_head ib (-2) old_head =
      some (cons_n ib, ib.cons.head,
        { ib with
          inputs := CopyMemory ib.inputs INPUT_BUFFER_SIZE 0 (wrap_copy_count ib),
          cons := { head := (ib.cons.head + cons_n ib) % 4294967296,
                    tail := ib.cons.tail } }) := by
  unfold input_buffer_move_cons_head
  rw [if_neg (not_not.mpr hcons)]
  have hneg : ((-2 : Int) < 0) := by decide
  have hneg1 : ((-2 : Int) < -1) := by decide
  simp only [hneg, hneg1, if_true]
  unfold wrap_copy_count
  by_cases hw : cons_n ib > cons_ncont ib ∧ cons_ncont ib > 0
  · simp only [if_pos hw]
    rw [if_neg (by omega)]
  · simp only [if_neg hw]
    rw [if_neg (by omega)]
    rfl

/-- Claim C17. For every ring state whose consumer side is at rest and
that holds `c` records, `1 <= c <= N - 1`, `input_buffer_move_cons_head`
with hint -2 returns `c` and reports the old head; afterwards the `c` array
slots from index `cons.head mod N` on hold, in order, the records of the
ring positions `head`, `head + 1`, ..., `head + c - 1` (mod `N`); the first
`N` slots are unchanged. The wrap copy reads the slots `0 .. k-1` and
writes the slots `N .. N+k-1` with `k <= N - 2`, all below 30, and the run
handed on ends at or before slot 30. -/
theorem C17_wrap_coalesced_batch (ib : InputBuffer) (old_head : Nat)
    (hcons : ib.cons.head = ib.cons.tail)
    (hlen : ib.inputs.length = INPUT_BUFFER_SIZE + INPUT_BUFFER_SIZE - 2)
    (hc : 1 ≤ input_buffer_count ib) :
    input_buffer_count ib ≤ INPUT_BUFFER_SIZE - 1 ∧
    ∃ ib', input_buffer_move_cons_head ib (-2) old_head =
        some (input_buffer_count ib, ib.cons.head, ib') ∧
      (∀ i, i < input_buffer_count ib →
        ib'.inputs.getD ((ib.cons.head &&& INPUT_BUFFER_MASK) + i) default =
          ib.inputs.getD ((ib.cons.head + i) &&& INPUT_BUFFER_MASK) default) ∧
      (∀ j, j < INPUT_BUFFER_SIZE → ib'.inputs.getD j default = ib.inputs.getD j default) ∧
      ib'.inputs = CopyMemory ib.inputs INPUT_BUFFER_SIZE 0 (wrap_copy_count ib) ∧
      ib'.inputs.length = ib.inputs.length ∧
      ib'.cons.head = (ib.cons.head + input_buffer_count ib) % 4294967296 ∧
      ib'.cons.tail = ib.cons.tail ∧ ib'.prod = ib.prod ∧
      wrap_copy_count ib ≤ INPUT_BUFFER_SIZE - 2 ∧
      (∀ i, i < wrap_copy_count ib →
        0 + i < INPUT_BUFFER_SIZE + INPUT_BUFFER_SIZE - 2 ∧
        INPUT_BUFFER_SIZE + i < INPUT_BUFFER_SIZE + INPUT_BUFFER_SIZE - 2) ∧
      (ib.cons.head &&& INPUT_BUFFER_MASK) + input_buffer_count ib ≤
        INPUT_BUFFER_SIZE + INPUT_BUFFER_SIZE - 2 := by
  have hn : cons_n ib = input_buffer_count ib := by
    unfold cons_n input_buffer_count
    rw [hcons]
  have hle : cons_n ib ≤ 15 := by rw [cons_n_eq]; omega
  have hwc := wrap_copy_count_eq ib
  have hlen30 : ib.inputs.length = 30 := hlen
  have hmod : ib.cons.head % 16 < 16 := Nat.mod_lt _ (by decide)
  rw [← hn]
  refine ⟨hle, _, move_cons_head_all ib old_head hcons (by rw [hn]; exact hc), ?_, ?_, rfl,
    copy_length _ _ _ _, rfl, rfl, rfl, ?_, ?_, ?_⟩
  · intro i hi
    show (CopyMemory ib.inputs INPUT_BUFFER_SIZE 0 (wrap_copy_count ib)).getD _ default = _
    rw [and_mask, and_mask, hwc]
    have e : (ib.cons.head + i) % 16 = (ib.cons.head % 16 + i) % 16 := by omega
    rw [e]
    exact copy_run ib.inputs hlen30 _ _ i hmod hle hi
  · intro j hj
    exact copy_getD_other _ _ _ _ _ (Or.inl hj)
  · rw [hwc]
    show cons_n ib - (16 - ib.cons.head % 16) ≤ 14
    omega
  · intro i hi
    rw [hwc] at hi
    show 0 + i < 30 ∧ 16 + i < 30
    omega
  · rw [and_mask]
    show ib.cons.head % 16 + cons_n ib ≤ 30
    omega

/-- Claim C17 on a ring holding 10 records from ring position 12 on: the
reservation returns 10 and the slots 12 to 21 hold the 10 records in
order, six of them copied behind the end of the ring. -/
theorem C17_wrap_coalesced_batch_witness :
    ring_wrapped.cons.head = 12 ∧ input_buffer_count ring_wrapped = 10 ∧
    wrap_copy_count ring_wrapped = 6 ∧
    ∃ ib', input_buffer_move_cons_head ring_wrapped (-2) 0 = some (10, 12, ib') ∧
      (List.range 10).map (fun i => ib'.inputs.getD (12 + i) default) =
        (List.range 10).map (fun k => key_item (21 + k)) ∧
      ∀ i, i < input_buffer_count ring_wrapped →
        ib'.inputs.getD ((ring_wrapped.cons.head &&& INPUT_BUFFER_MASK) + i) default =
          ring_wrapped.inputs.getD ((ring_wrapped.cons.head + i) &&& INPUT_BUFFER_MASK)
            default := by
  obtain ⟨ib', h1, h2, _, h3, _⟩ :=
    (C17_wrap_coalesced_batch ring_wrapped 0 rfl rfl (by decide)).2
  refine ⟨by decide, by decide, by decide, ib', h1, ?_, h2⟩
  rw [h3]
  decide

/-- The full test of the producer never fires: its controlling expression
is 0 for every ring. -/
theorem prod_full_test_eq_zero (ib : InputBuffer) : prod_full_test ib = 0 := by
  unfold prod_full_test
  rw [if_neg (by decide)]
  exact Nat.and_zero _

/-- Failing input of claim C15. The full test of
`input_buffer_move_prod_head` is written
`(...) & INPUT_BUFFER_MASK == 0`, which C reads as
`(...) & (INPUT_BUFFER_MASK == 0)`, that is `(...) & 0`: the test is false
for every ring, and the function returns 1 and advances `prod.head` in every
state with `prod.head = prod.tail`. On the full ring (15 records,
`input_buffer_full` true, both sides at rest) it returns 1 with old head
15 and moves `prod.head` to 16, where the claim has it return 0 and leave
the positions alone. -/
theorem C15_full_ring_accepts :
    (∀ ib : InputBuffer, prod_full_test ib = 0) ∧
    (∀ (ib : InputBuffer) (old_head : Nat),
      input_buffer_move_prod_head ib old_head =
        if ib.prod.head ≠ ib.prod.tail then none
        else
          some (1, ib.prod.head,
            { ib with
              prod := { head := (ib.prod.head + 1) % 4294967296, tail := ib.prod.tail } })) ∧
    ring_full.prod.head = ring_full.prod.tail ∧
    ring_full.cons.head = ring_full.cons.tail ∧
    input_buffer_count ring_full = INPUT_BUFFER_SIZE - 1 ∧
    input_buffer_full ring_full = true ∧
    input_buffer_move_prod_head ring_full 0 =
      some (1, 15, { ring_full with prod := { head := 16, tail := 15 } }) := by
  refine ⟨prod_full_test_eq_zero, ?_, by decide, by decide, by decide, by decide, by decide⟩
  intro ib old_head
  unfold input_buffer_move_prod_head
  rw [prod_full_test_eq_zero]
  simp

/-- Failing input of claim C16, the defect of C15 seen from the consumer.
From the empty ring every one of 16 reservations in a row succeeds; the
16th moves the producer position a full turn ahead of the consumer, the
ring counts 0 records, and a pass of the consumer reads nothing: 16 records
were reserved, none is read and none is left in the ring. After a 17th
record the consumer reads that record only. -/
theorem C16_overflow_loses_records :
    (run_ring { reserved := [], consumed := [], ring := ring_init }
        (puts 1 16 ++ [RingOp.drain])).map
        (fun s => (s.reserved, s.consumed, ring_contents s.ring, input_buffer_count s.ring)) =
      some ((List.range 16).map (fun k => key_item (1 + k)), [], [], 0) ∧
    (run_ring { reserved := [], consumed := [], ring := ring_init }
        (puts 1 17 ++ [RingOp.drain])).map
        (fun s => (s.reserved, s.consumed, ring_contents s.ring, input_buffer_count s.ring)) =
      some ((List.range 17).map (fun k => key_item (1 + k)), [key_item 17], [], 0) ∧
    ([] : List INPUT) ++ [] ≠ (List.range 16).map (fun k => key_item (1 + k)) ∧
    [key_item 17] ++ [] ≠ (List.range 17).map (fun k => key_item (1 + k)) := by
  decide

/-! ### First in, first out, while the ring is never overfilled -/

theorem ring_contents_eq (ib : InputBuffer) (d : Nat)
    (hd : dword_sub ib.prod.tail ib.cons.tail = d) (hle : d ≤ 15) :
    ring_contents ib =
      (List.range d).map (fun i => ib.inputs.getD ((ib.cons.tail + i) % 16) default) := by
  unfold ring_contents input_buffer_count
  rw [and_mask, hd, Nat.mod_eq_of_lt (by omega)]
  apply List.map_congr_left
  intro i _
  rw [and_mask]

theorem put_input_eq (ib : InputBuffer) (item : INPUT) (hq : ib.prod.head = ib.prod.tail) :
    put_input ib item =
      some (true,
        { ib with
          inputs := ib.inputs.set (ib.prod.head % 16) item,
          prod := { head := (ib.prod.head + 1) % 4294967296,
                    tail := (ib.prod.head + 1) % 4294967296 } }) := by
  unfold put_input input_buffer_move_prod_head
  rw [if_neg (not_not.mpr hq), prod_full_test_eq_zero]
  simp only [ne_eq, not_true_eq_false, if_false, one_ne_zero]
  rw [and_mask]
  rfl

/-- A record put into a ring that is not full is added behind the records
of the ring. -/
theorem put_step (s : RingRun) (item : INPUT) (h : RingInv s)
    (hfull : input_buffer_full s.ring = false) :
    ∃ ib1, put_input s.ring item = some (true, ib1) ∧
      RingInv { s with reserved := s.reserved ++ [item], ring := ib1 } := by
  obtain ⟨hp, hc, hpb, hcb, hlen, hd, hfifo⟩ := h
  have hlen30 : s.ring.inputs.length = 30 := hlen
  have hd15 : dword_sub s.ring.prod.tail s.ring.cons.tail ≤ 15 := hd
  have hcount : input_buffer_count s.ring = dword_sub s.ring.prod.tail s.ring.cons.tail := by
    unfold input_buffer_count
    rw [and_mask, Nat.mod_eq_of_lt (by omega)]
  have hd14 : dword_sub s.ring.prod.tail s.ring.cons.tail ≤ 14 := by
    unfold input_buffer_full input_buffer_free_count at hfull
    rw [hcount] at hfull
    have hne : dword_sub (INPUT_BUFFER_SIZE - 1)
        (dword_sub s.ring.prod.tail s.ring.cons.tail) ≠ 0 := by
      intro h0
      rw [h0] at hfull
      exact absurd hfull (by decide)
    unfold dword_sub INPUT_BUFFER_SIZE at hne
    unfold dword_sub at hd15 ⊢
    omega
  refine ⟨_, put_input_eq s.ring item hp, ?_⟩
  have hdist : dword_sub ((s.ring.prod.head + 1) % 4294967296) s.ring.cons.tail =
      dword_sub s.ring.prod.tail s.ring.cons.tail + 1 := by
    rw [hp]
    unfold dword_sub at hd14 ⊢
    omega
  refine ⟨rfl, hc, Nat.mod_lt _ (by decide), hcb, ?_, ?_, ?_⟩
  · show (s.ring.inputs.set _ item).length = _
    rw [List.length_set]; exact hlen
  · show dword_sub ((s.ring.prod.head + 1) % 4294967296) s.ring.cons.tail ≤ 15
    rw [hdist]; omega
  · show s.consumed ++ ring_contents _ = s.reserved ++ [item]
    rw [← hfifo, List.append_assoc]
    congr 1
    rw [ring_contents_eq _ _ hdist (by omega), ring_contents_eq _ _ rfl hd15,
      List.range_succ, List.map_append]
    congr 1
    · apply List.map_congr_left
      intro i hi
      rw [List.mem_range] at hi
      show (s.ring.inputs.set (s.ring.prod.head % 16) item).getD
          ((s.ring.cons.tail + i) % 16) default =
        s.ring.inputs.getD ((s.ring.cons.tail + i) % 16) default
      rw [input_getD_set_ne]
      rw [hp]
      unfold dword_sub at hi hd14
      omega
    · show [(s.ring.inputs.set (s.ring.prod.head % 16) item).getD
          ((s.ring.cons.tail + dword_sub s.ring.prod.tail s.ring.cons.tail) % 16) default] =
        [item]
      have e : (s.ring.cons.tail + dword_sub s.ring.prod.tail s.ring.cons.tail) % 16 =
          s.ring.prod.head % 16 := by
        rw [hp]
        unfold dword_sub at hd14 ⊢
        omega
      rw [e, input_getD_set_eq _ _ _ (by rw [hlen30]; omega)]

/-- One pass of the consumer reads the records of the ring, in order, and
leaves the ring empty. -/
theorem drain_step (s : RingRun) (h : RingInv s) :
    ∃ run ib1, drain_once s.ring = some (run, ib1) ∧
      RingInv { s with consumed := s.consumed ++ run, ring := ib1 } := by
  obtain ⟨hp, hc, hpb, hcb, hlen, hd, hfifo⟩ := h
  have hlen30 : s.ring.inputs.length = 30 := hlen
  have hd15 : dword_sub s.ring.prod.tail s.ring.cons.tail ≤ 15 := hd
  have hn : cons_n s.ring = dword_sub s.ring.prod.tail s.ring.cons.tail := by
    unfold cons_n
    rw [hc, and_mask, Nat.mod_eq_of_lt (by omega)]
  by_cases h0 : cons_n s.ring = 0
  · have hres : drain_once s.ring = some ([], s.ring) := by
      unfold drain_once input_buffer_move_cons_head
      rw [if_neg (not_not.mpr hc)]
      have hneg : ((-2 : Int) < 0) := by decide
      have hno : ¬ (0 > cons_ncont s.ring ∧ cons_ncont s.ring > 0) := by omega
      simp only [hneg, if_true, h0, hno, if_false]
      rfl
    refine ⟨[], s.ring, hres, hp, hc, hpb, hcb, hlen, hd, ?_⟩
    show (s.consumed ++ []) ++ ring_contents s.ring = s.reserved
    rw [List.append_nil]; exact hfifo
  · have hpos : 1 ≤ cons_n s.ring := by omega
    have hres := move_cons_head_all s.ring 0 hc hpos
    have hdr : drain_once s.ring =
        some ((List.range (cons_n s.ring)).map
            (fun i => (CopyMemory s.ring.inputs INPUT_BUFFER_SIZE 0
              (wrap_copy_count s.ring)).getD ((s.ring.cons.head &&& INPUT_BUFFER_MASK) + i)
                default),
          { s.ring with
            inputs := CopyMemory s.ring.inputs INPUT_BUFFER_SIZE 0 (wrap_copy_count s.ring),
            cons := { head := (s.ring.cons.head + cons_n s.ring) % 4294967296,
                      tail := (s.ring.cons.head + cons_n s.ring) % 4294967296 } }) := by
      unfold drain_once
      rw [hres]
      simp only
      rw [if_pos (by omega)]
      rfl
    have hrun : (List.range (cons_n s.ring)).map
          (fun i => (CopyMemory s.ring.inputs INPUT_BUFFER_SIZE 0
            (wrap_copy_count s.ring)).getD ((s.ring.cons.head &&& INPUT_BUFFER_MASK) + i)
              default) = ring_contents s.ring := by
      rw [ring_contents_eq _ _ rfl hd15, hn]
      apply List.map_congr_left
      intro i hi
      rw [List.mem_range] at hi
      rw [and_mask, wrap_copy_count_eq, hn, hc]
      have e : (s.ring.cons.tail + i) % 16 = (s.ring.cons.tail % 16 + i) % 16 := by omega
      rw [e]
      exact copy_run s.ring.inputs hlen30 _ _ i (Nat.mod_lt _ (by decide)) hd15 hi
    refine ⟨_, _, hdr, hp, rfl, hpb, Nat.mod_lt _ (by decide), ?_, ?_, ?_⟩
    · show (CopyMemory _ _ _ _).length = _
      rw [copy_length]; exact hlen
    · show dword_sub s.ring.prod.tail ((s.ring.cons.head + cons_n s.ring) % 4294967296) ≤ 15
      rw [hn, hc]
      unfold dword_sub at hd15 ⊢
      omega
    · have hz : dword_sub s.ring.prod.tail
          ((s.ring.cons.head + cons_n s.ring) % 4294967296) = 0 := by
        rw [hn, hc]
        unfold dword_sub at hd15 ⊢
        omega
      show (s.consumed ++ _) ++ ring_contents _ = s.reserved
      have hnil : ∀ ib : InputBuffer, dword_sub ib.prod.tail ib.cons.tail = 0 →
          ring_contents ib = [] := by
        intro ib h0
        rw [ring_contents_eq ib 0 h0 (by omega)]
        rfl
      rw [hnil, List.append_nil, hrun]
      · exact hfifo
      · exact hz

/-- First in, first out: a run of producer and consumer operations in which
no record is put into a full ring returns, and the records read by the
consumer followed by the records still in the ring are the records
reserved, in reservation order. -/
theorem ring_fifo (ops : List RingOp) :
    ∀ s : RingRun, RingInv s → never_full s ops = true →
      ∃ s', run_ring s ops = some s' ∧ RingInv s' := by
  induction ops with
  | nil => intro s h _; exact ⟨s, rfl, h⟩
  | cons op rest ih =>
    intro s h hnf
    cases op with
    | put item =>
      unfold never_full at hnf
      rw [Bool.and_eq_true] at hnf
      have hfull : input_buffer_full s.ring = false := by
        cases hf : input_buffer_full s.ring with
        | false => rfl
        | true => rw [hf] at hnf; exact absurd hnf.1 (by decide)
      obtain ⟨ib1, hput, hinv⟩ := put_step s item h hfull
      have hnf2 := hnf.2
      rw [hput] at hnf2
      obtain ⟨s', hrun, hinv'⟩ := ih _ hinv hnf2
      refine ⟨s', ?_, hinv'⟩
      unfold run_ring
      rw [hput]
      exact hrun
    | drain =>
      obtain ⟨run, ib1, hdr, hinv⟩ := drain_step s h
      unfold never_full at hnf
      rw [hdr] at hnf
      obtain ⟨s', hrun, hinv'⟩ := ih _ hinv hnf
      refine ⟨s', ?_, hinv'⟩
      unfold run_ring
      rw [hdr]
      exact hrun

/-! ## The tag of the synthesized events (`input.h` line 12,
`keyboard_remapper.c` lines 34-59, `mouse.c` lines 115-184, 236-283,
`remap.c` line 850) -/

/-- The mask `0xFFFFFF00` keeps the bits 8 to 31. -/
theorem and_high_mask (x : Nat) : x &&& 0xFFFFFF00 = (x / 256 % 16777216) * 256 := by
  apply Nat.eq_of_testBit_eq
  intro i
  have hm : (0xFFFFFF00 : Nat) = 2 ^ 8 * (2 ^ 24 - 1) := by norm_num
  have h1 : (x / 256 % 16777216) * 256 = 2 ^ 8 * ((x >>> 8) % 2 ^ 24) := by
    rw [Nat.shiftRight_eq_div_pow]
    norm_num
    omega
  rw [hm, h1, Nat.testBit_and, Nat.testBit_mul_pow_two, Nat.testBit_mul_pow_two,
    Nat.testBit_two_pow_sub_one, Nat.testBit_mod_two_pow, Nat.testBit_shiftRight]
  by_cases h : 8 ≤ i
  · have e : 8 + (i - 8) = i := by omega
    simp only [h, e, decide_True, Bool.true_and, ge_iff_le]
    rw [Bool.and_comm]
  · simp [h]

theorem and_low_mask (x : Nat) : x &&& 0xFF = x % 256 :=
  Nat.and_pow_two_sub_one_eq_mod x 8

theorem injected_key_id_eq : INJECTED_KEY_ID = 0xFFC3CE00 := by decide

/-- The id is or-ed into the low byte, which the constant leaves empty. -/
theorem tag_eq_add (remap_id : Nat) (h : remap_id ≤ 255) :
    INJECTED_KEY_ID ||| remap_id = 0xFFC3CE00 + remap_id := by
  rw [injected_key_id_eq]
  have h2 := @Nat.mul_add_lt_is_or 8 remap_id (by norm_num; omega) 0xFFC3CE
  norm_num at h2
  omega

theorem button_flags_extra (buttons last_buttons bit down up data : Nat) (r : INPUT) :
    (button_flags buttons last_buttons bit down up data r).dwExtraInfo = r.dwExtraInfo := by
  unfold button_flags
  split
  · split <;> rfl
  · rfl

theorem buttons_send_records_extra (buttons last_buttons remap_id : Nat) :
    ∀ r ∈ buttons_send_records buttons last_buttons remap_id,
      r.dwExtraInfo = INJECTED_KEY_ID ||| remap_id := by
  intro r hr
  unfold buttons_send_records at hr
  simp only at hr
  split at hr
  · split at hr
    · simp only [List.mem_cons, List.mem_singleton, List.not_mem_nil, or_false] at hr
      rcases hr with h | h <;> subst h <;> simp only [button_flags_extra] <;> rfl
    · simp only [List.mem_singleton] at hr
      subst hr
      simp only [button_flags_extra]
      rfl
  · simp only [List.mem_singleton] at hr
    subst hr
    simp only [button_flags_extra]
    rfl

theorem move_send_records_extra (report : report_mouse_t) (remap_id : Nat) :
    ∀ r ∈ move_send_records report remap_id, r.dwExtraInfo = INJECTED_KEY_ID ||| remap_id := by
  unfold move_send_records
  lift_lets
  intro r0 r1 r2 r hr
  have h0 : r0.dwExtraInfo = INJECTED_KEY_ID ||| remap_id := rfl
  have h1 : r1.dwExtraInfo = INJECTED_KEY_ID ||| remap_id := by
    simp only [r1]
    split <;> exact h0
  have h2 : r2.dwExtraInfo = INJECTED_KEY_ID ||| remap_id := by
    simp only [r2]
    split <;> exact h1
  split at hr
  · split at hr
    · simp only [List.mem_cons, List.mem_singleton, List.not_mem_nil, or_false] at hr
      rcases hr with h | h
      · rw [h]; exact h2
      · rw [h]; rfl
    · simp only [List.mem_singleton] at hr
      rw [hr]
      exact h2
  · simp only [List.mem_singleton] at hr
    rw [hr]
    exact h2

/-- Counterexample to C18 as stated: the extra-info `0x1FFC3CE05`, a value
of a 64-bit `ULONG_PTR` with bit 32 set, is none of the values
`0xFFC3CE00 | r` the program writes, and the test of `handle_input` accepts
it: the mask `0xFFFFFF00` keeps the bits 8 to 31 only. An injected KEY_A
DOWN that carries it is handled as the program's own event of remap id 5:
with CAPSLOCK held alone it promotes the CAPSLOCK rule and sends
LEFT_CTRL down. -/
theorem C18_counterexample :
    0x1FFC3CE05 &&& 0xFFFFFF00 = INJECTED_KEY_ID ∧
    ¬ (0x1FFC3CE05 &&& 0xFFFFFF00 ≠ INJECTED_KEY_ID ∨ 0x1FFC3CE05 = INJECTED_KEY_ID) ∧
    (∀ r : Nat, r ≤ 255 → 0x1FFC3CE05 ≠ 0xFFC3CE00 ||| r) ∧
    4294967296 ≤ 0x1FFC3CE05 ∧
    handle_input 1 KEY_A.scan_code KEY_A.virt_code .DOWN 10 true 0 0x1FFC3CE05 c19_engine =
      event_other_input 1 KEY_A.virt_code .DOWN 10 5 { c19_engine with g_last_input := 10 } ∧
    (handle_input 1 KEY_A.scan_code KEY_A.virt_code .DOWN 10 true 0 0x1FFC3CE05 c19_engine).map
        (fun p => (p.1, p.2.sent.drop c19_engine.sent.length, (remapAt p.2.remaps 0).state)) =
      some (-1, chord_down [LEFT_CTRL] 1, State.HELD_DOWN_WITH_OTHER) := by
  refine ⟨by decide, by decide, ?_, by decide, by rfl, by rfl⟩
  intro r hr h
  have h1 : 0xFFC3CE00 ||| r = 0xFFC3CE00 + r := by
    rw [← injected_key_id_eq]
    exact tag_eq_add r hr
  rw [h1] at h
  omega

/-- C18, amended: `INJECTED_KEY_ID` is `0xFFC3CE00`. For every `remap_id`
from 0 to 255 the record of `send_input` and every record of `buttons_send`
and of `move_send` carries the extra-info `0xFFC3CE00 | remap_id`, whose bits
from 8 on are those of `INJECTED_KEY_ID` and whose low byte is `remap_id`,
and which the test accepts. The test `(extra & 0xFFFFFF00) == INJECTED_KEY_ID`
of `handle_input` looks at the bits 8 to 31 only: for an extra-info of any
width it holds exactly when the low 32 bits of `extra` are `0xFFC3CE00 | r`
for an `r` from 0 to 255. Among the values below `2^32` these are exactly
the values written, and there the branch for the rule's own events (the test
holds and the value is not `INJECTED_KEY_ID` itself) is taken exactly for
the ids 1 to 255. -/
theorem C18_tag_discipline :
    INJECTED_KEY_ID = 0xFFC3CE00 ∧
    (∀ remap_id : Nat, remap_id ≤ 255 →
      (∀ (g_scancode : Int) (scan_code virt_code : Nat) (direction : Direction),
        (send_input_record g_scancode scan_code virt_code direction remap_id).dwExtraInfo =
          0xFFC3CE00 ||| remap_id) ∧
      (∀ (buttons last_buttons : Nat), ∀ r ∈ buttons_send_records buttons last_buttons remap_id,
        r.dwExtraInfo = 0xFFC3CE00 ||| remap_id) ∧
      (∀ (report : report_mouse_t), ∀ r ∈ move_send_records report remap_id,
        r.dwExtraInfo = 0xFFC3CE00 ||| remap_id) ∧
      (0xFFC3CE00 ||| remap_id) >>> 8 = INJECTED_KEY_ID >>> 8 ∧
      (0xFFC3CE00 ||| remap_id) &&& 0xFF = remap_id ∧
      (0xFFC3CE00 ||| remap_id) &&& 0xFFFFFF00 = INJECTED_KEY_ID ∧
      0xFFC3CE00 ||| remap_id < 4294967296) ∧
    (∀ extra : Nat,
      (extra &&& 0xFFFFFF00 = INJECTED_KEY_ID ↔
        ∃ r, r ≤ 255 ∧ extra % 4294967296 = 0xFFC3CE00 ||| r)) ∧
    (∀ extra : Nat, extra < 4294967296 →
      ((extra &&& 0xFFFFFF00 = INJECTED_KEY_ID ↔ ∃ r, r ≤ 255 ∧ extra = 0xFFC3CE00 ||| r) ∧
       (¬ (extra &&& 0xFFFFFF00 ≠ INJECTED_KEY_ID ∨ extra = INJECTED_KEY_ID) ↔
          ∃ r, 1 ≤ r ∧ r ≤ 255 ∧ extra = 0xFFC3CE00 ||| r))) := by
  have hid := injected_key_id_eq
  have hadd : ∀ r : Nat, r ≤ 255 → 0xFFC3CE00 ||| r = 0xFFC3CE00 + r := by
    intro r hr
    rw [← hid]
    exact tag_eq_add r hr
  refine ⟨hid, ?_, ?_, ?_⟩
  · intro remap_id hr
    refine ⟨?_, ?_, ?_, ?_, ?_, ?_, ?_⟩
    · intro g_scancode scan_code virt_code direction
      rw [← hid]
      rfl
    · intro buttons last_buttons r hmem
      rw [← hid]
      exact buttons_send_records_extra buttons last_buttons remap_id r hmem
    · intro report r hmem
      rw [← hid]
      exact move_send_records_extra report remap_id r hmem
    · rw [hadd remap_id hr, hid, Nat.shiftRight_eq_div_pow, Nat.shiftRight_eq_div_pow]
      norm_num
      omega
    · rw [hadd remap_id hr, and_low_mask]
      omega
    · rw [hadd remap_id hr, and_high_mask, hid]
      omega
    · rw [hadd remap_id hr]
      omega
  · intro extra
    rw [and_high_mask, hid]
    constructor
    · intro h
      refine ⟨extra % 256, by omega, ?_⟩
      rw [hadd _ (by omega)]
      omega
    · rintro ⟨r, hr, he⟩
      rw [hadd r hr] at he
      omega
  · intro extra hlt
    rw [and_high_mask, hid]
    constructor
    · constructor
      · intro h
        refine ⟨extra % 256, by omega, ?_⟩
        rw [hadd _ (by omega)]
        omega
      · rintro ⟨r, hr, he⟩
        rw [hadd r hr] at he
        omega
    · constructor
      · intro h
        have h1 : extra / 256 % 16777216 * 256 = 0xFFC3CE00 := by
          by_contra hc
          exact h (Or.inl hc)
        have h2 : extra ≠ 0xFFC3CE00 := fun hc => h (Or.inr hc)
        refine ⟨extra % 256, by omega, by omega, ?_⟩
        rw [hadd _ (by omega)]
        omega
      · rintro ⟨r, hr1, hr, he⟩
        rw [hadd r hr] at he
        rintro (h | h)
        · omega
        · omega

/-! ## Injected events (`remap.c` lines 779-892) -/

/-- One iteration of the loop of `event_other_input` writes at most the
list element itself, and only when its id is not `remap_id`. -/
theorem other_input_step_remaps {fuel : Nat} (time remap_id : Nat) (acc acc' : Nat × Engine)
    (remap : Nat) (h : event_other_input_step fuel time remap_id acc remap = some acc') :
    (acc'.2.remaps = acc.2.remaps ∨
      ((remapAt acc.2.remaps remap).id ≠ remap_id ∧
        ∃ x, acc'.2.remaps = acc.2.remaps.set remap x)) ∧
    acc'.2.layers = acc.2.layers ∧ acc'.2.g_remap_list = acc.2.g_remap_list ∧
    acc'.2.g_remap_by_id = acc.2.g_remap_by_id ∧
    acc'.2.g_remap_array = acc.2.g_remap_array ∧
    acc'.2.g_last_input = acc.2.g_last_input := by
  unfold event_other_input_step at h
  simp only at h
  by_cases hid : (remapAt acc.2.remaps remap).id ≠ remap_id
  · rw [if_pos hid] at h
    refine ⟨Or.inr ⟨hid, ?_⟩, ?_⟩
    all_goals
      cases hst : (remapAt acc.2.remaps remap).state <;> rw [hst] at h <;> simp only at h
    all_goals (try split at h)
    all_goals
      first
        | (injection h with h
           subst h
           first
             | exact ⟨_, rfl⟩
             | exact ⟨rfl, rfl, rfl, rfl, rfl⟩)
        | (rw [Option.map_eq_some'] at h
           obtain ⟨s, _, hs⟩ := h
           subst hs
           first
             | exact ⟨_, rfl⟩
             | exact ⟨rfl, rfl, rfl, rfl, rfl⟩
             | (cases s <;>
                 simp only [Bool.not_false, Bool.not_true, if_true, Bool.false_eq_true,
                   if_false] <;>
                 (try split) <;>
                 first
                   | exact ⟨_, rfl⟩
                   | exact ⟨rfl, rfl, rfl, rfl, rfl⟩
                   | (refine ⟨?_, ?_, ?_, ?_, ?_⟩ <;> first | rfl | trivial)))
  · rw [if_neg hid] at h
    injection h with h
    subst h
    exact ⟨Or.inl rfl, rfl, rfl, rfl, rfl, rfl⟩

/-- The loop of `event_other_input` never writes a Remap whose id is
`remap_id`, and leaves the layers, the active list, the id table, the
buckets and `g_last_input` alone. -/
theorem other_input_loop_frame {fuel : Nat} (time remap_id : Nat) (l : List Nat) :
    ∀ (acc acc' : Nat × Engine), event_other_input_loop fuel time remap_id l acc = some acc' →
      (∀ n, (remapAt acc.2.remaps n).id = remap_id →
        remapAt acc'.2.remaps n = remapAt acc.2.remaps n) ∧
      acc'.2.layers = acc.2.layers ∧ acc'.2.g_remap_list = acc.2.g_remap_list ∧
      acc'.2.g_remap_by_id = acc.2.g_remap_by_id ∧
      acc'.2.g_remap_array = acc.2.g_remap_array ∧
      acc'.2.g_last_input = acc.2.g_last_input := by
  induction l with
  | nil =>
    intro acc acc' h
    unfold event_other_input_loop at h
    injection h with h
    subst h
    exact ⟨fun _ _ => rfl, rfl, rfl, rfl, rfl, rfl⟩
  | cons remap rest ih =>
    intro acc acc' h
    unfold event_other_input_loop at h
    cases hs : event_other_input_step fuel time remap_id acc remap with
    | none => rw [hs] at h; exact absurd h (by simp)
    | some a1 =>
      rw [hs, Option.some_bind] at h
      obtain ⟨hr1, hl1, hg1, hb1, ha1, ht1⟩ := other_input_step_remaps time remap_id acc a1 remap hs
      obtain ⟨hr2, hl2, hg2, hb2, ha2, ht2⟩ := ih a1 acc' h
      refine ⟨?_, by rw [hl2, hl1], by rw [hg2, hg1], by rw [hb2, hb1], by rw [ha2, ha1],
        by rw [ht2, ht1]⟩
      intro n hn
      have h1 : remapAt a1.2.remaps n = remapAt acc.2.remaps n := by
        rcases hr1 with he | ⟨hid, x, he⟩
        · rw [he]
        · rw [he]
          apply remapAt_set_ne
          intro hc
          rw [hc] at hid
          exact hid hn
      rw [hr2 n (by rw [h1]; exact hn), h1]

/-- C19: an injected event whose tag is `INJECTED_KEY_ID | r` with `r` from
1 to 255, when no unlock timeout has elapsed, is handed to
`event_other_input` with `remap_id = r` after the assignment of
`g_last_input`, whatever rule its virtual code has: no Remap is selected and
neither `event_remapped_key_down` nor `event_remapped_key_up` runs. The call
returns (with a well-formed layer graph and fuel above the number of
layers), and in its result every Remap whose id is `r` has all its fields
unchanged; the layers, the active list, the id table and the buckets are
unchanged as well. -/
theorem C19_own_injections_not_remapped (fuel scan_code virt_code : Nat)
    (direction : Direction) (time flags r : Nat) (e : Engine)
    (hr1 : 1 ≤ r) (hr : r ≤ 255) (hu : ¬ unlock_due e time) :
    handle_input fuel scan_code virt_code direction time true flags (INJECTED_KEY_ID ||| r) e =
      event_other_input fuel virt_code direction time r
        { e with g_last_input := time % 4294967296 } ∧
    (LayersOK e.layers → e.layers.length < fuel →
      ∃ b e', handle_input fuel scan_code virt_code direction time true flags
        (INJECTED_KEY_ID ||| r) e = some (b, e')) ∧
    (∀ b e', handle_input fuel scan_code virt_code direction time true flags
        (INJECTED_KEY_ID ||| r) e = some (b, e') →
      (∀ n, (remapAt e.remaps n).id = r → remapAt e'.remaps n = remapAt e.remaps n) ∧
      e'.layers = e.layers ∧ e'.g_remap_list = e.g_remap_list ∧
      e'.g_remap_by_id = e.g_remap_by_id ∧ e'.g_remap_array = e.g_remap_array ∧
      e'.g_last_input = time % 4294967296) := by
  have hadd := tag_eq_add r hr
  have hid := injected_key_id_eq
  have htest : ¬ ((INJECTED_KEY_ID ||| r) &&& 0xFFFFFF00 ≠ INJECTED_KEY_ID ∨
      INJECTED_KEY_ID ||| r = INJECTED_KEY_ID) := by
    rw [hadd, and_high_mask, hid]
    omega
  have hlow : (INJECTED_KEY_ID ||| r) &&& 0xFF = r := by
    rw [hadd, and_low_mask]
    omega
  have heq : handle_input fuel scan_code virt_code direction time true flags
      (INJECTED_KEY_ID ||| r) e =
        event_other_input fuel virt_code direction time r
          { e with g_last_input := time % 4294967296 } := by
    unfold unlock_due at hu
    unfold handle_input
    simp only [hu, if_false, htest, and_false, hlow, if_true]
  refine ⟨heq, ?_, ?_⟩
  · intro hok hfuel
    rw [heq]
    obtain ⟨b, e', h, _⟩ := other_input_ok virt_code direction time r
      { e with g_last_input := time % 4294967296 } hok hfuel
    exact ⟨b, e', h⟩
  · intro b e' h
    rw [heq] at h
    unfold event_other_input at h
    split at h
    · rw [Option.map_eq_some'] at h
      obtain ⟨p, hp, hpe⟩ := h
      obtain ⟨hr2, hl2, hg2, hb2, ha2, ht2⟩ := other_input_loop_frame time r _ _ p hp
      injection hpe with _ he
      subst he
      exact ⟨hr2, hl2, hg2, hb2, ha2, ht2⟩
    · injection h with h
      injection h with _ he
      subst he
      exact ⟨fun _ _ => rfl, rfl, rfl, rfl, rfl, rfl⟩

/-- Claim C19 at the S1 configuration with CAPSLOCK held alone (rule 1 in
`HELD_DOWN_ALONE`): an injected CAPSLOCK DOWN at 50 that carries the tag of
rule 1 is not given to the rule of CAPSLOCK, and rule 1 stays as it is. -/
theorem C19_own_injections_not_remapped_witness :
    ¬ unlock_due c19_engine 50 ∧
    (remapAt c19_engine.remaps 0).id = 1 ∧
    (remapAt c19_engine.remaps 0).state = .HELD_DOWN_ALONE ∧
    remap_for_input c19_engine CAPSLOCK.virt_code = some 0 ∧
    handle_input 1 CAPSLOCK.scan_code CAPSLOCK.virt_code .DOWN 50 true 0
        (INJECTED_KEY_ID ||| 1) c19_engine =
      event_other_input 1 CAPSLOCK.virt_code .DOWN 50 1
        { c19_engine with g_last_input := 50 % 4294967296 } ∧
    ∀ b e', handle_input 1 CAPSLOCK.scan_code CAPSLOCK.virt_code .DOWN 50 true 0
        (INJECTED_KEY_ID ||| 1) c19_engine = some (b, e') →
      remapAt e'.remaps 0 = remapAt c19_engine.remaps 0 :=
  have hu : ¬ unlock_due c19_engine 50 := by unfold unlock_due; decide
  have h := C19_own_injections_not_remapped 1 CAPSLOCK.scan_code CAPSLOCK.virt_code .DOWN 50 0 1
    c19_engine (by decide) (by decide) hu
  ⟨hu, by decide, by decide, by decide, h.1, fun b e' hb => (h.2.2 b e' hb).1 0 (by decide)⟩

/-- C20: an injected event whose extra-info does not carry the bits 8 to 31
of `INJECTED_KEY_ID`, or is `INJECTED_KEY_ID` itself (remap id 0), when no
unlock timeout has elapsed: `handle_input` returns 0, sends nothing and
leaves every Remap, every Layer, the active list, the id table and the
buckets as they are. When the rehook test does not fire the engine is
unchanged altogether; when it fires, `rehook` is called once and
`g_last_input` becomes `time`, and nothing else changes. -/
theorem C20_foreign_injections_ignored (fuel scan_code virt_code : Nat)
    (direction : Direction) (time flags dwExtraInfo : Nat) (e : Engine)
    (htag : dwExtraInfo &&& 0xFFFFFF00 ≠ INJECTED_KEY_ID ∨ dwExtraInfo = INJECTED_KEY_ID)
    (hu : ¬ unlock_due e time) :
    ∃ e', handle_input fuel scan_code virt_code direction time true flags dwExtraInfo e =
        some (0, e') ∧
      e'.sent = e.sent ∧ e'.remaps = e.remaps ∧ e'.layers = e.layers ∧
      e'.g_remap_list = e.g_remap_list ∧ e'.g_remap_by_id = e.g_remap_by_id ∧
      e'.g_remap_array = e.g_remap_array ∧
      (¬ (e.g_rehook_timeout > 0 ∧ dword_sub time e.g_last_input > u32 e.g_rehook_timeout) →
        e' = e) ∧
      (e.g_rehook_timeout > 0 ∧ dword_sub time e.g_last_input > u32 e.g_rehook_timeout →
        e' = { e with rehooks := e.rehooks + 1, g_last_input := time % 4294967296 }) ∧
      (e'.g_last_input ≠ e.g_last_input →
        e.g_rehook_timeout > 0 ∧ dword_sub time e.g_last_input > u32 e.g_rehook_timeout) := by
  unfold unlock_due at hu
  by_cases hre : e.g_rehook_timeout > 0 ∧ dword_sub time e.g_last_input > u32 e.g_rehook_timeout
  · refine ⟨{ e with rehooks := e.rehooks + 1, g_last_input := time % 4294967296 }, ?_, rfl, rfl,
      rfl, rfl, rfl, rfl, fun hn => absurd hre hn, fun _ => rfl, fun _ => hre⟩
    unfold handle_input
    simp only [hu, if_false, htag, and_self, if_true, hre]
  · refine ⟨e, ?_, rfl, rfl, rfl, rfl, rfl, rfl, fun _ => rfl, fun h => absurd h hre,
      fun h => absurd rfl h⟩
    unfold handle_input
    simp only [hu, if_false, htag, and_self, if_true, hre]

/-- Claim C20 at the S1 configuration with CAPSLOCK held alone: an injected
KEY_A DOWN at 50 with the foreign extra-info `0x12345678` returns 0 and
leaves the engine as it is (a genuine KEY_A DOWN would move rule 1 to
`HELD_DOWN_WITH_OTHER`). -/
theorem C20_foreign_injections_ignored_witness :
    (0x12345678 &&& 0xFFFFFF00 ≠ INJECTED_KEY_ID ∨ 0x12345678 = INJECTED_KEY_ID) ∧
    ¬ unlock_due c19_engine 50 ∧
    handle_input 1 KEY_A.scan_code KEY_A.virt_code .DOWN 50 true 0 0x12345678 c19_engine =
      some (0, c19_engine) :=
  have htag : 0x12345678 &&& 0xFFFFFF00 ≠ INJECTED_KEY_ID ∨ 0x12345678 = INJECTED_KEY_ID :=
    Or.inl (by decide)
  have hu : ¬ unlock_due c19_engine 50 := by unfold unlock_due; decide
  ⟨htag, hu, by
    obtain ⟨e', h, _, _, _, _, _, _, hsame, _⟩ :=
      C20_foreign_injections_ignored 1 KEY_A.scan_code KEY_A.virt_code .DOWN 50 0 0x12345678
        c19_engine htag hu
    rw [h, hsame (by decide)]⟩

/-! ## The unlock timeout (`remap.c` lines 846-849) -/

/-- Counterexample to C22 as stated: with the default `unlock_timeout` of
60000 and `g_last_input = 100`, an event with the earlier timestamp 50 makes
`handle_input` call `unlock_all`: the difference `time - g_last_input` is
taken modulo `2^32` and is 4294967246. The held CAPSLOCK rule is reset to
`IDLE` and unlinked, and the KEY_A DOWN sends nothing and returns 0;
without the call it would have moved the rule to `HELD_DOWN_WITH_OTHER`,
sent LEFT_CTRL down and returned -1. -/
theorem C22_counterexample :
    c22_engine.g_unlock_timeout = 60000 ∧ c22_engine.g_last_input = 100 ∧
    c22_engine.g_remap_list = [0] ∧
    (remapAt c22_engine.remaps 0).state = .HELD_DOWN_ALONE ∧
    dword_sub 50 c22_engine.g_last_input = 4294967246 ∧
    handle_input 1 KEY_A.scan_code KEY_A.virt_code .DOWN 50 false 0 0 c22_engine =
      handle_input_tail 1 KEY_A.virt_code .DOWN 50 false 0 (unlock_all c22_engine) ∧
    handle_input 1 KEY_A.scan_code KEY_A.virt_code .DOWN 50 false 0 0 c22_engine =
      some (0, { unlock_all c22_engine with g_last_input := 50 }) ∧
    (unlock_all c22_engine).g_remap_list = [] ∧
    (remapAt (unlock_all c22_engine).remaps 0).state = .IDLE ∧
    (unlock_all c22_engine).sent = c22_engine.sent ∧
    (handle_input_tail 1 KEY_A.virt_code .DOWN 50 false 0 c22_engine).map
        (fun p => (p.1, p.2.sent.drop c22_engine.sent.length, (remapAt p.2.remaps 0).state)) =
      some (-1, chord_down [LEFT_CTRL] 1, .HELD_DOWN_WITH_OTHER) :=
  ⟨rfl, rfl, rfl, rfl, rfl, rfl, rfl, rfl, rfl, rfl, rfl⟩

/-- C22, amended: `handle_input` runs its remaining part on `unlock_all e`
when `g_unlock_timeout > 0` and the difference `time - g_last_input`, taken
modulo `2^32`, is above `g_unlock_timeout`, and on `e` itself otherwise. A
timeout of 0 (or below) disables the call; a timestamp equal to
`g_last_input` does not trigger it; a timestamp that is later by `d`
triggers it exactly when `d` is above the timeout; a timestamp that is
earlier by `d` triggers it exactly when `2^32 - d` is above the timeout. -/
theorem C22_unlock_timeout (fuel scan_code virt_code : Nat) (direction : Direction)
    (time : Nat) (is_injected : Bool) (flags dwExtraInfo : Nat) (e : Engine) :
    (unlock_due e time →
      handle_input fuel scan_code virt_code direction time is_injected flags dwExtraInfo e =
        handle_input_tail fuel virt_code direction time is_injected dwExtraInfo
          (unlock_all e)) ∧
    (¬ unlock_due e time →
      handle_input fuel scan_code virt_code direction time is_injected flags dwExtraInfo e =
        handle_input_tail fuel virt_code direction time is_injected dwExtraInfo e) ∧
    (unlock_due e time ↔
      e.g_unlock_timeout > 0 ∧ dword_sub time e.g_last_input > u32 e.g_unlock_timeout) ∧
    (e.g_unlock_timeout ≤ 0 → ¬ unlock_due e time) ∧
    (time % 4294967296 = e.g_last_input % 4294967296 → ¬ unlock_due e time) ∧
    (0 < e.g_unlock_timeout → e.g_unlock_timeout < 2147483648 → time < 4294967296 →
      e.g_last_input ≤ time →
      (unlock_due e time ↔ ((time - e.g_last_input : Nat) : Int) > e.g_unlock_timeout)) ∧
    (0 < e.g_unlock_timeout → e.g_unlock_timeout < 2147483648 →
      e.g_last_input < 4294967296 → time < e.g_last_input →
      (unlock_due e time ↔
        ((4294967296 - (e.g_last_input - time) : Nat) : Int) > e.g_unlock_timeout)) := by
  refine ⟨?_, ?_, Iff.rfl, ?_, ?_, ?_, ?_⟩
  · intro h
    unfold unlock_due at h
    unfold handle_input handle_input_tail
    simp only [h, and_self, if_true]
  · intro h
    unfold unlock_due at h
    unfold handle_input handle_input_tail
    simp only [h, if_false]
  · intro h0 hd
    unfold unlock_due at hd
    omega
  · intro heq hd
    unfold unlock_due at hd
    have hz : dword_sub time e.g_last_input = 0 := by
      unfold dword_sub
      omega
    rw [hz] at hd
    omega
  · intro hpos hint htime hle
    unfold unlock_due
    rw [dword_sub_of_le hle htime, u32_of_nonneg (le_of_lt hpos) (by omega)]
    constructor
    · rintro ⟨_, h⟩
      omega
    · intro h
      exact ⟨hpos, by omega⟩
  · intro hpos hint hlast hlt
    unfold unlock_due
    have hd : dword_sub time e.g_last_input = 4294967296 - (e.g_last_input - time) := by
      unfold dword_sub
      omega
    rw [hd, u32_of_nonneg (le_of_lt hpos) (by omega)]
    constructor
    · rintro ⟨_, h⟩
      omega
    · intro h
      exact ⟨hpos, by omega⟩

/-! ## Chord order (`remap.c` lines 514-540) -/

/-- The loop shared by the two chord functions sends the keys that pass
the mask test, in the order of the traversal, and sets `key_sent` when
there is one. -/
theorem send_key_def_fold_masked (direction : Direction) (remap_id modifiers_mask : Nat)
    (head : List KeyDef) :
    ∀ acc : Nat × List SentInput,
      (head.foldl (send_key_def_step direction remap_id modifiers_mask) acc).2 =
        acc.2 ++ (head.filter (key_passes modifiers_mask)).map
          (fun k => SentInput.mk k.scan_code k.virt_code direction remap_id) ∧
      (head.foldl (send_key_def_step direction remap_id modifiers_mask) acc).1 =
        if head.filter (key_passes modifiers_mask) = [] then acc.1 else 1 := by
  induction head with
  | nil => intro acc; simp
  | cons k rest ih =>
    intro acc
    rw [List.foldl_cons]
    obtain ⟨h2, h1⟩ := ih (send_key_def_step direction remap_id modifiers_mask acc k)
    rw [h2, h1]
    unfold send_key_def_step
    by_cases hk : modifiers_mask &&& (KEY_ARRAY (k.virt_code &&& 0xFF)).modifier = 0
    · have hp : key_passes modifiers_mask k = true := by
        unfold key_passes
        exact decide_eq_true hk
      rw [if_pos hk, List.filter_cons_of_pos hp]
      unfold send_input
      constructor
      · simp
      · simp only [List.cons_ne_nil, if_false]
        split <;> rfl
    · have hp : ¬ key_passes modifiers_mask k = true := by
        unfold key_passes
        simpa using hk
      rw [if_neg hk, List.filter_cons_of_neg hp]
      exact ⟨rfl, rfl⟩

theorem key_passes_zero (cur : KeyDef) : key_passes 0 cur = true := by
  unfold key_passes
  simp

theorem filter_key_passes_zero (head : List KeyDef) : head.filter (key_passes 0) = head := by
  rw [List.filter_eq_self]
  intro k _
  exact key_passes_zero k

/-- For every row of `key_table` the entry of `KEY_ARRAY` the mask test
reads has the modifier bits of the row. -/
theorem key_table_modifier :
    ∀ k ∈ key_table, (KEY_ARRAY (k.virt_code &&& 0xFF)).modifier = k.modifier := by
  have hall : key_table.all
      (fun k => (KEY_ARRAY (k.virt_code &&& 0xFF)).modifier == k.modifier) = true := rfl
  intro k hk
  exact beq_iff_eq.mp (List.all_eq_true.mp hall k hk)

/-- C26: `send_key_def_input_down` sends one DOWN for every key of the chord
that passes the mask test, in configured order, and
`send_key_def_input_up` one UP for every such key in the reverse order; both
return 1 when at least one key was sent and 0 otherwise. With mask 0 every
key passes: the down-chord is one DOWN per key in order, the up-chord one
UP per key in reverse order, each key once, and a non-empty chord returns
1. A key of `key_table` passes exactly when its own modifier bits do not
intersect the mask. -/
theorem C26_chord_order (head : List KeyDef) (remap_id modifiers_mask : Nat)
    (sent : List SentInput) :
    (send_key_def_input_down head remap_id modifiers_mask sent).2 =
      sent ++ chord_down (head.filter (key_passes modifiers_mask)) remap_id ∧
    (send_key_def_input_up head remap_id modifiers_mask sent).2 =
      sent ++ chord_up (head.filter (key_passes modifiers_mask)) remap_id ∧
    chord_up (head.filter (key_passes modifiers_mask)) remap_id =
      ((chord_down (head.filter (key_passes modifiers_mask)) remap_id).map
        (fun s => { s with direction := .UP })).reverse ∧
    ((send_key_def_input_down head remap_id modifiers_mask sent).1 =
      if head.filter (key_passes modifiers_mask) = [] then 0 else 1) ∧
    ((send_key_def_input_up head remap_id modifiers_mask sent).1 =
      if head.filter (key_passes modifiers_mask) = [] then 0 else 1) ∧
    (send_key_def_input_down head remap_id 0 sent).2 = sent ++ chord_down head remap_id ∧
    (send_key_def_input_up head remap_id 0 sent).2 = sent ++ chord_up head remap_id ∧
    (chord_down head remap_id).length = head.length ∧
    (chord_up head remap_id).length = head.length ∧
    (∀ i (h : i < head.length),
      (chord_down head remap_id).getD i default =
        SentInput.mk (head.get ⟨i, h⟩).scan_code (head.get ⟨i, h⟩).virt_code .DOWN remap_id ∧
      (chord_up head remap_id).getD (head.length - 1 - i) default =
        SentInput.mk (head.get ⟨i, h⟩).scan_code (head.get ⟨i, h⟩).virt_code .UP remap_id) ∧
    (head ≠ [] → (send_key_def_input_down head remap_id 0 sent).1 = 1 ∧
      (send_key_def_input_up head remap_id 0 sent).1 = 1) ∧
    (∀ k ∈ key_table,
      (key_passes modifiers_mask k = true ↔ modifiers_mask &&& k.modifier = 0)) := by
  have hd := send_key_def_fold_masked .DOWN remap_id modifiers_mask head (0, sent)
  have hu := send_key_def_fold_masked .UP remap_id modifiers_mask head.reverse (0, sent)
  have hd0 := send_key_def_fold_masked .DOWN remap_id 0 head (0, sent)
  have hu0 := send_key_def_fold_masked .UP remap_id 0 head.reverse (0, sent)
  rw [filter_key_passes_zero] at hd0 hu0
  rw [List.filter_reverse] at hu
  refine ⟨hd.1, hu.1, ?_, hd.2, ?_, hd0.1, hu0.1, ?_, ?_, ?_, ?_, ?_⟩
  · unfold chord_up chord_down
    rw [List.map_map, List.map_reverse]
    rfl
  · unfold send_key_def_input_up
    rw [hu.2]
    simp only [List.reverse_eq_nil_iff]
  · unfold chord_down
    rw [List.length_map]
  · unfold chord_up
    rw [List.length_map, List.length_reverse]
  · intro i h
    unfold chord_down chord_up
    constructor
    · rw [List.getD_eq_getElem?_getD, List.getElem?_map, List.getElem?_eq_getElem h]
      rfl
    · have h2 : head.length - 1 - i < head.reverse.length := by
        rw [List.length_reverse]; omega
      rw [List.getD_eq_getElem?_getD, List.getElem?_map, List.getElem?_eq_getElem h2,
        List.getElem_reverse]
      have e : head.length - 1 - (head.length - 1 - i) = i := by omega
      simp only [e]
      rfl
  · intro hne
    constructor
    · unfold send_key_def_input_down
      rw [hd0.2, if_neg hne]
    · unfold send_key_def_input_up
      rw [hu0.2, if_neg (by simpa using hne)]
  · intro k hk
    unfold key_passes
    rw [key_table_modifier k hk]
    simp

/-! ## What one run of `event_other_input` sends -/

/-- The events of a chord function: they are appended to the trace, carry
the remap id, and `key_sent` is 1 exactly when there is one. -/
theorem send_down_spec (head : List KeyDef) (remap_id modifiers_mask : Nat)
    (sent : List SentInput) :
    send_key_def_input_down head remap_id modifiers_mask sent =
      ((if chord_down (head.filter (key_passes modifiers_mask)) remap_id = [] then 0 else 1),
        sent ++ chord_down (head.filter (key_passes modifiers_mask)) remap_id) := by
  obtain ⟨h2, h1⟩ := send_key_def_fold_masked .DOWN remap_id modifiers_mask head (0, sent)
  unfold send_key_def_input_down chord_down
  apply Prod.ext
  · rw [h1]
    simp only [List.map_eq_nil_iff]
  · exact h2

theorem send_up_spec (head : List KeyDef) (remap_id modifiers_mask : Nat)
    (sent : List SentInput) :
    send_key_def_input_up head remap_id modifiers_mask sent =
      ((if chord_up (head.filter (key_passes modifiers_mask)) remap_id = [] then 0 else 1),
        sent ++ chord_up (head.filter (key_passes modifiers_mask)) remap_id) := by
  obtain ⟨h2, h1⟩ := send_key_def_fold_masked .UP remap_id modifiers_mask head.reverse (0, sent)
  rw [List.filter_reverse] at h1 h2
  unfold send_key_def_input_up chord_up
  apply Prod.ext
  · rw [h1]
    simp only [List.map_eq_nil_iff]
  · exact h2

theorem chord_down_tagged (head : List KeyDef) (remap_id : Nat) :
    ∀ s ∈ chord_down head remap_id, s.remap_id = remap_id := by
  intro s hs
  unfold chord_down at hs
  rw [List.mem_map] at hs
  obtain ⟨k, _, hk⟩ := hs
  rw [← hk]

theorem chord_up_tagged (head : List KeyDef) (remap_id : Nat) :
    ∀ s ∈ chord_up head remap_id, s.remap_id = remap_id := by
  intro s hs
  unfold chord_up at hs
  rw [List.mem_map] at hs
  obtain ⟨k, _, hk⟩ := hs
  rw [← hk]

theorem sends_down (head : List KeyDef) (remap_id modifiers_mask : Nat) (sent : List SentInput) :
    SendsTagged remap_id sent (send_key_def_input_down head remap_id modifiers_mask sent) :=
  ⟨_, send_down_spec head remap_id modifiers_mask sent, chord_down_tagged _ remap_id⟩

theorem sends_up (head : List KeyDef) (remap_id modifiers_mask : Nat) (sent : List SentInput) :
    SendsTagged remap_id sent (send_key_def_input_up head remap_id modifiers_mask sent) :=
  ⟨_, send_up_spec head remap_id modifiers_mask sent, chord_up_tagged _ remap_id⟩

theorem sends_nothing (remap_id : Nat) (sent : List SentInput) :
    SendsTagged remap_id sent (0, sent) :=
  ⟨[], by simp, by simp⟩

theorem sends_if_down (c : Prop) [Decidable c] (head : List KeyDef) (remap_id : Nat)
    (sent : List SentInput) :
    SendsTagged remap_id sent
      (if c then send_key_def_input_down head remap_id 0 sent else (0, sent)) := by
  split
  · exact sends_down _ _ _ _
  · exact sends_nothing _ _

theorem reassert_chord_sends {fuel : Nat} (e : Engine) (remap_id : Nat) (r : Remap)
    (chord : List KeyDef) (layer : Option Nat) (s : Nat × List SentInput)
    (h : reassert_chord fuel e remap_id r chord layer = some s) : SendsTagged r.id e.sent s := by
  unfold reassert_chord at h
  rw [Option.map_eq_some'] at h
  obtain ⟨b, _, hb⟩ := h
  rw [← hb]
  cases b
  · exact sends_down _ _ _ _
  · exact sends_up _ _ _ _

/-- The events, the tag and the flag of one sending block, as the loop of
`event_other_input` accumulates them. -/
theorem sent_of_tagged {remap_id : Nat} {sent : List SentInput} {s : Nat × List SentInput}
    (hs : SendsTagged remap_id sent s) (a : Nat) :
    ∃ evs, s.2 = sent ++ evs ∧ (∀ x ∈ evs, x.remap_id = remap_id) ∧
      a ||| s.1 = a ||| (if evs = [] then 0 else 1) := by
  obtain ⟨evs, rfl, ht⟩ := hs
  exact ⟨evs, rfl, ht, rfl⟩

theorem sent_of_tagged_two {remap_id : Nat} {sent : List SentInput}
    {s1 s2 : Nat × List SentInput} (h1 : SendsTagged remap_id sent s1)
    (h2 : SendsTagged remap_id s1.2 s2) (a : Nat) :
    ∃ evs, s2.2 = sent ++ evs ∧ (∀ x ∈ evs, x.remap_id = remap_id) ∧
      a ||| s1.1 ||| s2.1 = a ||| (if evs = [] then 0 else 1) := by
  obtain ⟨evs1, rfl, ht1⟩ := h1
  obtain ⟨evs2, rfl, ht2⟩ := h2
  refine ⟨evs1 ++ evs2, by simp, ?_, ?_⟩
  · intro x hx
    rcases List.mem_append.mp hx with h | h
    · exact ht1 x h
    · exact ht2 x h
  · by_cases e1 : evs1 = [] <;> by_cases e2 : evs2 = [] <;>
      simp [e1, e2, Nat.or_assoc]

/-- One iteration of the loop of `event_other_input` appends events that
carry the id of the list element, and or-s 1 into `block_input` exactly
when it sends one. -/
theorem other_input_step_sent {fuel : Nat} (time remap_id : Nat) (acc acc' : Nat × Engine)
    (remap : Nat) (h : event_other_input_step fuel time remap_id acc remap = some acc') :
    ∃ evs, acc'.2.sent = acc.2.sent ++ evs ∧
      (∀ x ∈ evs, x.remap_id = (remapAt acc.2.remaps remap).id) ∧
      acc'.1 = acc.1 ||| (if evs = [] then 0 else 1) := by
  unfold event_other_input_step at h
  simp only at h
  by_cases hid : (remapAt acc.2.remaps remap).id ≠ remap_id
  · rw [if_pos hid] at h
    cases hst : (remapAt acc.2.remaps remap).state with
    | HELD_DOWN_ALONE =>
      rw [hst] at h
      simp only at h
      split at h
      · injection h with h
        subst h
        exact sent_of_tagged (sends_down _ _ _ _) acc.1
      · rw [Option.map_eq_some'] at h
        obtain ⟨b, _, hb⟩ := h
        subst hb
        cases b
        · simp only [Bool.not_false, if_true]
          split
          · exact sent_of_tagged (sends_down _ _ _ _) acc.1
          · exact ⟨[], by simp, by simp, by simp⟩
        · simp only [Bool.not_true, Bool.false_eq_true, if_false]
          exact ⟨[], by simp, by simp, by simp⟩
    | HELD_DOWN_WITH_OTHER =>
      rw [hst] at h
      simp only at h
      split at h
      · rw [Option.map_eq_some'] at h
        obtain ⟨s, hs, hb⟩ := h
        subst hb
        exact sent_of_tagged (reassert_chord_sends _ _ _ _ _ s hs) acc.1
      · injection h with h
        subst h
        exact ⟨[], by simp, by simp, by simp⟩
    | TAP =>
      rw [hst] at h
      simp only at h
      split at h
      · rw [Option.map_eq_some'] at h
        obtain ⟨s, hs, hb⟩ := h
        subst hb
        exact sent_of_tagged (reassert_chord_sends _ _ _ _ _ s hs) acc.1
      · injection h with h
        subst h
        exact ⟨[], by simp, by simp, by simp⟩
    | DOUBLE_TAP =>
      rw [hst] at h
      simp only at h
      split at h
      · rw [Option.map_eq_some'] at h
        obtain ⟨s, hs, hb⟩ := h
        subst hb
        exact sent_of_tagged (reassert_chord_sends _ _ _ _ _ s hs) acc.1
      · injection h with h
        subst h
        exact ⟨[], by simp, by simp, by simp⟩
    | IDLE =>
      rw [hst] at h
      simp only at h
      injection h with h
      subst h
      exact sent_of_tagged_two (sends_if_down _ _ _ _) (sends_if_down _ _ _ _) acc.1
    | TAPPED =>
      rw [hst] at h
      simp only at h
      injection h with h
      subst h
      exact sent_of_tagged_two (sends_if_down _ _ _ _) (sends_if_down _ _ _ _) acc.1
  · rw [if_neg hid] at h
    injection h with h
    subst h
    exact ⟨[], by simp, by simp, by simp⟩

/-! ## The active list (`remap.c` lines 490-512) -/

theorem append_active_remap_of_mem {l : List Nat} {elem : Nat} (h : elem ∈ l) :
    append_active_remap l elem = l := by
  induction l with
  | nil => exact absurd h (List.not_mem_nil _)
  | cons r rest ih =>
    unfold append_active_remap
    split_ifs with hr
    · rfl
    · rcases List.mem_cons.mp h with h1 | h1
      · exact absurd h1.symm hr
      · rw [ih h1]

theorem append_active_remap_of_not_mem {l : List Nat} {elem : Nat} (h : elem ∉ l) :
    append_active_remap l elem = l ++ [elem] := by
  induction l with
  | nil => rfl
  | cons r rest ih =>
    unfold append_active_remap
    have hr : ¬ r = elem := fun hc => h (hc ▸ List.mem_cons_self _ _)
    rw [if_neg hr, ih (fun hc => h (List.mem_cons_of_mem _ hc))]
    rfl

theorem mem_append_active_remap_iff (l : List Nat) (elem n : Nat) :
    n ∈ append_active_remap l elem ↔ n = elem ∨ n ∈ l := by
  by_cases h : elem ∈ l
  · rw [append_active_remap_of_mem h]
    constructor
    · exact Or.inr
    · rintro (rfl | h1)
      · exact h
      · exact h1
  · rw [append_active_remap_of_not_mem h, List.mem_append, List.mem_singleton]
    exact or_comm

theorem nodup_append_active_remap {l : List Nat} (hl : l.Nodup) (elem : Nat) :
    (append_active_remap l elem).Nodup := by
  by_cases h : elem ∈ l
  · rw [append_active_remap_of_mem h]
    exact hl
  · rw [append_active_remap_of_not_mem h]
    exact List.Nodup.append hl (List.nodup_singleton _) (by simpa using h)

theorem remove_active_remap_eq_erase (l : List Nat) (elem : Nat) :
    remove_active_remap l elem = l.erase elem := by
  induction l with
  | nil => rfl
  | cons r rest ih =>
    unfold remove_active_remap
    by_cases hr : r = elem
    · rw [if_pos hr, hr, List.erase_cons_head]
    · rw [if_neg hr, ih, List.erase_cons_tail (by simpa using hr)]

theorem nodup_remove_active_remap {l : List Nat} (hl : l.Nodup) (elem : Nat) :
    (remove_active_remap l elem).Nodup := by
  rw [remove_active_remap_eq_erase]
  exact hl.erase elem

theorem mem_remove_active_remap_iff {l : List Nat} (hl : l.Nodup) (elem n : Nat) :
    n ∈ remove_active_remap l elem ↔ n ≠ elem ∧ n ∈ l := by
  rw [remove_active_remap_eq_erase]
  exact hl.mem_erase_iff

/-! ## What the handlers do to the active list and to the remaps -/

theorem held_default : ¬ Held (default : Remap) := by
  unfold Held
  decide

theorem lt_of_held {rs : List Remap} {n : Nat} (h : Held (remapAt rs n)) : n < rs.length := by
  by_contra hc
  rw [remapAt_of_ge (by omega)] at h
  exact held_default h

/-- Function `event_remapped_key_down` either leaves the remaps and the
active list alone (key repeat), or it writes the remap, in a state other
than `IDLE` and `TAPPED`, and appends it to the active list. -/
theorem key_down_active {fuel : Nat} (remap time : Nat) (e : Engine) (b : Int) (e' : Engine)
    (h : event_remapped_key_down fuel remap time e = some (b, e')) :
    b = 1 ∧ e'.g_remap_array = e.g_remap_array ∧
    ((e'.remaps = e.remaps ∧ e'.g_remap_list = e.g_remap_list) ∨
      ∃ x, e'.remaps = e.remaps.set remap x ∧ (x.state ≠ .IDLE ∧ x.state ≠ .TAPPED) ∧
        e'.g_remap_list = append_active_remap e.g_remap_list remap) := by
  unfold event_remapped_key_down at h
  simp only at h
  cases hst : (remapAt e.remaps remap).state with
  | IDLE =>
    rw [hst] at h
    simp only at h
    rw [Option.map_eq_some'] at h
    obtain ⟨ls, _, hb⟩ := h
    obtain ⟨rfl, rfl⟩ := Prod.mk.inj hb
    refine ⟨rfl, rfl, Or.inr ⟨_, rfl, ?_, rfl⟩⟩
    rw [press_from_rest_state]
    split <;> exact ⟨by decide, by decide⟩
  | HELD_DOWN_ALONE =>
    rw [hst] at h
    simp only at h
    obtain ⟨rfl, rfl⟩ := Prod.mk.inj (Option.some.inj h)
    exact ⟨rfl, rfl, Or.inl ⟨rfl, rfl⟩⟩
  | HELD_DOWN_WITH_OTHER =>
    rw [hst] at h
    simp only at h
    obtain ⟨rfl, rfl⟩ := Prod.mk.inj (Option.some.inj h)
    exact ⟨rfl, rfl, Or.inl ⟨rfl, rfl⟩⟩
  | TAP =>
    rw [hst] at h
    simp only at h
    obtain ⟨rfl, rfl⟩ := Prod.mk.inj (Option.some.inj h)
    exact ⟨rfl, rfl, Or.inl ⟨rfl, rfl⟩⟩
  | DOUBLE_TAP =>
    rw [hst] at h
    simp only at h
    obtain ⟨rfl, rfl⟩ := Prod.mk.inj (Option.some.inj h)
    exact ⟨rfl, rfl, Or.inl ⟨rfl, rfl⟩⟩
  | TAPPED =>
    rw [hst] at h
    simp only at h
    split at h
    · rw [Option.map_eq_some'] at h
      obtain ⟨ls, _, hb⟩ := h
      obtain ⟨rfl, rfl⟩ := Prod.mk.inj hb
      refine ⟨rfl, rfl, Or.inr ⟨_, rfl, ?_, rfl⟩⟩
      rw [press_doublepress_chord_state, undo_tap_lock_state]
      exact ⟨fun hc => State.noConfusion hc, fun hc => State.noConfusion hc⟩
    · rw [Option.map_eq_some'] at h
      obtain ⟨ls, _, hb⟩ := h
      obtain ⟨rfl, rfl⟩ := Prod.mk.inj hb
      refine ⟨rfl, rfl, Or.inr ⟨_, rfl, ?_, rfl⟩⟩
      rw [press_from_rest_state]
      split <;> exact ⟨by decide, by decide⟩

/-- The record `key_up_transition` leaves is `IDLE` or `TAPPED`, and it has
a lock bit set only if the remap held something before. -/
theorem key_up_transition_held {fuel : Nat} (e : Engine) (r : Remap) (time : Nat)
    (t : Remap × List SentInput × List Layer) (h : key_up_transition fuel e r time = some t) :
    (t.1.state = .IDLE ∨ t.1.state = .TAPPED) ∧
      (t.1.tap_lock ≠ 0 ∨ t.1.double_tap_lock ≠ 0 → Held r) := by
  unfold key_up_transition at h
  cases hst : r.state with
  | IDLE =>
    rw [hst] at h
    simp only at h
    obtain rfl := Option.some.inj h
    exact ⟨Or.inl hst, fun hl => Or.inr hl⟩
  | TAPPED =>
    rw [hst] at h
    simp only at h
    obtain rfl := Option.some.inj h
    exact ⟨Or.inr hst, fun hl => Or.inr hl⟩
  | HELD_DOWN_ALONE =>
    have hheld : Held r := Or.inl ⟨by rw [hst]; decide, by rw [hst]; decide⟩
    rw [hst] at h
    simp only at h
    split at h
    · rw [Option.map_eq_some'] at h
      obtain ⟨ls, _, rfl⟩ := h
      exact ⟨Or.inr (by rw [toggle_tap_lock_state]), fun _ => hheld⟩
    · rw [Option.map_eq_some'] at h
      obtain ⟨ls, _, rfl⟩ := h
      exact ⟨Or.inl rfl, fun _ => hheld⟩
  | HELD_DOWN_WITH_OTHER =>
    have hheld : Held r := Or.inl ⟨by rw [hst]; decide, by rw [hst]; decide⟩
    rw [hst] at h
    simp only at h
    rw [Option.map_eq_some'] at h
    obtain ⟨ls, _, rfl⟩ := h
    exact ⟨Or.inl (by rw [release_chord_state]), fun _ => hheld⟩
  | TAP =>
    have hheld : Held r := Or.inl ⟨by rw [hst]; decide, by rw [hst]; decide⟩
    rw [hst] at h
    simp only at h
    split at h
    · rw [Option.map_eq_some'] at h
      obtain ⟨ls, _, rfl⟩ := h
      exact ⟨Or.inr (by rw [toggle_tap_lock_state, release_chord_state]), fun _ => hheld⟩
    · rw [Option.map_eq_some'] at h
      obtain ⟨ls, _, rfl⟩ := h
      exact ⟨Or.inl (by rw [release_chord_state]), fun _ => hheld⟩
  | DOUBLE_TAP =>
    have hheld : Held r := Or.inl ⟨by rw [hst]; decide, by rw [hst]; decide⟩
    rw [hst] at h
    simp only at h
    split at h
    · rw [Option.map_eq_some'] at h
      obtain ⟨ls, _, rfl⟩ := h
      exact ⟨Or.inl (by rw [toggle_double_tap_lock_state, release_chord_state]),
        fun _ => hheld⟩
    · rw [Option.map_eq_some'] at h
      obtain ⟨ls, _, rfl⟩ := h
      exact ⟨Or.inl (by rw [release_chord_state]), fun _ => hheld⟩

/-- Function `event_remapped_key_up` writes the remap, `IDLE` or `TAPPED`,
and unlinks it exactly when both lock bits are clear. -/
theorem key_up_active {fuel : Nat} (remap time : Nat) (e : Engine) (b : Int) (e' : Engine)
    (h : event_remapped_key_up fuel remap time e = some (b, e')) :
    b = 1 ∧ e'.g_remap_array = e.g_remap_array ∧
    ∃ x, e'.remaps = e.remaps.set remap x ∧ (x.state = .IDLE ∨ x.state = .TAPPED) ∧
      (x.tap_lock ≠ 0 ∨ x.double_tap_lock ≠ 0 → Held (remapAt e.remaps remap)) ∧
      e'.g_remap_list =
        if x.tap_lock = 0 ∧ x.double_tap_lock = 0 then
          remove_active_remap e.g_remap_list remap
        else e.g_remap_list := by
  unfold event_remapped_key_up at h
  rw [Option.map_eq_some'] at h
  obtain ⟨t, ht, hb⟩ := h
  obtain ⟨rfl, rfl⟩ := Prod.mk.inj hb
  obtain ⟨hs, hl⟩ := key_up_transition_held e _ time t ht
  exact ⟨rfl, rfl, t.1, rfl, hs, hl, rfl⟩

/-! ## The invariant of the active list along the events -/

theorem not_held_of_rest {r : Remap} (hs : r.state = .IDLE ∨ r.state = .TAPPED)
    (h1 : r.tap_lock = 0) (h2 : r.double_tap_lock = 0) : ¬ Held r := by
  unfold Held
  rintro (⟨ha, hb⟩ | hc | hc)
  · rcases hs with hs | hs
    · exact ha hs
    · exact hb hs
  · exact hc h1
  · exact hc h2

/-- Writing a record that holds something exactly when the old one did
keeps, index by index, which remaps hold something. -/
theorem held_set (rs : List Remap) (remap : Nat) (x : Remap)
    (hx : Held x ↔ Held (remapAt rs remap)) :
    ∀ n, Held (remapAt (rs.set remap x) n) ↔ Held (remapAt rs n) := by
  intro n
  by_cases hn : remap = n
  · subst hn
    by_cases hlt : remap < rs.length
    · rw [remapAt_set_eq x hlt]
      exact hx
    · rw [List.set_eq_of_length_le (by omega)]
  · rw [remapAt_set_ne x hn]

/-- One iteration of the loop of `event_other_input` keeps which remaps hold
something: it moves a remap from `HELD_DOWN_ALONE` to `TAP` or
`HELD_DOWN_WITH_OTHER` at most, and never writes a lock bit. -/
theorem other_input_step_held {fuel : Nat} (time remap_id : Nat) (acc acc' : Nat × Engine)
    (remap : Nat) (h : event_other_input_step fuel time remap_id acc remap = some acc') :
    ∀ n, Held (remapAt acc'.2.remaps n) ↔ Held (remapAt acc.2.remaps n) := by
  unfold event_other_input_step at h
  simp only at h
  by_cases hid : (remapAt acc.2.remaps remap).id ≠ remap_id
  · rw [if_pos hid] at h
    cases hst : (remapAt acc.2.remaps remap).state <;> rw [hst] at h <;> simp only at h
    all_goals (try split at h)
    all_goals
      first
        | (injection h with h
           subst h
           exact held_set _ _ _ (by first | exact Iff.rfl | simp [Held, hst]))
        | (rw [Option.map_eq_some'] at h
           obtain ⟨s, _, hs⟩ := h
           subst hs
           first
             | exact held_set _ _ _ (by first | exact Iff.rfl | simp [Held, hst])
             | (cases s <;>
                 simp only [Bool.not_false, Bool.not_true, if_true, Bool.false_eq_true,
                   if_false] <;>
                 (try split) <;>
                 exact held_set _ _ _ (by first | exact Iff.rfl | simp [Held, hst])))
  · rw [if_neg hid] at h
    injection h with h
    subst h
    intro n
    exact Iff.rfl

theorem other_input_step_length {fuel : Nat} (time remap_id : Nat) (acc acc' : Nat × Engine)
    (remap : Nat) (h : event_other_input_step fuel time remap_id acc remap = some acc') :
    acc'.2.remaps.length = acc.2.remaps.length := by
  rcases (other_input_step_remaps time remap_id acc acc' remap h).1 with he | ⟨_, x, he⟩
  · rw [he]
  · rw [he, List.length_set]

theorem other_input_loop_held {fuel : Nat} (time remap_id : Nat) (l : List Nat) :
    ∀ (acc acc' : Nat × Engine), event_other_input_loop fuel time remap_id l acc = some acc' →
      (∀ n, Held (remapAt acc'.2.remaps n) ↔ Held (remapAt acc.2.remaps n)) ∧
      acc'.2.remaps.length = acc.2.remaps.length := by
  induction l with
  | nil =>
    intro acc acc' h
    unfold event_other_input_loop at h
    injection h with h
    subst h
    exact ⟨fun _ => Iff.rfl, rfl⟩
  | cons remap rest ih =>
    intro acc acc' h
    unfold event_other_input_loop at h
    cases hs : event_other_input_step fuel time remap_id acc remap with
    | none => rw [hs] at h; exact absurd h (by simp)
    | some a1 =>
      rw [hs, Option.some_bind] at h
      obtain ⟨h2, hl2⟩ := ih a1 acc' h
      exact ⟨fun n => (h2 n).trans (other_input_step_held time remap_id acc a1 remap hs n),
        by rw [hl2, other_input_step_length time remap_id acc a1 remap hs]⟩

/-- Function `event_other_input` leaves the active list and the buckets
alone and keeps which remaps hold something. -/
theorem other_input_active {fuel : Nat} (virt_code : Nat) (direction : Direction)
    (time remap_id : Nat) (e : Engine) (b : Int) (e' : Engine)
    (h : event_other_input fuel virt_code direction time remap_id e = some (b, e')) :
    e'.g_remap_list = e.g_remap_list ∧ e'.g_remap_array = e.g_remap_array ∧
      e'.remaps.length = e.remaps.length ∧
      ∀ n, Held (remapAt e'.remaps n) ↔ Held (remapAt e.remaps n) := by
  unfold event_other_input at h
  split at h
  · rw [Option.map_eq_some'] at h
    obtain ⟨p, hp, hpe⟩ := h
    obtain ⟨_, _, hg, _, ha, _⟩ := other_input_loop_frame time remap_id _ _ p hp
    obtain ⟨hh, hl⟩ := other_input_loop_held time remap_id _ _ p hp
    obtain ⟨_, rfl⟩ := Prod.mk.inj hpe
    exact ⟨hg, ha, hl, hh⟩
  · obtain ⟨_, rfl⟩ := Prod.mk.inj (Option.some.inj h)
    exact ⟨rfl, rfl, rfl, fun _ => Iff.rfl⟩

/-! ## `unlock_all` and the active list -/

/-- The remap loop of `unlock_all`: a remap that is not on the list is left
alone, every remap of the list ends `IDLE` with both lock bits 0, and the
arena keeps its length. -/
theorem unlock_fold_spec (l : List Nat) :
    ∀ (acc : List Remap × List SentInput),
      (∀ n, n ∉ l →
        remapAt (l.foldl
          (fun (acc : List Remap × List SentInput) remap_iter =>
            ((acc.1.set remap_iter (unlock_remap (remapAt acc.1 remap_iter) acc.2).1,
              (unlock_remap (remapAt acc.1 remap_iter) acc.2).2) :
              List Remap × List SentInput))
          acc).1 n = remapAt acc.1 n) ∧
      (∀ n, n ∈ l → n < acc.1.length →
        (remapAt (l.foldl
          (fun (acc : List Remap × List SentInput) remap_iter =>
            ((acc.1.set remap_iter (unlock_remap (remapAt acc.1 remap_iter) acc.2).1,
              (unlock_remap (remapAt acc.1 remap_iter) acc.2).2) :
              List Remap × List SentInput))
          acc).1 n).state = .IDLE ∧
        (remapAt (l.foldl
          (fun (acc : List Remap × List SentInput) remap_iter =>
            ((acc.1.set remap_iter (unlock_remap (remapAt acc.1 remap_iter) acc.2).1,
              (unlock_remap (remapAt acc.1 remap_iter) acc.2).2) :
              List Remap × List SentInput))
          acc).1 n).tap_lock = 0 ∧
        (remapAt (l.foldl
          (fun (acc : List Remap × List SentInput) remap_iter =>
            ((acc.1.set remap_iter (unlock_remap (remapAt acc.1 remap_iter) acc.2).1,
              (unlock_remap (remapAt acc.1 remap_iter) acc.2).2) :
              List Remap × List SentInput))
          acc).1 n).double_tap_lock = 0) ∧
      (l.foldl
          (fun (acc : List Remap × List SentInput) remap_iter =>
            ((acc.1.set remap_iter (unlock_remap (remapAt acc.1 remap_iter) acc.2).1,
              (unlock_remap (remapAt acc.1 remap_iter) acc.2).2) :
              List Remap × List SentInput))
          acc).1.length = acc.1.length := by
  induction l with
  | nil =>
    intro acc
    exact ⟨fun _ _ => rfl, fun n hn => absurd hn (List.not_mem_nil _), rfl⟩
  | cons m rest ih =>
    intro acc
    rw [List.foldl_cons]
    obtain ⟨h1, h2, h3⟩ := ih (acc.1.set m (unlock_remap (remapAt acc.1 m) acc.2).1,
      (unlock_remap (remapAt acc.1 m) acc.2).2)
    refine ⟨?_, ?_, ?_⟩
    · intro n hn
      rw [h1 n (fun hc => hn (List.mem_cons_of_mem _ hc))]
      exact remapAt_set_ne _ (fun hc => hn (hc ▸ List.mem_cons_self _ _))
    · intro n hn hlt
      by_cases hr : n ∈ rest
      · exact h2 n hr (by rw [List.length_set]; exact hlt)
      · have hnm : n = m := by
          rcases List.mem_cons.mp hn with h | h
          · exact h
          · exact absurd h hr
        subst hnm
        rw [h1 n hr, remapAt_set_eq _ hlt]
        exact ⟨rfl, rfl, rfl⟩
    · rw [h3, List.length_set]

/-- After `unlock_all` the active list is empty and no remap that was on
it, and no remap that held nothing before, holds anything. -/
theorem unlock_all_active (e : Engine) (h : ActiveInv e) : ActiveInv (unlock_all e) := by
  obtain ⟨h1, h2, h3⟩ := unlock_fold_spec e.g_remap_list (e.remaps, e.sent)
  refine ⟨List.nodup_nil, ?_⟩
  intro n
  constructor
  · intro hn
    exact absurd hn (List.not_mem_nil _)
  · intro hheld
    exfalso
    by_cases hn : n ∈ e.g_remap_list
    · have hlt : n < e.remaps.length := lt_of_held ((h.2 n).mp hn)
      obtain ⟨ha, hb, hc⟩ := h2 n hn hlt
      exact not_held_of_rest (Or.inl ha) hb hc hheld
    · have hsame : remapAt (unlock_all e).remaps n = remapAt e.remaps n := h1 n hn
      rw [hsame] at hheld
      exact hn ((h.2 n).mpr hheld)

theorem unlock_all_length (e : Engine) : (unlock_all e).remaps.length = e.remaps.length :=
  (unlock_fold_spec e.g_remap_list (e.remaps, e.sent)).2.2

/-! ## The cases of `handle_input` -/

theorem handle_input_eq_tail (fuel scan_code virt_code : Nat) (direction : Direction)
    (time : Nat) (is_injected : Bool) (flags dwExtraInfo : Nat) (e : Engine) :
    handle_input fuel scan_code virt_code direction time is_injected flags dwExtraInfo e =
      handle_input_tail fuel virt_code direction time is_injected dwExtraInfo
        (if e.g_unlock_timeout > 0 ∧ dword_sub time e.g_last_input > u32 e.g_unlock_timeout then
          unlock_all e
        else e) := rfl

/-- The four ways `handle_input` ends after the unlock check: pass-through,
the up handler or the down handler of the selected remap, or
`event_other_input`. -/
theorem handle_input_tail_cases {fuel : Nat} (virt_code : Nat) (direction : Direction)
    (time : Nat) (is_injected : Bool) (dwExtraInfo : Nat) (e1 : Engine) (b : Int)
    (e' : Engine)
    (h : handle_input_tail fuel virt_code direction time is_injected dwExtraInfo e1 =
      some (b, e')) :
    (b = 0 ∧ is_injected = true ∧
      (dwExtraInfo &&& 0xFFFFFF00 ≠ INJECTED_KEY_ID ∨ dwExtraInfo = INJECTED_KEY_ID) ∧
      (e' = e1 ∨
        e' = { e1 with rehooks := e1.rehooks + 1, g_last_input := time % 4294967296 })) ∨
    (∃ r, is_injected = false ∧
      remap_for_input { e1 with g_last_input := time % 4294967296 } virt_code = some r ∧
      direction = .UP ∧
      event_remapped_key_up fuel r time { e1 with g_last_input := time % 4294967296 } =
        some (b, e')) ∨
    (∃ r, is_injected = false ∧
      remap_for_input { e1 with g_last_input := time % 4294967296 } virt_code = some r ∧
      direction ≠ .UP ∧
      event_remapped_key_down fuel r time { e1 with g_last_input := time % 4294967296 } =
        some (b, e')) ∨
    (∃ remap_id,
      ((is_injected = true ∧
          ¬ (dwExtraInfo &&& 0xFFFFFF00 ≠ INJECTED_KEY_ID ∨ dwExtraInfo = INJECTED_KEY_ID) ∧
          remap_id = dwExtraInfo &&& 0xFF) ∨
        (is_injected = false ∧
          remap_for_input { e1 with g_last_input := time % 4294967296 } virt_code = none ∧
          remap_id = 0)) ∧
      event_other_input fuel virt_code direction time remap_id
        { e1 with g_last_input := time % 4294967296 } = some (b, e')) := by
  unfold handle_input_tail at h
  split at h
  · rename_i hpass
    left
    split at h
    · obtain ⟨rfl, rfl⟩ := Prod.mk.inj (Option.some.inj h)
      exact ⟨rfl, hpass.1, hpass.2, Or.inr rfl⟩
    · obtain ⟨rfl, rfl⟩ := Prod.mk.inj (Option.some.inj h)
      exact ⟨rfl, hpass.1, hpass.2, Or.inl rfl⟩
  · rename_i hpass
    simp only at h
    split at h
    · rename_i hinj
      exact Or.inr (Or.inr (Or.inr ⟨_, Or.inl ⟨hinj, fun hc => hpass ⟨hinj, hc⟩, rfl⟩, h⟩))
    · rename_i hinj
      have hfalse : is_injected = false := by
        cases is_injected
        · rfl
        · exact absurd rfl hinj
      split at h
      · rename_i r hr
        split at h
        · rename_i hup
          exact Or.inr (Or.inl ⟨r, hfalse, hr, hup, h⟩)
        · rename_i hup
          exact Or.inr (Or.inr (Or.inl ⟨r, hfalse, hr, hup, h⟩))
      · rename_i hr
        exact Or.inr (Or.inr (Or.inr ⟨_, Or.inr ⟨hfalse, hr, rfl⟩, h⟩))

theorem find_remap_for_virt_code_mem (rs : List Remap) (l : List Nat) (virt_code r : Nat)
    (h : find_remap_for_virt_code rs l virt_code = some r) : r ∈ l := by
  induction l with
  | nil => exact absurd h (by simp [find_remap_for_virt_code])
  | cons m rest ih =>
    unfold find_remap_for_virt_code at h
    split at h
    · obtain rfl := Option.some.inj h
      exact List.mem_cons_self _ _
    · exact List.mem_cons_of_mem _ (ih h)

theorem find_remap_node_mem (ls : List Layer) (rs : List Remap) (bucket : List Nat) (r : Nat)
    (h : find_remap_node ls rs bucket = some r) : r ∈ bucket := by
  induction bucket with
  | nil => exact absurd h (by simp [find_remap_node])
  | cons m rest ih =>
    unfold find_remap_node at h
    split at h
    · obtain rfl := Option.some.inj h
      exact List.mem_cons_self _ _
    · split at h
      · obtain rfl := Option.some.inj h
        exact List.mem_cons_self _ _
      · exact List.mem_cons_of_mem _ (ih h)

/-- The remap `handle_input` selects is on the active list or in the bucket
of the virtual code. -/
theorem remap_for_input_mem (e : Engine) (virt_code r : Nat)
    (h : remap_for_input e virt_code = some r) :
    r ∈ e.g_remap_list ∨ r ∈ e.g_remap_array.getD (virt_code &&& 0xFF) [] := by
  unfold remap_for_input at h
  split at h
  · rename_i r' hr'
    obtain rfl := Option.some.inj h
    exact Or.inl (find_remap_for_virt_code_mem _ _ _ _ hr')
  · exact Or.inr (find_remap_node_mem _ _ _ _ h)

/-! ## The active-list invariant is kept by `handle_input` -/

theorem activeInv_of_rest (e : Engine) (h : AtRest e) : ActiveInv e := by
  refine ⟨by rw [h.1]; exact List.nodup_nil, ?_⟩
  intro n
  rw [h.1]
  constructor
  · intro hn
    exact absurd hn (List.not_mem_nil _)
  · intro hh
    exact absurd hh (not_held_of_rest (Or.inl (h.2 n).1) (h.2 n).2.1 (h.2 n).2.2)

theorem registry_congr {e e' : Engine} (ha : e'.g_remap_array = e.g_remap_array)
    (hl : e'.remaps.length = e.remaps.length) (h : RegistryInRange e) : RegistryInRange e' := by
  intro i n hn
  rw [ha] at hn
  rw [hl]
  exact h i n hn

/-- The down handler keeps the invariant when the remap is in the arena. -/
theorem key_down_inv {fuel : Nat} (remap time : Nat) (e : Engine) (b : Int) (e' : Engine)
    (hlt : remap < e.remaps.length) (hinv : ActiveInv e)
    (h : event_remapped_key_down fuel remap time e = some (b, e')) :
    ActiveInv e' ∧ e'.g_remap_array = e.g_remap_array ∧
      e'.remaps.length = e.remaps.length := by
  obtain ⟨_, ha, hc⟩ := key_down_active remap time e b e' h
  rcases hc with ⟨hr, hl⟩ | ⟨x, hr, hx, hl⟩
  · refine ⟨?_, ha, by rw [hr]⟩
    unfold ActiveInv
    rw [hr, hl]
    exact hinv
  · refine ⟨⟨?_, ?_⟩, ha, by rw [hr, List.length_set]⟩
    · rw [hl]
      exact nodup_append_active_remap hinv.1 remap
    · intro n
      rw [hl, hr, mem_append_active_remap_iff]
      by_cases hn : remap = n
      · subst hn
        rw [remapAt_set_eq x hlt]
        exact ⟨fun _ => Or.inl hx, fun _ => Or.inl rfl⟩
      · rw [remapAt_set_ne x hn, ← hinv.2 n]
        constructor
        · rintro (h1 | h1)
          · exact absurd h1.symm hn
          · exact h1
        · exact Or.inr

/-- The up handler keeps the invariant. -/
theorem key_up_inv {fuel : Nat} (remap time : Nat) (e : Engine) (b : Int) (e' : Engine)
    (hinv : ActiveInv e) (h : event_remapped_key_up fuel remap time e = some (b, e')) :
    ActiveInv e' ∧ e'.g_remap_array = e.g_remap_array ∧
      e'.remaps.length = e.remaps.length := by
  obtain ⟨_, ha, x, hr, hs, hheld, hl⟩ := key_up_active remap time e b e' h
  refine ⟨?_, ha, by rw [hr, List.length_set]⟩
  by_cases hlock : x.tap_lock = 0 ∧ x.double_tap_lock = 0
  · rw [if_pos hlock] at hl
    refine ⟨by rw [hl]; exact nodup_remove_active_remap hinv.1 remap, ?_⟩
    intro n
    rw [hl, hr, mem_remove_active_remap_iff hinv.1]
    by_cases hn : remap = n
    · subst hn
      constructor
      · rintro ⟨h1, _⟩
        exact absurd rfl h1
      · intro hh
        exfalso
        by_cases hlt : remap < e.remaps.length
        · rw [remapAt_set_eq x hlt] at hh
          exact not_held_of_rest hs hlock.1 hlock.2 hh
        · rw [List.set_eq_of_length_le (by omega)] at hh
          exact hlt (lt_of_held hh)
    · rw [remapAt_set_ne x hn, ← hinv.2 n]
      constructor
      · rintro ⟨_, h2⟩
        exact h2
      · intro h2
        exact ⟨fun hc => hn hc.symm, h2⟩
  · rw [if_neg hlock] at hl
    have hlk : x.tap_lock ≠ 0 ∨ x.double_tap_lock ≠ 0 := by
      by_cases h1 : x.tap_lock = 0
      · right
        intro h2
        exact hlock ⟨h1, h2⟩
      · exact Or.inl h1
    have hold : Held (remapAt e.remaps remap) := hheld hlk
    have hlt : remap < e.remaps.length := lt_of_held hold
    refine ⟨by rw [hl]; exact hinv.1, ?_⟩
    intro n
    rw [hl, hr]
    by_cases hn : remap = n
    · subst hn
      rw [remapAt_set_eq x hlt]
      exact ⟨fun _ => Or.inr hlk, fun _ => (hinv.2 remap).mpr hold⟩
    · rw [remapAt_set_ne x hn]
      exact hinv.2 n

/-- The part of `handle_input` after the unlock check keeps the invariant
of the active list. -/
theorem tail_active {fuel : Nat} (virt_code : Nat) (direction : Direction)
    (time : Nat) (is_injected : Bool) (dwExtraInfo : Nat) (e1 : Engine) (b : Int)
    (e' : Engine) (hinv : ActiveInv e1) (hreg : RegistryInRange e1)
    (h : handle_input_tail fuel virt_code direction time is_injected dwExtraInfo e1 =
      some (b, e')) :
    ActiveInv e' ∧ RegistryInRange e' := by
  have hinv2 : ActiveInv { e1 with g_last_input := time % 4294967296 } := hinv
  have hreg2 : RegistryInRange { e1 with g_last_input := time % 4294967296 } := hreg
  rcases handle_input_tail_cases virt_code direction time is_injected dwExtraInfo e1 b e' h with
    ⟨_, _, _, rfl | rfl⟩ | ⟨r, _, _, _, hup⟩ | ⟨r, _, hr, _, hdown⟩ | ⟨id, _, hother⟩
  · exact ⟨hinv, hreg⟩
  · exact ⟨hinv, hreg⟩
  · obtain ⟨h1, h2, h3⟩ :=
      key_up_inv r time { e1 with g_last_input := time % 4294967296 } b e' hinv2 hup
    exact ⟨h1, registry_congr h2 h3 hreg2⟩
  · have hlt : r < e1.remaps.length := by
      rcases remap_for_input_mem _ virt_code r hr with hm | hm
      · exact lt_of_held ((hinv.2 r).mp hm)
      · exact hreg _ r hm
    obtain ⟨h1, h2, h3⟩ :=
      key_down_inv r time { e1 with g_last_input := time % 4294967296 } b e' hlt hinv2 hdown
    exact ⟨h1, registry_congr h2 h3 hreg2⟩
  · obtain ⟨hl, ha, hlen, hh⟩ := other_input_active virt_code direction time id _ b e' hother
    refine ⟨⟨by rw [hl]; exact hinv.1, ?_⟩, registry_congr ha hlen hreg2⟩
    intro n
    rw [hl, hh n]
    exact hinv.2 n

/-- Function `handle_input` keeps the invariant of the active list. -/
theorem handle_input_active {fuel : Nat} (scan_code virt_code : Nat) (direction : Direction)
    (time : Nat) (is_injected : Bool) (flags dwExtraInfo : Nat) (e : Engine) (b : Int)
    (e' : Engine) (hinv : ActiveInv e) (hreg : RegistryInRange e)
    (h : handle_input fuel scan_code virt_code direction time is_injected flags dwExtraInfo e =
      some (b, e')) :
    ActiveInv e' ∧ RegistryInRange e' := by
  rw [handle_input_eq_tail] at h
  split at h
  · exact tail_active virt_code direction time is_injected dwExtraInfo _ b e'
      (unlock_all_active e hinv)
      (@registry_congr e (unlock_all e) rfl (unlock_all_length e) hreg) h
  · exact tail_active virt_code direction time is_injected dwExtraInfo _ b e' hinv hreg h

theorem active_of_reachable {e0 e : Engine} (hinv : ActiveInv e0) (hreg : RegistryInRange e0)
    (hreach : Reachable e0 e) : ActiveInv e ∧ RegistryInRange e := by
  induction hreach with
  | start => exact ⟨hinv, hreg⟩
  | event e e' fuel scan_code virt_code direction time is_injected flags dwExtraInfo b _ _ h ih =>
    exact handle_input_active scan_code virt_code direction time is_injected flags dwExtraInfo
      e b e' ih.1 ih.2 h

/-! ## The loaded registry and remaps -/

/-- After the end-of-file call on empty buckets, every bucket entry is a
registered remap. -/
theorem loaded_registry_in_range (pre : Engine)
    (hempty : pre.g_remap_array = List.replicate 256 []) (hnodup : pre.g_remap_list.Nodup)
    (hrange : ∀ n ∈ pre.g_remap_list, n < pre.remaps.length) :
    RegistryInRange (load_config_line_eof pre) := by
  intro i n hn
  have h := distribute_count pre.remaps pre.g_remap_list [] pre.g_remap_array
    (by rw [hempty]; exact List.length_replicate _ _)
    (by
      intro j s
      rw [hempty, getD_replicate_nil]
      simp)
    (fun _ _ h => absurd h (List.not_mem_nil _)) hnodup i n
  have hpos : 0 < ((load_config_line_eof pre).g_remap_array.getD i []).count n :=
    List.count_pos_iff.mpr hn
  have hc : ((load_config_line_eof pre).g_remap_array.getD i []).count n =
      if n ∈ [] ++ pre.g_remap_list ∧ bucket_index pre.remaps n = i then 1 else 0 := h
  rw [hc] at hpos
  split at hpos
  · rename_i hmem
    exact hrange n (by simpa using hmem.1)
  · omega

theorem atRest_of_all (e : Engine) (hlist : e.g_remap_list = [])
    (h : ∀ r ∈ e.remaps, r.state = .IDLE ∧ r.tap_lock = 0 ∧ r.double_tap_lock = 0) :
    AtRest e := by
  refine ⟨hlist, ?_⟩
  intro n
  by_cases hn : n < e.remaps.length
  · apply h
    unfold remapAt
    rw [List.getD_eq_getElem?_getD, List.getElem?_eq_getElem hn]
    exact List.getElem_mem _
  · rw [remapAt_of_ge (Nat.le_of_not_lt hn)]
    exact ⟨rfl, rfl, rfl⟩

/-- The active list stays free of duplicates from any start without
duplicates. -/
theorem nodup_of_reachable {e0 e : Engine} (hnd : e0.g_remap_list.Nodup)
    (hreach : Reachable e0 e) : e.g_remap_list.Nodup := by
  induction hreach with
  | start => exact hnd
  | event e e' fuel scan_code virt_code direction time is_injected flags dwExtraInfo b _ _ h ih =>
    rw [handle_input_eq_tail] at h
    have h1 : (if e.g_unlock_timeout > 0 ∧
        dword_sub time e.g_last_input > u32 e.g_unlock_timeout then unlock_all e
        else e).g_remap_list.Nodup := by
      split
      · exact List.nodup_nil
      · exact ih
    rcases handle_input_tail_cases virt_code direction time is_injected dwExtraInfo _ b e' h with
      ⟨_, _, _, rfl | rfl⟩ | ⟨r, _, _, _, hup⟩ | ⟨r, _, hr, _, hdown⟩ | ⟨id, _, hother⟩
    · exact h1
    · exact h1
    · obtain ⟨_, _, x, _, _, _, hl⟩ := key_up_active r time _ b e' hup
      rw [hl]
      split
      · exact nodup_remove_active_remap h1 r
      · exact h1
    · obtain ⟨_, _, hc⟩ := key_down_active r time _ b e' hdown
      rcases hc with ⟨_, hl⟩ | ⟨x, _, _, hl⟩
      · rw [hl]; exact h1
      · rw [hl]; exact nodup_append_active_remap h1 r
    · rw [(other_input_active virt_code direction time id _ b e' hother).1]
      exact h1

/-- C23: in every state reachable through `handle_input` from a state whose
active list has no duplicates (the loaded configuration has an empty list)
the active list has no duplicates; from a loaded configuration its members
are remaps of the arena, so it has at most as many elements as there are
remaps. `append_active_remap` leaves a list that contains the remap
unchanged and otherwise adds the remap at the tail; `remove_active_remap`
removes the remap and keeps the others in their order. -/
theorem C23_active_list_no_duplicates (e0 e : Engine) (hnd : e0.g_remap_list.Nodup)
    (hreach : Reachable e0 e) :
    e.g_remap_list.Nodup ∧
    (AtRest e0 → RegistryInRange e0 →
      (∀ n ∈ e.g_remap_list, n < e.remaps.length) ∧
        e.g_remap_list.length ≤ e.remaps.length) ∧
    (∀ (l : List Nat) (elem : Nat), elem ∈ l → append_active_remap l elem = l) ∧
    (∀ (l : List Nat) (elem : Nat), elem ∉ l → append_active_remap l elem = l ++ [elem]) ∧
    (∀ (l : List Nat) (elem : Nat), remove_active_remap l elem = l.erase elem) ∧
    (∀ (l : List Nat) (elem : Nat), l.Nodup →
      remove_active_remap l elem = l.filter (fun n => n ≠ elem) ∧
        elem ∉ remove_active_remap l elem ∧
        (remove_active_remap l elem).Nodup) ∧
    (∀ (l : List Nat) (elem : Nat), (append_active_remap l elem).length ≤ l.length + 1 ∧
      (l.Nodup → (append_active_remap l elem).Nodup)) := by
  refine ⟨nodup_of_reachable hnd hreach, ?_, fun l elem h => append_active_remap_of_mem h,
    fun l elem h => append_active_remap_of_not_mem h, remove_active_remap_eq_erase, ?_, ?_⟩
  · intro hrest hreg
    obtain ⟨hinv, _⟩ := active_of_reachable (activeInv_of_rest e0 hrest) hreg hreach
    have hin : ∀ n ∈ e.g_remap_list, n < e.remaps.length :=
      fun n hn => lt_of_held ((hinv.2 n).mp hn)
    refine ⟨hin, ?_⟩
    have hsub : e.g_remap_list ⊆ List.range e.remaps.length :=
      fun n hn => List.mem_range.mpr (hin n hn)
    have := (List.subperm_of_subset hinv.1 hsub).length_le
    rw [List.length_range] at this
    exact this
  · intro l elem hl
    refine ⟨?_, ?_, nodup_remove_active_remap hl elem⟩
    · rw [remove_active_remap_eq_erase, hl.erase_eq_filter]
      apply List.filter_congr
      intro n _
      by_cases hn : n = elem <;> simp [hn]
    · rw [mem_remove_active_remap_iff hl]
      exact fun hc => hc.1 rfl
  · intro l elem
    refine ⟨?_, fun hl => nodup_append_active_remap hl elem⟩
    by_cases h : elem ∈ l
    · rw [append_active_remap_of_mem h]
      omega
    · rw [append_active_remap_of_not_mem h, List.length_append]
      rfl

/-- Claim C23 at the S1 configuration with CAPSLOCK held alone: the active
list is the one remap, once. -/
theorem C23_active_list_no_duplicates_witness :
    s1_engine.g_remap_list.Nodup ∧ Reachable s1_engine c19_engine ∧
    c19_engine.g_remap_list = [0] ∧ c19_engine.g_remap_list.Nodup :=
  have hreach : Reachable s1_engine c19_engine :=
    Reachable.event s1_engine c19_engine 1 CAPSLOCK.scan_code CAPSLOCK.virt_code
      .DOWN 0 false 0 0 1 Reachable.start (by decide) rfl
  ⟨List.nodup_nil, hreach, rfl,
    (C23_active_list_no_duplicates s1_engine c19_engine List.nodup_nil hreach).1⟩

/-! ## Membership of the active list (`remap.c` lines 584-663, 772-775) -/

/-- Counterexample to C24 as stated: after a tap of CAPSLOCK in the S1
configuration the remap is in `TAPPED`, which is not `IDLE`, and it is not
on the active list: `event_remapped_key_up` unlinks a remap whose lock bits
are both clear, whatever its state. -/
theorem C24_counterexample :
    Reachable s1_engine c24_engine ∧
    (remapAt c24_engine.remaps 0).state = .TAPPED ∧
    (remapAt c24_engine.remaps 0).tap_lock = 0 ∧
    (remapAt c24_engine.remaps 0).double_tap_lock = 0 ∧
    c24_engine.g_remap_list = [] ∧
    ¬ (0 ∈ c24_engine.g_remap_list ↔
      ((remapAt c24_engine.remaps 0).state ≠ .IDLE ∨
        (remapAt c24_engine.remaps 0).tap_lock ≠ 0 ∨
        (remapAt c24_engine.remaps 0).double_tap_lock ≠ 0)) :=
  ⟨reachable_run_events s1_engine
      ⟨⟨by unfold SlavesValid; decide, by unfold Mirrored; decide, fun i => i, by decide,
          by decide⟩, zero_of_bounded _ (by decide)⟩
      1 (by decide) [genuine CAPSLOCK .DOWN 0, genuine CAPSLOCK .UP 50] s1_engine _ c24_engine
      Reachable.start rfl,
    rfl, rfl, rfl, rfl, by decide⟩

/-- C24, amended: in every state reachable through `handle_input` from a
loaded configuration (every remap `IDLE` with both lock bits 0, the active
list empty, the bucket entries remaps of the arena), a remap is on the
active list exactly when its state is `HELD_DOWN_ALONE`,
`HELD_DOWN_WITH_OTHER`, `TAP` or `DOUBLE_TAP`, or its `tap_lock` or
`double_tap_lock` bit is set. A remap in `TAPPED` with both lock bits clear
is not on the list. -/
theorem C24_active_list_membership (e0 e : Engine) (hrest : AtRest e0)
    (hreg : RegistryInRange e0) (hreach : Reachable e0 e) :
    (∀ n, n ∈ e.g_remap_list ↔
      ((remapAt e.remaps n).state = .HELD_DOWN_ALONE ∨
        (remapAt e.remaps n).state = .HELD_DOWN_WITH_OTHER ∨
        (remapAt e.remaps n).state = .TAP ∨ (remapAt e.remaps n).state = .DOUBLE_TAP ∨
        (remapAt e.remaps n).tap_lock ≠ 0 ∨ (remapAt e.remaps n).double_tap_lock ≠ 0)) ∧
    (∀ n, (remapAt e.remaps n).state = .TAPPED → (remapAt e.remaps n).tap_lock = 0 →
      (remapAt e.remaps n).double_tap_lock = 0 → n ∉ e.g_remap_list) ∧
    (∀ n, (remapAt e.remaps n).state = .IDLE → (remapAt e.remaps n).tap_lock = 0 →
      (remapAt e.remaps n).double_tap_lock = 0 → n ∉ e.g_remap_list) := by
  obtain ⟨hinv, _⟩ := active_of_reachable (activeInv_of_rest e0 hrest) hreg hreach
  refine ⟨?_, ?_, ?_⟩
  · intro n
    rw [hinv.2 n]
    unfold Held
    cases (remapAt e.remaps n).state <;> simp
  · intro n hs h1 h2 hn
    exact not_held_of_rest (Or.inr hs) h1 h2 ((hinv.2 n).mp hn)
  · intro n hs h1 h2 hn
    exact not_held_of_rest (Or.inl hs) h1 h2 ((hinv.2 n).mp hn)

/-- Claim C24, as amended, at the S1 configuration: with CAPSLOCK held
alone the remap is on the active list. -/
theorem C24_active_list_membership_witness :
    AtRest s1_engine ∧ RegistryInRange s1_engine ∧ Reachable s1_engine c19_engine ∧
    (remapAt c19_engine.remaps 0).state = .HELD_DOWN_ALONE ∧ 0 ∈ c19_engine.g_remap_list :=
  have hrest : AtRest s1_engine := atRest_of_all s1_engine rfl (by decide)
  have hreg : RegistryInRange s1_engine :=
    loaded_registry_in_range _ rfl (by decide) (by decide)
  have hreach : Reachable s1_engine c19_engine :=
    Reachable.event s1_engine c19_engine 1 CAPSLOCK.scan_code CAPSLOCK.virt_code
      .DOWN 0 false 0 0 1 Reachable.start (by decide) rfl
  ⟨hrest, hreg, hreach, rfl,
    ((C24_active_list_membership s1_engine c19_engine hrest hreg hreach).1 0).mpr
      (Or.inl rfl)⟩

/-! ## The result of `handle_input` (`remap.c` lines 779-895) -/

theorem other_input_loop_sent {fuel : Nat} (time remap_id : Nat) (l : List Nat) :
    ∀ (acc acc' : Nat × Engine), event_other_input_loop fuel time remap_id l acc = some acc' →
      ∃ evs, acc'.2.sent = acc.2.sent ++ evs ∧
        acc'.1 = acc.1 ||| (if evs = [] then 0 else 1) := by
  induction l with
  | nil =>
    intro acc acc' h
    unfold event_other_input_loop at h
    injection h with h
    subst h
    exact ⟨[], by simp, by simp⟩
  | cons remap rest ih =>
    intro acc acc' h
    unfold event_other_input_loop at h
    cases hs : event_other_input_step fuel time remap_id acc remap with
    | none => rw [hs] at h; exact absurd h (by simp)
    | some a1 =>
      rw [hs, Option.some_bind] at h
      obtain ⟨evs1, hs1, _, hf1⟩ := other_input_step_sent time remap_id acc a1 remap hs
      obtain ⟨evs2, hs2, hf2⟩ := ih a1 acc' h
      refine ⟨evs1 ++ evs2, by rw [hs2, hs1, List.append_assoc], ?_⟩
      rw [hf2, hf1]
      by_cases e1 : evs1 = [] <;> by_cases e2 : evs2 = [] <;> simp [e1, e2, Nat.or_assoc]

/-- Function `event_other_input` returns -1 when it sent at least one event
and 0 when it sent none. -/
theorem other_input_result {fuel : Nat} (virt_code : Nat) (direction : Direction)
    (time remap_id : Nat) (e : Engine) (b : Int) (e' : Engine)
    (h : event_other_input fuel virt_code direction time remap_id e = some (b, e')) :
    ∃ evs, e'.sent = e.sent ++ evs ∧ b = if evs = [] then 0 else -1 := by
  unfold event_other_input at h
  split at h
  · rw [Option.map_eq_some'] at h
    obtain ⟨p, hp, hpe⟩ := h
    obtain ⟨evs, hs, hf⟩ := other_input_loop_sent time remap_id _ _ p hp
    obtain ⟨rfl, rfl⟩ := Prod.mk.inj hpe
    refine ⟨evs, hs, ?_⟩
    rw [hf]
    split <;> simp
  · obtain ⟨rfl, rfl⟩ := Prod.mk.inj (Option.some.inj h)
    exact ⟨[], by simp, by simp⟩

/-- Function `handle_input` returns on every engine with a well-formed
layer graph, given fuel above the number of layers. -/
theorem handle_input_total {fuel : Nat} (scan_code virt_code : Nat) (direction : Direction)
    (time : Nat) (is_injected : Bool) (flags dwExtraInfo : Nat) (e : Engine)
    (hok : LayersOK e.layers) (hfuel : e.layers.length < fuel) :
    ∃ b e', handle_input fuel scan_code virt_code direction time is_injected flags
      dwExtraInfo e = some (b, e') := by
  rw [handle_input_eq_tail]
  obtain ⟨e1, he1, hok1, hfuel1⟩ : ∃ e1,
      (if e.g_unlock_timeout > 0 ∧ dword_sub time e.g_last_input > u32 e.g_unlock_timeout then
        unlock_all e
      else e) = e1 ∧ LayersOK e1.layers ∧ e1.layers.length < fuel := by
    split
    · have hg2 : SameGraph e.layers (unlock_all e).layers := by
        unfold SameGraph
        rw [(unlock_all_ok e).2.1, List.map_map]
        rfl
      exact ⟨_, rfl, hg2.sg_layersOK hok, by rw [hg2.sg_length_eq]; exact hfuel⟩
    · exact ⟨_, rfl, hok, hfuel⟩
  rw [he1]
  unfold handle_input_tail
  split
  · split
    · exact ⟨_, _, rfl⟩
    · exact ⟨_, _, rfl⟩
  · simp only
    have hok2 : LayersOK ({ e1 with g_last_input := time % 4294967296 } : Engine).layers := hok1
    have hfuel2 : ({ e1 with g_last_input := time % 4294967296 } : Engine).layers.length < fuel :=
      hfuel1
    split
    · obtain ⟨b, e', h, _⟩ := other_input_ok virt_code direction time (dwExtraInfo &&& 0xFF)
        { e1 with g_last_input := time % 4294967296 } hok2 hfuel2
      exact ⟨b, e', h⟩
    · split
      · rename_i r _
        split
        · obtain ⟨e', h, _⟩ := key_up_ok r time
            { e1 with g_last_input := time % 4294967296 } hok2 hfuel2
          exact ⟨1, e', h⟩
        · obtain ⟨e', h, _⟩ := key_down_ok r time
            { e1 with g_last_input := time % 4294967296 } hok2 hfuel2
          exact ⟨1, e', h⟩
      · obtain ⟨b, e', h, _⟩ := other_input_ok virt_code direction time 0
          { e1 with g_last_input := time % 4294967296 } hok2 hfuel2
        exact ⟨b, e', h⟩

/-- Counterexample to C25 as stated: in the configuration `c14_engine` with
CAPSLOCK held (ESCAPE down), a genuine KEY_A DOWN at 70000, more than the
unlock timeout after the last input, has no rule; `unlock_all` sends ESCAPE
up for the active remap while the event is handled, and `handle_input`
returns 0, not -1. -/
theorem C25_counterexample :
    c25_engine.g_remap_list = [0] ∧ (remapAt c25_engine.remaps 0).state = .TAP ∧
    remap_for_input (selection_state c25_engine 70000) KEY_A.virt_code = none ∧
    (handle_input 1 KEY_A.scan_code KEY_A.virt_code .DOWN 70000 false 0 0 c25_engine).map
        (fun p => (p.1, p.2.sent.drop c25_engine.sent.length)) =
      some (0, chord_up [ESCAPE] 1) ∧
    chord_up [ESCAPE] 1 ≠ [] :=
  ⟨rfl, rfl, rfl, rfl, by decide⟩

/-- C25, amended: `handle_input` returns (with a well-formed layer graph and
fuel above the number of layers), and its result is 1, 0 or -1. It is 1
whenever a remap is selected for the event, and 0 for a pass-through
injected event, which sends nothing. For an event that is handed to
`event_other_input` (a genuine event without a rule, or an injected event
that carries the tag of a remap) the result is -1 when `event_other_input`
sent at least one event and 0 when it sent none; the events `unlock_all`
sends when the unlock timeout fires come before and do not count. -/
theorem C25_tri_valued_result (fuel scan_code virt_code : Nat) (direction : Direction)
    (time : Nat) (is_injected : Bool) (flags dwExtraInfo : Nat) (e : Engine) :
    (LayersOK e.layers → e.layers.length < fuel →
      ∃ b e', handle_input fuel scan_code virt_code direction time is_injected flags
        dwExtraInfo e = some (b, e')) ∧
    ∀ b e', handle_input fuel scan_code virt_code direction time is_injected flags
        dwExtraInfo e = some (b, e') →
      (b = 1 ∨ b = 0 ∨ b = -1) ∧
      (is_injected = false → remap_for_input (selection_state e time) virt_code ≠ none →
        b = 1) ∧
      (is_injected = true →
        (dwExtraInfo &&& 0xFFFFFF00 ≠ INJECTED_KEY_ID ∨ dwExtraInfo = INJECTED_KEY_ID) →
        b = 0 ∧ e'.sent = (selection_state e time).sent) ∧
      ((is_injected = false ∧ remap_for_input (selection_state e time) virt_code = none) ∨
        (is_injected = true ∧
          ¬ (dwExtraInfo &&& 0xFFFFFF00 ≠ INJECTED_KEY_ID ∨ dwExtraInfo = INJECTED_KEY_ID)) →
        ∃ evs, e'.sent = (selection_state e time).sent ++ evs ∧
          (b = -1 ↔ evs ≠ []) ∧ (b = 0 ↔ evs = [])) ∧
      (¬ unlock_due e time → (selection_state e time).sent = e.sent) := by
  constructor
  · intro hok hfuel
    exact handle_input_total scan_code virt_code direction time is_injected flags dwExtraInfo e
      hok hfuel
  · intro b e' h
    rw [handle_input_eq_tail] at h
    have hsel : selection_state e time =
        { (if e.g_unlock_timeout > 0 ∧
            dword_sub time e.g_last_input > u32 e.g_unlock_timeout then unlock_all e
          else e) with g_last_input := time % 4294967296 } := rfl
    have hcases := handle_input_tail_cases virt_code direction time is_injected dwExtraInfo _
      b e' h
    rw [← hsel] at hcases
    have hlast : ¬ unlock_due e time → (selection_state e time).sent = e.sent := by
      intro hu
      rw [selection_state_of_not_due e time hu]
    rcases hcases with ⟨hb, hinj, hp, hpass⟩ | ⟨r, hinj, hr, _, hup⟩ | ⟨r, hinj, hr, _, hdown⟩ |
      ⟨id, hsrc, hother⟩
    · have hsent : e'.sent = (selection_state e time).sent := by
        rcases hpass with rfl | rfl
        · rw [hsel]
        · rw [hsel]
      refine ⟨Or.inr (Or.inl hb), ?_, fun _ _ => ⟨hb, hsent⟩, ?_, hlast⟩
      · intro hf
        rw [hinj] at hf
        exact absurd hf (by decide)
      · rintro (⟨hf, _⟩ | ⟨_, hnp⟩)
        · rw [hinj] at hf
          exact absurd hf (by decide)
        · exact absurd hp hnp
    · have hb : b = 1 := (key_up_active r time _ b e' hup).1
      refine ⟨Or.inl hb, fun _ _ => hb, ?_, ?_, hlast⟩
      · intro ht
        rw [hinj] at ht
        exact absurd ht (by decide)
      · rintro (⟨_, hn⟩ | ⟨ht, _⟩)
        · rw [hr] at hn
          exact absurd hn (by simp)
        · rw [hinj] at ht
          exact absurd ht (by decide)
    · have hb : b = 1 := (key_down_active r time _ b e' hdown).1
      refine ⟨Or.inl hb, fun _ _ => hb, ?_, ?_, hlast⟩
      · intro ht
        rw [hinj] at ht
        exact absurd ht (by decide)
      · rintro (⟨_, hn⟩ | ⟨ht, _⟩)
        · rw [hr] at hn
          exact absurd hn (by simp)
        · rw [hinj] at ht
          exact absurd ht (by decide)
    · obtain ⟨evs, hs, hb⟩ := other_input_result virt_code direction time id _ b e' hother
      have hsent : e'.sent = (selection_state e time).sent ++ evs := hs
      have hiff : (b = -1 ↔ evs ≠ []) ∧ (b = 0 ↔ evs = []) := by
        rw [hb]
        by_cases he : evs = [] <;> simp [he]
      refine ⟨?_, ?_, ?_, fun _ => ⟨evs, hsent, hiff⟩, hlast⟩
      · rw [hb]
        split
        · exact Or.inr (Or.inl rfl)
        · exact Or.inr (Or.inr rfl)
      · intro hf hsome
        rcases hsrc with ⟨ht, _⟩ | ⟨_, hn, _⟩
        · rw [hf] at ht
          exact absurd ht (by decide)
        · exact absurd hn hsome
      · intro ht hp
        rcases hsrc with ⟨_, hnp, _⟩ | ⟨hf, _⟩
        · exact absurd hp hnp
        · rw [hf] at ht
          exact absurd ht (by decide)

/-! ## `unlock_all` (`remap.c` lines 542-581) -/

/-- Failing input of claim C21 (the defect of C7, seen at `unlock_all`
itself). The rule `remap_key=KEY_A`, `when_alone=KEY_B` is in `DOUBLE_TAP`
and holds KEY_B down, pressed as the fallback chord on entering
`DOUBLE_TAP`. The `DOUBLE_TAP` branch of `unlock_all` releases
`to_when_doublepress` only: the call sends nothing, resets the remap to
`IDLE` and empties the active list, and KEY_B stays down. The other parts of
the claim hold for every engine: the active list ends empty, every layer has
`state`, `lock` and `prev_lock` 0, every remap of the list that is in the
arena ends `IDLE` with both lock bits 0, and the up-chords of
`to_with_other` (in `HELD_DOWN_WITH_OTHER`), of `to_when_alone` (in `TAP`)
and of a `to_when_doublepress` binding (in `DOUBLE_TAP`) are sent. -/
theorem C21_unlock_misses_fallback :
    c21_engine.g_remap_list = [0] ∧
    (remapAt c21_engine.remaps 0).state = .DOUBLE_TAP ∧
    (remapAt c21_engine.remaps 0).to_when_doublepress = [] ∧
    (remapAt c21_engine.remaps 0).to_when_doublepress_layer = none ∧
    (remapAt c21_engine.remaps 0).to_when_alone = [KEY_B] ∧
    keys_left_down 1 c21_engine.sent = [(KEY_B.scan_code, KEY_B.virt_code)] ∧
    (unlock_all c21_engine).sent = c21_engine.sent ∧
    keys_left_down 1 (unlock_all c21_engine).sent = [(KEY_B.scan_code, KEY_B.virt_code)] ∧
    (remapAt (unlock_all c21_engine).remaps 0).state = .IDLE ∧
    (unlock_all c21_engine).g_remap_list = [] ∧
    (∀ e : Engine, (unlock_all e).g_remap_list = [] ∧
      (∀ i, (layerAt (unlock_all e).layers i).state = 0 ∧
        (layerAt (unlock_all e).layers i).lock = 0 ∧
        (layerAt (unlock_all e).layers i).prev_lock = 0) ∧
      (∀ n ∈ e.g_remap_list, n < e.remaps.length →
        (remapAt (unlock_all e).remaps n).state = .IDLE ∧
        (remapAt (unlock_all e).remaps n).tap_lock = 0 ∧
        (remapAt (unlock_all e).remaps n).double_tap_lock = 0)) ∧
    (∀ (r : Remap) (sent : List SentInput),
      (r.state = .HELD_DOWN_WITH_OTHER → r.tap_lock = 0 → r.double_tap_lock = 0 →
        (unlock_remap r sent).2 = sent ++ chord_up r.to_with_other r.id) ∧
      (r.state = .TAP → r.tap_lock = 0 → r.double_tap_lock = 0 →
        (unlock_remap r sent).2 = sent ++ chord_up r.to_when_alone r.id) ∧
      (r.state = .DOUBLE_TAP → r.tap_lock = 0 → r.double_tap_lock = 0 →
        (unlock_remap r sent).2 = sent ++ chord_up r.to_when_doublepress r.id)) := by
  refine ⟨rfl, rfl, rfl, rfl, rfl, rfl, rfl, rfl, rfl, rfl, ?_, ?_⟩
  · intro e
    refine ⟨rfl, ?_, (unlock_fold_spec e.g_remap_list (e.remaps, e.sent)).2.1⟩
    intro i
    rw [(unlock_all_ok e).2.1, layerAt_map _ rfl]
    exact ⟨rfl, rfl, rfl⟩
  · intro r sent
    have hnil : ∀ id : Nat, chord_up [] id = [] := fun _ => rfl
    refine ⟨?_, ?_, ?_⟩
    · intro hs h1 h2
      unfold unlock_remap
      simp only [hs, h1, h2, ne_eq, not_true_eq_false, if_false]
      split
      · rw [send_key_def_input_up_unmasked]
      · rename_i hc
        rw [not_not.mp hc, hnil, List.append_nil]
    · intro hs h1 h2
      unfold unlock_remap
      simp only [hs, h1, h2, ne_eq, not_true_eq_false, if_false]
      split
      · rw [send_key_def_input_up_unmasked]
      · rename_i hc
        rw [not_not.mp hc, hnil, List.append_nil]
    · intro hs h1 h2
      unfold unlock_remap
      simp only [hs, h1, h2, ne_eq, not_true_eq_false, if_false]
      split
      · rw [send_key_def_input_up_unmasked]
      · rename_i hc
        rw [not_not.mp hc, hnil, List.append_nil]

/-! ## The lock bits (`remap.c` lines 609-619, 675-684, 750-760) -/

/-- Failing input of claim C27. Rule `remap_key=SPACE`, `when_alone=SPACE`,
`when_tap_lock=LEFT_SHIFT`, `tap_timeout=200`, `doublepress_timeout=300`.
The tap at 0..50 sets `tap_lock` and presses LEFT_SHIFT; the tap at
1000..1050 clears it and releases LEFT_SHIFT. The DOWN at 1100 is inside the
doublepress window of the second tap: the `TAPPED` to `DOUBLE_TAP` block
undoes the toggle of that tap by `tap_lock = 1 - tap_lock` and sends the
up-chord when the bit becomes 0, but nothing when it becomes 1. The bit
goes from 0 to 1 while only SPACE down is sent, and after the UP at 1150
the remap is `IDLE` with `tap_lock = 1` and no key down: LEFT_SHIFT is not
held. -/
theorem C27_lock_bit_without_chord :
    (run_events 1 (s4_engine 300) (c27_events.take 4)).map
        (fun p => ((remapAt p.2.remaps 0).tap_lock, (remapAt p.2.remaps 0).state,
          keys_left_down 1 p.2.sent)) =
      some (0, State.TAPPED, []) ∧
    (run_events 1 (s4_engine 300) c27_events).map
        (fun p => (p.1, (remapAt p.2.remaps 0).tap_lock, (remapAt p.2.remaps 0).state,
          keys_left_down 1 p.2.sent)) =
      some ([(1, chord_down [SPACE] 1), (1, chord_up [SPACE] 1 ++ chord_down [LEFT_SHIFT] 1),
          (1, chord_down [SPACE] 1), (1, chord_up [SPACE] 1 ++ chord_up [LEFT_SHIFT] 1),
          (1, chord_down [SPACE] 1)],
        1, State.DOUBLE_TAP, [(SPACE.scan_code, SPACE.virt_code)]) ∧
    (run_events 1 (s4_engine 300) (c27_events ++ [genuine SPACE .UP 1150])).map
        (fun p => (p.1.getLast?, (remapAt p.2.remaps 0).tap_lock,
          (remapAt p.2.remaps 0).state, p.2.g_remap_list, keys_left_down 1 p.2.sent)) =
      some (some (1, chord_up [SPACE] 1), 1, State.IDLE, [0], []) :=
  ⟨rfl, rfl, rfl⟩

/-! ## Other input while a rule is held alone (`remap.c` lines 785-798) -/

/-- On a well-formed graph `set_layer_state` on a layer of the arena
returns and leaves that layer with the given state; only states change. -/
theorem set_layer_state_value {ls : List Layer} (hok : LayersOK ls) {fuel : Nat}
    (hfuel : ls.length < fuel) (M : Nat) (hM : M < ls.length) (v : Int) :
    ∃ ls', set_layer_state fuel ls M v = some ls' ∧ SameButState ls ls' ∧
      (layerAt ls' M).state = v := by
  obtain ⟨hvalid, hmir, rank, hbound, hdec⟩ := hok
  have hr : rank M < fuel := lt_trans (hbound M hM) hfuel
  obtain ⟨ls', hrun, hs, hst, _, _⟩ :=
    set_layer_state_spec ls rank (rank_decreases hdec) hvalid (mirrored_all hmir) fuel M ls v
      (SameButState.sbs_refl ls) hr hM
  exact ⟨ls', hrun, hs, hst⟩

theorem layer_on_value {ls : List Layer} (hok : LayersOK ls) {fuel : Nat}
    (hfuel : ls.length < fuel) (P : Nat) (hP : P < ls.length) :
    ∃ ls', layer_on fuel (some P) ls = some ls' ∧ (layerAt ls' P).state = 1 := by
  obtain ⟨ls', h, _, hst⟩ := set_layer_state_value hok hfuel P hP 1
  exact ⟨ls', h, hst⟩

theorem layer_to_lock_value {ls : List Layer} (hok : LayersOK ls) {fuel : Nat}
    (hfuel : ls.length < fuel) (P : Nat) (hP : P < ls.length) :
    ∃ ls', layer_to_lock fuel (some P) ls = some ls' ∧
      (layerAt ls' P).state = (layerAt ls' P).lock := by
  obtain ⟨ls', h, hs, hst⟩ := set_layer_state_value hok hfuel P hP (layerAt ls P).lock
  exact ⟨ls', h, by rw [hst, hs.sbs_lock_eq]⟩

theorem confs_then_lock_value {fuel : Nat} {ls : List Layer} (hok : LayersOK ls)
    (hfuel : ls.length < fuel) (confs : List LayerConf) (P : Nat) (hP : P < ls.length) :
    ∃ ls', (apply_layer_confs fuel confs ls).bind (layer_to_lock fuel (some P)) = some ls' ∧
      (layerAt ls' P).state = (layerAt ls' P).lock := by
  obtain ⟨ls1, h1, hstep⟩ := apply_layer_confs_step confs hok hfuel
  have hlen : ls1.length = ls.length := hstep.1.sg_length_eq
  obtain ⟨ls2, h2, hv⟩ := layer_to_lock_value (hstep.1.sg_layersOK hok)
    (by rw [hlen]; exact hfuel) P (by rw [hlen]; exact hP)
  refine ⟨ls2, ?_, hv⟩
  rw [h1]
  exact h2

/-- A press from `IDLE`, or from `TAPPED` outside the doublepress window,
of a remap with press layer `P` leaves `P` with state 1 and the remap in
`HELD_DOWN_ALONE` or `TAP`. -/
theorem key_down_press_layer {fuel : Nat} (remap time P : Nat) (e : Engine)
    (hok : LayersOK e.layers) (hfuel : e.layers.length < fuel)
    (hP : (remapAt e.remaps remap).to_when_press_layer = some P) (hPv : P < e.layers.length)
    (hst : (remapAt e.remaps remap).state = .IDLE ∨
      ((remapAt e.remaps remap).state = .TAPPED ∧
        ¬ (e.g_doublepress_timeout > 0 ∧
          dword_sub time (remapAt e.remaps remap).time < u32 e.g_doublepress_timeout))) :
    ∃ e', event_remapped_key_down fuel remap time e = some (1, e') ∧
      (layerAt e'.layers P).state = 1 ∧
      (remap < e.remaps.length →
        (remapAt e'.remaps remap).state = .HELD_DOWN_ALONE ∨
          (remapAt e'.remaps remap).state = .TAP) := by
  obtain ⟨ls', hl, hv⟩ := layer_on_value hok hfuel P hPv
  have hstate : ∀ sent : List SentInput,
      (press_from_rest (remapAt e.remaps remap) time sent).1.state = .HELD_DOWN_ALONE ∨
        (press_from_rest (remapAt e.remaps remap) time sent).1.state = .TAP := by
    intro sent
    rw [press_from_rest_state]
    split
    · exact Or.inr rfl
    · exact Or.inl rfl
  unfold event_remapped_key_down
  simp only
  rcases hst with hs | ⟨hs, hw⟩
  · rw [hs]
    simp only
    rw [hP, hl, Option.map_some']
    refine ⟨_, rfl, hv, fun hlt => ?_⟩
    show (remapAt (e.remaps.set remap _) remap).state = _ ∨ _
    rw [remapAt_set_eq _ hlt]
    exact hstate e.sent
  · rw [hs]
    simp only
    rw [if_neg hw, hP, hl, Option.map_some']
    refine ⟨_, rfl, hv, fun hlt => ?_⟩
    show (remapAt (e.remaps.set remap _) remap).state = _ ∨ _
    rw [remapAt_set_eq _ hlt]
    exact hstate e.sent

/-- The key-up of a remap with press layer `P` from `HELD_DOWN_ALONE`,
`HELD_DOWN_WITH_OTHER` or `TAP` leaves `P` with its state equal to its
lock. -/
theorem key_up_press_layer {fuel : Nat} (remap time P : Nat) (e : Engine)
    (hok : LayersOK e.layers) (hfuel : e.layers.length < fuel)
    (hP : (remapAt e.remaps remap).to_when_press_layer = some P) (hPv : P < e.layers.length)
    (hst : (remapAt e.remaps remap).state = .HELD_DOWN_ALONE ∨
      (remapAt e.remaps remap).state = .HELD_DOWN_WITH_OTHER ∨
      (remapAt e.remaps remap).state = .TAP) :
    ∃ e', event_remapped_key_up fuel remap time e = some (1, e') ∧
      (layerAt e'.layers P).state = (layerAt e'.layers P).lock := by
  obtain ⟨ls1, hl1, hv1⟩ := layer_to_lock_value hok hfuel P hPv
  obtain ⟨ls2, hl2, hv2⟩ := confs_then_lock_value hok hfuel
    (remapAt e.remaps remap).to_when_tap_lock_layer P hPv
  unfold event_remapped_key_up key_up_transition
  rcases hst with hs | hs | hs
  · rw [hs]
    simp only
    split
    · rw [hP, hl2]
      exact ⟨_, rfl, hv2⟩
    · rw [hP, hl1]
      exact ⟨_, rfl, hv1⟩
  · rw [hs]
    simp only
    rw [hP, hl1]
    exact ⟨_, rfl, hv1⟩
  · rw [hs]
    simp only
    split
    · rw [hP, hl2]
      exact ⟨_, rfl, hv2⟩
    · rw [hP, hl1]
      exact ⟨_, rfl, hv1⟩

/-- Counterexample to C28 as stated: two rules share the press layer
`layer1`. CAPSLOCK is pressed from `IDLE` at 0 and stays in
`HELD_DOWN_ALONE`; SPACE is pressed at 10 and released at 20. The key-up of
SPACE sets `layer1` back to its lock value 0, while the CAPSLOCK rule is
still held: its press layer has state 0. -/
theorem C28_counterexample :
    Reachable c28_engine c28_after ∧
    (remapAt c28_after.remaps 0).state = .HELD_DOWN_ALONE ∧
    (remapAt c28_after.remaps 0).to_when_press_layer = some 0 ∧
    (layerAt c28_after.layers 0).state = 0 ∧
    (run_events 2 c28_engine c28_events).map
        (fun p => (p.1.map (fun q => q.1), (remapAt p.2.remaps 0).state,
          (layerAt p.2.layers 0).state)) =
      some ([1, 1, 1], State.HELD_DOWN_ALONE, 0) ∧
    (run_events 2 c28_engine (c28_events.take 2)).map
        (fun p => ((remapAt p.2.remaps 0).state, (layerAt p.2.layers 0).state)) =
      some (State.HELD_DOWN_ALONE, 1) :=
  ⟨reachable_run_events c28_engine
      ⟨⟨by unfold SlavesValid; decide, by unfold Mirrored; decide, fun i => i, by decide,
          by decide⟩, zero_of_bounded _ (by decide)⟩
      2 (by decide) c28_events c28_engine _ c28_after Reachable.start rfl,
    rfl, rfl, rfl, rfl, rfl⟩

/-- C28, amended: for a genuine event that selects a remap with press layer
`P` (a layer of the arena; well-formed graph, fuel above the number of
layers, no unlock timeout elapsed). A DOWN that finds the remap `IDLE`, or
`TAPPED` outside the doublepress window, returns 1 and leaves `P` with state
1 and the remap in `HELD_DOWN_ALONE` or `TAP`. An UP that finds the remap in
`HELD_DOWN_ALONE`, `HELD_DOWN_WITH_OTHER` or `TAP` returns 1 and leaves `P`
with state equal to its lock. An event that selects no remap (a genuine
event without a rule, or an injected event) changes no layer. A genuine
event that selects a remap `S` which does not act on `P` (`P` is none of its
press, doublepress and lock-action layers) returns 1 and keeps the lock of
`P`; it keeps `P.state = 1` when the guard of `P` holds before and after it
(as it always does for a layer without masters). Nothing is said about the
events of remaps that act on `P`: they may change its state. -/
theorem C28_press_layer (fuel scan_code virt_code time flags dwExtraInfo remap P : Nat)
    (e : Engine) (hok : LayersOK e.layers) (hfuel : e.layers.length < fuel)
    (hu : ¬ unlock_due e time)
    (hsel : remap_for_input { e with g_last_input := time % 4294967296 } virt_code = some remap)
    (hP : (remapAt e.remaps remap).to_when_press_layer = some P) (hPv : P < e.layers.length) :
    ((remapAt e.remaps remap).state = .IDLE ∨
        ((remapAt e.remaps remap).state = .TAPPED ∧
          ¬ (e.g_doublepress_timeout > 0 ∧
            dword_sub time (remapAt e.remaps remap).time < u32 e.g_doublepress_timeout)) →
      ∃ e', handle_input fuel scan_code virt_code .DOWN time false flags dwExtraInfo e =
          some (1, e') ∧
        (layerAt e'.layers P).state = 1 ∧
        (remap < e.remaps.length →
          (remapAt e'.remaps remap).state = .HELD_DOWN_ALONE ∨
            (remapAt e'.remaps remap).state = .TAP)) ∧
    ((remapAt e.remaps remap).state = .HELD_DOWN_ALONE ∨
        (remapAt e.remaps remap).state = .HELD_DOWN_WITH_OTHER ∨
        (remapAt e.remaps remap).state = .TAP →
      ∃ e', handle_input fuel scan_code virt_code .UP time false flags dwExtraInfo e =
          some (1, e') ∧
        (layerAt e'.layers P).state = (layerAt e'.layers P).lock) ∧
    (∀ (virt_code2 : Nat) (direction : Direction) (is_injected : Bool) (dwExtraInfo2 : Nat)
      (b : Int) (e' : Engine),
      is_injected = true ∨
        remap_for_input { e with g_last_input := time % 4294967296 } virt_code2 = none →
      handle_input fuel scan_code virt_code2 direction time is_injected flags dwExtraInfo2 e =
        some (b, e') →
      e'.layers = e.layers) ∧
    (∀ (virt_code2 : Nat) (direction : Direction) (dwExtraInfo2 S : Nat),
      remap_for_input { e with g_last_input := time % 4294967296 } virt_code2 = some S →
      ¬ RemapTargets (remapAt e.remaps S) P →
      ∃ e', handle_input fuel scan_code virt_code2 direction time false flags dwExtraInfo2 e =
          some (1, e') ∧
        (layerAt e'.layers P).lock = (layerAt e.layers P).lock ∧
        ((layerAt e.layers P).state = 1 → all_master_active e.layers P = true →
          all_master_active e'.layers P = true → (layerAt e'.layers P).state = 1)) := by
  have hsel2 := selection_state_of_not_due e time hu
  refine ⟨?_, ?_, ?_, ?_⟩
  · intro hst
    have hdisp := handle_input_dispatch fuel scan_code virt_code .DOWN time flags dwExtraInfo e
    rw [hsel2, hsel] at hdisp
    obtain ⟨e', h, hv, hs⟩ := @key_down_press_layer fuel remap time P
      { e with g_last_input := time % 4294967296 } hok hfuel hP hPv hst
    refine ⟨e', ?_, hv, hs⟩
    rw [hdisp]
    exact h
  · intro hst
    have hdisp := handle_input_dispatch fuel scan_code virt_code .UP time flags dwExtraInfo e
    rw [hsel2, hsel] at hdisp
    obtain ⟨e', h, hv⟩ := @key_up_press_layer fuel remap time P
      { e with g_last_input := time % 4294967296 } hok hfuel hP hPv hst
    refine ⟨e', ?_, hv⟩
    rw [hdisp]
    exact h
  · intro virt_code2 direction is_injected dwExtraInfo2 b e' hno h
    rw [handle_input_eq_tail] at h
    have hu' := hu
    unfold unlock_due at hu'
    rw [if_neg hu'] at h
    rcases handle_input_tail_cases virt_code2 direction time is_injected dwExtraInfo2 e b e' h
      with ⟨_, _, _, rfl | rfl⟩ | ⟨r, hinj, hr, _, _⟩ | ⟨r, hinj, hr, _, _⟩ | ⟨id, _, hother⟩
    · rfl
    · rfl
    · rcases hno with ht | hn
      · rw [hinj] at ht
        exact absurd ht (by decide)
      · rw [hr] at hn
        exact absurd hn (by simp)
    · rcases hno with ht | hn
      · rw [hinj] at ht
        exact absurd ht (by decide)
      · rw [hr] at hn
        exact absurd hn (by simp)
    · unfold event_other_input at hother
      split at hother
      · rw [Option.map_eq_some'] at hother
        obtain ⟨p, hp, hpe⟩ := hother
        obtain ⟨_, hl, _⟩ := other_input_loop_frame time id _ _ p hp
        obtain ⟨_, rfl⟩ := Prod.mk.inj hpe
        exact hl
      · obtain ⟨_, rfl⟩ := Prod.mk.inj (Option.some.inj hother)
        rfl
  · intro virt_code2 direction dwExtraInfo2 S hS hnt
    have hdisp := handle_input_dispatch fuel scan_code virt_code2 direction time flags
      dwExtraInfo2 e
    rw [hsel2, hS] at hdisp
    simp only at hdisp
    have hfin : ∀ e' : Engine,
        LayersStep (RemapTargets (remapAt e.remaps S)) e.layers e'.layers →
        (layerAt e'.layers P).lock = (layerAt e.layers P).lock ∧
        ((layerAt e.layers P).state = 1 → all_master_active e.layers P = true →
          all_master_active e'.layers P = true → (layerAt e'.layers P).state = 1) := by
      intro e' hstep
      obtain ⟨hlock, _, hcons⟩ := hstep.2.1 P hnt
      refine ⟨hlock, fun h1 hb ha => ?_⟩
      have hc : Consistent e.layers P := by
        unfold Consistent
        rw [hb, if_pos rfl]
        exact h1
      have hc' := hcons hc
      unfold Consistent at hc'
      rw [ha, if_pos rfl] at hc'
      exact hc'
    by_cases hd : direction = .UP
    · obtain ⟨e', h, _, hstep, _⟩ := @key_up_ok fuel S time
        { e with g_last_input := time % 4294967296 } hok hfuel
      refine ⟨e', ?_, hfin e' hstep⟩
      rw [hdisp, if_pos hd]
      exact h
    · obtain ⟨e', h, _, hstep, _⟩ := @key_down_ok fuel S time
        { e with g_last_input := time % 4294967296 } hok hfuel
      refine ⟨e', ?_, hfin e' hstep⟩
      rw [hdisp, if_neg hd]
      exact h

/-- Claim C28, as amended, in the configuration `c28_engine`: the CAPSLOCK
DOWN at 0 leaves `layer1` with state 1, and the CAPSLOCK UP at 50 that
follows leaves it with state equal to its lock. -/
theorem C28_press_layer_witness :
    (∃ e', handle_input 2 CAPSLOCK.scan_code CAPSLOCK.virt_code .DOWN 0 false 0 0 c28_engine =
        some (1, e') ∧
      (layerAt e'.layers 0).state = 1 ∧
      (0 < c28_engine.remaps.length →
        (remapAt e'.remaps 0).state = .HELD_DOWN_ALONE ∨ (remapAt e'.remaps 0).state = .TAP)) ∧
    (remapAt c28_engine.remaps 0).state = .IDLE :=
  ⟨(C28_press_layer 2 CAPSLOCK.scan_code CAPSLOCK.virt_code 0 0 0 0 0 c28_engine
      ⟨by unfold SlavesValid; decide, by unfold Mirrored; decide, fun i => i, by decide,
        by decide⟩
      (by decide) (by unfold unlock_due; decide) rfl rfl (by decide)).1 (Or.inl rfl),
    rfl⟩

/-! ## `is_master_layer` (`remap.c` lines 286-299) -/

theorem is_master_layer_loop_mono (rec1 rec2 : Nat → Option Bool) (master_layer : Option Nat)
    (guards : Bool) (l : List Nat)
    (h : ∀ m ∈ l, ∀ b, rec1 m = some b → rec2 m = some b) (b : Bool) :
    is_master_layer_loop rec1 master_layer guards l = some b →
      is_master_layer_loop rec2 master_layer guards l = some b := by
  induction l with
  | nil => exact fun hb => hb
  | cons m rest ih =>
    intro hb
    unfold is_master_layer_loop at hb ⊢
    by_cases hm : some m = master_layer
    · rw [if_pos hm] at hb ⊢
      exact hb
    · rw [if_neg hm] at hb ⊢
      cases h1 : rec1 m with
      | none => rw [h1] at hb; exact absurd hb (by simp)
      | some c =>
        rw [h1] at hb
        rw [h m (List.mem_cons_self _ _) c h1]
        cases c with
        | true => exact hb
        | false => exact ih (fun m' hm' => h m' (List.mem_cons_of_mem _ hm')) hb

/-- More fuel does not change a result of `is_master_layer`. -/
theorem is_master_layer_succ (ls : List Layer) (master_layer : Option Nat) :
    ∀ fuel X b, is_master_layer fuel ls master_layer X = some b →
      is_master_layer (fuel + 1) ls master_layer X = some b := by
  intro fuel
  induction fuel with
  | zero =>
    intro X b h
    unfold is_master_layer at h
    exact absurd h (by simp)
  | succ fuel ih =>
    intro X b h
    unfold is_master_layer at h ⊢
    exact is_master_layer_loop_mono _ _ _ _ _ (fun m _ c hc => ih m c hc) b h

theorem is_master_layer_mono_le (ls : List Layer) (master_layer : Option Nat) (X : Nat)
    (b : Bool) {fuel fuel' : Nat} (hle : fuel ≤ fuel')
    (h : is_master_layer fuel ls master_layer X = some b) :
    is_master_layer fuel' ls master_layer X = some b := by
  induction hle with
  | refl => exact h
  | step _ ih => exact is_master_layer_succ ls master_layer _ X b ih

/-- Two runs of `is_master_layer` that both return give the same value. -/
theorem is_master_layer_fuel_eq (ls : List Layer) (master_layer : Option Nat) (X : Nat)
    {b b' : Bool} {fuel fuel' : Nat}
    (h : is_master_layer fuel ls master_layer X = some b)
    (h' : is_master_layer fuel' ls master_layer X = some b') : b = b' := by
  rcases Nat.le_total fuel fuel' with hle | hle
  · have := is_master_layer_mono_le ls master_layer X b hle h
    rw [h'] at this
    exact (Option.some.inj this).symm
  · have := is_master_layer_mono_le ls master_layer X b' hle h'
    rw [h] at this
    exact Option.some.inj this

/-- The value of the loop of `is_master_layer` when every recursive call
returns: the guard of the slave when some master is the layer looked for or
has it as a master, 0 otherwise. -/
theorem is_master_layer_loop_eq (rec_call : Nat → Option Bool) (master_layer : Option Nat)
    (guards : Bool) (l : List Nat) (h : ∀ m ∈ l, ∃ b, rec_call m = some b) :
    is_master_layer_loop rec_call master_layer guards l =
      some (guards &&
        l.any (fun m => decide (some m = master_layer) || (rec_call m == some true))) := by
  induction l with
  | nil => simp [is_master_layer_loop]
  | cons m rest ih =>
    unfold is_master_layer_loop
    by_cases hm : some m = master_layer
    · rw [if_pos hm]
      simp [hm]
    · rw [if_neg hm]
      obtain ⟨b, hb⟩ := h m (List.mem_cons_self _ _)
      rw [hb]
      cases b with
      | true => simp [hb]
      | false =>
        simp only
        rw [ih (fun m' hm' => h m' (List.mem_cons_of_mem _ hm'))]
        simp [hm, hb]

theorem is_master_layer_loop_true (rec_call : Nat → Option Bool) (master_layer : Option Nat)
    (guards : Bool) (l : List Nat)
    (h : is_master_layer_loop rec_call master_layer guards l = some true) :
    guards = true ∧ ∃ m ∈ l, some m = master_layer ∨ rec_call m = some true := by
  induction l with
  | nil =>
    unfold is_master_layer_loop at h
    exact absurd h (by simp)
  | cons m rest ih =>
    unfold is_master_layer_loop at h
    by_cases hm : some m = master_layer
    · rw [if_pos hm] at h
      exact ⟨Option.some.inj h, m, List.mem_cons_self _ _, Or.inl hm⟩
    · rw [if_neg hm] at h
      cases h1 : rec_call m with
      | none => rw [h1] at h; exact absurd h (by simp)
      | some c =>
        rw [h1] at h
        cases c with
        | true => exact ⟨Option.some.inj h, m, List.mem_cons_self _ _, Or.inr h1⟩
        | false =>
          obtain ⟨hg, m', hm', hor⟩ := ih h
          exact ⟨hg, m', List.mem_cons_of_mem _ hm', hor⟩

/-- Function `is_master_layer` returns 1 only along a chain of and-master
edges from the slave up to the layer looked for. -/
theorem is_master_layer_reach (ls : List Layer) (L : Nat) :
    ∀ fuel X, is_master_layer fuel ls (some L) X = some true → MasterReach ls X L := by
  intro fuel
  induction fuel with
  | zero =>
    intro X h
    unfold is_master_layer at h
    exact absurd h (by simp)
  | succ fuel ih =>
    intro X h
    unfold is_master_layer at h
    obtain ⟨_, m, hm, hor⟩ := is_master_layer_loop_true _ _ _ _ h
    rcases hor with heq | hrec
    · obtain rfl := Option.some.inj heq
      exact Relation.TransGen.single hm
    · exact Relation.TransGen.head hm (ih m hrec)

/-- The recursive calls of `is_master_layer` on the masters of a layer
return with one unit of fuel less. -/
theorem is_master_layer_masters_total {ls : List Layer} (hok : LayersOK ls) {fuel : Nat}
    (hfuel : ls.length < fuel + 1) (master_layer : Option Nat) (X : Nat) :
    ∀ m ∈ (layerAt ls X).and_master_layers,
      ∃ b, is_master_layer fuel ls master_layer m = some b := by
  obtain ⟨_, hmir, rank, hbound, hdec⟩ := hok
  intro m hm
  have hXl : X < ls.length := by
    by_contra hX
    have := masters_of_ge (Nat.le_of_not_lt hX)
    rw [List.append_eq_nil] at this
    rw [this.1] at hm
    exact absurd hm (List.not_mem_nil _)
  have hmem : X ∈ (layerAt ls m).and_slave_layers :=
    hmir X hXl m (List.mem_append_left _ hm)
  have hml : m < ls.length := by
    by_contra hmm
    rw [slaves_of_ge (Nat.le_of_not_lt hmm)] at hmem
    exact absurd hmem (List.not_mem_nil _)
  have hr := hdec m hml X hmem
  have hb := hbound m hml
  apply is_master_layer_total_aux hmir rank hbound hdec master_layer fuel m
  · omega
  · intro _; omega

/-- C31: on a well-formed (acyclic) layer graph, with fuel above the number
of layers, `is_master_layer(L, X)` returns, and it returns 1 iff the guards of
`X` hold (every and-master of `X` has state 1 and every and-not-master has
state 0) and some and-master `P` of `X` is `L` itself or satisfies
`is_master_layer(L, P)`. It returns 1 only if `L` is a transitive and-master
of `X`, along and-master edges alone, and for a direct and-master `L` of `X`
its value is the truth of the guards of `X`. -/
theorem C31_is_master_layer_characterisation (ls : List Layer) (hok : LayersOK ls)
    (fuel : Nat) (hfuel : ls.length < fuel) (L X : Nat) :
    ∃ b, is_master_layer fuel ls (some L) X = some b ∧
      (b = true ↔ MastersSatisfied ls X ∧
        ∃ P ∈ (layerAt ls X).and_master_layers,
          P = L ∨ is_master_layer fuel ls (some L) P = some true) ∧
      (b = true → MasterReach ls X L) ∧
      (L ∈ (layerAt ls X).and_master_layers → (b = true ↔ MastersSatisfied ls X)) := by
  obtain ⟨k, rfl⟩ : ∃ k, fuel = k + 1 := ⟨fuel - 1, by omega⟩
  have htot := is_master_layer_masters_total hok hfuel (some L) X
  have heq : is_master_layer (k + 1) ls (some L) X =
      some (all_master_active ls X &&
        (layerAt ls X).and_master_layers.any
          (fun m => decide (some m = some L) ||
            (is_master_layer k ls (some L) m == some true))) := by
    conv_lhs => unfold is_master_layer
    exact is_master_layer_loop_eq _ _ _ _ htot
  have hrec : ∀ m ∈ (layerAt ls X).and_master_layers,
      (is_master_layer k ls (some L) m = some true ↔
        is_master_layer (k + 1) ls (some L) m = some true) := by
    intro m hm
    constructor
    · exact is_master_layer_succ ls (some L) k m true
    · intro h1
      obtain ⟨c, hc⟩ := htot m hm
      have := is_master_layer_fuel_eq ls (some L) m hc h1
      rw [hc, this]
  refine ⟨_, heq, ?_, ?_, ?_⟩
  · rw [Bool.and_eq_true, all_master_active_iff, List.any_eq_true]
    constructor
    · rintro ⟨hg, m, hm, hor⟩
      refine ⟨hg, m, hm, ?_⟩
      rw [Bool.or_eq_true, decide_eq_true_eq, beq_iff_eq] at hor
      rcases hor with h1 | h1
      · exact Or.inl (Option.some.inj h1)
      · exact Or.inr ((hrec m hm).1 h1)
    · rintro ⟨hg, m, hm, hor⟩
      refine ⟨hg, m, hm, ?_⟩
      rw [Bool.or_eq_true, decide_eq_true_eq, beq_iff_eq]
      rcases hor with h1 | h1
      · exact Or.inl (by rw [h1])
      · exact Or.inr ((hrec m hm).2 h1)
  · intro hb
    exact is_master_layer_reach ls L (k + 1) X (by rw [heq, hb])
  · intro hL
    rw [Bool.and_eq_true, all_master_active_iff]
    constructor
    · exact fun h => h.1
    · intro hg
      refine ⟨hg, ?_⟩
      rw [List.any_eq_true]
      exact ⟨L, hL, by simp⟩

/-- Claim C31 on the diamond of four layers with the top and the middle
layers active: the top layer 0 is a master of the bottom layer 3 through the
middle layers. -/
theorem C31_is_master_layer_characterisation_witness :
    diamond_active.length < 5 ∧
    is_master_layer 5 diamond_active (some 0) 3 = some true ∧
    is_master_layer 5 diamond_layers (some 0) 3 = some false ∧
    is_master_layer 5 diamond_active (some 3) 0 = some false ∧
    ∃ b, is_master_layer 5 diamond_active (some 0) 3 = some b ∧
      (b = true ↔ MastersSatisfied diamond_active 3 ∧
        ∃ P ∈ (layerAt diamond_active 3).and_master_layers,
          P = 0 ∨ is_master_layer 5 diamond_active (some 0) P = some true) ∧
      (b = true → MasterReach diamond_active 3 0) ∧
      (0 ∈ (layerAt diamond_active 3).and_master_layers →
        (b = true ↔ MastersSatisfied diamond_active 3)) :=
  ⟨by decide, rfl, rfl, rfl,
    C31_is_master_layer_characterisation diamond_active
      ⟨by unfold SlavesValid; decide, by unfold Mirrored; decide,
        fun i => 3 - i, by decide, by decide⟩
      5 (by decide) 0 3⟩

/-! ## Termination of the layer recursion (`remap.c` lines 70-81, 286-299) -/

theorem foldlM_option_mono {α β : Type} (f g : β → α → Option β)
    (h : ∀ b a r, f b a = some r → g b a = some r) :
    ∀ (l : List α) (b r : β), l.foldlM f b = some r → l.foldlM g b = some r := by
  intro l
  induction l with
  | nil => intro b r hr; simpa using hr
  | cons a rest ih =>
    intro b r hr
    rw [List.foldlM_cons] at hr ⊢
    cases h1 : f b a with
    | none => rw [h1] at hr; exact absurd hr (by simp)
    | some b1 =>
      rw [h1] at hr
      rw [h b a b1 h1]
      exact ih b1 r hr

/-- More fuel does not change a result of `set_layer_state`. -/
theorem set_layer_state_succ :
    ∀ fuel ls M v r, set_layer_state fuel ls M v = some r →
      set_layer_state (fuel + 1) ls M v = some r := by
  intro fuel
  induction fuel with
  | zero =>
    intro ls M v r h
    unfold set_layer_state at h
    exact absurd h (by simp)
  | succ fuel ih =>
    intro ls M v r h
    unfold set_layer_state at h ⊢
    exact foldlM_option_mono _ _ (fun b a r' hr' => ih b a _ r' hr') _ _ r h

theorem set_layer_state_mono_le (ls : List Layer) (M : Nat) (v : Int) (r : List Layer)
    {fuel fuel' : Nat} (hle : fuel ≤ fuel') (h : set_layer_state fuel ls M v = some r) :
    set_layer_state fuel' ls M v = some r := by
  induction hle with
  | refl => exact h
  | step _ ih => exact set_layer_state_succ _ ls M v r ih

/-- Function `set_layer_state` returns on a well-formed graph, for every
layer pointer (an index outside the arena has no slaves). -/
theorem set_layer_state_total {ls : List Layer} (hok : LayersOK ls) {fuel : Nat}
    (hfuel : ls.length < fuel) (M : Nat) (v : Int) :
    ∃ ls', set_layer_state fuel ls M v = some ls' := by
  by_cases hM : M < ls.length
  · obtain ⟨ls', h, _⟩ := set_layer_state_value hok hfuel M hM v
    exact ⟨ls', h⟩
  · obtain ⟨k, rfl⟩ : ∃ k, fuel = k + 1 := ⟨fuel - 1, by omega⟩
    unfold set_layer_state
    have hsl : (layerAt (ls.set M { layerAt ls M with state := v }) M).and_slave_layers = [] :=
      slaves_of_ge (by rw [List.length_set]; omega)
    simp only [hsl]
    exact ⟨_, rfl⟩

/-- On the cyclic graph `set_layer_state` runs out of every fuel. -/
theorem set_layer_state_cyclic :
    ∀ fuel ls v, (layerAt ls 0).and_slave_layers = [0] → 0 < ls.length →
      set_layer_state fuel ls 0 v = none := by
  intro fuel
  induction fuel with
  | zero => intro ls v _ _; rfl
  | succ fuel ih =>
    intro ls v hs hl
    unfold set_layer_state
    have h1 : (layerAt (ls.set 0 { layerAt ls 0 with state := v }) 0).and_slave_layers = [0] := by
      rw [layerAt_set_eq _ hl]
      exact hs
    simp only [h1, List.foldlM_cons]
    rw [ih _ _ h1 (by rw [List.length_set]; exact hl)]
    rfl

/-- On the cyclic graph `is_master_layer` runs out of every fuel when the
layer looked for is not on the cycle. -/
theorem is_master_layer_cyclic :
    ∀ fuel, is_master_layer fuel cyclic_layers (some 1) 0 = none := by
  intro fuel
  induction fuel with
  | zero => rfl
  | succ fuel ih =>
    unfold is_master_layer
    have h1 : (layerAt cyclic_layers 0).and_master_layers = [0] := rfl
    rw [h1]
    unfold is_master_layer_loop
    rw [if_neg (by decide), ih]

/-- C32: on a well-formed layer graph (valid slave pointers, master edges
mirrored by slave edges, acyclic) `set_layer_state(M, v)` and
`is_master_layer(L, X)` return for all arguments once the fuel exceeds the
number of layers, and the result is the same for every such fuel: the fuel
only bounds the recursion depth. Acyclicity is needed: on the graph in which
a layer is its own master both functions run out of every fuel. -/
theorem C32_layer_recursion_terminates (ls : List Layer) (hok : LayersOK ls) :
    (∀ (M : Nat) (v : Int), ∃ ls',
      ∀ fuel, ls.length < fuel → set_layer_state fuel ls M v = some ls') ∧
    (∀ (L : Option Nat) (X : Nat), ∃ b,
      ∀ fuel, ls.length < fuel → is_master_layer fuel ls L X = some b) ∧
    (∀ (fuel : Nat) (v : Int), set_layer_state fuel cyclic_layers 0 v = none) ∧
    (∀ fuel : Nat, is_master_layer fuel cyclic_layers (some 1) 0 = none) := by
  refine ⟨?_, ?_, ?_, is_master_layer_cyclic⟩
  · intro M v
    obtain ⟨ls', h⟩ := @set_layer_state_total ls hok (ls.length + 1) (Nat.lt_succ_self _) M v
    refine ⟨ls', fun fuel hfuel => ?_⟩
    exact set_layer_state_mono_le ls M v ls' (by omega) h
  · intro L X
    obtain ⟨b, h⟩ := @is_master_layer_total ls hok (ls.length + 1) (Nat.lt_succ_self _) L X
    refine ⟨b, fun fuel hfuel => ?_⟩
    exact is_master_layer_mono_le ls L X b (by omega) h
  · intro fuel v
    exact set_layer_state_cyclic fuel cyclic_layers v rfl (by decide)

/-- Claim C32 on the diamond of four layers: both functions return with
fuel 5, and the cyclic graph exhausts the fuel. -/
theorem C32_layer_recursion_terminates_witness :
    (set_layer_state 5 diamond_layers 0 1).isSome = true ∧
    is_master_layer 5 diamond_layers (some 0) 3 = some false ∧
    set_layer_state 8 cyclic_layers 0 1 = none ∧
    ((∀ (M : Nat) (v : Int), ∃ ls',
      ∀ fuel, diamond_layers.length < fuel → set_layer_state fuel diamond_layers M v = some ls') ∧
    (∀ (L : Option Nat) (X : Nat), ∃ b,
      ∀ fuel, diamond_layers.length < fuel → is_master_layer fuel diamond_layers L X = some b) ∧
    (∀ (fuel : Nat) (v : Int), set_layer_state fuel cyclic_layers 0 v = none) ∧
    (∀ fuel : Nat, is_master_layer fuel cyclic_layers (some 1) 0 = none)) :=
  ⟨rfl, rfl, rfl,
    C32_layer_recursion_terminates diamond_layers
      ⟨by unfold SlavesValid; decide, by unfold Mirrored; decide,
        fun i => 3 - i, by decide, by decide⟩⟩

/-! ## Other input that is ignored (`remap.c` line 781) -/

set_option maxRecDepth 100000 in
/-- The entries of `KEY_ARRAY` with a nonzero modifier mask are the eight
modifier keys: Ctrl, Shift, Alt and Win, left and right. -/
theorem key_array_modifier_iff (i : Nat) (hi : i < 256) :
    (KEY_ARRAY i).modifier ≠ 0 ↔
      i ∈ [LEFT_CTRL.virt_code, RIGHT_CTRL.virt_code, LEFT_SHIFT.virt_code,
        RIGHT_SHIFT.virt_code, LEFT_ALT.virt_code, RIGHT_ALT.virt_code, LEFT_WIN.virt_code,
        RIGHT_WIN.virt_code] := by
  have hall : (List.range 256).all (fun i =>
      decide ((KEY_ARRAY i).modifier ≠ 0) ==
        decide (i ∈ [LEFT_CTRL.virt_code, RIGHT_CTRL.virt_code, LEFT_SHIFT.virt_code,
          RIGHT_SHIFT.virt_code, LEFT_ALT.virt_code, RIGHT_ALT.virt_code, LEFT_WIN.virt_code,
          RIGHT_WIN.virt_code])) = true := by rfl
  rw [List.all_eq_true] at hall
  have h := hall i (List.mem_range.2 hi)
  rw [beq_iff_eq, decide_eq_decide] at h
  exact h

theorem and_ff_lt (virt_code : Nat) : virt_code &&& 0xFF < 256 := by
  have h : (0xFF : Nat) = 2 ^ 8 - 1 := by norm_num
  rw [h, Nat.and_pow_two_sub_one_eq_mod]
  exact Nat.mod_lt _ (by norm_num)

/-- C40: `event_other_input` called with direction UP, or with a virtual
code whose `KEY_ARRAY` entry has a nonzero modifier mask, returns 0 and
leaves the engine as it is: nothing is sent and no remap field changes. Such
a virtual code is one whose low byte is the code of Ctrl, Shift, Alt or Win,
left or right. Hence a call that sends an event, changes a remap or returns
a nonzero value is a DOWN of a key without a modifier mask. -/
theorem C40_other_input_ignored (fuel virt_code : Nat) (direction : Direction)
    (time remap_id : Nat) (e : Engine)
    (h : direction = .UP ∨ (KEY_ARRAY (virt_code &&& 0xFF)).modifier ≠ 0) :
    event_other_input fuel virt_code direction time remap_id e = some (0, e) ∧
    ((KEY_ARRAY (virt_code &&& 0xFF)).modifier ≠ 0 ↔
      virt_code &&& 0xFF ∈ [LEFT_CTRL.virt_code, RIGHT_CTRL.virt_code, LEFT_SHIFT.virt_code,
        RIGHT_SHIFT.virt_code, LEFT_ALT.virt_code, RIGHT_ALT.virt_code, LEFT_WIN.virt_code,
        RIGHT_WIN.virt_code]) ∧
    (∀ (fuel2 virt_code2 : Nat) (direction2 : Direction) (b : Int) (e' : Engine),
      event_other_input fuel2 virt_code2 direction2 time remap_id e = some (b, e') →
      b ≠ 0 ∨ e'.sent ≠ e.sent ∨ e'.remaps ≠ e.remaps →
      direction2 = .DOWN ∧ (KEY_ARRAY (virt_code2 &&& 0xFF)).modifier = 0) := by
  refine ⟨?_, key_array_modifier_iff _ (and_ff_lt virt_code), ?_⟩
  · unfold event_other_input
    rw [if_neg]
    rintro ⟨hd, hm⟩
    rcases h with h | h
    · rw [hd] at h
      exact absurd h (by decide)
    · exact h hm
  · intro fuel2 virt_code2 direction2 b e' hrun hch
    by_contra hc
    unfold event_other_input at hrun
    rw [if_neg hc] at hrun
    obtain ⟨rfl, rfl⟩ := Prod.mk.inj (Option.some.inj hrun)
    rcases hch with h1 | h1 | h1
    · exact h1 rfl
    · exact h1 rfl
    · exact h1 rfl

/-- Claim C40 in the S1 configuration with CAPSLOCK held alone: the release
of KEY_A and the press of LEFT_SHIFT leave the remap in `HELD_DOWN_ALONE`,
while the press of KEY_A promotes it to `HELD_DOWN_WITH_OTHER`. -/
theorem C40_other_input_ignored_witness :
    (remapAt c19_engine.remaps 0).state = .HELD_DOWN_ALONE ∧
    (event_other_input 1 KEY_A.virt_code .DOWN 10 0 c19_engine).map
        (fun p => (p.1, (remapAt p.2.remaps 0).state)) =
      some (-1, State.HELD_DOWN_WITH_OTHER) ∧
    event_other_input 1 LEFT_SHIFT.virt_code .DOWN 10 0 c19_engine = some (0, c19_engine) ∧
    (event_other_input 1 KEY_A.virt_code .UP 10 0 c19_engine = some (0, c19_engine) ∧
    ((KEY_ARRAY (KEY_A.virt_code &&& 0xFF)).modifier ≠ 0 ↔
      KEY_A.virt_code &&& 0xFF ∈ [LEFT_CTRL.virt_code, RIGHT_CTRL.virt_code,
        LEFT_SHIFT.virt_code, RIGHT_SHIFT.virt_code, LEFT_ALT.virt_code, RIGHT_ALT.virt_code,
        LEFT_WIN.virt_code, RIGHT_WIN.virt_code]) ∧
    (∀ (fuel2 virt_code2 : Nat) (direction2 : Direction) (b : Int) (e' : Engine),
      event_other_input fuel2 virt_code2 direction2 10 0 c19_engine = some (b, e') →
      b ≠ 0 ∨ e'.sent ≠ c19_engine.sent ∨ e'.remaps ≠ c19_engine.remaps →
      direction2 = .DOWN ∧ (KEY_ARRAY (virt_code2 &&& 0xFF)).modifier = 0)) :=
  ⟨rfl, rfl, rfl,
    C40_other_input_ignored 1 KEY_A.virt_code .UP 10 0 c19_engine (Or.inl rfl)⟩

/-! ## Dispatch to the active list (`remap.c` lines 864-882) -/

theorem find_remap_for_virt_code_some (rs : List Remap) (l : List Nat) (virt_code r : Nat)
    (h : find_remap_for_virt_code rs l virt_code = some r) :
    r ∈ l ∧ (remapAt rs r).from_.virt_code = virt_code := by
  induction l with
  | nil => exact absurd h (by simp [find_remap_for_virt_code])
  | cons m rest ih =>
    unfold find_remap_for_virt_code at h
    split at h
    · rename_i hm
      obtain rfl := Option.some.inj h
      exact ⟨List.mem_cons_self _ _, hm⟩
    · obtain ⟨h1, h2⟩ := ih h
      exact ⟨List.mem_cons_of_mem _ h1, h2⟩

theorem find_remap_for_virt_code_eq_none (rs : List Remap) (l : List Nat) (virt_code : Nat)
    (h : find_remap_for_virt_code rs l virt_code = none) :
    ∀ n ∈ l, (remapAt rs n).from_.virt_code ≠ virt_code := by
  induction l with
  | nil => intro n hn; exact absurd hn (List.not_mem_nil _)
  | cons m rest ih =>
    unfold find_remap_for_virt_code at h
    split at h
    · exact absurd h (by simp)
    · rename_i hm
      intro n hn
      rcases List.mem_cons.1 hn with rfl | hn
      · exact hm
      · exact ih h n hn

/-- With distinct source codes on the list, the search finds the one remap
of the list that has the code. -/
theorem find_of_distinct (rs : List Remap) (l : List Nat) (virt_code r : Nat)
    (hnd : (l.map fun n => (remapAt rs n).from_.virt_code).Nodup) (hr : r ∈ l)
    (hv : (remapAt rs r).from_.virt_code = virt_code) :
    find_remap_for_virt_code rs l virt_code = some r := by
  induction l with
  | nil => exact absurd hr (List.not_mem_nil _)
  | cons m rest ih =>
    rw [List.map_cons, List.nodup_cons] at hnd
    unfold find_remap_for_virt_code
    by_cases hm : (remapAt rs m).from_.virt_code = virt_code
    · rw [if_pos hm]
      rcases List.mem_cons.1 hr with rfl | hr'
      · rfl
      · exfalso
        apply hnd.1
        rw [List.mem_map]
        exact ⟨r, hr', by rw [hv, hm]⟩
    · rw [if_neg hm]
      rcases List.mem_cons.1 hr with rfl | hr'
      · exact absurd hv hm
      · exact ih hnd.2 hr'

theorem SameRule.rule_from {r r' : Remap} (h : SameRule r r') : r'.from_ = r.from_ :=
  (congrArg (fun x => Remap.from_ x) h : (stripRemap r').from_ = (stripRemap r).from_)

theorem dispatch_frame {e e' : Engine} (hr : SameRules e.remaps e'.remaps)
    (ha : e'.g_remap_array = e.g_remap_array) (hb : BucketsSound e) (hs : SourcesByte e) :
    BucketsSound e' ∧ SourcesByte e' ∧
      ∀ l : List Nat, (l.map fun n => (remapAt e'.remaps n).from_.virt_code) =
        l.map fun n => (remapAt e.remaps n).from_.virt_code := by
  have hf : ∀ n, (remapAt e'.remaps n).from_ = (remapAt e.remaps n).from_ :=
    fun n => (hr.rules_at n).rule_from
  refine ⟨?_, ?_, ?_⟩
  · intro i n hn
    rw [ha] at hn
    rw [hf]
    exact hb i n hn
  · intro n
    rw [hf]
    exact hs n
  · intro l
    apply List.map_congr_left
    intro n _
    rw [hf]

/-- What a key-up sends starts with the up-chord of the chord the remap
holds. -/
theorem key_up_transition_releases {fuel : Nat} (e : Engine) (r : Remap) (time : Nat)
    (t : Remap × List SentInput × List Layer)
    (h : key_up_transition fuel e r time = some t) :
    ∃ rest, t.2.1 = e.sent ++ chord_up (held_chord r) r.id ++ rest := by
  have hnil : ∀ id : Nat, chord_up [] id = [] := fun _ => rfl
  unfold key_up_transition at h
  unfold held_chord
  cases hst : r.state with
  | IDLE =>
    rw [hst] at h
    obtain rfl := Option.some.inj h
    exact ⟨[], by simp [hnil]⟩
  | TAPPED =>
    rw [hst] at h
    obtain rfl := Option.some.inj h
    exact ⟨[], by simp [hnil]⟩
  | HELD_DOWN_ALONE =>
    rw [hst] at h
    simp only at h
    split at h
    · rw [Option.map_eq_some'] at h
      obtain ⟨ls, _, rfl⟩ := h
      simp only [toggle_tap_lock_sent, hnil, List.append_nil]
      split
      · rw [send_key_def_input_up_unmasked, send_key_def_input_down_unmasked]
        exact ⟨_, by rw [List.append_assoc, List.append_assoc]⟩
      · exact ⟨_, rfl⟩
    · rw [Option.map_eq_some'] at h
      obtain ⟨ls, _, rfl⟩ := h
      exact ⟨[], by simp [hnil]⟩
  | HELD_DOWN_WITH_OTHER =>
    rw [hst] at h
    simp only at h
    rw [Option.map_eq_some'] at h
    obtain ⟨ls, _, rfl⟩ := h
    simp only [release_chord_sent]
    exact ⟨[], by simp⟩
  | TAP =>
    rw [hst] at h
    simp only at h
    split at h
    · rw [Option.map_eq_some'] at h
      obtain ⟨ls, _, rfl⟩ := h
      simp only [toggle_tap_lock_sent, release_chord_sent]
      exact ⟨_, rfl⟩
    · rw [Option.map_eq_some'] at h
      obtain ⟨ls, _, rfl⟩ := h
      simp only [release_chord_sent]
      exact ⟨[], by simp⟩
  | DOUBLE_TAP =>
    rw [hst] at h
    simp only at h
    split at h
    · rw [Option.map_eq_some'] at h
      obtain ⟨ls, _, rfl⟩ := h
      simp only [toggle_double_tap_lock_sent, release_chord_sent]
      exact ⟨_, rfl⟩
    · rw [Option.map_eq_some'] at h
      obtain ⟨ls, _, rfl⟩ := h
      simp only [release_chord_sent]
      exact ⟨[], by simp⟩

/-- One call of `handle_input` with a byte virtual code keeps the source
codes of the active list distinct, and keeps the registry and the graph. -/
theorem dispatch_inv_step {fuel : Nat} (scan_code virt_code : Nat) (direction : Direction)
    (time : Nat) (is_injected : Bool) (flags dwExtraInfo : Nat) (e : Engine) (b : Int)
    (e' : Engine) (hok : LayersOK e.layers) (hfuel : e.layers.length < fuel)
    (hv : virt_code < 256) (hd : ActiveDistinct e) (hb : BucketsSound e) (hs : SourcesByte e)
    (h : handle_input fuel scan_code virt_code direction time is_injected flags dwExtraInfo e =
      some (b, e')) :
    ActiveDistinct e' ∧ BucketsSound e' ∧ SourcesByte e' ∧ LayersOK e'.layers ∧
      e'.layers.length = e.layers.length := by
  rw [handle_input_eq_tail] at h
  obtain ⟨e1, he1, hok1, hlen1, hd1, hb1, hs1⟩ : ∃ e1,
      (if e.g_unlock_timeout > 0 ∧ dword_sub time e.g_last_input > u32 e.g_unlock_timeout then
        unlock_all e
      else e) = e1 ∧ LayersOK e1.layers ∧ e1.layers.length = e.layers.length ∧
        ActiveDistinct e1 ∧ BucketsSound e1 ∧ SourcesByte e1 := by
    split
    · obtain ⟨hr, hl, ha⟩ := unlock_all_ok e
      have hg2 : SameGraph e.layers (unlock_all e).layers := by
        unfold SameGraph
        rw [hl, List.map_map]
        rfl
      obtain ⟨h1, h2, _⟩ := dispatch_frame hr ha hb hs
      refine ⟨_, rfl, hg2.sg_layersOK hok, hg2.sg_length_eq, ?_, h1, h2⟩
      unfold ActiveDistinct active_codes
      have : (unlock_all e).g_remap_list = [] := rfl
      rw [this]
      exact List.nodup_nil
    · exact ⟨e, rfl, hok, rfl, hd, hb, hs⟩
  rw [he1] at h
  have hfuel1 : e1.layers.length < fuel := by rw [hlen1]; exact hfuel
  rcases handle_input_tail_cases virt_code direction time is_injected dwExtraInfo e1 b e' h
    with ⟨_, _, _, rfl | rfl⟩ | ⟨r, _, hr, _, hrun⟩ | ⟨r, _, hr, _, hrun⟩ | ⟨id, _, hrun⟩
  · exact ⟨hd1, hb1, hs1, hok1, hlen1⟩
  · exact ⟨hd1, hb1, hs1, hok1, hlen1⟩
  · obtain ⟨e2, hrun2, hrules, hstep, harr⟩ := @key_up_ok fuel r time
      { e1 with g_last_input := time % 4294967296 } hok1 hfuel1
    rw [hrun] at hrun2
    obtain ⟨_, rfl⟩ := Prod.mk.inj (Option.some.inj hrun2)
    obtain ⟨_, _, x, _, _, _, hlist⟩ := key_up_active r time _ b e' hrun
    obtain ⟨h1, h2, h3⟩ := @dispatch_frame { e1 with g_last_input := time % 4294967296 } e'
      hrules harr hb1 hs1
    refine ⟨?_, h1, h2, hstep.1.sg_layersOK hok1, (hstep.1.sg_length_eq).trans hlen1⟩
    unfold ActiveDistinct active_codes
    rw [h3, hlist]
    split
    · rw [remove_active_remap_eq_erase]
      exact List.Nodup.sublist ((List.erase_sublist _ _).map _) hd1
    · exact hd1
  · obtain ⟨e2, hrun2, hrules, hstep, harr⟩ := @key_down_ok fuel r time
      { e1 with g_last_input := time % 4294967296 } hok1 hfuel1
    rw [hrun] at hrun2
    obtain ⟨_, rfl⟩ := Prod.mk.inj (Option.some.inj hrun2)
    obtain ⟨_, _, hcase⟩ := key_down_active r time _ b e' hrun
    obtain ⟨h1, h2, h3⟩ := @dispatch_frame { e1 with g_last_input := time % 4294967296 } e'
      hrules harr hb1 hs1
    refine ⟨?_, h1, h2, hstep.1.sg_layersOK hok1, (hstep.1.sg_length_eq).trans hlen1⟩
    unfold ActiveDistinct active_codes
    rw [h3]
    have hlist : e'.g_remap_list = e1.g_remap_list ∨
        e'.g_remap_list = append_active_remap e1.g_remap_list r := by
      rcases hcase with ⟨_, hl⟩ | ⟨_, _, _, hl⟩
      · exact Or.inl hl
      · exact Or.inr hl
    rcases hlist with hl | hl
    · rw [hl]
      exact hd1
    · rw [hl]
      by_cases hmem : r ∈ e1.g_remap_list
      · rw [append_active_remap_of_mem hmem]
        exact hd1
      · rw [append_active_remap_of_not_mem hmem, List.map_append, List.map_singleton]
        have hfind : find_remap_for_virt_code e1.remaps e1.g_remap_list virt_code = none := by
          cases hf : find_remap_for_virt_code e1.remaps e1.g_remap_list virt_code with
          | none => rfl
          | some r' =>
            exfalso
            unfold remap_for_input at hr
            simp only [hf] at hr
            obtain rfl := Option.some.inj hr
            exact hmem (find_remap_for_virt_code_mem _ _ _ _ hf)
        have hbucket : r ∈ e1.g_remap_array.getD (virt_code &&& 0xFF) [] := by
          rcases remap_for_input_mem _ _ _ hr with h4 | h4
          · exact absurd h4 hmem
          · exact h4
        have hcode : (remapAt e1.remaps r).from_.virt_code = virt_code := by
          have hlow := hb1 _ r hbucket
          have hbyte := hs1 r
          have hmask : (0xFF : Nat) = 2 ^ 8 - 1 := by norm_num
          rw [hmask, Nat.and_pow_two_sub_one_eq_mod, Nat.and_pow_two_sub_one_eq_mod] at hlow
          rw [Nat.mod_eq_of_lt (by omega), Nat.mod_eq_of_lt (by omega)] at hlow
          exact hlow
        apply List.Nodup.append hd1 (List.nodup_singleton _)
        intro c hc1 hc2
        rw [List.mem_singleton] at hc2
        unfold active_codes at hc1
        rw [List.mem_map] at hc1
        obtain ⟨n, hn, hnc⟩ := hc1
        apply find_remap_for_virt_code_eq_none _ _ _ hfind n hn
        show (remapAt e1.remaps n).from_.virt_code = virt_code
        rw [← hcode]
        show (remapAt e1.remaps n).from_.virt_code = (remapAt e1.remaps r).from_.virt_code
        rw [hnc, hc2]
  · obtain ⟨b2, e2, hrun2, hl, hrules, harr⟩ := @other_input_ok fuel virt_code direction time id
      { e1 with g_last_input := time % 4294967296 } hok1 hfuel1
    rw [hrun] at hrun2
    obtain ⟨_, rfl⟩ := Prod.mk.inj (Option.some.inj hrun2)
    obtain ⟨hlist, _⟩ := other_input_active virt_code direction time id _ b e' hrun
    obtain ⟨h1, h2, h3⟩ := @dispatch_frame { e1 with g_last_input := time % 4294967296 } e'
      hrules harr hb1 hs1
    refine ⟨?_, h1, h2, ?_, ?_⟩
    · unfold ActiveDistinct active_codes
      rw [h3, hlist]
      exact hd1
    · rw [hl]; exact hok1
    · rw [hl]; exact hlen1

/-- After the end-of-file call on empty buckets, every bucket entry has the
bucket index as the low byte of its source code. -/
theorem loaded_buckets_sound (pre : Engine)
    (hempty : pre.g_remap_array = List.replicate 256 []) (hnodup : pre.g_remap_list.Nodup) :
    BucketsSound (load_config_line_eof pre) := by
  intro i n hn
  have h := distribute_count pre.remaps pre.g_remap_list [] pre.g_remap_array
    (by rw [hempty]; exact List.length_replicate _ _)
    (by
      intro j s
      rw [hempty, getD_replicate_nil]
      simp)
    (fun _ _ h => absurd h (List.not_mem_nil _)) hnodup i n
  have hpos : 0 < ((load_config_line_eof pre).g_remap_array.getD i []).count n :=
    List.count_pos_iff.mpr hn
  have hc : ((load_config_line_eof pre).g_remap_array.getD i []).count n =
      if n ∈ [] ++ pre.g_remap_list ∧ bucket_index pre.remaps n = i then 1 else 0 := h
  rw [hc] at hpos
  split at hpos
  · rename_i hmem
    exact hmem.2
  · omega

theorem selection_state_frame (e : Engine) (time : Nat) :
    SameRules e.remaps (selection_state e time).remaps ∧
      (ActiveDistinct e → ActiveDistinct (selection_state e time)) := by
  unfold selection_state
  split
  · refine ⟨(unlock_all_ok e).1, fun _ => ?_⟩
    unfold ActiveDistinct active_codes
    exact List.nodup_nil
  · exact ⟨SameRules.rules_refl _, fun h => h⟩

/-- C39: a non-injected event with virtual code `v`, when a remap with
`from.virt_code = v` is on the active list as `handle_input` searches it
(after the unlock check), in a state in which the source codes of the active
list are distinct. The event is dispatched to that remap, to its up handler
or its down handler; the remap selected does not depend on the state of any
layer or on the buckets; a release returns 1 and what it sends starts with
the up-chord of the chord the remap holds. Without an elapsed unlock timeout
the list searched is the active list of the engine. The distinctness of the
source codes holds for an empty active list and is kept by every call of
`handle_input` with a byte virtual code, when the registry holds every remap
in the bucket of its source code and the source codes are bytes, as it is after the end-of-file call of
`load_config_line` on empty buckets. -/
theorem C39_release_reaches_remap (fuel scan_code virt_code : Nat) (direction : Direction)
    (time flags dwExtraInfo r : Nat) (e : Engine) (hd : ActiveDistinct e)
    (hmem : r ∈ (selection_state e time).g_remap_list)
    (hcode : (remapAt e.remaps r).from_.virt_code = virt_code) :
    handle_input fuel scan_code virt_code direction time false flags dwExtraInfo e =
      (if direction = .UP then event_remapped_key_up fuel r time (selection_state e time)
      else event_remapped_key_down fuel r time (selection_state e time)) ∧
    (∀ (ls : List Layer) (arr : List (List Nat)),
      remap_for_input { selection_state e time with layers := ls, g_remap_array := arr }
        virt_code = some r) ∧
    (∀ (b : Int) (e' : Engine),
      handle_input fuel scan_code virt_code .UP time false flags dwExtraInfo e = some (b, e') →
      b = 1 ∧ ∃ rest, e'.sent = (selection_state e time).sent ++
        chord_up (held_chord (remapAt (selection_state e time).remaps r))
          (remapAt (selection_state e time).remaps r).id ++ rest) ∧
    (¬ unlock_due e time →
      (selection_state e time).g_remap_list = e.g_remap_list ∧
      (selection_state e time).remaps = e.remaps ∧
      (selection_state e time).sent = e.sent) ∧
    (∀ e0 : Engine, e0.g_remap_list = [] → ActiveDistinct e0) ∧
    (∀ pre : Engine, pre.g_remap_array = List.replicate 256 [] → pre.g_remap_list.Nodup →
      BucketsSound (load_config_line_eof pre)) ∧
    (∀ (fuel2 scan_code2 virt_code2 : Nat) (direction2 : Direction) (time2 : Nat)
      (is_injected2 : Bool) (flags2 dwExtraInfo2 : Nat) (e0 : Engine) (b : Int) (e0' : Engine),
      LayersOK e0.layers → e0.layers.length < fuel2 → virt_code2 < 256 →
      ActiveDistinct e0 → BucketsSound e0 → SourcesByte e0 →
      handle_input fuel2 scan_code2 virt_code2 direction2 time2 is_injected2 flags2
        dwExtraInfo2 e0 = some (b, e0') →
      ActiveDistinct e0' ∧ BucketsSound e0' ∧ SourcesByte e0' ∧ LayersOK e0'.layers ∧
        e0'.layers.length = e0.layers.length) := by
  obtain ⟨hrules, hdist⟩ := selection_state_frame e time
  have hcode2 : (remapAt (selection_state e time).remaps r).from_.virt_code = virt_code := by
    rw [(hrules.rules_at r).rule_from]
    exact hcode
  have hfind : find_remap_for_virt_code (selection_state e time).remaps
      (selection_state e time).g_remap_list virt_code = some r :=
    find_of_distinct _ _ _ _ (hdist hd) hmem hcode2
  have hsel : ∀ (ls : List Layer) (arr : List (List Nat)),
      remap_for_input { selection_state e time with layers := ls, g_remap_array := arr }
        virt_code = some r := by
    intro ls arr
    unfold remap_for_input
    simp only [hfind]
  have hsel0 : remap_for_input (selection_state e time) virt_code = some r := by
    unfold remap_for_input
    simp only [hfind]
  have hdisp : ∀ d : Direction,
      handle_input fuel scan_code virt_code d time false flags dwExtraInfo e =
        (if d = .UP then event_remapped_key_up fuel r time (selection_state e time)
        else event_remapped_key_down fuel r time (selection_state e time)) := by
    intro d
    rw [handle_input_dispatch, hsel0]
  refine ⟨hdisp direction, hsel, ?_, ?_, ?_, loaded_buckets_sound, ?_⟩
  · intro b e' hrun
    rw [hdisp, if_pos rfl] at hrun
    unfold event_remapped_key_up at hrun
    rw [Option.map_eq_some'] at hrun
    obtain ⟨t, ht, hte⟩ := hrun
    obtain ⟨rfl, rfl⟩ := Prod.mk.inj hte
    exact ⟨rfl, key_up_transition_releases _ _ _ t ht⟩
  · intro hu
    rw [selection_state_of_not_due e time hu]
    exact ⟨rfl, rfl, rfl⟩
  · intro e0 h0
    unfold ActiveDistinct active_codes
    rw [h0]
    exact List.nodup_nil
  · intro fuel2 scan_code2 virt_code2 direction2 time2 is_injected2 flags2 dwExtraInfo2 e0 b e0'
      hok hfuel hv hd0 hb0 hs0 hrun
    exact dispatch_inv_step scan_code2 virt_code2 direction2 time2 is_injected2 flags2
      dwExtraInfo2 e0 b e0' hok hfuel hv hd0 hb0 hs0 hrun

/-- Claim C39 in the S5 configuration: the layered rule of KEY_J took the
press while `layer1` was active; the layer is inactive again and the bucket
walk would find no rule, yet the release of KEY_J at 310 is handled by that
remap, which releases LEFT. -/
theorem C39_release_reaches_remap_witness :
    c39_engine.g_remap_list = [0] ∧
    (remapAt c39_engine.remaps 0).layer = some 0 ∧
    (remapAt c39_engine.remaps 0).state = .TAP ∧
    (layerAt c39_engine.layers 0).state = 0 ∧
    find_remap_node c39_engine.layers c39_engine.remaps
      (c39_engine.g_remap_array.getD (KEY_J.virt_code &&& 0xFF) []) = none ∧
    (handle_input 2 KEY_J.scan_code KEY_J.virt_code .UP 310 false 0 0 c39_engine).map
        (fun p => (p.1, p.2.sent.drop c39_engine.sent.length, (remapAt p.2.remaps 0).state,
          p.2.g_remap_list)) =
      some (1, chord_up [LEFT] 1, State.IDLE, []) ∧
    handle_input 2 KEY_J.scan_code KEY_J.virt_code .UP 310 false 0 0 c39_engine =
      (if Direction.UP = .UP then
        event_remapped_key_up 2 0 310 (selection_state c39_engine 310)
      else event_remapped_key_down 2 0 310 (selection_state c39_engine 310)) :=
  ⟨rfl, rfl, rfl, rfl, rfl, rfl,
    (C39_release_reaches_remap 2 KEY_J.scan_code KEY_J.virt_code .UP 310 0 0 0 c39_engine
      (by
        unfold ActiveDistinct
        rw [show active_codes c39_engine = [KEY_J.virt_code] from rfl]
        exact List.nodup_singleton _)
      (by
        rw [show (selection_state c39_engine 310).g_remap_list = [0] from rfl]
        exact List.mem_singleton_self _)
      rfl).1⟩

/-! ## The pointer engine: held keys and directions (`mouse.c` lines 308-357) -/

theorem held_mask_eq (k : Nat) (h1 : 1 ≤ k) (h12 : k ≤ 12) : held_mask k = 2 ^ (k - 1) := by
  interval_cases k <;> rfl

theorem testBit_set_bit (h i j : Nat) :
    (h ||| 2 ^ i).testBit j = (decide (i = j) || h.testBit j) := by
  rw [Nat.testBit_lor, Nat.testBit_two_pow, Bool.or_comm]

theorem testBit_clear_bit (h i j : Nat) (h32 : h < 4294967296) (hi : i < 32) :
    (h &&& (4294967295 ^^^ 2 ^ i)).testBit j = (!decide (i = j) && h.testBit j) := by
  have hm : (4294967295 : Nat) = 2 ^ 32 - 1 := by norm_num
  rw [Nat.testBit_land, Nat.testBit_xor, hm, Nat.testBit_two_pow_sub_one, Nat.testBit_two_pow]
  by_cases hj : j < 32
  · by_cases hij : i = j <;> simp [hj, hij]
  · have hz : h.testBit j = false := by
      apply Nat.testBit_eq_false_of_lt
      calc h < 2 ^ 32 := by norm_num; exact h32
        _ ≤ 2 ^ j := Nat.pow_le_pow_right (by norm_num) (by omega)
    simp [hz]

theorem lt_of_set_bit (h i : Nat) (h32 : h < 4294967296) (hi : i < 32) :
    h ||| 2 ^ i < 4294967296 := by
  have hm : (4294967296 : Nat) = 2 ^ 32 := by norm_num
  rw [hm] at h32 ⊢
  exact Nat.or_lt_two_pow h32 (Nat.pow_lt_pow_right (by norm_num) hi)

theorem lt_of_clear_bit (h m : Nat) (h32 : h < 4294967296) : h &&& m < 4294967296 :=
  lt_of_le_of_lt Nat.and_le_left h32

/-- The value of `get_dir_from_held_keys` in terms of the two bits of the
pair. -/
theorem get_dir_eq (state : MouseState) (s : Nat) :
    get_dir_from_held_keys state s =
      dir_of_pair (state.held_keys.testBit s) (state.held_keys.testBit (s + 1)) := by
  unfold get_dir_from_held_keys dir_of_pair
  have e1 : (state.held_keys >>> s) &&& 3 = state.held_keys / 2 ^ s % 4 := by
    have h3 : (3 : Nat) = 2 ^ 2 - 1 := by norm_num
    rw [h3, Nat.and_pow_two_sub_one_eq_mod, Nat.shiftRight_eq_div_pow]
  have e2 : state.held_keys.testBit s = decide (state.held_keys / 2 ^ s % 2 = 1) :=
    Nat.testBit_to_div_mod
  have e3 : state.held_keys.testBit (s + 1) =
      decide (state.held_keys / 2 ^ s / 2 % 2 = 1) := by
    rw [Nat.testBit_to_div_mod, Nat.div_div_eq_div_mul, pow_succ]
  rw [e1, e2, e3]
  generalize state.held_keys / 2 ^ s = q
  have hq : q % 4 = 0 ∨ q % 4 = 1 ∨ q % 4 = 2 ∨ q % 4 = 3 := by omega
  rcases hq with hq | hq | hq | hq
  · have h1 : ¬ q % 2 = 1 := by omega
    have h2 : ¬ q / 2 % 2 = 1 := by omega
    simp [hq, h1, h2]
  · have h1 : q % 2 = 1 := by omega
    have h2 : ¬ q / 2 % 2 = 1 := by omega
    simp [hq, h1, h2]
  · have h1 : ¬ q % 2 = 1 := by omega
    have h2 : q / 2 % 2 = 1 := by omega
    simp [hq, h1, h2]
  · have h1 : q % 2 = 1 := by omega
    have h2 : q / 2 % 2 = 1 := by omega
    simp [hq, h1, h2]

/-- The fields the direction block writes, in terms of the new bit field. -/
theorem update_directions_fields (mask : Nat) (direction : Direction) (state : MouseState) :
    (update_directions mask direction state).held_keys =
      (if direction = .DOWN then state.held_keys ||| mask
        else state.held_keys &&& (4294967295 ^^^ mask)) ∧
    (update_directions mask direction state).move_v =
      get_dir_from_held_keys (update_directions mask direction state) 0 ∧
    (update_directions mask direction state).move_h =
      get_dir_from_held_keys (update_directions mask direction state) 2 ∧
    (update_directions mask direction state).move_dir =
      get_dir_from_held_keys (update_directions mask direction state) 4 ∧
    (update_directions mask direction state).steer_dir =
      get_dir_from_held_keys (update_directions mask direction state) 6 ∧
    (update_directions mask direction state).wheel_y_dir =
      get_dir_from_held_keys (update_directions mask direction state) 8 ∧
    (update_directions mask direction state).wheel_x_dir =
      get_dir_from_held_keys (update_directions mask direction state) 10 ∧
    (update_directions mask direction state).move_t =
      (if (update_directions mask direction state).move_v ≠ state.move_v ∨
          (update_directions mask direction state).move_h ≠ state.move_h ∨
          (update_directions mask direction state).move_dir ≠ state.move_dir then 0
        else state.move_t) ∧
    (update_directions mask direction state).speed = state.speed ∧
    (update_directions mask direction state).speed_curve = state.speed_curve := by
  unfold update_directions
  lift_lets
  intro s0 s1 s2 s3
  have hk1 : s1.held_keys = s0.held_keys := by
    simp only [s1]; split <;> rfl
  have hk2 : s2.held_keys = s0.held_keys := by
    simp only [s2]; split
    · exact hk1
    · exact hk1
  have hk3 : s3.held_keys = s0.held_keys := by
    simp only [s3]; split
    · exact hk2
    · exact hk2
  have hg : ∀ (a b : MouseState) (n : Nat), a.held_keys = b.held_keys →
      get_dir_from_held_keys a n = get_dir_from_held_keys b n := by
    intro a b n hab
    unfold get_dir_from_held_keys
    rw [hab]
  have hv1 : s1.move_v = get_dir_from_held_keys s0 0 := by
    simp only [s1]; split
    · rfl
    · rename_i hc; exact not_not.mp hc
  have hh1 : s1.move_h = state.move_h := by
    simp only [s1]; split <;> rfl
  have hd1 : s1.move_dir = state.move_dir := by
    simp only [s1]; split <;> rfl
  have hv2 : s2.move_v = get_dir_from_held_keys s0 0 := by
    simp only [s2]; split
    · exact hv1
    · exact hv1
  have hh2 : s2.move_h = get_dir_from_held_keys s0 2 := by
    simp only [s2]; split
    · exact hg _ _ _ hk1
    · rename_i hc; rw [not_not.mp hc]; exact hg _ _ _ hk1
  have hd2 : s2.move_dir = state.move_dir := by
    simp only [s2]; split
    · exact hd1
    · exact hd1
  have hv3 : s3.move_v = get_dir_from_held_keys s0 0 := by
    simp only [s3]; split
    · exact hv2
    · exact hv2
  have hh3 : s3.move_h = get_dir_from_held_keys s0 2 := by
    simp only [s3]; split
    · exact hh2
    · exact hh2
  have hd3 : s3.move_dir = get_dir_from_held_keys s0 4 := by
    simp only [s3]; split
    · exact hg _ _ _ hk2
    · rename_i hc; rw [not_not.mp hc]; exact hg _ _ _ hk2
  have ht1 : s1.move_t = if get_dir_from_held_keys s0 0 ≠ state.move_v then 0
      else state.move_t := by
    simp only [s1]
    by_cases hc : s0.move_v ≠ get_dir_from_held_keys s0 0
    · rw [if_pos hc, if_pos (fun h => hc h.symm)]
    · rw [if_neg hc, if_neg (fun h => hc (fun h2 => h h2.symm))]
  have ht2 : s2.move_t = if get_dir_from_held_keys s0 2 ≠ state.move_h then 0
      else s1.move_t := by
    simp only [s2]
    by_cases hc : s1.move_h ≠ get_dir_from_held_keys s1 2
    · rw [if_pos hc, if_pos]
      rw [← hh1, hg s0 s1 2 hk1.symm]
      exact fun h => hc h.symm
    · rw [if_neg hc, if_neg]
      rw [← hh1, hg s0 s1 2 hk1.symm]
      exact fun h => hc (fun h2 => h h2.symm)
  have ht3 : s3.move_t = if get_dir_from_held_keys s0 4 ≠ state.move_dir then 0
      else s2.move_t := by
    simp only [s3]
    by_cases hc : s2.move_dir ≠ get_dir_from_held_keys s2 4
    · rw [if_pos hc, if_pos]
      rw [← hd2, hg s0 s2 4 hk2.symm]
      exact fun h => hc h.symm
    · rw [if_neg hc, if_neg]
      rw [← hd2, hg s0 s2 4 hk2.symm]
      exact fun h => hc (fun h2 => h h2.symm)
  have hsp1 : s1.speed = state.speed ∧ s1.speed_curve = state.speed_curve := by
    simp only [s1]; split <;> exact ⟨rfl, rfl⟩
  have hsp2 : s2.speed = state.speed ∧ s2.speed_curve = state.speed_curve := by
    simp only [s2]; split
    · exact hsp1
    · exact hsp1
  have hsp : s3.speed = state.speed ∧ s3.speed_curve = state.speed_curve := by
    simp only [s3]; split
    · exact hsp2
    · exact hsp2
  have hgf : ∀ n : Nat, get_dir_from_held_keys
      { s3 with steer_dir := get_dir_from_held_keys s3 6,
                wheel_y_dir := get_dir_from_held_keys s3 8,
                wheel_x_dir := get_dir_from_held_keys s3 10 } n =
      get_dir_from_held_keys s0 n := fun n => hg _ _ n hk3
  refine ⟨hk3, ?_, ?_, ?_, ?_, ?_, ?_, ?_, hsp.1, hsp.2⟩
  · rw [hgf]; exact hv3
  · rw [hgf]; exact hh3
  · rw [hgf]; exact hd3
  · rw [hgf]; exact hg _ _ _ hk3
  · rw [hgf]; exact hg _ _ _ hk3
  · rw [hgf]; exact hg _ _ _ hk3
  · show s3.move_t = if s3.move_v ≠ state.move_v ∨ s3.move_h ≠ state.move_h ∨
        s3.move_dir ≠ state.move_dir then 0 else state.move_t
    rw [ht3, ht2, ht1, hv3, hh3, hd3]
    by_cases c1 : get_dir_from_held_keys s0 0 ≠ state.move_v <;>
      by_cases c2 : get_dir_from_held_keys s0 2 ≠ state.move_h <;>
      by_cases c3 : get_dir_from_held_keys s0 4 ≠ state.move_dir <;>
      simp [c1, c2, c3]

/-! ## The pointer engine: what `move_send` keeps -/

theorem sameKeys_refl (s : MouseState) : SameKeys s s :=
  ⟨rfl, rfl, rfl, rfl, rfl, rfl, rfl, rfl⟩

theorem sameKeys_trans {a b c : MouseState} (h1 : SameKeys a b) (h2 : SameKeys b c) :
    SameKeys a c := by
  obtain ⟨a1, a2, a3, a4, a5, a6, a7, a8⟩ := h1
  obtain ⟨b1, b2, b3, b4, b5, b6, b7, b8⟩ := h2
  exact ⟨b1.trans a1, b2.trans a2, b3.trans a3, b4.trans a4, b5.trans a5, b6.trans a6,
    b7.trans a7, b8.trans a8⟩

theorem is_moving_congr {s s' : MouseState} (h : SameKeys s s') :
    is_moving s' = is_moving s := by
  obtain ⟨_, h2, h3, h4, _⟩ := h
  unfold is_moving
  rw [h2, h3, h4]

theorem any_direction_congr {s s' : MouseState} (h : SameKeys s s') :
    any_direction s' = any_direction s := by
  obtain ⟨_, h2, h3, h4, h5, h6, h7, _⟩ := h
  unfold any_direction
  rw [h2, h3, h4, h5, h6, h7]

/-- A read of the speed curve inside its 16 entries. -/
theorem speed_curve_at_eq (c : List Int) (hlen : c.length = 16) (i : Int) (h0 : 0 ≤ i)
    (h16 : i < 16) : speed_curve_at c i = some (c.getD i.toNat 0) := by
  unfold speed_curve_at
  rw [if_pos h0]
  have hlt : i.toNat < c.length := by omega
  rw [List.getD_eq_getElem?_getD, List.getElem?_eq_getElem hlt]
  rfl

/-- The speed block with a table of 16 entries and a nonnegative `move_t`:
it returns, and the table is read at 0, or at `(move_t - 1) / 16` and the
entry after it, both inside the table. -/
theorem move_speed_eq (s : MouseState) (hlen : s.speed_curve.length = 16)
    (ht : 0 ≤ s.move_t) :
    move_speed s =
      some (if s.move_t ≤ 240 then
        if s.move_t = 0 then
          { s with speed := ((s.speed_curve.getD 0 0 * 16 : Int) : ℚ), move_t := s.move_t + 1 }
        else
          { s with
            speed := s.speed +
              ((s.speed_curve.getD ((s.move_t.toNat - 1) / 16 + 1) 0 -
                s.speed_curve.getD ((s.move_t.toNat - 1) / 16) 0 : Int) : ℚ),
            move_t := s.move_t + 1 }
      else s) := by
  unfold move_speed
  have h15 : 16 * (NUM_SPEED_CURVE_INTERVALS - 1) = 240 := by decide
  rw [h15]
  by_cases h240 : s.move_t ≤ 240
  · rw [if_pos h240, if_pos h240]
    by_cases h0 : s.move_t = 0
    · rw [if_pos h0, if_pos h0, speed_curve_at_eq _ hlen 0 (le_refl _) (by norm_num)]
      rfl
    · rw [if_neg h0, if_neg h0]
      have hd : Int.tdiv (s.move_t - 1) 16 = (((s.move_t.toNat - 1) / 16 : Nat) : Int) := by
        rw [Int.tdiv_eq_ediv (by omega) (by norm_num)]
        omega
      rw [hd, speed_curve_at_eq _ hlen _ (by omega) (by omega),
        speed_curve_at_eq _ hlen _ (by omega) (by omega)]
      simp only [Option.some_bind, Option.map_some']
      congr 4
  · rw [if_neg h240, if_neg h240]

theorem move_position_frame (sin cos : ℚ → ℚ) (s : MouseState) :
    SameKeys s (move_position sin cos s) ∧ (move_position sin cos s).speed = s.speed ∧
      (move_position sin cos s).move_t = s.move_t := by
  unfold move_position
  lift_lets
  intro s1 s2
  have h1 : SameKeys s s1 ∧ s1.speed = s.speed ∧ s1.move_t = s.move_t := by
    simp only [s1]; split
    · exact ⟨⟨rfl, rfl, rfl, rfl, rfl, rfl, rfl, rfl⟩, rfl, rfl⟩
    · exact ⟨sameKeys_refl _, rfl, rfl⟩
  have h2 : SameKeys s s2 ∧ s2.speed = s.speed ∧ s2.move_t = s.move_t := by
    simp only [s2]; split
    · exact ⟨⟨h1.1.1, h1.1.2.1, h1.1.2.2.1, h1.1.2.2.2.1, h1.1.2.2.2.2.1, h1.1.2.2.2.2.2.1,
        h1.1.2.2.2.2.2.2.1, h1.1.2.2.2.2.2.2.2⟩, h1.2.1, h1.2.2⟩
    · exact h1
  split
  · exact ⟨⟨h2.1.1, h2.1.2.1, h2.1.2.2.1, h2.1.2.2.2.1, h2.1.2.2.2.2.1, h2.1.2.2.2.2.2.1,
      h2.1.2.2.2.2.2.2.1, h2.1.2.2.2.2.2.2.2⟩, h2.2.1, h2.2.2⟩
  · exact h2

theorem move_steer_wheel_frame (sin cos : ℚ → ℚ) (s : MouseState) :
    SameKeys s (move_steer_wheel sin cos s) ∧ (move_steer_wheel sin cos s).speed = s.speed ∧
      (move_steer_wheel sin cos s).move_t = s.move_t := by
  unfold move_steer_wheel
  lift_lets
  intro s1
  have h1 : SameKeys s s1 ∧ s1.speed = s.speed ∧ s1.move_t = s.move_t := by
    simp only [s1]; split
    · exact ⟨⟨rfl, rfl, rfl, rfl, rfl, rfl, rfl, rfl⟩, rfl, rfl⟩
    · exact ⟨sameKeys_refl _, rfl, rfl⟩
  split
  · exact ⟨⟨h1.1.1, h1.1.2.1, h1.1.2.2.1, h1.1.2.2.2.1, h1.1.2.2.2.2.1, h1.1.2.2.2.2.2.1,
      h1.1.2.2.2.2.2.2.1, h1.1.2.2.2.2.2.2.2⟩, h1.2.1, h1.2.2⟩
  · exact h1

theorem move_extract_frame (s : MouseState) :
    SameKeys s (move_extract s) ∧ (move_extract s).speed = s.speed ∧
      (move_extract s).move_t = s.move_t :=
  ⟨⟨rfl, rfl, rfl, rfl, rfl, rfl, rfl, rfl⟩, rfl, rfl⟩

theorem move_speed_frame (s s' : MouseState) (h : move_speed s = some s') : SameKeys s s' := by
  unfold move_speed at h
  split at h
  · split at h
    · rw [Option.map_eq_some'] at h
      obtain ⟨c0, _, rfl⟩ := h
      exact ⟨rfl, rfl, rfl, rfl, rfl, rfl, rfl, rfl⟩
    · rw [Option.bind_eq_some] at h
      obtain ⟨c1, _, h⟩ := h
      rw [Option.map_eq_some'] at h
      obtain ⟨c0, _, rfl⟩ := h
      exact ⟨rfl, rfl, rfl, rfl, rfl, rfl, rfl, rfl⟩
  · obtain rfl := Option.some.inj h
    exact sameKeys_refl _

/-- The state part of `move_send`: the speed and `move_t` are those the
speed block leaves when the pointer moves, and are kept otherwise; held keys,
directions and the curve are kept. -/
theorem move_send_state_spec (sin cos : ℚ → ℚ) (s s' : MouseState)
    (h : move_send_state sin cos s = some s') :
    SameKeys s s' ∧
      (is_moving s = false → s'.speed = s.speed ∧ s'.move_t = s.move_t) ∧
      (is_moving s = true →
        ∃ t, move_speed s = some t ∧ s'.speed = t.speed ∧ s'.move_t = t.move_t) := by
  unfold move_send_state at h
  rw [Option.map_eq_some'] at h
  obtain ⟨a, ha, rfl⟩ := h
  obtain ⟨e1, e2, e3⟩ := move_extract_frame (move_steer_wheel sin cos a)
  obtain ⟨w1, w2, w3⟩ := move_steer_wheel_frame sin cos a
  by_cases hm : is_moving s = true
  · rw [if_pos hm, Option.map_eq_some'] at ha
    obtain ⟨t, ht, rfl⟩ := ha
    obtain ⟨p1, p2, p3⟩ := move_position_frame sin cos t
    have hk := move_speed_frame s t ht
    refine ⟨sameKeys_trans hk (sameKeys_trans p1 (sameKeys_trans w1 e1)), ?_, ?_⟩
    · intro hf
      rw [hm] at hf
      exact absurd hf (by decide)
    · intro _
      exact ⟨t, ht, by rw [e2, w2, p2], by rw [e3, w3, p3]⟩
  · rw [if_neg hm] at ha
    obtain rfl := Option.some.inj ha
    refine ⟨sameKeys_trans w1 e1, ?_, ?_⟩
    · intro _
      exact ⟨by rw [e2, w2], by rw [e3, w3]⟩
    · intro ht
      exact absurd ht hm

/-- The state part of `move_send` returns for a table of 16 entries and a
nonnegative `move_t`. -/
theorem move_send_state_total (sin cos : ℚ → ℚ) (s : MouseState)
    (hlen : s.speed_curve.length = 16) (ht : 0 ≤ s.move_t) :
    ∃ s', move_send_state sin cos s = some s' := by
  unfold move_send_state
  rw [move_speed_eq s hlen ht]
  split
  · exact ⟨_, rfl⟩
  · exact ⟨_, rfl⟩

/-! ## The pointer engine and the ring -/

theorem put_inputs_rest (items : List INPUT) :
    ∀ ib : InputBuffer, ib.prod.head = ib.prod.tail →
      ∃ ib', put_inputs ib items = some ib' ∧ ib'.prod.head = ib'.prod.tail := by
  induction items with
  | nil => intro ib h; exact ⟨ib, rfl, h⟩
  | cons item rest ih =>
    intro ib h
    unfold put_inputs
    rw [put_input_eq ib item h]
    exact ih _ rfl

/-- Function `move_send` on a ring whose producer side is at rest: the
reservation succeeds (the full test never fires), so the state part runs
whenever the function returns. -/
theorem move_send_full_eq (sin cos : ℚ → ℚ) (s : MouseState) (remap_id : Nat)
    (ib : InputBuffer) (hq : ib.prod.head = ib.prod.tail) :
    (∀ s', move_send_state sin cos s = some s' →
      ∃ ib', move_send_full sin cos s remap_id ib = some (s', ib') ∧
        ib'.prod.head = ib'.prod.tail) ∧
    (∀ s' ib', move_send_full sin cos s remap_id ib = some (s', ib') →
      move_send_state sin cos s = some s' ∧ ib'.prod.head = ib'.prod.tail) := by
  have hfull : move_send_full sin cos s remap_id ib =
      (move_send_state sin cos s).bind fun s1 =>
        (move_send s1.report remap_id ib).map fun ib1 => (s1, ib1) := by
    unfold move_send_full input_buffer_move_prod_head
    rw [if_neg (not_not.mpr hq), prod_full_test_eq_zero]
    simp
  constructor
  · intro s' hs
    obtain ⟨ib', hput, hrest⟩ := put_inputs_rest (move_send_records s'.report remap_id) ib hq
    refine ⟨ib', ?_, hrest⟩
    rw [hfull, hs]
    show (move_send s'.report remap_id ib).map _ = _
    unfold move_send
    rw [hput]
    rfl
  · intro s' ib' hrun
    rw [hfull, Option.bind_eq_some] at hrun
    obtain ⟨s1, hs1, hrun⟩ := hrun
    rw [Option.map_eq_some'] at hrun
    obtain ⟨ib1, hib1, heq⟩ := hrun
    obtain ⟨rfl, rfl⟩ := Prod.mk.inj heq
    refine ⟨hs1, ?_⟩
    obtain ⟨ib2, hput, hrest⟩ := put_inputs_rest (move_send_records s1.report remap_id) ib hq
    unfold move_send at hib1
    rw [hput] at hib1
    obtain rfl := Option.some.inj hib1
    exact hrest


theorem move_speed_move_t (s t : MouseState) (h : move_speed s = some t) :
    t.move_t = s.move_t ∨ t.move_t = s.move_t + 1 := by
  unfold move_speed at h
  split at h
  · split at h
    · rw [Option.map_eq_some'] at h
      obtain ⟨c0, _, rfl⟩ := h
      exact Or.inr rfl
    · rw [Option.bind_eq_some] at h
      obtain ⟨c1, _, h⟩ := h
      rw [Option.map_eq_some'] at h
      obtain ⟨c0, _, rfl⟩ := h
      exact Or.inr rfl
  · obtain rfl := Option.some.inj h
    exact Or.inl rfl

theorem move_send_state_move_t (sin cos : ℚ → ℚ) (s s' : MouseState)
    (h : move_send_state sin cos s = some s') :
    s'.move_t = s.move_t ∨ s'.move_t = s.move_t + 1 := by
  obtain ⟨_, h1, h2⟩ := move_send_state_spec sin cos s s' h
  by_cases hm : is_moving s = true
  · obtain ⟨t, ht, _, hmt⟩ := h2 hm
    rw [hmt]
    exact move_speed_move_t s t ht
  · exact Or.inl (h1 (by simpa using hm)).2

/-- Function `move_send` either returns at once, when no slot is granted,
or runs its state part. -/
theorem move_send_full_frame (sin cos : ℚ → ℚ) (s : MouseState) (remap_id : Nat)
    (ib : InputBuffer) (s' : MouseState) (ib' : InputBuffer)
    (h : move_send_full sin cos s remap_id ib = some (s', ib')) :
    s' = s ∨ move_send_state sin cos s = some s' := by
  unfold move_send_full at h
  split at h
  · exact absurd h (by simp)
  · split at h
    · obtain ⟨rfl, _⟩ := Prod.mk.inj (Option.some.inj h)
      exact Or.inl rfl
    · rw [Option.bind_eq_some] at h
      obtain ⟨s1, hs1, h⟩ := h
      rw [Option.map_eq_some'] at h
      obtain ⟨ib1, _, heq⟩ := h
      obtain ⟨rfl, _⟩ := Prod.mk.inj heq
      exact Or.inr hs1

theorem move_send_full_keys (sin cos : ℚ → ℚ) (s : MouseState) (remap_id : Nat)
    (ib : InputBuffer) (s' : MouseState) (ib' : InputBuffer)
    (h : move_send_full sin cos s remap_id ib = some (s', ib')) :
    SameKeys s s' ∧ (s'.move_t = s.move_t ∨ s'.move_t = s.move_t + 1) := by
  rcases move_send_full_frame sin cos s remap_id ib s' ib' h with rfl | h1
  · exact ⟨sameKeys_refl _, Or.inl rfl⟩
  · exact ⟨(move_send_state_spec sin cos s s' h1).1, move_send_state_move_t sin cos s s' h1⟩

/-- A modal opcode: the state `mouse_emulation` leaves is the one of the
direction block, possibly after one run of `move_send`. -/
theorem mouse_emulation_modal (sin cos : ℚ → ℚ) (keycode : Nat) (direction : Direction)
    (remap_id : Nat) (m : Mouse) (ib : InputBuffer) (m' : Mouse) (ib' : InputBuffer)
    (hk : held_mask keycode ≠ 0)
    (h : mouse_emulation sin cos keycode direction remap_id m ib = some (m', ib')) :
    SameKeys (update_directions (held_mask keycode) direction m.state) m'.state ∧
      (m'.state.move_t = (update_directions (held_mask keycode) direction m.state).move_t ∨
        m'.state.move_t =
          (update_directions (held_mask keycode) direction m.state).move_t + 1) := by
  unfold mouse_emulation at h
  rw [if_pos hk] at h
  simp only at h
  split at h
  · split at h
    · rw [Option.map_eq_some'] at h
      obtain ⟨p, hp, heq⟩ := h
      obtain ⟨rfl, _⟩ := Prod.mk.inj heq
      exact move_send_full_keys sin cos _ remap_id ib p.1 p.2 hp
    · obtain ⟨rfl, _⟩ := Prod.mk.inj (Option.some.inj h)
      exact ⟨sameKeys_refl _, Or.inl rfl⟩
  · obtain ⟨rfl, _⟩ := Prod.mk.inj (Option.some.inj h)
    exact ⟨sameKeys_refl _, Or.inl rfl⟩

theorem buttons_send_rest (buttons last_buttons remap_id : Nat) (ib : InputBuffer)
    (hq : ib.prod.head = ib.prod.tail) :
    ∃ ib', buttons_send buttons last_buttons remap_id ib = some ib' ∧
      ib'.prod.head = ib'.prod.tail :=
  put_inputs_rest _ ib hq

/-- Function `mouse_emulation` returns when the producer side of the ring
is at rest, the speed curve has 16 entries and `move_t` is not negative; it
leaves the ring at rest. -/
theorem mouse_emulation_total (sin cos : ℚ → ℚ) (keycode : Nat) (direction : Direction)
    (remap_id : Nat) (m : Mouse) (ib : InputBuffer) (hq : ib.prod.head = ib.prod.tail)
    (hlen : m.state.speed_curve.length = 16) (ht : 0 ≤ m.state.move_t) :
    ∃ m' ib', mouse_emulation sin cos keycode direction remap_id m ib = some (m', ib') ∧
      ib'.prod.head = ib'.prod.tail := by
  unfold mouse_emulation
  split
  · simp only
    obtain ⟨_, _, _, _, _, _, _, hmt, _, hcurve⟩ :=
      update_directions_fields (held_mask keycode) direction m.state
    have hlen1 : (update_directions (held_mask keycode) direction m.state).speed_curve.length
        = 16 := by rw [hcurve]; exact hlen
    have ht1 : 0 ≤ (update_directions (held_mask keycode) direction m.state).move_t := by
      rw [hmt]
      split
      · exact le_refl _
      · exact ht
    split
    · split
      · obtain ⟨s', hs'⟩ := move_send_state_total sin cos _ hlen1 ht1
        obtain ⟨ib', hrun, hrest⟩ := (move_send_full_eq sin cos _ remap_id ib hq).1 s' hs'
        rw [hrun]
        exact ⟨_, _, rfl, hrest⟩
      · exact ⟨_, _, rfl, hq⟩
    · exact ⟨_, _, rfl, hq⟩
  · simp only
    split
    · obtain ⟨ib', hrun, hrest⟩ := buttons_send_rest
        (button_opcode keycode direction m.state).buttons
        (button_opcode keycode direction m.state).last_buttons remap_id ib hq
      rw [hrun]
      exact ⟨_, _, rfl, hrest⟩
    · exact ⟨_, _, rfl, hq⟩

/-! ## The pointer engine: the timer (`mouse.c` lines 359-383) -/

/-- After a modal opcode `g_active` is 1 exactly when a direction is
nonzero, and the timer exists exactly when a direction is nonzero and
`g_active` was set on entry. -/
theorem mouse_emulation_timer (sin cos : ℚ → ℚ) (keycode : Nat) (direction : Direction)
    (remap_id : Nat) (m : Mouse) (ib : InputBuffer) (m' : Mouse) (ib' : InputBuffer)
    (hk : held_mask keycode ≠ 0)
    (h : mouse_emulation sin cos keycode direction remap_id m ib = some (m', ib')) :
    m'.g_active = (if any_direction m'.state then 1 else 0) ∧
      m'.ghTimer = (decide (m.g_active ≠ 0) && any_direction m'.state) := by
  unfold mouse_emulation at h
  rw [if_pos hk] at h
  simp only at h
  split at h
  · rename_i hdir
    split at h
    · rename_i hg
      rw [Option.map_eq_some'] at h
      obtain ⟨p, hp, heq⟩ := h
      obtain ⟨rfl, _⟩ := Prod.mk.inj heq
      have hany : any_direction p.1 = true := by
        rw [any_direction_congr (move_send_full_keys sin cos _ remap_id ib p.1 p.2 hp).1]
        exact hdir
      unfold timer_block
      constructor <;> simp [hany, hg]
    · rename_i hg
      obtain ⟨rfl, _⟩ := Prod.mk.inj (Option.some.inj h)
      unfold timer_block
      constructor <;> simp [hdir, hg]
  · rename_i hdir
    obtain ⟨rfl, _⟩ := Prod.mk.inj (Option.some.inj h)
    unfold timer_block
    constructor <;> simp [hdir]

theorem press_mouse_button_frame (i : Nat) (direction : Direction) (s : MouseState) :
    SameKeys s (press_mouse_button i direction s) ∧
      (press_mouse_button i direction s).move_t = s.move_t ∧
      (press_mouse_button i direction s).speed = s.speed := by
  unfold press_mouse_button
  simp only
  split
  · exact ⟨⟨rfl, rfl, rfl, rfl, rfl, rfl, rfl, rfl⟩, rfl, rfl⟩
  · exact ⟨⟨rfl, rfl, rfl, rfl, rfl, rfl, rfl, rfl⟩, rfl, rfl⟩

theorem button_opcode_frame (keycode : Nat) (direction : Direction) (s : MouseState) :
    SameKeys s (button_opcode keycode direction s) ∧
      (button_opcode keycode direction s).move_t = s.move_t ∧
      (button_opcode keycode direction s).speed = s.speed := by
  have hrefl : SameKeys s s ∧ s.move_t = s.move_t ∧ s.speed = s.speed :=
    ⟨sameKeys_refl _, rfl, rfl⟩
  unfold button_opcode
  split
  · exact press_mouse_button_frame _ _ _
  · split
    · exact press_mouse_button_frame _ _ _
    · split
      · split
        · exact press_mouse_button_frame _ _ _
        · exact hrefl
      · split
        · split
          · exact press_mouse_button_frame _ _ _
          · exact hrefl
        · split
          · split
            · exact ⟨⟨rfl, rfl, rfl, rfl, rfl, rfl, rfl, rfl⟩, rfl, rfl⟩
            · exact hrefl
          · exact hrefl

/-- A non-modal opcode leaves the keys, the directions, the speed, `move_t`,
`g_active` and the timer alone. -/
theorem mouse_emulation_button (sin cos : ℚ → ℚ) (keycode : Nat) (direction : Direction)
    (remap_id : Nat) (m : Mouse) (ib : InputBuffer) (m' : Mouse) (ib' : InputBuffer)
    (hk : ¬ held_mask keycode ≠ 0)
    (h : mouse_emulation sin cos keycode direction remap_id m ib = some (m', ib')) :
    SameKeys m.state m'.state ∧ m'.state.move_t = m.state.move_t ∧
      m'.state.speed = m.state.speed ∧ m'.g_active = m.g_active ∧ m'.ghTimer = m.ghTimer := by
  unfold mouse_emulation at h
  rw [if_neg hk] at h
  simp only at h
  obtain ⟨f1, f2, f3⟩ := button_opcode_frame keycode direction m.state
  split at h
  · rw [Option.map_eq_some'] at h
    obtain ⟨ib1, _, heq⟩ := h
    obtain ⟨rfl, _⟩ := Prod.mk.inj heq
    exact ⟨⟨f1.1, f1.2.1, f1.2.2.1, f1.2.2.2.1, f1.2.2.2.2.1, f1.2.2.2.2.2.1,
      f1.2.2.2.2.2.2.1, f1.2.2.2.2.2.2.2⟩, f2, f3, rfl, rfl⟩
  · obtain ⟨rfl, _⟩ := Prod.mk.inj (Option.some.inj h)
    exact ⟨f1, f2, f3, rfl, rfl⟩

theorem init_speed_curve_length : init_speed_curve.length = 16 := rfl

/-- Every event returns in a state that satisfies the invariant, and keeps
the invariant. -/
theorem mouse_step_inv (sin cos : ℚ → ℚ) (p : Mouse × InputBuffer) (op : MouseOp)
    (hinv : MouseInv p) :
    (∃ p', mouse_step sin cos p op = some p') ∧
      ∀ p', mouse_step sin cos p op = some p' → MouseInv p' := by
  obtain ⟨hact, htim, hrest, hcurve, hmt⟩ := hinv
  have hlen : p.1.state.speed_curve.length = 16 := by rw [hcurve]; rfl
  cases op with
  | key keycode direction remap_id =>
    obtain ⟨m', ib', hrun, hrest'⟩ :=
      mouse_emulation_total sin cos keycode direction remap_id p.1 p.2 hrest hlen hmt
    refine ⟨⟨(m', ib'), hrun⟩, ?_⟩
    intro p' hp'
    have hpe : p' = (m', ib') := by
      have : mouse_emulation sin cos keycode direction remap_id p.1 p.2 = some p' := hp'
      rw [hrun] at this
      exact (Option.some.inj this).symm
    subst hpe
    by_cases hk : held_mask keycode ≠ 0
    · obtain ⟨hg, ht⟩ :=
        mouse_emulation_timer sin cos keycode direction remap_id p.1 p.2 m' ib' hk hrun
      obtain ⟨hkeys, hmove⟩ :=
        mouse_emulation_modal sin cos keycode direction remap_id p.1 p.2 m' ib' hk hrun
      obtain ⟨_, _, _, _, _, _, _, hmt1, _, hc1⟩ :=
        update_directions_fields (held_mask keycode) direction p.1.state
      refine ⟨hg, ?_, hrest', ?_, ?_⟩
      · intro htrue
        show any_direction m'.state = true
        have : m'.ghTimer = true := htrue
        rw [ht, Bool.and_eq_true] at this
        exact this.2
      · show m'.state.speed_curve = init_speed_curve
        rw [hkeys.2.2.2.2.2.2.2, hc1]
        exact hcurve
      · show 0 ≤ m'.state.move_t
        have h0 : 0 ≤ (update_directions (held_mask keycode) direction p.1.state).move_t := by
          rw [hmt1]
          split
          · exact le_refl _
          · exact hmt
        rcases hmove with h1 | h1
        · rw [h1]; exact h0
        · rw [h1]; omega
    · obtain ⟨f1, f2, _, f4, f5⟩ :=
        mouse_emulation_button sin cos keycode direction remap_id p.1 p.2 m' ib' hk hrun
      refine ⟨?_, ?_, hrest', ?_, ?_⟩
      · show m'.g_active = if any_direction m'.state then 1 else 0
        rw [f4, any_direction_congr f1]
        exact hact
      · show m'.ghTimer = true → any_direction m'.state = true
        rw [f5, any_direction_congr f1]
        exact htim
      · show m'.state.speed_curve = init_speed_curve
        rw [f1.2.2.2.2.2.2.2]
        exact hcurve
      · show 0 ≤ m'.state.move_t
        rw [f2]
        exact hmt
  | tick =>
    unfold mouse_step
    by_cases ht : p.1.ghTimer = true
    · rw [if_pos ht]
      unfold move_callback
      by_cases hg : p.1.g_active ≠ 0
      · rw [if_pos hg]
        obtain ⟨s', hs'⟩ := move_send_state_total sin cos p.1.state hlen hmt
        obtain ⟨ib', hrun, hrest'⟩ := (move_send_full_eq sin cos p.1.state 0 p.2 hrest).1 s' hs'
        rw [hrun]
        refine ⟨⟨_, rfl⟩, ?_⟩
        intro p' hp'
        obtain rfl := Option.some.inj hp'
        obtain ⟨hkeys, _⟩ := move_send_state_spec sin cos p.1.state s' hs'
        refine ⟨?_, ?_, hrest', ?_, ?_⟩
        · show p.1.g_active = if any_direction s' then 1 else 0
          rw [any_direction_congr hkeys]
          exact hact
        · show p.1.ghTimer = true → any_direction s' = true
          rw [any_direction_congr hkeys]
          exact htim
        · show s'.speed_curve = init_speed_curve
          rw [hkeys.2.2.2.2.2.2.2]
          exact hcurve
        · show 0 ≤ s'.move_t
          rcases move_send_state_move_t sin cos p.1.state s' hs' with h1 | h1
          · rw [h1]; exact hmt
          · rw [h1]; omega
      · rw [if_neg hg]
        refine ⟨⟨_, rfl⟩, ?_⟩
        intro p' hp'
        obtain rfl := Option.some.inj hp'
        exact ⟨hact, htim, hrest, hcurve, hmt⟩
    · rw [if_neg ht]
      refine ⟨⟨_, rfl⟩, ?_⟩
      intro p' hp'
      obtain rfl := Option.some.inj hp'
      exact ⟨hact, htim, hrest, hcurve, hmt⟩

theorem mouseInv_start : MouseInv (mouse_init, ring_init) :=
  ⟨rfl, fun h => absurd h (by decide), rfl, rfl, le_refl _⟩

theorem mouseInv_of_reachable (sin cos : ℚ → ℚ) (p : Mouse × InputBuffer)
    (h : MouseReachable sin cos p) : MouseInv p := by
  induction h with
  | start => exact mouseInv_start
  | step p p' op _ hstep ih => exact (mouse_step_inv sin cos p op ih).2 p' hstep


/-- A modal opcode that leaves a direction nonzero and is entered with
`g_active = 0` runs `move_send` once on the state of the direction block. -/
theorem mouse_emulation_first_press (sin cos : ℚ → ℚ) (keycode : Nat) (direction : Direction)
    (remap_id : Nat) (m : Mouse) (ib : InputBuffer) (m' : Mouse) (ib' : InputBuffer)
    (hk : held_mask keycode ≠ 0)
    (h : mouse_emulation sin cos keycode direction remap_id m ib = some (m', ib'))
    (hany : any_direction (update_directions (held_mask keycode) direction m.state) = true)
    (hg : m.g_active = 0) :
    move_send_full sin cos (update_directions (held_mask keycode) direction m.state)
      remap_id ib = some (m'.state, ib') := by
  unfold mouse_emulation at h
  rw [if_pos hk] at h
  simp only at h
  rw [if_pos hany, if_pos hg, Option.map_eq_some'] at h
  obtain ⟨p, hp, heq⟩ := h
  obtain ⟨rfl, rfl⟩ := Prod.mk.inj heq
  exact hp
/-! ## C34: direction vectors from held keys -/

/-- C34: for a modal opcode `k` in 1..12 (`MS_U` to `MS_W_R`) and a bit
field `held_keys` of 32 bits, the direction block of `mouse_emulation` sets
bit `k-1` of `held_keys` on DOWN and clears it on UP and leaves the other
bits as they are. Afterwards each of `move_v`, `move_h`, `move_dir`,
`steer_dir`, `wheel_y_dir`, `wheel_x_dir` is +1 if only the first key of its
pair (bits 0/1, 2/3, 4/5, 6/7, 8/9, 10/11) is held, -1 if only the second is
held, 0 if both or neither are; `move_t` is set to 0 when `move_v`, `move_h`
or `move_dir` changed and is left alone otherwise. The whole call of
`mouse_emulation` returns (ring at rest, 16-entry curve, `move_t` not
negative) and leaves the same bit field and directions; `move_t` is as the
block left it, or one more when the call ran `move_send` while moving. -/
theorem C34_direction_vectors (k : Nat) (hk1 : 1 ≤ k) (hk12 : k ≤ 12) (direction : Direction)
    (state : MouseState) (h32 : state.held_keys < 4294967296) :
    held_mask k ≠ 0 ∧
    ∀ s', s' = update_directions (held_mask k) direction state →
      (∀ j, s'.held_keys.testBit j =
        if j = k - 1 then decide (direction = .DOWN) else state.held_keys.testBit j) ∧
      s'.held_keys < 4294967296 ∧
      s'.move_v = dir_of_pair (s'.held_keys.testBit 0) (s'.held_keys.testBit 1) ∧
      s'.move_h = dir_of_pair (s'.held_keys.testBit 2) (s'.held_keys.testBit 3) ∧
      s'.move_dir = dir_of_pair (s'.held_keys.testBit 4) (s'.held_keys.testBit 5) ∧
      s'.steer_dir = dir_of_pair (s'.held_keys.testBit 6) (s'.held_keys.testBit 7) ∧
      s'.wheel_y_dir = dir_of_pair (s'.held_keys.testBit 8) (s'.held_keys.testBit 9) ∧
      s'.wheel_x_dir = dir_of_pair (s'.held_keys.testBit 10) (s'.held_keys.testBit 11) ∧
      s'.move_t =
        (if s'.move_v ≠ state.move_v ∨ s'.move_h ≠ state.move_h ∨
            s'.move_dir ≠ state.move_dir then 0
          else state.move_t) ∧
      (∀ (sin cos : ℚ → ℚ) (remap_id : Nat) (m : Mouse) (ib : InputBuffer),
        m.state = state →
        (ib.prod.head = ib.prod.tail → state.speed_curve.length = 16 → 0 ≤ state.move_t →
          ∃ m' ib', mouse_emulation sin cos k direction remap_id m ib = some (m', ib')) ∧
        (∀ m' ib', mouse_emulation sin cos k direction remap_id m ib = some (m', ib') →
          SameKeys s' m'.state ∧
          (m'.state.move_t = s'.move_t ∨ m'.state.move_t = s'.move_t + 1))) := by
  have hmask := held_mask_eq k hk1 hk12
  have hne : held_mask k ≠ 0 := by
    rw [hmask]
    exact Nat.pos_iff_ne_zero.mp (Nat.two_pow_pos _)
  refine ⟨hne, ?_⟩
  intro s' hs'
  obtain ⟨hkeys, hv, hh, hd, hst, hwy, hwx, hmt, _, _⟩ :=
    update_directions_fields (held_mask k) direction state
  rw [← hs'] at hkeys hv hh hd hst hwy hwx hmt
  refine ⟨?_, ?_, ?_, ?_, ?_, ?_, ?_, ?_, hmt, ?_⟩
  · intro j
    rw [hkeys, hmask]
    cases direction with
    | DOWN =>
      rw [if_pos rfl, testBit_set_bit]
      by_cases hj : j = k - 1
      · simp [hj]
      · have : ¬ k - 1 = j := fun h => hj h.symm
        simp [hj, this]
    | UP =>
      rw [if_neg (by decide), testBit_clear_bit _ _ _ h32 (by omega)]
      by_cases hj : j = k - 1
      · simp [hj]
      · have : ¬ k - 1 = j := fun h => hj h.symm
        simp [hj, this]
  · rw [hkeys, hmask]
    split
    · exact lt_of_set_bit _ _ h32 (by omega)
    · exact lt_of_clear_bit _ _ h32
  · rw [hv, get_dir_eq]
  · rw [hh, get_dir_eq]
  · rw [hd, get_dir_eq]
  · rw [hst, get_dir_eq]
  · rw [hwy, get_dir_eq]
  · rw [hwx, get_dir_eq]
  · intro sin cos remap_id m ib hm
    constructor
    · intro hq hlen ht
      obtain ⟨m', ib', hrun, _⟩ := mouse_emulation_total sin cos k direction remap_id m ib hq
        (by rw [hm]; exact hlen) (by rw [hm]; exact ht)
      exact ⟨m', ib', hrun⟩
    · intro m' ib' hrun
      have := mouse_emulation_modal sin cos k direction remap_id m ib m' ib' hne hrun
      rw [hm, ← hs'] at this
      exact this

/-- Claim C34 from the initial state: `MS_U` DOWN sets bit 0 and gives
`move_v = 1`; `MS_D` DOWN on top of it gives `move_v = 0`, and `MS_R` DOWN
gives `move_h = -1`. -/
theorem C34_direction_vectors_witness :
    (update_directions (held_mask MS_U) .DOWN mouse_state_init).held_keys = 1 ∧
    (update_directions (held_mask MS_U) .DOWN mouse_state_init).move_v = 1 ∧
    (update_directions (held_mask MS_D) .DOWN
      (update_directions (held_mask MS_U) .DOWN mouse_state_init)).move_v = 0 ∧
    (update_directions (held_mask MS_R) .DOWN mouse_state_init).move_h = -1 ∧
    (update_directions (held_mask MS_U) .UP
      (update_directions (held_mask MS_U) .DOWN mouse_state_init)).held_keys = 0 ∧
    (update_directions (held_mask MS_U) .DOWN mouse_state_init).move_v =
      dir_of_pair ((update_directions (held_mask MS_U) .DOWN mouse_state_init).held_keys.testBit 0)
        ((update_directions (held_mask MS_U) .DOWN mouse_state_init).held_keys.testBit 1) :=
  ⟨rfl, rfl, rfl, rfl, rfl,
    ((C34_direction_vectors MS_U (by decide) (by decide) .DOWN mouse_state_init
      (by decide)).2 _ rfl).2.2.1⟩

/-! ## C35: the timer and the held keys -/

/-- Counterexample to C35 as stated: from the idle state, `MS_U` DOWN makes
`move_v` nonzero, runs `move_send` once and sets `g_active`, but the timer
block runs with `g_active` still 0 and creates no timer: a direction is
nonzero and the timer is not running. A tap (DOWN, UP) never starts the
timer; the timer is created by the next modal opcode that finds `g_active`
set, such as the repeated DOWN of a key that is held. -/
theorem C35_counterexample :
    mouse_init.ghTimer = false ∧ mouse_init.g_active = 0 ∧
    any_direction mouse_init.state = false ∧
    (mouse_emulation no_trig no_trig MS_U .DOWN 0 mouse_init ring_init).map
        (fun p => (p.1.state.move_v, any_direction p.1.state, p.1.ghTimer, p.1.g_active)) =
      some (1, true, false, 1) ∧
    (mouse_run no_trig no_trig (mouse_init, ring_init)
        [.key MS_U .DOWN 0, .key MS_U .UP 0]).map
        (fun p => p.1.map (fun m => (any_direction m.state, m.ghTimer, m.g_active))) =
      some [(true, false, 1), (false, false, 0)] ∧
    (mouse_run no_trig no_trig (mouse_init, ring_init)
        [.key MS_U .DOWN 0, .key MS_U .DOWN 0, .key MS_U .UP 0]).map
        (fun p => p.1.map (fun m => (any_direction m.state, m.ghTimer, m.g_active))) =
      some [(true, false, 1), (true, true, 1), (false, false, 0)] := by
  refine ⟨rfl, rfl, rfl, ?_, ?_, ?_⟩ <;> with_unfolding_all rfl

/-- C35, amended: with the timer handle as a boolean (creation always
succeeds), in every state reached from the idle state through opcodes and
ticks, `g_active` is 1 iff one of the six directions is nonzero and the
timer exists only while one is. A modal opcode returns; afterwards
`g_active` is again 1 iff a direction is nonzero, and the timer is running
iff a direction is nonzero after the call and one was nonzero before it. So
the call in which a direction first becomes nonzero leaves the timer off and
sets `g_active`, and it runs `move_send` once on the state the direction
block left; the timer is started by the next modal opcode that leaves a
direction nonzero, and it is stopped, with `g_active = 0`, by the call after
which no direction remains. -/
theorem C35_timer_follows_keys (sin cos : ℚ → ℚ) (p : Mouse × InputBuffer)
    (hreach : MouseReachable sin cos p) (k : Nat) (hk1 : 1 ≤ k) (hk12 : k ≤ 12)
    (direction : Direction) (remap_id : Nat) :
    p.1.g_active = (if any_direction p.1.state then 1 else 0) ∧
    (p.1.ghTimer = true → any_direction p.1.state = true) ∧
    ∃ m' ib', mouse_emulation sin cos k direction remap_id p.1 p.2 = some (m', ib') ∧
      m'.g_active = (if any_direction m'.state then 1 else 0) ∧
      (m'.ghTimer = true ↔
        any_direction m'.state = true ∧ any_direction p.1.state = true) ∧
      (any_direction m'.state = false → m'.ghTimer = false ∧ m'.g_active = 0) ∧
      (any_direction p.1.state = false → any_direction m'.state = true →
        m'.ghTimer = false ∧ m'.g_active = 1) ∧
      (any_direction p.1.state = false → any_direction m'.state = true →
        move_send_full sin cos (update_directions (held_mask k) direction p.1.state)
          remap_id p.2 = some (m'.state, ib')) := by
  have hinv := mouseInv_of_reachable sin cos p hreach
  obtain ⟨hact, htim, hrest, hcurve, hmt⟩ := hinv
  have hlen : p.1.state.speed_curve.length = 16 := by rw [hcurve]; rfl
  obtain ⟨m', ib', hrun, _⟩ :=
    mouse_emulation_total sin cos k direction remap_id p.1 p.2 hrest hlen hmt
  have hne : held_mask k ≠ 0 := by
    rw [held_mask_eq k hk1 hk12]
    exact Nat.pos_iff_ne_zero.mp (Nat.two_pow_pos _)
  obtain ⟨hg, ht⟩ := mouse_emulation_timer sin cos k direction remap_id p.1 p.2 m' ib' hne hrun
  have hgne : p.1.g_active ≠ 0 ↔ any_direction p.1.state = true := by
    rw [hact]
    by_cases ha : any_direction p.1.state = true
    · simp [ha]
    · simp [ha]
  have hiff : m'.ghTimer = true ↔
      any_direction m'.state = true ∧ any_direction p.1.state = true := by
    rw [ht, Bool.and_eq_true, decide_eq_true_eq, hgne]
    exact And.comm
  refine ⟨hact, htim, m', ib', hrun, hg, hiff, ?_, ?_, ?_⟩
  · intro hz
    constructor
    · cases hT : m'.ghTimer with
      | false => rfl
      | true =>
        have := (hiff.1 hT).1
        rw [hz] at this
        exact absurd this (by decide)
    · rw [hg, hz]
      rfl
  · intro hz hnz
    constructor
    · cases hT : m'.ghTimer with
      | false => rfl
      | true =>
        have := (hiff.1 hT).2
        rw [hz] at this
        exact absurd this (by decide)
    · rw [hg, hnz]
      rfl
  · intro hz hnz
    have hkeys := (mouse_emulation_modal sin cos k direction remap_id p.1 p.2 m' ib' hne
      hrun).1
    have hg0 : p.1.g_active = 0 := by
      rw [hact, hz]
      rfl
    exact mouse_emulation_first_press sin cos k direction remap_id p.1 p.2 m' ib' hne hrun
      (by rw [← any_direction_congr hkeys]; exact hnz) hg0

/-- Claim C35, as amended, at the idle state and at the state after `MS_U`
DOWN: the first DOWN leaves the timer off, the repeated DOWN starts it. -/
theorem C35_timer_follows_keys_witness :
    (mouse_init.g_active = (if any_direction mouse_init.state then 1 else 0) ∧
    (mouse_init.ghTimer = true → any_direction mouse_init.state = true) ∧
    ∃ m' ib', mouse_emulation no_trig no_trig MS_U .DOWN 0 mouse_init ring_init =
        some (m', ib') ∧
      m'.g_active = (if any_direction m'.state then 1 else 0) ∧
      (m'.ghTimer = true ↔
        any_direction m'.state = true ∧ any_direction mouse_init.state = true) ∧
      (any_direction m'.state = false → m'.ghTimer = false ∧ m'.g_active = 0) ∧
      (any_direction mouse_init.state = false → any_direction m'.state = true →
        m'.ghTimer = false ∧ m'.g_active = 1) ∧
      (any_direction mouse_init.state = false → any_direction m'.state = true →
        move_send_full no_trig no_trig
          (update_directions (held_mask MS_U) .DOWN mouse_init.state) 0 ring_init =
            some (m'.state, ib'))) ∧
    MouseReachable no_trig no_trig (mouse_init, ring_init) :=
  ⟨C35_timer_follows_keys no_trig no_trig (mouse_init, ring_init) MouseReachable.start MS_U
      (by decide) (by decide) .DOWN 0,
    MouseReachable.start⟩

/-! ## C36: the speed follows the interpolated curve (`mouse.c` lines 206-219) -/

theorem interpolated_speed_succ (c : List Int) (n : Nat) (h1 : 1 ≤ n) :
    interpolated_speed c (n + 1) =
      interpolated_speed c n + (c.getD ((n - 1) / 16 + 1) 0 - c.getD ((n - 1) / 16) 0) := by
  unfold interpolated_speed
  rw [Nat.add_sub_cancel]
  have hcase : (n / 16 = (n - 1) / 16 ∧ n % 16 = (n - 1) % 16 + 1) ∨
      (n / 16 = (n - 1) / 16 + 1 ∧ n % 16 = 0 ∧ (n - 1) % 16 = 15) := by omega
  rcases hcase with ⟨h2, h3⟩ | ⟨h2, h3, h4⟩
  · rw [h2, h3]
    push_cast
    ring
  · rw [h2, h3, h4]
    push_cast
    ring

/-- The state after the `n`-th call of the state part of `move_send`, from
`move_t = 0` with a movement direction set. -/
theorem move_send_iter_spec (sin cos : ℚ → ℚ) (s : MouseState)
    (hlen : s.speed_curve.length = 16) (ht : s.move_t = 0) (hmov : is_moving s = true) :
    ∀ n, 1 ≤ n → ∃ s', move_send_iter sin cos n s = some s' ∧ SameKeys s s' ∧
      s'.move_t = ((min n 241 : Nat) : Int) ∧
      s'.speed = ((interpolated_speed s.speed_curve (min n 241) : Int) : ℚ) := by
  have hstep : ∀ (a : MouseState) (k : Nat), SameKeys s a → a.move_t = (k : Int) →
      ∃ a', move_send_state sin cos a = some a' ∧ SameKeys s a' ∧
        a'.speed = (move_speed a).get!.speed ∧ a'.move_t = (move_speed a).get!.move_t := by
    intro a k hk hak
    have hlena : a.speed_curve.length = 16 := by rw [hk.2.2.2.2.2.2.2]; exact hlen
    have hta : 0 ≤ a.move_t := by rw [hak]; exact Int.natCast_nonneg _
    obtain ⟨a', ha'⟩ := move_send_state_total sin cos a hlena hta
    obtain ⟨hkeys, _, hm⟩ := move_send_state_spec sin cos a a' ha'
    have hma : is_moving a = true := by rw [is_moving_congr hk]; exact hmov
    obtain ⟨t, ht1, ht2, ht3⟩ := hm hma
    refine ⟨a', ha', sameKeys_trans hk hkeys, ?_, ?_⟩
    · rw [ht1]; exact ht2
    · rw [ht1]; exact ht3
  intro n hn
  induction n with
  | zero => omega
  | succ n ih =>
    by_cases hn0 : n = 0
    · subst hn0
      obtain ⟨a', ha', hk', hsp, hmt⟩ := hstep s 0 (sameKeys_refl s) (by rw [ht]; rfl)
      refine ⟨a', ?_, hk', ?_, ?_⟩
      · show (some s).bind (move_send_state sin cos) = _
        exact ha'
      · rw [hmt, move_speed_eq s hlen (by rw [ht]), if_pos (by rw [ht]; norm_num),
          if_pos ht]
        show s.move_t + 1 = _
        rw [ht]
        rfl
      · rw [hsp, move_speed_eq s hlen (by rw [ht]), if_pos (by rw [ht]; norm_num),
          if_pos ht]
        show ((s.speed_curve.getD 0 0 * 16 : Int) : ℚ) = _
        unfold interpolated_speed
        norm_num
        ring
    · obtain ⟨a, ha, hk, hmt, hsp⟩ := ih (by omega)
      obtain ⟨a', ha', hk', hsp', hmt'⟩ := hstep a (min n 241) hk hmt
      have hlena : a.speed_curve.length = 16 := by rw [hk.2.2.2.2.2.2.2]; exact hlen
      have hcurve : a.speed_curve = s.speed_curve := hk.2.2.2.2.2.2.2
      have hta : 0 ≤ a.move_t := by rw [hmt]; exact Int.natCast_nonneg _
      refine ⟨a', ?_, hk', ?_, ?_⟩
      · show (move_send_iter sin cos n s).bind (move_send_state sin cos) = _
        rw [ha]
        exact ha'
      · rw [hmt', move_speed_eq a hlena hta]
        by_cases h240 : n ≤ 240
        · have hmin : min n 241 = n := by omega
          have hmin1 : min (n + 1) 241 = n + 1 := by omega
          rw [hmin] at hmt
          rw [if_pos (by rw [hmt]; omega), if_neg (by rw [hmt]; omega), hmin1]
          show a.move_t + 1 = _
          rw [hmt]
          push_cast
          ring
        · have hmin : min n 241 = 241 := by omega
          have hmin1 : min (n + 1) 241 = 241 := by omega
          rw [hmin] at hmt
          rw [if_neg (by rw [hmt]; norm_num), hmin1]
          exact hmt
      · rw [hsp', move_speed_eq a hlena hta]
        by_cases h240 : n ≤ 240
        · have hmin : min n 241 = n := by omega
          have hmin1 : min (n + 1) 241 = n + 1 := by omega
          rw [hmin] at hmt hsp
          rw [if_pos (by rw [hmt]; omega), if_neg (by rw [hmt]; omega), hmin1]
          show a.speed + _ = _
          have htn : a.move_t.toNat = n := by rw [hmt]; exact Int.toNat_natCast n
          rw [hsp, htn, hcurve, interpolated_speed_succ _ n (by omega)]
          push_cast
          ring
        · have hmin : min n 241 = 241 := by omega
          have hmin1 : min (n + 1) 241 = 241 := by omega
          rw [hmin] at hmt hsp
          rw [if_neg (by rw [hmt]; norm_num), hmin1]
          exact hsp

/-- C36: from `move_t = 0`, with a movement direction set and a speed curve
of 16 entries, the `n`-th call of `move_send` (`n >= 1`, nothing else
touching the state in between) returns and leaves `move_t = min(n, 241)` and
`speed = 16*curve[i] + r*(curve[i+1] - curve[i])` where
`min(n, 241) - 1 = 16*i + r` with `0 <= r < 16`; from the 241st call on
`move_t` stays 241 and `speed` stays `16*curve[15]`. Every table read is
inside the table: a read outside has no result in the embedding, and the
indices `(t-1)/16` and `(t-1)/16 + 1` read at `move_t = t` in 1..240 lie in
0..15. -/
theorem C36_speed_interpolated (sin cos : ℚ → ℚ) (s : MouseState)
    (hlen : s.speed_curve.length = 16) (ht : s.move_t = 0) (hmov : is_moving s = true)
    (n : Nat) (hn : 1 ≤ n) :
    ∃ s', move_send_iter sin cos n s = some s' ∧
      s'.move_t = ((min n 241 : Nat) : Int) ∧
      (∃ i r : Nat, min n 241 - 1 = 16 * i + r ∧ r < 16 ∧ i ≤ 15 ∧
        s'.speed = ((16 * s.speed_curve.getD i 0 +
          (r : Int) * (s.speed_curve.getD (i + 1) 0 - s.speed_curve.getD i 0) : Int) : ℚ)) ∧
      (241 ≤ n → s'.move_t = 241 ∧ s'.speed = ((16 * s.speed_curve.getD 15 0 : Int) : ℚ)) ∧
      is_moving s' = true ∧ s'.speed_curve = s.speed_curve ∧
      (∀ t : Int, 1 ≤ t → t ≤ 240 →
        0 ≤ Int.tdiv (t - 1) 16 ∧ Int.tdiv (t - 1) 16 + 1 ≤ 15 ∧
        (speed_curve_at s.speed_curve (Int.tdiv (t - 1) 16)).isSome = true ∧
        (speed_curve_at s.speed_curve (Int.tdiv (t - 1) 16 + 1)).isSome = true) := by
  obtain ⟨s', hrun, hk, hmt, hsp⟩ := move_send_iter_spec sin cos s hlen ht hmov n hn
  refine ⟨s', hrun, hmt, ?_, ?_, ?_, hk.2.2.2.2.2.2.2, ?_⟩
  · refine ⟨(min n 241 - 1) / 16, (min n 241 - 1) % 16, by omega, by omega, by omega, ?_⟩
    rw [hsp]
    rfl
  · intro h241
    have hmin : min n 241 = 241 := by omega
    rw [hmin] at hmt hsp
    refine ⟨hmt, ?_⟩
    rw [hsp]
    unfold interpolated_speed
    norm_num
  · rw [is_moving_congr hk]
    exact hmov
  · intro t h1 h240
    have hd : Int.tdiv (t - 1) 16 = (t - 1) / 16 := Int.tdiv_eq_ediv (by omega) (by norm_num)
    have h0 : 0 ≤ Int.tdiv (t - 1) 16 := by rw [hd]; omega
    have h15 : Int.tdiv (t - 1) 16 + 1 ≤ 15 := by rw [hd]; omega
    refine ⟨h0, h15, ?_, ?_⟩
    · rw [speed_curve_at_eq _ hlen _ h0 (by omega)]
      rfl
    · rw [speed_curve_at_eq _ hlen _ (by omega) (by omega)]
      rfl

set_option maxRecDepth 100000 in
/-- Claim C36 with the default curve and the left key held: the 34th call
leaves `move_t = 34` and `speed = 16*24 + 1*(32 - 24) = 392`, and the 300th
leaves `move_t = 241` and `speed = 16*66`. -/
theorem C36_speed_interpolated_witness :
    c36_state.move_h = 1 ∧ c36_state.move_t = 0 ∧
    (move_send_iter no_trig no_trig 34 c36_state).map (fun s => (s.move_t, s.speed)) =
      some (34, 392) ∧
    ∃ s', move_send_iter no_trig no_trig 300 c36_state = some s' ∧
      s'.move_t = ((min 300 241 : Nat) : Int) ∧
      (∃ i r : Nat, min 300 241 - 1 = 16 * i + r ∧ r < 16 ∧ i ≤ 15 ∧
        s'.speed = ((16 * c36_state.speed_curve.getD i 0 +
          (r : Int) * (c36_state.speed_curve.getD (i + 1) 0 -
            c36_state.speed_curve.getD i 0) : Int) : ℚ)) ∧
      (241 ≤ 300 → s'.move_t = 241 ∧
        s'.speed = ((16 * c36_state.speed_curve.getD 15 0 : Int) : ℚ)) ∧
      is_moving s' = true ∧ s'.speed_curve = c36_state.speed_curve ∧
      (∀ t : Int, 1 ≤ t → t ≤ 240 →
        0 ≤ Int.tdiv (t - 1) 16 ∧ Int.tdiv (t - 1) 16 + 1 ≤ 15 ∧
        (speed_curve_at c36_state.speed_curve (Int.tdiv (t - 1) 16)).isSome = true ∧
        (speed_curve_at c36_state.speed_curve (Int.tdiv (t - 1) 16 + 1)).isSome = true) :=
  ⟨rfl, rfl, by with_unfolding_all rfl,
    C36_speed_interpolated no_trig no_trig c36_state rfl rfl rfl 300 (by decide)⟩

/-! ## C38: the integer deltas (`mouse.c` lines 243-260) -/

theorem double_to_int_of_nonneg (x : ℚ) (h : 0 ≤ x) : double_to_int x = ⌊x⌋ := by
  unfold double_to_int
  rw [Rat.floor_def, Int.tdiv_eq_ediv (Rat.num_nonneg.mpr h) (Int.natCast_nonneg _)]

theorem double_to_int_neg (x : ℚ) : double_to_int (-x) = -double_to_int x := by
  unfold double_to_int
  rw [Rat.neg_num, Rat.neg_den, Int.neg_tdiv]

theorem double_to_int_of_nonpos (x : ℚ) (h : x ≤ 0) : double_to_int x = ⌈x⌉ := by
  have h1 := double_to_int_of_nonneg (-x) (by linarith)
  rw [double_to_int_neg, Int.floor_neg] at h1
  linarith

/-- The conversion `(int)x` leaves a rest of absolute value below 1 that
has the sign of `x`. -/
theorem double_to_int_rest (x : ℚ) :
    (0 ≤ x → 0 ≤ x - (double_to_int x : ℚ) ∧ x - (double_to_int x : ℚ) < 1) ∧
    (x ≤ 0 → -1 < x - (double_to_int x : ℚ) ∧ x - (double_to_int x : ℚ) ≤ 0) := by
  constructor
  · intro h
    rw [double_to_int_of_nonneg x h]
    exact ⟨by linarith [Int.floor_le x], by linarith [Int.lt_floor_add_one x]⟩
  · intro h
    rw [double_to_int_of_nonpos x h]
    exact ⟨by linarith [Int.ceil_lt_add_one x], by linarith [Int.le_ceil x]⟩

theorem move_bit_or (a b : Nat) (hb : b &&& 1 = 0) : (a ||| b) &&& 1 = a &&& 1 := by
  rw [Nat.and_distrib_right, hb, Nat.or_zero]

/-- The MOVE flag of the first record `move_send` writes is set exactly when
the report has a movement, and then the record carries it; a second record
has no MOVE flag. -/
theorem move_send_records_move (report : report_mouse_t) (remap_id : Nat) :
    ∃ r rest, move_send_records report remap_id = r :: rest ∧
      (r.dwFlags &&& MOUSEEVENTF_MOVE ≠ 0 ↔ report.x ≠ 0 ∨ report.y ≠ 0) ∧
      (report.x ≠ 0 ∨ report.y ≠ 0 → r.dx = report.x ∧ r.dy = report.y) ∧
      (∀ r2 ∈ rest, r2.dwFlags &&& MOUSEEVENTF_MOVE = 0) := by
  unfold move_send_records
  lift_lets
  intro r0 r1 r2
  have hM : MOUSEEVENTF_MOVE = 1 := rfl
  have h0 : r0.dwFlags = 0 := rfl
  have h1 : (r1.dwFlags &&& 1 ≠ 0 ↔ report.x ≠ 0 ∨ report.y ≠ 0) ∧
      (report.x ≠ 0 ∨ report.y ≠ 0 → r1.dx = report.x ∧ r1.dy = report.y) := by
    simp only [r1]
    split
    · rename_i hc
      refine ⟨⟨fun _ => hc, fun _ => ?_⟩, fun _ => ⟨rfl, rfl⟩⟩
      show (r0.dwFlags ||| MOUSEEVENTF_MOVE) &&& 1 ≠ 0
      rw [h0]
      decide
    · rename_i hc
      refine ⟨⟨fun h => ?_, fun h => absurd h hc⟩, fun h => absurd h hc⟩
      rw [h0] at h
      exact absurd rfl h
  have h2 : (r2.dwFlags &&& 1 ≠ 0 ↔ report.x ≠ 0 ∨ report.y ≠ 0) ∧
      (report.x ≠ 0 ∨ report.y ≠ 0 → r2.dx = report.x ∧ r2.dy = report.y) := by
    simp only [r2]
    split
    · refine ⟨?_, h1.2⟩
      show (r1.dwFlags ||| MOUSEEVENTF_WHEEL) &&& 1 ≠ 0 ↔ _
      rw [move_bit_or _ _ (by decide)]
      exact h1.1
    · exact h1
  rw [hM]
  split
  · split
    · refine ⟨_, _, rfl, h2.1, h2.2, ?_⟩
      intro r hr
      rw [List.mem_singleton] at hr
      rw [hr]
      show (r0.dwFlags ||| MOUSEEVENTF_HWHEEL) &&& 1 = 0
      rw [h0]
      rfl
    · refine ⟨_, _, rfl, ?_, h2.2, fun _ h => absurd h (List.not_mem_nil _)⟩
      show (r2.dwFlags ||| MOUSEEVENTF_HWHEEL) &&& 1 ≠ 0 ↔ _
      rw [move_bit_or _ _ (by decide)]
      exact h2.1
  · exact ⟨_, _, rfl, h2.1, h2.2, fun _ h => absurd h (List.not_mem_nil _)⟩

theorem move_speed_xy (s t : MouseState) (h : move_speed s = some t) :
    t.x = s.x ∧ t.y = s.y := by
  unfold move_speed at h
  split at h
  · split at h
    · rw [Option.map_eq_some'] at h
      obtain ⟨c0, _, rfl⟩ := h
      exact ⟨rfl, rfl⟩
    · rw [Option.bind_eq_some] at h
      obtain ⟨c1, _, h⟩ := h
      rw [Option.map_eq_some'] at h
      obtain ⟨c0, _, rfl⟩ := h
      exact ⟨rfl, rfl⟩
  · obtain rfl := Option.some.inj h
    exact ⟨rfl, rfl⟩

theorem move_position_lateral (sin cos : ℚ → ℚ) (t : MouseState) (hd : t.move_dir = 0) :
    (move_position sin cos t).x = t.x - (t.move_h : ℚ) * t.speed / 64 ∧
      (move_position sin cos t).y = t.y - (t.move_v : ℚ) * t.speed / 64 := by
  unfold move_position
  simp only [hd, ne_eq, not_true_eq_false, if_false]
  by_cases hh : t.move_h = 0 <;> by_cases hv : t.move_v = 0 <;> simp [hh, hv]

theorem move_steer_wheel_xy (sin cos : ℚ → ℚ) (b : MouseState) (hs : b.steer_dir = 0) :
    (move_steer_wheel sin cos b).x = b.x ∧ (move_steer_wheel sin cos b).y = b.y := by
  unfold move_steer_wheel
  simp only [hs, ne_eq, not_true_eq_false, if_false]
  split <;> exact ⟨rfl, rfl⟩

/-- What the state part of `move_send` hands to the extraction block: with
no forward, backward or steering key the accumulators have moved by
`move_h * speed / 64` and `move_v * speed / 64`. -/
theorem move_send_state_extract (sin cos : ℚ → ℚ) (s s' : MouseState)
    (h : move_send_state sin cos s = some s') :
    ∃ a, s' = move_extract a ∧
      (s.move_dir = 0 → s.steer_dir = 0 →
        a.x = s.x - (s.move_h : ℚ) * s'.speed / 64 ∧
        a.y = s.y - (s.move_v : ℚ) * s'.speed / 64) := by
  unfold move_send_state at h
  rw [Option.map_eq_some'] at h
  obtain ⟨b, hb, rfl⟩ := h
  refine ⟨move_steer_wheel sin cos b, rfl, fun hd hs => ?_⟩
  have hsp : (move_extract (move_steer_wheel sin cos b)).speed = b.speed :=
    (move_extract_frame _).2.1.trans (move_steer_wheel_frame sin cos b).2.1
  rw [hsp]
  by_cases hm : is_moving s = true
  · rw [if_pos hm, Option.map_eq_some'] at hb
    obtain ⟨t, ht, rfl⟩ := hb
    obtain ⟨k1, k2, k3, k4, k5, _⟩ := move_speed_frame s t ht
    obtain ⟨p1, p2, _⟩ := move_position_frame sin cos t
    obtain ⟨x1, x2⟩ := move_speed_xy s t ht
    obtain ⟨l1, l2⟩ := move_position_lateral sin cos t (by rw [k4]; exact hd)
    obtain ⟨w1, w2⟩ := move_steer_wheel_xy sin cos (move_position sin cos t)
      (by rw [p1.2.2.2.2.1, k5]; exact hs)
    rw [w1, w2, l1, l2, p2, x1, x2, k2, k3]
    exact ⟨rfl, rfl⟩
  · rw [if_neg hm] at hb
    obtain rfl := Option.some.inj hb
    obtain ⟨w1, w2⟩ := move_steer_wheel_xy sin cos s hs
    have hz : s.move_h = 0 ∧ s.move_v = 0 := by
      unfold is_moving at hm
      simp only [Bool.or_eq_true, decide_eq_true_eq, not_or, not_not] at hm
      exact ⟨hm.1.2, hm.2⟩
    rw [w1, w2, hz.1, hz.2]
    simp

set_option maxRecDepth 100000 in
/-- Counterexample to C38 as stated: `MS_L` DOWN, its repeated DOWN and 33
ticks with the default curve. Before the last tick `x = 0`, `speed = 384` and
`move_t = 33`; the tick raises the speed to 392 and moves the accumulator to
`0 - 392/64 = -49/8`. The conversion `(int)` truncates toward zero: the
report gets `dx = -6` and the accumulator keeps `-1/8`, where the floor of
`-49/8` is -7 and would leave `7/8`. -/
theorem C38_counterexample :
    (c38_before.x, c38_before.speed, c38_before.move_t, c38_before.move_h,
      c38_before.move_dir, c38_before.steer_dir) = (0, 384, 33, 1, 0, 0) ∧
    (move_speed c38_before).map
        (fun t => (move_steer_wheel no_trig no_trig (move_position no_trig no_trig t)).x) =
      some (-49 / 8) ∧
    (mouse_run no_trig no_trig (mouse_init, ring_init) c38_ops).map
        (fun p => p.1.getLast?.map
          (fun m => (m.state.report.x, m.state.x, m.state.speed, m.state.move_t))) =
      some (some (-6, -1 / 8, 392, 34)) ∧
    ⌊(-49 / 8 : ℚ)⌋ = -7 ∧ ¬ (0 ≤ (-1 / 8 : ℚ)) := by
  refine ⟨?_, ?_, ?_, ?_, by norm_num⟩
  · with_unfolding_all rfl
  · with_unfolding_all rfl
  · with_unfolding_all rfl
  · rw [Int.floor_eq_iff]
    norm_num

/-- C38, amended: the extraction block of `move_send`, for accumulator
values `x` and `y`, reports `dx = (int)x` and `dy = (int)y`, the truncation
toward zero, and keeps `x - dx` and `y - dy`. For `x >= 0` that is
`dx = floor(x)` with the rest in `[0, 1)`; for `x <= 0` it is `dx = ceil(x)`
with the rest in `(-1, 0]`; the same for `y`. The first record written has
the MOVE flag iff `(dx, dy) != (0, 0)`, and then carries `dx` and `dy`; a
second record has no MOVE flag. Every run of the state part of `move_send`
ends with this block, and with only lateral and vertical keys held the
accumulators it extracts from are `x - move_h*speed/64` and
`y - move_v*speed/64`. -/
theorem C38_integer_delta_truncation (a : MouseState) (remap_id : Nat) :
    (move_extract a).report.x = double_to_int a.x ∧
    (move_extract a).report.y = double_to_int a.y ∧
    (move_extract a).x = a.x - ((move_extract a).report.x : ℚ) ∧
    (move_extract a).y = a.y - ((move_extract a).report.y : ℚ) ∧
    (0 ≤ a.x → (move_extract a).report.x = ⌊a.x⌋ ∧
      0 ≤ (move_extract a).x ∧ (move_extract a).x < 1) ∧
    (a.x ≤ 0 → (move_extract a).report.x = ⌈a.x⌉ ∧
      -1 < (move_extract a).x ∧ (move_extract a).x ≤ 0) ∧
    (0 ≤ a.y → (move_extract a).report.y = ⌊a.y⌋ ∧
      0 ≤ (move_extract a).y ∧ (move_extract a).y < 1) ∧
    (a.y ≤ 0 → (move_extract a).report.y = ⌈a.y⌉ ∧
      -1 < (move_extract a).y ∧ (move_extract a).y ≤ 0) ∧
    (∃ r rest, move_send_records (move_extract a).report remap_id = r :: rest ∧
      (r.dwFlags &&& MOUSEEVENTF_MOVE ≠ 0 ↔
        (move_extract a).report.x ≠ 0 ∨ (move_extract a).report.y ≠ 0) ∧
      ((move_extract a).report.x ≠ 0 ∨ (move_extract a).report.y ≠ 0 →
        r.dx = (move_extract a).report.x ∧ r.dy = (move_extract a).report.y) ∧
      (∀ r2 ∈ rest, r2.dwFlags &&& MOUSEEVENTF_MOVE = 0)) ∧
    (∀ (sin cos : ℚ → ℚ) (s s' : MouseState), move_send_state sin cos s = some s' →
      ∃ b, s' = move_extract b ∧
        (s.move_dir = 0 → s.steer_dir = 0 →
          b.x = s.x - (s.move_h : ℚ) * s'.speed / 64 ∧
          b.y = s.y - (s.move_v : ℚ) * s'.speed / 64)) := by
  refine ⟨rfl, rfl, rfl, rfl, ?_, ?_, ?_, ?_, move_send_records_move _ remap_id,
    move_send_state_extract⟩
  · intro h
    exact ⟨double_to_int_of_nonneg a.x h, (double_to_int_rest a.x).1 h⟩
  · intro h
    exact ⟨double_to_int_of_nonpos a.x h, (double_to_int_rest a.x).2 h⟩
  · intro h
    exact ⟨double_to_int_of_nonneg a.y h, (double_to_int_rest a.y).1 h⟩
  · intro h
    exact ⟨double_to_int_of_nonpos a.y h, (double_to_int_rest a.y).2 h⟩

/-! ## C37: the speed while moving (`mouse.c` lines 206-219, 337-352) -/

/-- The default speed curve does not decrease. -/
theorem init_speed_curve_mono (i : Nat) (hi : i ≤ 14) :
    0 ≤ init_speed_curve.getD (i + 1) 0 - init_speed_curve.getD i 0 := by
  interval_cases i <;> decide

/-- One run of the state part of `move_send` with the default curve: the
speed does not drop when the pointer is not moving or `move_t` is at least
1, and `move_t` is at least 1 after a run while moving. -/
theorem move_send_state_mono (sin cos : ℚ → ℚ) (s s' : MouseState)
    (hcurve : s.speed_curve = init_speed_curve) (ht : 0 ≤ s.move_t)
    (h : move_send_state sin cos s = some s') :
    (is_moving s = false ∨ 1 ≤ s.move_t → s.speed ≤ s'.speed) ∧
      (is_moving s = true → 1 ≤ s'.move_t) := by
  have hlen : s.speed_curve.length = 16 := by rw [hcurve]; rfl
  obtain ⟨_, h1, h2⟩ := move_send_state_spec sin cos s s' h
  by_cases hm : is_moving s = true
  · obtain ⟨t, ht1, ht2, ht3⟩ := h2 hm
    rw [move_speed_eq s hlen ht] at ht1
    have ht1' := Option.some.inj ht1
    constructor
    · intro hor
      have h1le : 1 ≤ s.move_t := by
        rcases hor with hf | hl
        · rw [hm] at hf
          exact absurd hf (by decide)
        · exact hl
      rw [ht2, ← ht1']
      split
      · rw [if_neg (by omega)]
        show s.speed ≤ s.speed + _
        have hidx : (s.move_t.toNat - 1) / 16 ≤ 14 := by omega
        have := init_speed_curve_mono _ hidx
        rw [hcurve]
        have hq : (0 : ℚ) ≤ ((init_speed_curve.getD ((s.move_t.toNat - 1) / 16 + 1) 0 -
            init_speed_curve.getD ((s.move_t.toNat - 1) / 16) 0 : Int) : ℚ) := by
          exact_mod_cast this
        linarith
      · exact le_refl _
    · intro _
      rw [ht3, ← ht1']
      split
      · split
        · show 1 ≤ s.move_t + 1
          omega
        · show 1 ≤ s.move_t + 1
          omega
      · omega
  · have hf : is_moving s = false := by simpa using hm
    obtain ⟨e1, _⟩ := h1 hf
    exact ⟨fun _ => by rw [e1], fun ht => absurd ht hm⟩

/-- A modal opcode leaves the state of the direction block, or, entered
with `g_active = 0`, that state after one run of `move_send`. -/
theorem mouse_emulation_modal_cases (sin cos : ℚ → ℚ) (keycode : Nat) (direction : Direction)
    (remap_id : Nat) (m : Mouse) (ib : InputBuffer) (m' : Mouse) (ib' : InputBuffer)
    (hk : held_mask keycode ≠ 0)
    (h : mouse_emulation sin cos keycode direction remap_id m ib = some (m', ib')) :
    m'.state = update_directions (held_mask keycode) direction m.state ∨
      (m.g_active = 0 ∧
        move_send_full sin cos (update_directions (held_mask keycode) direction m.state)
          remap_id ib = some (m'.state, ib')) := by
  unfold mouse_emulation at h
  rw [if_pos hk] at h
  simp only at h
  split at h
  · split at h
    · rename_i hg
      rw [Option.map_eq_some'] at h
      obtain ⟨p, hp, heq⟩ := h
      obtain ⟨rfl, rfl⟩ := Prod.mk.inj heq
      exact Or.inr ⟨hg, hp⟩
    · obtain ⟨rfl, _⟩ := Prod.mk.inj (Option.some.inj h)
      exact Or.inl rfl
  · obtain ⟨rfl, _⟩ := Prod.mk.inj (Option.some.inj h)
    exact Or.inl rfl

theorem is_moving_of_dirs {s s' : MouseState} (hv : s'.move_v = s.move_v)
    (hh : s'.move_h = s.move_h) (hd : s'.move_dir = s.move_dir) :
    is_moving s' = is_moving s := by
  unfold is_moving
  rw [hv, hh, hd]

theorem not_moving_of_no_direction {s : MouseState} (h : any_direction s = false) :
    is_moving s = false := by
  unfold any_direction at h
  unfold is_moving
  simp only [Bool.or_eq_false_iff, decide_eq_false_iff_not, not_not] at h ⊢
  simp [h.1.1.1.1.1, h.1.1.1.1.2, h.1.1.1.2]

/-- One event that leaves `move_v`, `move_h` and `move_dir` as they are, in
a state in which the pointer is not moving or `move_t` is at least 1: the
same holds afterwards and the speed has not dropped. -/
theorem mouse_step_mono (sin cos : ℚ → ℚ) (p p' : Mouse × InputBuffer) (op : MouseOp)
    (hinv : MouseInv p) (hP : is_moving p.1.state = false ∨ 1 ≤ p.1.state.move_t)
    (hstep : mouse_step sin cos p op = some p')
    (hv : p'.1.state.move_v = p.1.state.move_v) (hh : p'.1.state.move_h = p.1.state.move_h)
    (hd : p'.1.state.move_dir = p.1.state.move_dir) :
    (is_moving p'.1.state = false ∨ 1 ≤ p'.1.state.move_t) ∧
      p.1.state.speed ≤ p'.1.state.speed := by
  obtain ⟨hact, htim, hrest, hcurve, hmt⟩ := hinv
  have hmov := is_moving_of_dirs hv hh hd
  cases op with
  | key keycode direction remap_id =>
    have hrun : mouse_emulation sin cos keycode direction remap_id p.1 p.2 = some (p'.1, p'.2) :=
      hstep
    by_cases hk : held_mask keycode ≠ 0
    · obtain ⟨hkeys, _⟩ :=
        mouse_emulation_modal sin cos keycode direction remap_id p.1 p.2 p'.1 p'.2 hk hrun
      obtain ⟨_, _, _, _, _, _, _, hmt1, hsp1, hc1⟩ :=
        update_directions_fields (held_mask keycode) direction p.1.state
      have hsame : ¬ ((update_directions (held_mask keycode) direction p.1.state).move_v ≠
            p.1.state.move_v ∨
          (update_directions (held_mask keycode) direction p.1.state).move_h ≠
            p.1.state.move_h ∨
          (update_directions (held_mask keycode) direction p.1.state).move_dir ≠
            p.1.state.move_dir) := by
        rw [← hkeys.2.1, ← hkeys.2.2.1, ← hkeys.2.2.2.1, hv, hh, hd]
        simp
      rw [if_neg hsame] at hmt1
      rcases mouse_emulation_modal_cases sin cos keycode direction remap_id p.1 p.2 p'.1 p'.2
        hk hrun with heq | ⟨hg, hms⟩
      · rw [heq, hmt1, hsp1]
        constructor
        · rw [← heq, hmov]
          exact hP
        · exact le_refl _
      · have hnd : any_direction p.1.state = false := by
          by_contra hc
          rw [hact] at hg
          simp only [Bool.not_eq_false] at hc
          rw [if_pos hc] at hg
          exact absurd hg (by decide)
        have hnm : is_moving p'.1.state = false := by
          rw [hmov]
          exact not_moving_of_no_direction hnd
        refine ⟨Or.inl hnm, ?_⟩
        have hnm1 : is_moving (update_directions (held_mask keycode) direction p.1.state) =
            false := by
          rw [← is_moving_congr hkeys]
          exact hnm
        rcases move_send_full_frame sin cos _ remap_id p.2 _ _ hms with heq | hs
        · rw [heq, hsp1]
        · obtain ⟨_, h1, _⟩ := move_send_state_spec sin cos _ _ hs
          rw [(h1 hnm1).1, hsp1]
    · obtain ⟨_, f2, f3, _, _⟩ :=
        mouse_emulation_button sin cos keycode direction remap_id p.1 p.2 p'.1 p'.2 hk hrun
      rw [f2, f3, hmov]
      exact ⟨hP, le_refl _⟩
  | tick =>
    unfold mouse_step at hstep
    by_cases ht : p.1.ghTimer = true
    · rw [if_pos ht] at hstep
      unfold move_callback at hstep
      by_cases hg : p.1.g_active ≠ 0
      · rw [if_pos hg, Option.map_eq_some'] at hstep
        obtain ⟨q, hq, heq⟩ := hstep
        obtain rfl := heq
        obtain ⟨hs, _⟩ := (move_send_full_eq sin cos p.1.state 0 p.2 hrest).2 q.1 q.2 hq
        obtain ⟨m1, m2⟩ := move_send_state_mono sin cos p.1.state q.1 hcurve hmt hs
        refine ⟨?_, m1 hP⟩
        by_cases hm : is_moving p.1.state = true
        · exact Or.inr (m2 hm)
        · left
          rw [is_moving_congr (move_send_state_spec sin cos _ _ hs).1]
          simpa using hm
      · rw [if_neg hg] at hstep
        obtain rfl := Option.some.inj hstep
        exact ⟨hP, le_refl _⟩
    · rw [if_neg ht] at hstep
      obtain rfl := Option.some.inj hstep
      exact ⟨hP, le_refl _⟩

/-- After a tick in which the timer callback ran `move_send`, the pointer
is not moving or `move_t` is at least 1. -/
theorem mouse_tick_started (sin cos : ℚ → ℚ) (p p' : Mouse × InputBuffer)
    (hinv : MouseInv p) (hstep : mouse_step sin cos p .tick = some p')
    (ht : p.1.ghTimer = true) (hg : p.1.g_active ≠ 0) :
    is_moving p'.1.state = false ∨ 1 ≤ p'.1.state.move_t := by
  obtain ⟨_, _, hrest, hcurve, hmt⟩ := hinv
  unfold mouse_step at hstep
  rw [if_pos ht] at hstep
  unfold move_callback at hstep
  rw [if_pos hg, Option.map_eq_some'] at hstep
  obtain ⟨q, hq, heq⟩ := hstep
  obtain rfl := heq
  obtain ⟨hs, _⟩ := (move_send_full_eq sin cos p.1.state 0 p.2 hrest).2 q.1 q.2 hq
  obtain ⟨_, m2⟩ := move_send_state_mono sin cos p.1.state q.1 hcurve hmt hs
  by_cases hm : is_moving p.1.state = true
  · exact Or.inr (m2 hm)
  · left
    rw [is_moving_congr (move_send_state_spec sin cos _ _ hs).1]
    simpa using hm

theorem mouse_run_cons (sin cos : ℚ → ℚ) (p : Mouse × InputBuffer) (op : MouseOp)
    (ops : List MouseOp) (states : List Mouse) (ib : InputBuffer)
    (h : mouse_run sin cos p (op :: ops) = some (states, ib)) :
    ∃ p1 rest, mouse_step sin cos p op = some p1 ∧
      mouse_run sin cos p1 ops = some (rest, ib) ∧ states = p1.1 :: rest := by
  unfold mouse_run at h
  cases h1 : mouse_step sin cos p op with
  | none => rw [h1] at h; exact absurd h (by simp)
  | some p1 =>
    rw [h1] at h
    simp only at h
    cases h2 : mouse_run sin cos p1 ops with
    | none => rw [h2] at h; exact absurd h (by simp)
    | some r =>
      rw [h2] at h
      obtain ⟨h3, h4⟩ := Prod.mk.inj (Option.some.inj h)
      exact ⟨p1, r.1, rfl, by rw [h2, ← h4], h3.symm⟩

/-- Once the pointer is not moving or `move_t` is at least 1, the speed
never drops along a run that leaves the movement directions as they are. -/
theorem mouse_run_mono (sin cos : ℚ → ℚ) :
    ∀ (ops : List MouseOp) (p : Mouse × InputBuffer) (states : List Mouse) (ib : InputBuffer),
      MouseInv p → (is_moving p.1.state = false ∨ 1 ≤ p.1.state.move_t) →
      mouse_run sin cos p ops = some (states, ib) →
      (∀ m ∈ states, m.state.move_v = p.1.state.move_v ∧ m.state.move_h = p.1.state.move_h ∧
        m.state.move_dir = p.1.state.move_dir) →
      (∀ x ∈ tick_speeds p.1 ops states, p.1.state.speed ≤ x) ∧
        (tick_speeds p.1 ops states).Pairwise (· ≤ ·) := by
  intro ops
  induction ops with
  | nil =>
    intro p states ib _ _ _ _
    unfold tick_speeds
    exact ⟨fun x hx => absurd hx (List.not_mem_nil _), List.Pairwise.nil⟩
  | cons op ops ih =>
    intro p states ib hinv hP hrun hconst
    obtain ⟨p1, rest, hstep, hrest, rfl⟩ := mouse_run_cons sin cos p op ops states ib hrun
    obtain ⟨c1, c2, c3⟩ := hconst p1.1 (List.mem_cons_self _ _)
    obtain ⟨hP1, hle⟩ := mouse_step_mono sin cos p p1 op hinv hP hstep c1 c2 c3
    have hinv1 := (mouse_step_inv sin cos p op hinv).2 p1 hstep
    obtain ⟨ih1, ih2⟩ := ih p1 rest ib hinv1 hP1 hrest (by
      intro m hm
      obtain ⟨d1, d2, d3⟩ := hconst m (List.mem_cons_of_mem _ hm)
      exact ⟨d1.trans c1.symm, d2.trans c2.symm, d3.trans c3.symm⟩)
    unfold tick_speeds
    split
    · rw [List.singleton_append]
      refine ⟨?_, List.pairwise_cons.2 ⟨ih1, ih2⟩⟩
      intro x hx
      rcases List.mem_cons.1 hx with rfl | hx'
      · exact hle
      · exact le_trans hle (ih1 x hx')
    · rw [List.nil_append]
      exact ⟨fun x hx => le_trans hle (ih1 x hx), ih2⟩

theorem mouse_run_total (sin cos : ℚ → ℚ) :
    ∀ (ops : List MouseOp) (p : Mouse × InputBuffer), MouseInv p →
      ∃ states ib, mouse_run sin cos p ops = some (states, ib) := by
  intro ops
  induction ops with
  | nil =>
    intro p _
    exact ⟨[], p.2, by unfold mouse_run; rfl⟩
  | cons op ops ih =>
    intro p hinv
    obtain ⟨⟨p1, h1⟩, h2⟩ := mouse_step_inv sin cos p op hinv
    obtain ⟨rest, ib, h3⟩ := ih p1 (h2 p1 h1)
    refine ⟨p1.1 :: rest, ib, ?_⟩
    unfold mouse_run
    rw [h1]
    simp only
    rw [h3]

/-- The speeds after the ticks of a run whose states all have the same
movement directions do not decrease. -/
theorem mouse_run_ticks_sorted (sin cos : ℚ → ℚ) (dv dh dd : Int) :
    ∀ (ops : List MouseOp) (p : Mouse × InputBuffer) (states : List Mouse) (ib : InputBuffer),
      MouseInv p → mouse_run sin cos p ops = some (states, ib) →
      (∀ m ∈ states, m.state.move_v = dv ∧ m.state.move_h = dh ∧ m.state.move_dir = dd) →
      (tick_speeds p.1 ops states).Pairwise (· ≤ ·) := by
  intro ops
  induction ops with
  | nil =>
    intro p states ib _ _ _
    unfold tick_speeds
    exact List.Pairwise.nil
  | cons op ops ih =>
    intro p states ib hinv hrun hconst
    obtain ⟨p1, rest, hstep, hrest, rfl⟩ := mouse_run_cons sin cos p op ops states ib hrun
    have hinv1 := (mouse_step_inv sin cos p op hinv).2 p1 hstep
    have hconst1 : ∀ m ∈ rest,
        m.state.move_v = dv ∧ m.state.move_h = dh ∧ m.state.move_dir = dd :=
      fun m hm => hconst m (List.mem_cons_of_mem _ hm)
    unfold tick_speeds
    split
    · rename_i hreal
      obtain ⟨hop, ht, hg⟩ := hreal
      subst hop
      have hP1 := mouse_tick_started sin cos p p1 hinv hstep ht hg
      obtain ⟨c1, c2, c3⟩ := hconst p1.1 (List.mem_cons_self _ _)
      obtain ⟨m1, m2⟩ := mouse_run_mono sin cos ops p1 rest ib hinv1 hP1 hrest (by
        intro m hm
        obtain ⟨d1, d2, d3⟩ := hconst1 m hm
        exact ⟨d1.trans c1.symm, d2.trans c2.symm, d3.trans c3.symm⟩)
      rw [List.singleton_append]
      exact List.pairwise_cons.2 ⟨m1, m2⟩
    · rw [List.nil_append]
      exact ih p1 rest ib hinv1 hrest hconst1

set_option maxRecDepth 100000 in
/-- Counterexample to C37 as stated: from the idle state (`move_t = 0`)
`MS_U` DOWN, its repeated DOWN, 33 ticks, then `MS_L` DOWN and one more tick,
with the default curve. `MS_U` (bit 0 of `held_keys`) is held after every
event, and every tick runs `move_send`. The speed after tick 33 is 392; the
`MS_L` opcode changes `move_h`, so lines 349-352 reset `move_t` to 0, and the
next tick sets the speed back to `speed_curve[0] * 16 = 384`. -/
theorem C37_counterexample :
    mouse_init.state.move_t = 0 ∧ mouse_init.state.speed_curve = init_speed_curve ∧
    (mouse_run no_trig no_trig (mouse_init, ring_init) c37_ops).map
        (fun r => (r.1.all (fun m => m.state.held_keys.testBit 0),
          (tick_speeds mouse_init c37_ops r.1).length,
          (tick_speeds mouse_init c37_ops r.1).drop 31,
          (r.1.drop 34).map (fun m => (m.state.move_h, m.state.move_t)))) =
      some (true, 34, [384, 392, 384], [(0, 34), (1, 0), (1, 1)]) ∧
    ¬ ((392 : ℚ) ≤ 384) := by
  refine ⟨rfl, rfl, ?_, by norm_num⟩
  with_unfolding_all rfl

/-- C37, amended: with the default speed curve, from every reachable state
of the pointer engine, every sequence of opcodes and ticks runs to its end,
and when the states after its events all have the same `move_v`, `move_h`
and `move_dir` (no event of the sequence after the first changes the
movement direction, so `move_t` is not reset in between), the value of
`speed` after each tick that runs `move_send` is greater than or equal to
its value after the previous such tick. -/
theorem C37_speed_monotone (sin cos : ℚ → ℚ) (p0 : Mouse × InputBuffer)
    (hreach : MouseReachable sin cos p0) (ops : List MouseOp) :
    (∃ states ib, mouse_run sin cos p0 ops = some (states, ib)) ∧
    ∀ states ib, mouse_run sin cos p0 ops = some (states, ib) →
      ∀ dv dh dd : Int,
        (∀ m ∈ states, m.state.move_v = dv ∧ m.state.move_h = dh ∧ m.state.move_dir = dd) →
        (tick_speeds p0.1 ops states).Pairwise (· ≤ ·) := by
  have hinv := mouseInv_of_reachable sin cos p0 hreach
  refine ⟨mouse_run_total sin cos ops p0 hinv, ?_⟩
  intro states ib hrun dv dh dd hconst
  exact mouse_run_ticks_sorted sin cos dv dh dd ops p0 states ib hinv hrun hconst

set_option maxRecDepth 100000 in
/-- Witness for C37: from the idle state `MS_L` DOWN, its repeated DOWN and
33 ticks; `move_h` stays 1 throughout, and the speeds after the ticks are 32
times 384 and then 392. -/
theorem C37_speed_monotone_witness :
    MouseReachable no_trig no_trig (mouse_init, ring_init) ∧
    mouse_run no_trig no_trig (mouse_init, ring_init) c38_ops =
      some (c37_steady.1, c37_steady.2) ∧
    (∀ m ∈ c37_steady.1, m.state.move_v = 0 ∧ m.state.move_h = 1 ∧ m.state.move_dir = 0) ∧
    (tick_speeds mouse_init c38_ops c37_steady.1).Pairwise (· ≤ ·) ∧
    tick_speeds mouse_init c38_ops c37_steady.1 = List.replicate 32 384 ++ [392] := by
  have hrun : mouse_run no_trig no_trig (mouse_init, ring_init) c38_ops =
      some (c37_steady.1, c37_steady.2) := by
    with_unfolding_all rfl
  have hconst : ∀ m ∈ c37_steady.1,
      m.state.move_v = 0 ∧ m.state.move_h = 1 ∧ m.state.move_dir = 0 := by
    have hall : (c37_steady.1.all fun m =>
        decide (m.state.move_v = 0 ∧ m.state.move_h = 1 ∧ m.state.move_dir = 0)) = true := by
      with_unfolding_all rfl
    intro m hm
    exact of_decide_eq_true (List.all_eq_true.1 hall m hm)
  exact ⟨MouseReachable.start, hrun, hconst,
    (C37_speed_monotone no_trig no_trig (mouse_init, ring_init) MouseReachable.start
      c38_ops).2 c37_steady.1 c37_steady.2 hrun 0 1 0 hconst,
    by with_unfolding_all rfl⟩

/-! ## C33: the tap's lock actions and their undo (`remap.c` lines 45-58,
620-628, 685-690) -/

/-- Function `set_layer_state` on a well-formed graph: the layer gets the
value, and the state of a layer that is neither the layer nor one of its
direct or transitive slaves is left as it is. -/
theorem set_layer_state_frame {ls : List Layer} (hok : LayersOK ls) {fuel : Nat}
    (hfuel : ls.length < fuel) (M : Nat) (hM : M < ls.length) (v : Int) :
    ∃ ls', set_layer_state fuel ls M v = some ls' ∧ SameButState ls ls' ∧
      (layerAt ls' M).state = v ∧
      ∀ L, L ≠ M → ¬ Reach ls M L → (layerAt ls' L).state = (layerAt ls L).state := by
  obtain ⟨hvalid, hmir, rank, hbound, hdec⟩ := hok
  have hr : rank M < fuel := lt_trans (hbound M hM) hfuel
  obtain ⟨ls', hrun, hs, hst, _, hframe⟩ :=
    set_layer_state_spec ls rank (rank_decreases hdec) hvalid (mirrored_all hmir) fuel M ls v
      (SameButState.sbs_refl ls) hr hM
  exact ⟨ls', hrun, hs, hst, hframe⟩

theorem conf_call_prev_lock (c : LayerConfFn) (l : Layer) : (c.call l).prev_lock = l.lock := by
  cases c <;> rfl

theorem conf_call_lock_congr (c : LayerConfFn) {l l' : Layer} (h : l'.lock = l.lock) :
    (c.call l').lock = (c.call l).lock := by
  cases c
  · show 1 - l'.lock = 1 - l.lock
    rw [h]
  · rfl
  · rfl

/-- The lock-action loop of `event_remapped_key_up` on a list of pairwise
distinct layers: every listed layer gets the lock its mutator computes and
keeps the lock it had in `prev_lock`; the other layers keep both fields. -/
theorem apply_layer_confs_locks {fuel : Nat} (confs : List LayerConf) :
    ∀ {ls : List Layer}, LayersOK ls → ls.length < fuel →
      (∀ c ∈ confs, c.layer < ls.length) → (confs.map fun c => c.layer).Nodup →
      ∃ ls', apply_layer_confs fuel confs ls = some ls' ∧ SameGraph ls ls' ∧
        (∀ c ∈ confs, (layerAt ls' c.layer).prev_lock = (layerAt ls c.layer).lock ∧
          (layerAt ls' c.layer).lock = (c.conf.call (layerAt ls c.layer)).lock) ∧
        (∀ L, (∀ c ∈ confs, c.layer ≠ L) →
          (layerAt ls' L).lock = (layerAt ls L).lock ∧
            (layerAt ls' L).prev_lock = (layerAt ls L).prev_lock) := by
  induction confs with
  | nil =>
    intro ls _ _ _ _
    exact ⟨ls, rfl, SameGraph.sg_refl ls, fun c hc => absurd hc (List.not_mem_nil _),
      fun L _ => ⟨rfl, rfl⟩⟩
  | cons c rest ih =>
    intro ls hok hfuel hvalid hnodup
    have hc : c.layer < ls.length := hvalid c (List.mem_cons_self _ _)
    rw [List.map_cons, List.nodup_cons] at hnodup
    obtain ⟨hnot, hnd⟩ := hnodup
    have hne : ∀ c' ∈ rest, c'.layer ≠ c.layer := by
      intro c' hc' heq
      exact hnot (List.mem_map.2 ⟨c', hc', heq⟩)
    have hsg1 : SameGraph ls (ls.set c.layer (c.conf.call (layerAt ls c.layer))) :=
      SameGraph.sg_set_runtime ls c.layer _ (conf_call_strip _ _)
    have hlen1 : (ls.set c.layer (c.conf.call (layerAt ls c.layer))).length = ls.length :=
      List.length_set _ _ _
    obtain ⟨ls2, h2, hs2, _, _⟩ := set_layer_state_frame (hsg1.sg_layersOK hok)
      (by rw [hlen1]; exact hfuel) c.layer (by rw [hlen1]; exact hc)
      (layerAt (ls.set c.layer (c.conf.call (layerAt ls c.layer))) c.layer).lock
    have hlen2 : ls2.length = ls.length := by rw [hs2.sbs_length_eq, hlen1]
    obtain ⟨ls', h3, hsg3, hC, hA⟩ :=
      @ih ls2 (hs2.sbs_sameGraph.sg_layersOK (hsg1.sg_layersOK hok))
        (by rw [hlen2]; exact hfuel)
        (fun c' hc' => by rw [hlen2]; exact hvalid c' (List.mem_cons_of_mem _ hc')) hnd
    refine ⟨ls', ?_, (hsg1.sg_trans hs2.sbs_sameGraph).sg_trans hsg3, ?_, ?_⟩
    · unfold apply_layer_confs
      simp only
      rw [h2]
      exact h3
    · intro c' hc'
      rcases List.mem_cons.1 hc' with rfl | hc'
      · obtain ⟨a1, a2⟩ := hA c'.layer hne
        rw [a1, a2, hs2.sbs_lock_eq, hs2.sbs_prev_lock_eq, layerAt_set_eq _ hc]
        exact ⟨conf_call_prev_lock _ _, rfl⟩
      · obtain ⟨a1, a2⟩ := hC c' hc'
        have hl : (layerAt ls2 c'.layer).lock = (layerAt ls c'.layer).lock := by
          rw [hs2.sbs_lock_eq, layerAt_set_ne _ (hne c' hc').symm]
        rw [a1, a2]
        exact ⟨hl, conf_call_lock_congr _ hl⟩
    · intro L hL
      obtain ⟨a1, a2⟩ := hA L (fun c' hc' => hL c' (List.mem_cons_of_mem _ hc'))
      have hcL : c.layer ≠ L := hL c (List.mem_cons_self _ _)
      rw [a1, a2, hs2.sbs_lock_eq, hs2.sbs_prev_lock_eq, layerAt_set_ne _ hcL]
      exact ⟨rfl, rfl⟩

/-- The undo loop of `event_remapped_key_down` on a list of pairwise
distinct layers: every listed layer gets its `prev_lock` back as lock; a
listed layer that is not a direct or transitive slave of a listed layer ends
with its state equal to its lock; a layer that is neither listed nor such a
slave keeps its state. -/
theorem revert_layer_confs_locks {fuel : Nat} (confs : List LayerConf) :
    ∀ {ls : List Layer}, LayersOK ls → ls.length < fuel →
      (∀ c ∈ confs, c.layer < ls.length) → (confs.map fun c => c.layer).Nodup →
      ∃ ls', revert_layer_confs fuel confs ls = some ls' ∧ SameGraph ls ls' ∧
        (∀ c ∈ confs, (layerAt ls' c.layer).lock = (layerAt ls c.layer).prev_lock) ∧
        (∀ L, (∀ c ∈ confs, c.layer ≠ L) →
          (layerAt ls' L).lock = (layerAt ls L).lock ∧
            (layerAt ls' L).prev_lock = (layerAt ls L).prev_lock) ∧
        (∀ L, (∀ c ∈ confs, c.layer ≠ L ∧ ¬ Reach ls c.layer L) →
          (layerAt ls' L).state = (layerAt ls L).state) ∧
        (∀ c ∈ confs, (∀ c' ∈ confs, ¬ Reach ls c'.layer c.layer) →
          (layerAt ls' c.layer).state = (layerAt ls' c.layer).lock) := by
  induction confs with
  | nil =>
    intro ls _ _ _ _
    exact ⟨ls, rfl, SameGraph.sg_refl ls, fun c hc => absurd hc (List.not_mem_nil _),
      fun L _ => ⟨rfl, rfl⟩, fun L _ => rfl, fun c hc => absurd hc (List.not_mem_nil _)⟩
  | cons c rest ih =>
    intro ls hok hfuel hvalid hnodup
    have hc : c.layer < ls.length := hvalid c (List.mem_cons_self _ _)
    rw [List.map_cons, List.nodup_cons] at hnodup
    obtain ⟨hnot, hnd⟩ := hnodup
    have hne : ∀ c' ∈ rest, c'.layer ≠ c.layer := by
      intro c' hc' heq
      exact hnot (List.mem_map.2 ⟨c', hc', heq⟩)
    have hsg1 : SameGraph ls (ls.set c.layer
        { layerAt ls c.layer with lock := (layerAt ls c.layer).prev_lock }) :=
      SameGraph.sg_set_runtime ls c.layer _ rfl
    have hlen1 : (ls.set c.layer
        { layerAt ls c.layer with lock := (layerAt ls c.layer).prev_lock }).length =
        ls.length := List.length_set _ _ _
    have hst1 : ∀ p, (layerAt (ls.set c.layer
        { layerAt ls c.layer with lock := (layerAt ls c.layer).prev_lock }) p).state =
        (layerAt ls p).state := fun p => set_runtime_state ls c.layer
          { layerAt ls c.layer with lock := (layerAt ls c.layer).prev_lock } rfl p
    obtain ⟨ls2, h2, hs2, hv2, hf2⟩ := set_layer_state_frame (hsg1.sg_layersOK hok)
      (by rw [hlen1]; exact hfuel) c.layer (by rw [hlen1]; exact hc)
      (layerAt (ls.set c.layer
        { layerAt ls c.layer with lock := (layerAt ls c.layer).prev_lock }) c.layer).lock
    have hlen2 : ls2.length = ls.length := by rw [hs2.sbs_length_eq, hlen1]
    have hsg2 : SameGraph ls ls2 := hsg1.sg_trans hs2.sbs_sameGraph
    obtain ⟨ls', h3, hsg3, hC, hA, hB, hD⟩ :=
      @ih ls2 (hsg2.sg_layersOK hok) (by rw [hlen2]; exact hfuel)
        (fun c' hc' => by rw [hlen2]; exact hvalid c' (List.mem_cons_of_mem _ hc')) hnd
    have hlock1 : (layerAt (ls.set c.layer
        { layerAt ls c.layer with lock := (layerAt ls c.layer).prev_lock }) c.layer).lock =
        (layerAt ls c.layer).prev_lock := by
      rw [layerAt_set_eq _ hc]
    refine ⟨ls', ?_, hsg2.sg_trans hsg3, ?_, ?_, ?_, ?_⟩
    · unfold revert_layer_confs
      simp only
      rw [h2]
      exact h3
    · intro c' hc'
      rcases List.mem_cons.1 hc' with rfl | hc'
      · rw [(hA c'.layer hne).1, hs2.sbs_lock_eq, hlock1]
      · rw [hC c' hc', hs2.sbs_prev_lock_eq, layerAt_set_ne _ (hne c' hc').symm]
    · intro L hL
      obtain ⟨a1, a2⟩ := hA L (fun c' hc' => hL c' (List.mem_cons_of_mem _ hc'))
      have hcL : c.layer ≠ L := hL c (List.mem_cons_self _ _)
      rw [a1, a2, hs2.sbs_lock_eq, hs2.sbs_prev_lock_eq, layerAt_set_ne _ hcL]
      exact ⟨rfl, rfl⟩
    · intro L hL
      obtain ⟨hcL, hcR⟩ := hL c (List.mem_cons_self _ _)
      rw [hB L (fun c' hc' => ⟨(hL c' (List.mem_cons_of_mem _ hc')).1,
          fun hr => (hL c' (List.mem_cons_of_mem _ hc')).2 (hsg2.sg_symm.sg_reach hr)⟩),
        hf2 L (fun h => hcL h.symm) (fun hr => hcR (hsg1.sg_symm.sg_reach hr)), hst1]
    · intro c' hc' hreach
      rcases List.mem_cons.1 hc' with rfl | hc'
      · rw [hB c'.layer (fun c2 hc2 => ⟨hne c2 hc2,
            fun hr => hreach c2 (List.mem_cons_of_mem _ hc2) (hsg2.sg_symm.sg_reach hr)⟩),
          (hA c'.layer hne).1, hv2, hs2.sbs_lock_eq]
      · exact hD c' hc' (fun c2 hc2 hr =>
          hreach c2 (List.mem_cons_of_mem _ hc2) (hsg2.sg_symm.sg_reach hr))

theorem layer_to_lock_same {ls : List Layer} (hok : LayersOK ls) {fuel : Nat}
    (hfuel : ls.length < fuel) (layer : Option Nat) :
    ∃ ls', layer_to_lock fuel layer ls = some ls' ∧ SameButState ls ls' := by
  cases layer with
  | none => exact ⟨ls, rfl, SameButState.sbs_refl ls⟩
  | some l =>
    obtain ⟨ls', h, hs, _⟩ := set_layer_state_step hok hfuel l (layerAt ls l).lock
      (fun hb => (hb l).2.1)
    exact ⟨ls', h, hs⟩

theorem layer_on_frame {ls : List Layer} (hok : LayersOK ls) {fuel : Nat}
    (hfuel : ls.length < fuel) (layer : Option Nat)
    (hvalid : ∀ D, layer = some D → D < ls.length) :
    ∃ ls', layer_on fuel layer ls = some ls' ∧ SameButState ls ls' ∧
      ∀ L, (∀ D, layer = some D → D ≠ L ∧ ¬ Reach ls D L) →
        (layerAt ls' L).state = (layerAt ls L).state := by
  cases layer with
  | none => exact ⟨ls, rfl, SameButState.sbs_refl ls, fun _ _ => rfl⟩
  | some D =>
    obtain ⟨ls', h, hs, _, hf⟩ := set_layer_state_frame hok hfuel D (hvalid D rfl) 1
    refine ⟨ls', h, hs, ?_⟩
    intro L hL
    obtain ⟨h1, h2⟩ := hL D rfl
    exact hf L (fun h => h1 h.symm) h2

/-- The shape of `event_remapped_key_up` for a tap: from `HELD_DOWN_ALONE`
or `TAP`, within the tap timeout, the remap goes to `TAPPED` with the time
of the release, and the layers go through the lock-action loop and the
press-layer statement. -/
theorem key_up_tap_shape (fuel : Nat) (e : Engine) (r : Remap) (time : Nat)
    (hstate : r.state = .HELD_DOWN_ALONE ∨ r.state = .TAP)
    (htap : within_tap_timeout e time r.time = true) :
    ∃ p : Remap × List SentInput, SameRule r p.1 ∧ p.1.state = .TAPPED ∧ p.1.time = time ∧
      key_up_transition fuel e r time =
        ((apply_layer_confs fuel r.to_when_tap_lock_layer e.layers).bind
          (layer_to_lock fuel r.to_when_press_layer)).map fun ls => (p.1, p.2, ls) := by
  rcases hstate with h | h
  · unfold key_up_transition
    rw [h]
    simp only [htap, if_true]
    refine ⟨_, ?_, ?_, ?_, rfl⟩
    · exact Eq.trans (toggle_tap_lock_rule _ _) rfl
    · rw [toggle_tap_lock_state]
    · rw [toggle_tap_lock_time]
  · unfold key_up_transition
    rw [h]
    simp only [htap, if_true]
    refine ⟨_, ?_, ?_, ?_, rfl⟩
    · exact Eq.trans (toggle_tap_lock_rule _ _) (Eq.trans (release_chord_rule _ _ _) rfl)
    · rw [toggle_tap_lock_state, release_chord_state]
    · rw [toggle_tap_lock_time, release_chord_time]

/-- Counterexample to C33 as stated, two configurations, each run through
`handle_input` on KEY_A DOWN at 0, UP at 50, DOWN at 100 (tap timeout 200,
doublepress timeout 300); the entries are `(state, lock, prev_lock)` of the
layers after each event. First, `layer1` is toggled by the tap and is also
the doublepress layer: the second press reverts its lock to 0 and then sets
its state to 1. Second, `layer2` has the and-not-master `layer1` and both
are toggled by the tap, `layer2` first: the second press reverts `layer2`
(state 0, lock 0), then reverts `layer1`, whose `set_layer_state` finds the
guard of its slave `layer2` satisfied and sets the state of `layer2` to 1.
In both the lock is back at its value before the tap and the state differs
from it. -/
theorem C33_counterexample :
    layer_trace 3 c33_double_engine c33_events = [[(0, 0, 0)], [(1, 1, 0)], [(1, 0, 0)]] ∧
    layer_trace 3 c33_slave_engine c33_events =
      [[(0, 0, 0), (0, 0, 0)], [(1, 1, 0), (1, 1, 0)], [(0, 0, 0), (1, 0, 0)]] ∧
    ((remapAt c33_double_engine.remaps 0).to_when_tap_lock_layer.map fun c => c.layer) = [0] ∧
    (remapAt c33_double_engine.remaps 0).to_when_doublepress_layer = some 0 ∧
    ((remapAt c33_slave_engine.remaps 0).to_when_tap_lock_layer.map fun c => c.layer) = [1, 0] ∧
    (layerAt c33_slave_engine.layers 1).and_not_master_layers = [0] :=
  ⟨by rfl, by rfl, by rfl, by rfl, by rfl, by rfl⟩

/-- C33, amended: for a remap in `HELD_DOWN_ALONE` or `TAP` whose
`to_when_tap_lock_layer` list names pairwise distinct layers, each with any
of the three mutators, on a well-formed layer graph: the release within the
tap timeout (the tap) returns, leaves the remap in `TAPPED` and gives every
listed layer the lock its mutator computes; the DOWN of the same remap
within `doublepress_timeout`, with no other event in between, returns,
leaves the remap in `DOUBLE_TAP` and leaves every listed layer's lock equal
to its value before the tap; and the state of a listed layer equals that
lock when the layer is not the doublepress layer and is not a direct or
transitive slave of a listed layer or of the doublepress layer. -/
theorem C33_doublepress_reverts_lock (fuel remap t1 t2 : Nat) (e : Engine)
    (hok : LayersOK e.layers) (hfuel : e.layers.length < fuel)
    (hremap : remap < e.remaps.length)
    (hstate : (remapAt e.remaps remap).state = .HELD_DOWN_ALONE ∨
      (remapAt e.remaps remap).state = .TAP)
    (htap : within_tap_timeout e t1 (remapAt e.remaps remap).time = true)
    (hdp : e.g_doublepress_timeout > 0 ∧ dword_sub t2 t1 < u32 e.g_doublepress_timeout)
    (hvalid : ∀ c ∈ (remapAt e.remaps remap).to_when_tap_lock_layer, c.layer < e.layers.length)
    (hdvalid : ∀ D, (remapAt e.remaps remap).to_when_doublepress_layer = some D →
      D < e.layers.length)
    (hnodup : ((remapAt e.remaps remap).to_when_tap_lock_layer.map fun c => c.layer).Nodup) :
    ∃ e1 e2, event_remapped_key_up fuel remap t1 e = some (1, e1) ∧
      (remapAt e1.remaps remap).state = .TAPPED ∧
      event_remapped_key_down fuel remap t2 e1 = some (1, e2) ∧
      (remapAt e2.remaps remap).state = .DOUBLE_TAP ∧
      ∀ c ∈ (remapAt e.remaps remap).to_when_tap_lock_layer,
        (layerAt e1.layers c.layer).lock = (c.conf.call (layerAt e.layers c.layer)).lock ∧
        (layerAt e2.layers c.layer).lock = (layerAt e.layers c.layer).lock ∧
        ((∀ c' ∈ (remapAt e.remaps remap).to_when_tap_lock_layer,
            ¬ Reach e.layers c'.layer c.layer) →
          (∀ D, (remapAt e.remaps remap).to_when_doublepress_layer = some D →
            D ≠ c.layer ∧ ¬ Reach e.layers D c.layer) →
          (layerAt e2.layers c.layer).state = (layerAt e2.layers c.layer).lock) := by
  obtain ⟨p, hsame, hpst, hptime, hshape⟩ :=
    key_up_tap_shape fuel e (remapAt e.remaps remap) t1 hstate htap
  obtain ⟨lsa, ha, hsga, hCa, _⟩ :=
    apply_layer_confs_locks (remapAt e.remaps remap).to_when_tap_lock_layer hok hfuel hvalid
      hnodup
  have hlena : lsa.length = e.layers.length := hsga.sg_length_eq
  obtain ⟨lst, ht, hst⟩ := layer_to_lock_same (hsga.sg_layersOK hok)
    (by rw [hlena]; exact hfuel) (remapAt e.remaps remap).to_when_press_layer
  have hsgt : SameGraph e.layers lst := hsga.sg_trans hst.sbs_sameGraph
  have hlent : lst.length = e.layers.length := hsgt.sg_length_eq
  have hokt : LayersOK lst := hsgt.sg_layersOK hok
  have hup : ∃ e1, event_remapped_key_up fuel remap t1 e = some (1, e1) ∧ e1.layers = lst ∧
      e1.remaps = e.remaps.set remap p.1 ∧
      e1.g_doublepress_timeout = e.g_doublepress_timeout := by
    unfold event_remapped_key_up
    rw [hshape, ha, Option.some_bind, ht]
    exact ⟨_, rfl, rfl, rfl, rfl⟩
  obtain ⟨e1, hrun1, hl1, hr1, hd1⟩ := hup
  have hrem1 : remapAt e1.remaps remap = p.1 := by
    rw [hr1, remapAt_set_eq _ hremap]
  have hlist1 : (remapAt e1.remaps remap).to_when_tap_lock_layer =
      (remapAt e.remaps remap).to_when_tap_lock_layer := by
    rw [hrem1, hsame.rule_tap_lock_layer]
  have hdbl1 : (remapAt e1.remaps remap).to_when_doublepress_layer =
      (remapAt e.remaps remap).to_when_doublepress_layer := by
    rw [hrem1, hsame.rule_doublepress_layer]
  obtain ⟨lsr, hr, hsgr, hCr, hAr, hBr, hDr⟩ :=
    revert_layer_confs_locks (remapAt e.remaps remap).to_when_tap_lock_layer hokt
      (by rw [hlent]; exact hfuel) (fun c hc => by rw [hlent]; exact hvalid c hc) hnodup
  have hlenr : lsr.length = e.layers.length := by rw [hsgr.sg_length_eq, hlent]
  obtain ⟨lsd, hd, hsd, hfd⟩ := layer_on_frame (hsgr.sg_layersOK hokt)
    (by rw [hlenr]; exact hfuel) (remapAt e.remaps remap).to_when_doublepress_layer
    (fun D hD => by rw [hlenr]; exact hdvalid D hD)
  have hdown : ∃ e2, event_remapped_key_down fuel remap t2 e1 = some (1, e2) ∧
      e2.layers = lsd ∧ (remapAt e2.remaps remap).state = .DOUBLE_TAP := by
    unfold event_remapped_key_down
    simp only
    rw [hrem1, hpst]
    simp only
    rw [if_pos (by rw [hd1, hptime]; exact hdp), hsame.rule_tap_lock_layer,
      hsame.rule_doublepress_layer, hl1, hr, Option.some_bind, hd]
    refine ⟨_, rfl, rfl, ?_⟩
    show (remapAt (e1.remaps.set remap _) remap).state = .DOUBLE_TAP
    rw [remapAt_set_eq _ (by rw [hr1, List.length_set]; exact hremap),
      press_doublepress_chord_state, undo_tap_lock_state]
  obtain ⟨e2, hrun2, hl2, hst2⟩ := hdown
  refine ⟨e1, e2, hrun1, by rw [hrem1]; exact hpst, hrun2, hst2, ?_⟩
  intro c hc
  have hlock2 : (layerAt e2.layers c.layer).lock = (layerAt e.layers c.layer).lock := by
    rw [hl2, hsd.sbs_lock_eq, hCr c hc, hst.sbs_prev_lock_eq, (hCa c hc).1]
  refine ⟨by rw [hl1, hst.sbs_lock_eq]; exact (hCa c hc).2, hlock2, ?_⟩
  intro hreach hdbl
  rw [hl2, hsd.sbs_lock_eq,
    hfd c.layer (fun D hD => ⟨(hdbl D hD).1,
      fun hr => (hdbl D hD).2 ((hsgt.sg_trans hsgr).sg_symm.sg_reach hr)⟩)]
  exact hDr c hc (fun c' hc' hr => hreach c' hc' (hsgt.sg_symm.sg_reach hr))

/-- Witness for C33: the configuration with `layer2` an and-not-slave of
`layer1`, KEY_A held (state `TAP`, pressed at 0), released at 50 and pressed
again at 100. Both locks return to 0; `layer1` is no slave, so its state
equals its lock. -/
theorem C33_doublepress_reverts_lock_witness :
    (remapAt c33_held.remaps 0).state = .TAP ∧
    ((remapAt c33_held.remaps 0).to_when_tap_lock_layer.map fun c => c.layer) = [1, 0] ∧
    ∃ e1 e2, event_remapped_key_up 3 0 50 c33_held = some (1, e1) ∧
      (remapAt e1.remaps 0).state = .TAPPED ∧
      event_remapped_key_down 3 0 100 e1 = some (1, e2) ∧
      (remapAt e2.remaps 0).state = .DOUBLE_TAP ∧
      ∀ c ∈ (remapAt c33_held.remaps 0).to_when_tap_lock_layer,
        (layerAt e1.layers c.layer).lock =
          (c.conf.call (layerAt c33_held.layers c.layer)).lock ∧
        (layerAt e2.layers c.layer).lock = (layerAt c33_held.layers c.layer).lock ∧
        ((∀ c' ∈ (remapAt c33_held.remaps 0).to_when_tap_lock_layer,
            ¬ Reach c33_held.layers c'.layer c.layer) →
          (∀ D, (remapAt c33_held.remaps 0).to_when_doublepress_layer = some D →
            D ≠ c.layer ∧ ¬ Reach c33_held.layers D c.layer) →
          (layerAt e2.layers c.layer).state = (layerAt e2.layers c.layer).lock) :=
  ⟨by rfl, by rfl,
    C33_doublepress_reverts_lock 3 0 50 100 c33_held
      ⟨by unfold SlavesValid; decide, by unfold Mirrored; decide,
        fun i => 1 - i, by decide, by decide⟩
      (by decide) (by decide) (Or.inr (by rfl)) (by rfl) (by decide) (by decide)
      (fun D h => Option.noConfusion (h : none = some D)) (by decide)⟩


end KeyboardRemapper
